import Mathlib

/-!
Verification development for the red-black tree of chapter-15 (rb_tree.rs).

The Rust implementation stores nodes in a repository (a map from numeric
identifiers to node records); the tree engine manipulates the store purely
through identifiers.  This file gives a shallow embedding of that code:
the repository becomes a list of node records addressed by their id field,
every `get_mut` mutation becomes a keyed functional update, and each `while`
loop becomes a fuel-indexed recursion (the fuel used by the wrappers,
`size + 1`, dominates every path length that arises on tree-shaped stores).
`unwrap` calls on links the algorithm expects to be present are embedded as
defaults that are only reachable on stores the original code would have
aborted on.
-/


namespace RbTree

inductive Color where
  | Red
  | Black
deriving DecidableEq, Repr, Inhabited

inductive Child where
  | Left
  | Right
deriving DecidableEq, Repr, Inhabited

def Child.flip : Child → Child
  | .Left => .Right
  | .Right => .Left

inductive Rotation where
  | Left
  | Right
deriving DecidableEq, Repr, Inhabited

def Rotation.flip : Rotation → Rotation
  | .Left => .Right
  | .Right => .Left

structure Node where
  id : Nat
  color : Color
  key : Int
  parent : Option Nat
  left : Option Nat
  right : Option Nat
deriving DecidableEq, Repr, Inhabited

def Node.new (nodeId : Nat) (key : Int) : Node :=
  { id := nodeId, color := .Red, key := key, parent := none, left := none, right := none }

def Node.setColor (n : Node) (c : Color) : Node := { n with color := c }

def Node.setKey (n : Node) (k : Int) : Node := { n with key := k }

def Node.setParent (n : Node) (p : Option Nat) : Node := { n with parent := p }

def Node.setLeftChild (n : Node) (x : Option Nat) : Node := { n with left := x }

def Node.setRightChild (n : Node) (x : Option Nat) : Node := { n with right := x }

structure NodeColor where
  id : Nat
  color : Color
deriving DecidableEq, Repr, Inhabited

/-- The node store: the RepoNode hash map embedded as a list of records
addressed by their id field (ids are kept unique by construction). -/
structure Repo where
  nodes : List Node
deriving DecidableEq, Repr, Inhabited

def Repo.get (repo : Repo) (nodeId : Nat) : Option Node :=
  repo.nodes.find? (fun n => n.id == nodeId)

def Repo.update (repo : Repo) (nodeId : Nat) (f : Node → Node) : Repo :=
  ⟨repo.nodes.map (fun n => if n.id == nodeId then f n else n)⟩

def Repo.add (repo : Repo) (nodeId : Nat) (key : Int) : Repo :=
  if (repo.get nodeId).isSome then repo.update nodeId (fun _ => Node.new nodeId key)
  else ⟨Node.new nodeId key :: repo.nodes⟩

def Repo.removeRec (repo : Repo) (nodeId : Nat) : Repo :=
  ⟨repo.nodes.filter (fun n => n.id != nodeId)⟩

def Repo.size (repo : Repo) : Nat := repo.nodes.length

def Repo.idsList (repo : Repo) : List Nat := repo.nodes.map Node.id

/-- Mutation through an optional identifier: the embedding of the pervasive
Rust pattern some_id.map(|id| repo.get_mut(&id).map(|n| mutate n)). -/
def Repo.updateOpt (repo : Repo) (nodeId : Option Nat) (f : Node → Node) : Repo :=
  match nodeId with
  | some i => repo.update i f
  | none => repo

def Repo.getParent (repo : Repo) (nodeId : Nat) : Option Node :=
  ((repo.get nodeId).bind Node.parent).bind repo.get

def Repo.getLeft (repo : Repo) (nodeId : Nat) : Option Node :=
  ((repo.get nodeId).bind Node.left).bind repo.get

def Repo.getRight (repo : Repo) (nodeId : Nat) : Option Node :=
  ((repo.get nodeId).bind Node.right).bind repo.get

structure RedBlackTree where
  idCounter : Nat
  root : Option Nat
  length : Nat
deriving DecidableEq, Repr, Inhabited

def RedBlackTree.new : RedBlackTree := ⟨0, none, 0⟩

def node_is_child (repo : Repo) (node : Nat) : Option Child :=
  match repo.getParent node with
  | none => none
  | some p =>
    let isLeft :=
      match p.left with
      | some childId =>
        match repo.get childId with
        | some child => child.id == node
        | none => false
      | none => false
    if isLeft then some .Left else some .Right

def find_uncle (repo : Repo) (node : Nat) : Option Nat :=
  match repo.getParent node with
  | none => none
  | some p =>
    match repo.getParent p.id with
    | none => none
    | some gp =>
      match node_is_child repo p.id with
      | some .Right => gp.left
      | some .Left => gp.right
      | none => none

def uncle_is_red (repo : Repo) (uncle : Option Nat) : Bool :=
  match uncle with
  | some n =>
    match repo.get n with
    | some nd => decide (nd.color = Color.Red)
    | none => false
  | none => false

def get_rotation (child : Child) : Rotation :=
  match child with
  | .Left => .Right
  | .Right => .Left

structure Relative where
  parent : Option Nat
  child : Nat
  grandchild : Option Nat

def get_relatives (repo : Repo) (nodeId : Nat) (rot : Rotation) : Relative :=
  let node := (repo.get nodeId).getD default
  match rot with
  | .Left =>
    let child := node.right.getD 0
    { parent := node.parent, child := child, grandchild := (repo.getLeft child).map Node.id }
  | .Right =>
    let child := node.left.getD 0
    { parent := node.parent, child := child, grandchild := (repo.getRight child).map Node.id }

/-- Updating the parent's child link on the given side; the none case embeds
the unreachable branch of the corresponding Rust match. -/
def set_child_side (repo : Repo) (parentId : Nat) (side : Option Child) (child : Option Nat) :
    Repo :=
  match side with
  | some .Left => repo.update parentId (fun n => n.setLeftChild child)
  | some .Right => repo.update parentId (fun n => n.setRightChild child)
  | none => repo

def rotate (t : RedBlackTree) (repo : Repo) (current : Nat) (rotation : Rotation) :
    RedBlackTree × Repo :=
  let relative := get_relatives repo current rotation
  let grandchild := relative.grandchild
  let repo := repo.update current (fun n =>
    match rotation with
    | .Left => n.setRightChild grandchild
    | .Right => n.setLeftChild grandchild)
  let repo := repo.updateOpt grandchild (fun n => n.setParent (some current))
  let repo := repo.update relative.child (fun n => n.setParent relative.parent)
  let t :=
    match relative.parent with
    | none => { t with root := some relative.child }
    | some _ => t
  let repo :=
    match relative.parent with
    | none => repo
    | some parentId =>
      set_child_side repo parentId (node_is_child repo current) (some relative.child)
  let repo := repo.update relative.child (fun n =>
    match rotation with
    | .Right => n.setRightChild (some current)
    | .Left => n.setLeftChild (some current))
  let repo := repo.update current (fun n => n.setParent (some relative.child))
  (t, repo)

def insert_fixup_subtree (t : RedBlackTree) (repo : Repo) (currentId : Nat) (child : Child) :
    RedBlackTree × Repo × Option NodeColor :=
  match repo.getParent currentId with
  | none => (t, repo, none)
  | some pnode =>
    let parentId := pnode.id
    let uncle := find_uncle repo currentId
    if uncle_is_red repo uncle then
      let repo := repo.update parentId (fun n => n.setColor .Black)
      let repo := repo.update (uncle.getD 0) (fun n => n.setColor .Black)
      let grandparentId := ((repo.getParent parentId).getD default).id
      let repo := repo.update grandparentId (fun n => n.setColor .Red)
      (t, repo, some ⟨grandparentId, .Black⟩)
    else
      let rotation := get_rotation child
      let parentIsChild := node_is_child repo parentId
      let tr :=
        if parentIsChild.isSome && child == parentIsChild.getD .Left then
          let rotateId := (repo.getParent parentId).map Node.id
          let repo := repo.updateOpt rotateId (fun n => n.setColor .Red)
          let repo := repo.update parentId (fun n => n.setColor .Black)
          rotate t repo (rotateId.getD 0) rotation
        else
          rotate t repo parentId rotation
      (tr.1, tr.2, some ⟨parentId, ((tr.2.get parentId).getD default).color⟩)

def insert_fixup_go (t : RedBlackTree) (repo : Repo) :
    Nat → Option NodeColor → RedBlackTree × Repo
  | 0, _ => (t, repo)
  | _, none => (t, repo)
  | fuel + 1, some nc =>
    if nc.color = Color.Black then (t, repo)
    else
      match repo.getParent nc.id with
      | none => (t, repo)
      | some p =>
        match p.color with
        | .Black => (t, repo)
        | .Red =>
          let child := node_is_child repo nc.id
          let st := insert_fixup_subtree t repo nc.id (child.getD .Left)
          insert_fixup_go st.1 st.2.1 fuel st.2.2

def insert_fixup (t : RedBlackTree) (repo : Repo) (inserted : Nat) : RedBlackTree × Repo :=
  let current := (repo.get inserted).map (fun n => (⟨inserted, n.color⟩ : NodeColor))
  let tr := insert_fixup_go t repo (repo.size + 1) current
  match tr.1.root with
  | some rootId => (tr.1, tr.2.update rootId (fun n => n.setColor .Black))
  | none => tr

def find_parent_go (repo : Repo) (newNode : Node) :
    Nat → Option Nat → Option Nat → Option Nat
  | 0, _, parent => parent
  | _, none, parent => parent
  | fuel + 1, some nodeId, _ =>
    match repo.get nodeId with
    | none => some nodeId
    | some node =>
      if newNode.key < node.key then find_parent_go repo newNode fuel node.left (some nodeId)
      else find_parent_go repo newNode fuel node.right (some nodeId)

def find_parent (repo : Repo) (current : Option Nat) (newNode : Nat) : Option Nat :=
  match repo.get newNode with
  | none => none
  | some newNodeRec => find_parent_go repo newNodeRec (repo.size + 1) current none

def insert (t : RedBlackTree) (repo : Repo) (value : Int) : RedBlackTree × Repo :=
  let t := { t with idCounter := t.idCounter + 1 }
  let newId := t.idCounter
  let repo := repo.add newId value
  let tr :=
    match t.root with
    | none => ({ t with root := some newId }, repo)
    | some _ =>
      let parent := find_parent repo t.root newId
      let repo := repo.update newId (fun n => n.setParent parent)
      match parent with
      | some pid =>
        let newKey := ((repo.get newId).getD default).key
        let parentKey := ((repo.get pid).getD default).key
        let repo :=
          if newKey < parentKey then repo.update pid (fun n => n.setLeftChild (some newId))
          else repo.update pid (fun n => n.setRightChild (some newId))
        (t, repo)
      | none => (t, repo)
  let fx := insert_fixup tr.1 tr.2 newId
  ({ fx.1 with length := fx.1.length + 1 }, fx.2)

def find_node_go (repo : Repo) (value : Int) : Nat → Option Nat → Option Node
  | 0, _ => none
  | _, none => none
  | fuel + 1, some nodeId =>
    match repo.get nodeId with
    | none => none
    | some node =>
      if node.key = value then some node
      else if value < node.key then find_node_go repo value fuel node.left
      else find_node_go repo value fuel node.right

def find_node (t : RedBlackTree) (repo : Repo) (value : Int) : Option Node :=
  find_node_go repo value (repo.size + 1) t.root

def go_walk_in_order (repo : Repo) : Nat → Option Nat → List Node
  | _, none => []
  | 0, some _ => []
  | fuel + 1, some nid =>
    match repo.get nid with
    | none => []
    | some n => go_walk_in_order repo fuel n.left ++ n :: go_walk_in_order repo fuel n.right

def walk_in_order (t : RedBlackTree) (repo : Repo) : List Node :=
  go_walk_in_order repo (repo.size + 1) t.root

def node_is (node : Nat) (other : Option Nat) : Bool :=
  match other with
  | some n => n == node
  | none => false

def replace (t : RedBlackTree) (repo : Repo) (removable : Nat) (replacement : Option Nat) :
    RedBlackTree × Repo :=
  let parentId := (repo.getParent removable).map Node.id
  let removableLeft := parentId.map (fun p =>
    match repo.getLeft p with
    | some l => node_is removable (some l.id)
    | none => false)
  let t :=
    match removableLeft with
    | none => { t with root := replacement }
    | some _ => t
  let repo :=
    match removableLeft with
    | none => repo
    | some true => repo.updateOpt parentId (fun n => n.setLeftChild replacement)
    | some false => repo.updateOpt parentId (fun n => n.setRightChild replacement)
  let repo := repo.updateOpt replacement (fun n => n.setParent parentId)
  (t, repo)

def get_if_one_child (repo : Repo) (node : Nat) : Option Nat :=
  let child :=
    if (repo.getLeft node).isNone then repo.getRight node
    else if (repo.getRight node).isNone then repo.getLeft node
    else none
  child.map Node.id

def tree_min_go (repo : Repo) : Nat → Option Node → Option Nat → Option Nat
  | 0, _, result => result
  | _, none, result => result
  | fuel + 1, some n, _ => tree_min_go repo fuel (repo.getLeft n.id) (some n.id)

def tree_minimum (repo : Repo) (node : Option Nat) : Option Nat :=
  match node with
  | none => none
  | some nid => tree_min_go repo (repo.size + 1) (repo.get nid) none

def childrens (repo : Repo) (node : Option Nat) (firstChild : Child) : List (Option Nat) :=
  let lr :=
    match node with
    | some n =>
      match repo.get n with
      | some nd => (nd.left, nd.right)
      | none => (none, none)
    | none => (none, none)
  match firstChild with
  | .Left => [lr.1, lr.2]
  | .Right => [lr.2, lr.1]

def any_colors (repo : Repo) (nodes : List (Option Nat)) (color : Color) : Bool :=
  nodes.any fun node =>
    match node with
    | some n =>
      match repo.get n with
      | some nd => decide (nd.color = color)
      | none => false
    | none => false

/-- The red-sibling pre-step of delete-fixup: a red sibling is recolored
Black, the parent Red, and a rotation at the parent brings a new sibling. -/
def delete_fixup_sibling_step (t : RedBlackTree) (repo : Repo) (node : Nat) (parentId : Nat)
    (sibling0 : Option NodeColor) (rotation : Rotation) (childSide : Child) :
    RedBlackTree × Repo × Option Nat :=
  match sibling0 with
  | none => (t, repo, none)
  | some s =>
    if s.color = Color.Red then
      let repo := repo.update s.id (fun n => n.setColor .Black)
      let repo := repo.updateOpt ((repo.get node).bind Node.parent) (fun n => n.setColor .Red)
      let tr := rotate t repo parentId rotation
      let sib :=
        match childSide with
        | .Left => (tr.2.getRight parentId).map Node.id
        | .Right => (tr.2.getLeft parentId).map Node.id
      (tr.1, tr.2, sib)
    else (t, repo, some s.id)

/-- The close-nephew step of delete-fixup: recolor the close nephew Black and
the sibling Red, rotate at the sibling away from the current side, and
recompute the sibling from the parent. -/
def delete_fixup_close_step (t : RedBlackTree) (repo : Repo) (parentId : Nat)
    (sibling : Option Nat) (closeNephew : Option Nat) (rotation : Rotation)
    (childSide : Child) : RedBlackTree × Repo × Option Nat :=
  let repo := repo.updateOpt closeNephew (fun n => n.setColor .Black)
  let tr :=
    match sibling with
    | some sid => rotate t (repo.update sid (fun n => n.setColor .Red)) sid rotation.flip
    | none => (t, repo)
  let sibling :=
    match childSide with
    | .Left => (tr.2.get parentId).bind Node.right
    | .Right => (tr.2.get parentId).bind Node.left
  (tr.1, tr.2, sibling)

def delete_fixup_subtree (t : RedBlackTree) (repo : Repo) (node : Nat)
    (sibling0 : Option NodeColor) (rotation : Rotation) (childSide : Child) :
    RedBlackTree × Repo × Option NodeColor :=
  let parentId := ((repo.getParent node).getD default).id
  let st := delete_fixup_sibling_step t repo node parentId sibling0 rotation childSide
  let t := st.1
  let repo := st.2.1
  let sibling := st.2.2
  let nephews := childrens repo sibling childSide
  let redNephews := any_colors repo nephews .Red
  if redNephews then
    let closeNephew := nephews.take 1
    let distantNephew := nephews.drop 1
    let distantBlack := any_colors repo distantNephew .Black
    let st2 :=
      if distantBlack then
        delete_fixup_close_step t repo parentId sibling (closeNephew.getD 0 none)
          rotation childSide
      else
        (t, repo.updateOpt (distantNephew.getD 0 none) (fun n => n.setColor .Black), sibling)
    let t := st2.1
    let repo := st2.2.1
    let sibling := st2.2.2
    let parentColor := ((repo.get parentId).getD default).color
    let repo := repo.updateOpt sibling (fun n => n.setColor parentColor)
    let repo := repo.updateOpt ((repo.get node).bind Node.parent) (fun n => n.setColor .Black)
    let tr := rotate t repo parentId rotation
    (tr.1, tr.2, (tr.1.root.bind tr.2.get).map fun n => ⟨n.id, n.color⟩)
  else
    let repo := repo.updateOpt sibling (fun n => n.setColor .Red)
    (t, repo, (repo.getParent node).map fun p => ⟨p.id, p.color⟩)

def delete_fixup_go (t : RedBlackTree) (repo : Repo) :
    Nat → Option NodeColor → RedBlackTree × Repo
  | 0, _ => (t, repo)
  | _, none => (t, repo)
  | fuel + 1, some nc =>
    if nc.id ≠ t.root.getD 0 ∧ nc.color = Color.Black then
      let child := node_is_child repo nc.id
      let parentId := (repo.getParent nc.id).map Node.id
      let sibRot : Option Node × Rotation :=
        match child with
        | some .Left => ((parentId.bind fun p => repo.getRight p), Rotation.Left)
        | some .Right => ((parentId.bind fun p => repo.getLeft p), Rotation.Right)
        | none => (none, Rotation.Left)
      let sibling := sibRot.1.map fun s => (⟨s.id, s.color⟩ : NodeColor)
      let st := delete_fixup_subtree t repo nc.id sibling sibRot.2 (child.getD .Left)
      delete_fixup_go st.1 st.2.1 fuel st.2.2
    else
      let repo :=
        if nc.color = Color.Red then repo.update nc.id (fun n => n.setColor .Black)
        else repo
      (t, repo)

def delete_fixup (t : RedBlackTree) (repo : Repo) (node : Option Nat) : RedBlackTree × Repo :=
  let nc := (node.bind repo.get).map fun n => (⟨n.id, n.color⟩ : NodeColor)
  let tr := delete_fixup_go t repo (repo.size + 1) nc
  match tr.1.root with
  | some r => (tr.1, tr.2.update r (fun n => n.setColor .Black))
  | none => tr

def delete (t : RedBlackTree) (repo : Repo) (value : Int) : RedBlackTree × Repo × Option Nat :=
  match find_node t repo value with
  | none => (t, repo, none)
  | some found =>
    let step : RedBlackTree × Repo × NodeColor × Option Nat :=
      match get_if_one_child repo found.id with
      | some childId =>
        let tr := replace t repo found.id (some childId)
        (tr.1, tr.2, ⟨found.id, found.color⟩, some childId)
      | none =>
        let rightChild := (repo.getRight found.id).map Node.id
        match tree_minimum repo rightChild with
        | some replacedId =>
          let rnode := (repo.get replacedId).getD default
          let replacedKey := rnode.key
          let repo := repo.update found.id (fun n => n.setKey replacedKey)
          let replacedChildId := (repo.getRight replacedId).map Node.id
          let tr := replace t repo replacedId replacedChildId
          (tr.1, tr.2, ⟨replacedId, rnode.color⟩, replacedChildId)
        | none =>
          let tr := replace t repo found.id none
          (tr.1, tr.2, ⟨found.id, found.color⟩, none)
    let del := step.2.2.1
    let replaced := step.2.2.2
    let fx := if del.color = Color.Black then delete_fixup step.1 step.2.1 replaced
      else (step.1, step.2.1)
    let t2 := { fx.1 with length := fx.1.length - 1 }
    let result := (fx.2.get del.id).map Node.id
    (t2, fx.2.removeRec del.id, result)

/-! ## Operation sequences from the initially empty tree -/

inductive Op where
  | ins (k : Int)
  | del (k : Int)
deriving DecidableEq, Repr

structure SysState where
  tree : RedBlackTree
  repo : Repo
deriving DecidableEq, Repr

def initState : SysState := ⟨RedBlackTree.new, ⟨[]⟩⟩

def applyOp (s : SysState) : Op → SysState × Option Nat
  | .ins k =>
    let tr := insert s.tree s.repo k
    (⟨tr.1, tr.2⟩, none)
  | .del k =>
    let tr := delete s.tree s.repo k
    (⟨tr.1, tr.2.1⟩, tr.2.2)

def opStep (s : SysState) (op : Op) : SysState := (applyOp s op).1

def runOps (ops : List Op) : SysState :=
  ops.foldl opStep initState

/-- Fold step that additionally counts insert calls and successful deletes. -/
def countStep (acc : SysState × Nat × Nat) (op : Op) : SysState × Nat × Nat :=
  match op with
  | Op.ins k => ((applyOp acc.1 (Op.ins k)).1, acc.2.1 + 1, acc.2.2)
  | Op.del k =>
    let step := applyOp acc.1 (Op.del k)
    (step.1, acc.2.1, acc.2.2 + (if step.2.isSome then 1 else 0))

def runCount (ops : List Op) : SysState × Nat × Nat :=
  ops.foldl countStep (initState, 0, 0)

/-! ## Invariant checkers (formalizing the specified red-black properties) -/

def redRedOkGo (repo : Repo) : Nat → Option Nat → Color → Bool
  | _, none, _ => true
  | 0, some _, _ => false
  | fuel + 1, some nid, pc =>
    match repo.get nid with
    | none => false
    | some n =>
      !(decide (pc = Color.Red) && decide (n.color = Color.Red)) &&
      redRedOkGo repo fuel n.left n.color && redRedOkGo repo fuel n.right n.color

/-- No Red node reachable from the root has a Red parent. -/
def redRedOk (t : RedBlackTree) (repo : Repo) : Bool :=
  redRedOkGo repo (repo.size + 1) t.root Color.Black

def blackHeightGo (repo : Repo) : Nat → Option Nat → Option Nat
  | _, none => some 0
  | 0, some _ => none
  | fuel + 1, some nid =>
    match repo.get nid with
    | none => none
    | some n =>
      match blackHeightGo repo fuel n.left, blackHeightGo repo fuel n.right with
      | some a, some b =>
        if a = b then some (a + (if n.color = Color.Black then 1 else 0)) else none
      | _, _ => none

/-- Every root-to-absent-child path traverses the same number of Black nodes. -/
def blackHeightUniform (t : RedBlackTree) (repo : Repo) : Bool :=
  (blackHeightGo repo (repo.size + 1) t.root).isSome

/-! ## Concrete runs used by the claims -/

/-- Ascending inserts of 1..8; the eighth insert hits the red-uncle fixup case
at a node whose grandparent has a red parent. -/
def ascendingEight : List Op :=
  [Op.ins 1, Op.ins 2, Op.ins 3, Op.ins 4, Op.ins 5, Op.ins 6, Op.ins 7, Op.ins 8]

/-- Four inserts followed by deletion of the black leaf holding key 1. -/
def blackLeafDelete : List Op :=
  [Op.ins 1, Op.ins 2, Op.ins 3, Op.ins 4, Op.del 1]

/-- A run whose final delete matches a red node with two children and whose
delete-fixup recolors that matched node. -/
def tenOpsPrefix : List Op :=
  [Op.ins 4, Op.ins 5, Op.ins 7, Op.ins 7, Op.del 4, Op.ins 3,
   Op.ins 1, Op.ins 3, Op.ins 8, Op.ins 8, Op.del 5, Op.ins 4]

/-- A concrete store in which node 4 (red, child of red node 2) has the red
uncle 3 under grandparent 1. -/
def redUncleRepo : Repo := ⟨[
  Node.mk 1 Color.Black 10 none (some 2) (some 3),
  Node.mk 2 Color.Red 5 (some 1) (some 4) none,
  Node.mk 3 Color.Red 15 (some 1) none none,
  Node.mk 4 Color.Red 3 (some 2) none none]⟩

/-- Bookkeeping invariant tying the store to the engine counters. -/
def SizeInv (s : SysState) : Prop :=
  s.repo.idsList.Nodup ∧
  s.repo.idsList.length = s.tree.length ∧
  ∀ i ∈ s.repo.idsList, i ≤ s.tree.idCounter

/-! ## Abstract binary trees: the shape the identifier store represents -/

inductive BT where
  | nil
  | nd (l : BT) (i : Nat) (k : Int) (c : Color) (r : BT)
deriving DecidableEq, Repr

def BT.rootId : BT → Option Nat
  | .nil => none
  | .nd _ i _ _ _ => some i

def BT.inorder : BT → List (Nat × Int)
  | .nil => []
  | .nd l i k _ r => l.inorder ++ (i, k) :: r.inorder

def BT.ids (t : BT) : List Nat := t.inorder.map Prod.fst

def BT.keys (t : BT) : List Int := t.inorder.map Prod.snd

def BT.size (t : BT) : Nat := t.inorder.length

/-- The record demanded at the root of a represented subtree. -/
def BT.record (i : Nat) (k : Int) (c : Color) (parent : Option Nat) (l r : BT) : Node :=
  { id := i, color := c, key := k, parent := parent, left := l.rootId, right := r.rootId }

/-- The store represents the abstract tree: every abstract node's record is
present with exactly the demanded fields. -/
def reps (repo : Repo) (parent : Option Nat) : BT → Prop
  | .nil => True
  | .nd l i k c r =>
      repo.get i = some (BT.record i k c parent l r) ∧
      reps repo (some i) l ∧ reps repo (some i) r

/-- Well-formed engine state: the store represents the abstract tree from the
root field, with distinct identifiers all bounded by the id counter. -/
def WF (t : RedBlackTree) (repo : Repo) (bt : BT) : Prop :=
  t.root = bt.rootId ∧ reps repo none bt ∧ bt.ids.Nodup ∧
  ∀ i ∈ bt.ids, i ≤ t.idCounter

/-! ## Zipper contexts for surgery at an interior node -/

structure Frame where
  side : Child
  i : Nat
  k : Int
  c : Color
  sib : BT
deriving DecidableEq, Repr

abbrev Ctx := List Frame

def plug : Ctx → BT → BT
  | [], s => s
  | f :: ctx, s =>
    match f.side with
    | .Left => plug ctx (.nd s f.i f.k f.c f.sib)
    | .Right => plug ctx (.nd f.sib f.i f.k f.c s)

/-- The parent identifier seen at the hole of a context, below the outermost
parent argument. -/
def ctxUp (par : Option Nat) : Ctx → Option Nat
  | [] => par
  | f :: _ => some f.i

def repsCtx (repo : Repo) (par : Option Nat) : Ctx → Option Nat → Prop
  | [], _ => True
  | f :: ctx, hole =>
      repo.get f.i = some
        { id := f.i, color := f.c, key := f.k, parent := ctxUp par ctx,
          left := if f.side = .Left then hole else f.sib.rootId,
          right := if f.side = .Left then f.sib.rootId else hole } ∧
      reps repo (some f.i) f.sib ∧
      repsCtx repo par ctx (some f.i)

def ctxLeftOrder : Ctx → List (Nat × Int)
  | [] => []
  | f :: ctx =>
    match f.side with
    | .Left => ctxLeftOrder ctx
    | .Right => ctxLeftOrder ctx ++ f.sib.inorder ++ [(f.i, f.k)]

def ctxRightOrder : Ctx → List (Nat × Int)
  | [] => []
  | f :: ctx =>
    match f.side with
    | .Left => (f.i, f.k) :: f.sib.inorder ++ ctxRightOrder ctx
    | .Right => ctxRightOrder ctx

def ctxAllIds (ctx : Ctx) : List Nat :=
  (ctxLeftOrder ctx).map Prod.fst ++ (ctxRightOrder ctx).map Prod.fst

/-! ## Recoloring and rekeying a represented tree -/

def BT.recolor (j : Nat) (c : Color) : BT → BT
  | .nil => .nil
  | .nd l i k c0 r => .nd (l.recolor j c) i k (if i = j then c else c0) (r.recolor j c)

def BT.rekey (j : Nat) (k : Int) : BT → BT
  | .nil => .nil
  | .nd l i k0 c r => .nd (l.rekey j k) i (if i = j then k else k0) c (r.rekey j k)

/-- The tail of delete-fixup after the red-sibling pre-step: nephew analysis,
the optional close-nephew step, and the final rotation at the parent. -/
def delete_fixup_tail (t : RedBlackTree) (repo : Repo) (node : Nat) (parentId : Nat)
    (sibling : Option Nat) (rotation : Rotation) (childSide : Child) :
    RedBlackTree × Repo × Option NodeColor :=
  let nephews := childrens repo sibling childSide
  let redNephews := any_colors repo nephews .Red
  if redNephews then
    let closeNephew := nephews.take 1
    let distantNephew := nephews.drop 1
    let distantBlack := any_colors repo distantNephew .Black
    let st2 :=
      if distantBlack then
        delete_fixup_close_step t repo parentId sibling (closeNephew.getD 0 none)
          rotation childSide
      else
        (t, repo.updateOpt (distantNephew.getD 0 none) (fun n => n.setColor .Black), sibling)
    let t := st2.1
    let repo := st2.2.1
    let sibling := st2.2.2
    let parentColor := ((repo.get parentId).getD default).color
    let repo := repo.updateOpt sibling (fun n => n.setColor parentColor)
    let repo := repo.updateOpt ((repo.get node).bind Node.parent) (fun n => n.setColor .Black)
    let tr := rotate t repo parentId rotation
    (tr.1, tr.2, (tr.1.root.bind tr.2.get).map fun n => ⟨n.id, n.color⟩)
  else
    let repo := repo.updateOpt sibling (fun n => n.setColor .Red)
    (t, repo, (repo.getParent node).map fun p => ⟨p.id, p.color⟩)

/-- The reference bookkeeping of live keys: insert adds the key, delete
erases one occurrence. -/
def specStep (m : Multiset Int) : Op → Multiset Int
  | .ins k => k ::ₘ m
  | .del k => m.erase k

def specKeys (ops : List Op) : Multiset Int := ops.foldl specStep 0

/-! ## Helper lemmas -/

/-! ## Basic store lemmas -/

@[simp] theorem Node.id_setColor (n : Node) (c : Color) : (n.setColor c).id = n.id := rfl

@[simp] theorem Node.id_setKey (n : Node) (k : Int) : (n.setKey k).id = n.id := rfl

@[simp] theorem Node.id_setParent (n : Node) (p : Option Nat) : (n.setParent p).id = n.id := rfl

@[simp] theorem Node.id_setLeftChild (n : Node) (x : Option Nat) :
    (n.setLeftChild x).id = n.id := rfl

@[simp] theorem Node.id_setRightChild (n : Node) (x : Option Nat) :
    (n.setRightChild x).id = n.id := rfl

theorem Repo.idsList_update (repo : Repo) (i : Nat) (f : Node → Node)
    (hf : ∀ n, (f n).id = n.id) : (repo.update i f).idsList = repo.idsList := by
  simp only [Repo.idsList, Repo.update, List.map_map]
  apply List.map_congr_left
  intro a _
  by_cases h : a.id = i <;> simp [h, hf]

@[simp] theorem Repo.size_update (repo : Repo) (i : Nat) (f : Node → Node) :
    (repo.update i f).size = repo.size := by
  simp [Repo.size, Repo.update]

theorem Repo.size_eq_idsList_length (repo : Repo) : repo.size = repo.idsList.length := by
  simp [Repo.size, Repo.idsList]

theorem Repo.get_mem (repo : Repo) (i : Nat) (n : Node) (h : repo.get i = some n) :
    n ∈ repo.nodes ∧ n.id = i := by
  have h1 := List.find?_some h
  have h2 := List.mem_of_find?_eq_some h
  exact ⟨h2, by simpa using h1⟩

theorem Repo.get_isSome_of_mem (repo : Repo) (i : Nat) (h : i ∈ repo.idsList) :
    (repo.get i).isSome := by
  simp only [Repo.idsList, List.mem_map] at h
  obtain ⟨n, hn, hid⟩ := h
  exact List.find?_isSome.mpr ⟨n, hn, by simp [hid]⟩

theorem Repo.get_mem_idsList (repo : Repo) (i : Nat) (n : Node) (h : repo.get i = some n) :
    i ∈ repo.idsList := by
  obtain ⟨hm, hid⟩ := repo.get_mem i n h
  exact List.mem_map.2 ⟨n, hm, hid⟩

theorem Repo.get_none_of_not_mem (repo : Repo) (i : Nat) (h : i ∉ repo.idsList) :
    repo.get i = none := by
  cases hg : repo.get i with
  | none => rfl
  | some n => exact absurd (repo.get_mem_idsList i n hg) h

/-! ## Domain preservation through the mutating helpers -/

theorem Repo.idsList_updateOpt (repo : Repo) (o : Option Nat) (f : Node → Node)
    (hf : ∀ n, (f n).id = n.id) : (repo.updateOpt o f).idsList = repo.idsList := by
  cases o <;> simp [Repo.updateOpt, Repo.idsList_update, hf]

theorem set_child_side_idsList (repo : Repo) (p : Nat) (side : Option Child)
    (c : Option Nat) : (set_child_side repo p side c).idsList = repo.idsList := by
  cases side with
  | none => rfl
  | some ch => cases ch <;> simp [set_child_side, Repo.idsList_update]

theorem rotate_idsList (t : RedBlackTree) (repo : Repo) (c : Nat) (r : Rotation) :
    (rotate t repo c r).2.idsList = repo.idsList := by
  cases r with
  | Left =>
    unfold rotate
    cases hp : (get_relatives repo c Rotation.Left).parent <;>
      simp [hp, Repo.idsList_update, Repo.idsList_updateOpt, set_child_side_idsList]
  | Right =>
    unfold rotate
    cases hp : (get_relatives repo c Rotation.Right).parent <;>
      simp [hp, Repo.idsList_update, Repo.idsList_updateOpt, set_child_side_idsList]

theorem rotate_length (t : RedBlackTree) (repo : Repo) (c : Nat) (r : Rotation) :
    (rotate t repo c r).1.length = t.length := by
  cases r with
  | Left =>
    unfold rotate
    cases hp : (get_relatives repo c Rotation.Left).parent <;> simp [hp]
  | Right =>
    unfold rotate
    cases hp : (get_relatives repo c Rotation.Right).parent <;> simp [hp]

theorem rotate_idCounter (t : RedBlackTree) (repo : Repo) (c : Nat) (r : Rotation) :
    (rotate t repo c r).1.idCounter = t.idCounter := by
  cases r with
  | Left =>
    unfold rotate
    cases hp : (get_relatives repo c Rotation.Left).parent <;> simp [hp]
  | Right =>
    unfold rotate
    cases hp : (get_relatives repo c Rotation.Right).parent <;> simp [hp]

theorem insert_fixup_subtree_idsList (t : RedBlackTree) (repo : Repo) (cid : Nat)
    (child : Child) : (insert_fixup_subtree t repo cid child).2.1.idsList = repo.idsList := by
  unfold insert_fixup_subtree
  cases hgp : repo.getParent cid with
  | none => rfl
  | some p =>
    simp only []
    split
    · simp [Repo.idsList_update]
    · split <;>
        simp [rotate_idsList, Repo.idsList_update, Repo.idsList_updateOpt]

theorem insert_fixup_subtree_length (t : RedBlackTree) (repo : Repo) (cid : Nat)
    (child : Child) : (insert_fixup_subtree t repo cid child).1.length = t.length := by
  unfold insert_fixup_subtree
  cases hgp : repo.getParent cid with
  | none => rfl
  | some p =>
    simp only []
    split
    · simp
    · split <;> simp [rotate_length]

theorem insert_fixup_subtree_idCounter (t : RedBlackTree) (repo : Repo) (cid : Nat)
    (child : Child) : (insert_fixup_subtree t repo cid child).1.idCounter = t.idCounter := by
  unfold insert_fixup_subtree
  cases hgp : repo.getParent cid with
  | none => rfl
  | some p =>
    simp only []
    split
    · simp
    · split <;> simp [rotate_idCounter]

theorem insert_fixup_go_idsList (fuel : Nat) : ∀ (t : RedBlackTree) (repo : Repo)
    (nc : Option NodeColor), (insert_fixup_go t repo fuel nc).2.idsList = repo.idsList := by
  induction fuel with
  | zero => intro t repo nc; cases nc <;> rfl
  | succ n ih =>
    intro t repo nc
    cases nc with
    | none => rfl
    | some c =>
      rw [insert_fixup_go]
      split
      · rfl
      · cases hgp : repo.getParent c.id with
        | none => rfl
        | some p =>
          simp only []
          cases hpc : p.color with
          | Black => rfl
          | Red =>
            rcases hsub : insert_fixup_subtree t repo c.id
                ((node_is_child repo c.id).getD Child.Left) with ⟨t1, r1, nx⟩
            simp only [hsub]
            have h1 := insert_fixup_subtree_idsList t repo c.id
              ((node_is_child repo c.id).getD Child.Left)
            rw [hsub] at h1
            rw [ih t1 r1 nx]
            exact h1

theorem insert_fixup_go_length (fuel : Nat) : ∀ (t : RedBlackTree) (repo : Repo)
    (nc : Option NodeColor), (insert_fixup_go t repo fuel nc).1.length = t.length := by
  induction fuel with
  | zero => intro t repo nc; cases nc <;> rfl
  | succ n ih =>
    intro t repo nc
    cases nc with
    | none => rfl
    | some c =>
      rw [insert_fixup_go]
      split
      · rfl
      · cases hgp : repo.getParent c.id with
        | none => rfl
        | some p =>
          simp only []
          cases hpc : p.color with
          | Black => rfl
          | Red => rw [ih, insert_fixup_subtree_length]

theorem insert_fixup_go_idCounter (fuel : Nat) : ∀ (t : RedBlackTree) (repo : Repo)
    (nc : Option NodeColor), (insert_fixup_go t repo fuel nc).1.idCounter = t.idCounter := by
  induction fuel with
  | zero => intro t repo nc; cases nc <;> rfl
  | succ n ih =>
    intro t repo nc
    cases nc with
    | none => rfl
    | some c =>
      rw [insert_fixup_go]
      split
      · rfl
      · cases hgp : repo.getParent c.id with
        | none => rfl
        | some p =>
          simp only []
          cases hpc : p.color with
          | Black => rfl
          | Red => rw [ih, insert_fixup_subtree_idCounter]

theorem insert_fixup_idsList (t : RedBlackTree) (repo : Repo) (i : Nat) :
    (insert_fixup t repo i).2.idsList = repo.idsList := by
  unfold insert_fixup
  cases hr : (insert_fixup_go t repo (repo.size + 1)
      ((repo.get i).map fun n => (⟨i, n.color⟩ : NodeColor))).1.root <;>
    simp [hr, Repo.idsList_update, insert_fixup_go_idsList]

theorem insert_fixup_length (t : RedBlackTree) (repo : Repo) (i : Nat) :
    (insert_fixup t repo i).1.length = t.length := by
  unfold insert_fixup
  cases hr : (insert_fixup_go t repo (repo.size + 1)
      ((repo.get i).map fun n => (⟨i, n.color⟩ : NodeColor))).1.root <;>
    simp [hr, insert_fixup_go_length]

theorem insert_fixup_idCounter (t : RedBlackTree) (repo : Repo) (i : Nat) :
    (insert_fixup t repo i).1.idCounter = t.idCounter := by
  unfold insert_fixup
  cases hr : (insert_fixup_go t repo (repo.size + 1)
      ((repo.get i).map fun n => (⟨i, n.color⟩ : NodeColor))).1.root <;>
    simp [hr, insert_fixup_go_idCounter]

theorem replace_idsList (t : RedBlackTree) (repo : Repo) (removable : Nat)
    (replacement : Option Nat) :
    (replace t repo removable replacement).2.idsList = repo.idsList := by
  unfold replace
  cases hrl : ((repo.getParent removable).map Node.id).map (fun p =>
      match repo.getLeft p with
      | some l => node_is removable (some l.id)
      | none => false) with
  | none => simp [hrl, Repo.idsList_updateOpt]
  | some b => cases b <;> simp [hrl, Repo.idsList_updateOpt, Repo.idsList_update]

theorem replace_length (t : RedBlackTree) (repo : Repo) (removable : Nat)
    (replacement : Option Nat) :
    (replace t repo removable replacement).1.length = t.length := by
  unfold replace
  cases hrl : ((repo.getParent removable).map Node.id).map (fun p =>
      match repo.getLeft p with
      | some l => node_is removable (some l.id)
      | none => false) with
  | none => simp [hrl]
  | some b => cases b <;> simp [hrl]

theorem replace_idCounter (t : RedBlackTree) (repo : Repo) (removable : Nat)
    (replacement : Option Nat) :
    (replace t repo removable replacement).1.idCounter = t.idCounter := by
  unfold replace
  cases hrl : ((repo.getParent removable).map Node.id).map (fun p =>
      match repo.getLeft p with
      | some l => node_is removable (some l.id)
      | none => false) with
  | none => simp [hrl]
  | some b => cases b <;> simp [hrl]

theorem delete_fixup_sibling_step_idsList (t : RedBlackTree) (repo : Repo) (node parentId : Nat)
    (sib0 : Option NodeColor) (rot : Rotation) (cs : Child) :
    (delete_fixup_sibling_step t repo node parentId sib0 rot cs).2.1.idsList = repo.idsList := by
  unfold delete_fixup_sibling_step
  cases sib0 with
  | none => rfl
  | some s =>
    simp only []
    split
    · cases cs <;>
        simp [rotate_idsList, Repo.idsList_update, Repo.idsList_updateOpt]
    · rfl

theorem delete_fixup_sibling_step_length (t : RedBlackTree) (repo : Repo) (node parentId : Nat)
    (sib0 : Option NodeColor) (rot : Rotation) (cs : Child) :
    (delete_fixup_sibling_step t repo node parentId sib0 rot cs).1.length = t.length := by
  unfold delete_fixup_sibling_step
  cases sib0 with
  | none => rfl
  | some s =>
    simp only []
    split
    · cases cs <;> simp [rotate_length]
    · rfl

theorem delete_fixup_sibling_step_idCounter (t : RedBlackTree) (repo : Repo)
    (node parentId : Nat) (sib0 : Option NodeColor) (rot : Rotation) (cs : Child) :
    (delete_fixup_sibling_step t repo node parentId sib0 rot cs).1.idCounter = t.idCounter := by
  unfold delete_fixup_sibling_step
  cases sib0 with
  | none => rfl
  | some s =>
    simp only []
    split
    · cases cs <;> simp [rotate_idCounter]
    · rfl

theorem delete_fixup_close_step_idsList (t : RedBlackTree) (repo : Repo) (parentId : Nat)
    (sibling closeNephew : Option Nat) (rot : Rotation) (cs : Child) :
    (delete_fixup_close_step t repo parentId sibling closeNephew rot cs).2.1.idsList =
      repo.idsList := by
  unfold delete_fixup_close_step
  cases sibling <;> cases cs <;>
    simp [rotate_idsList, Repo.idsList_update, Repo.idsList_updateOpt]

theorem delete_fixup_close_step_length (t : RedBlackTree) (repo : Repo) (parentId : Nat)
    (sibling closeNephew : Option Nat) (rot : Rotation) (cs : Child) :
    (delete_fixup_close_step t repo parentId sibling closeNephew rot cs).1.length =
      t.length := by
  unfold delete_fixup_close_step
  cases sibling <;> cases cs <;> simp [rotate_length]

theorem delete_fixup_close_step_idCounter (t : RedBlackTree) (repo : Repo) (parentId : Nat)
    (sibling closeNephew : Option Nat) (rot : Rotation) (cs : Child) :
    (delete_fixup_close_step t repo parentId sibling closeNephew rot cs).1.idCounter =
      t.idCounter := by
  unfold delete_fixup_close_step
  cases sibling <;> cases cs <;> simp [rotate_idCounter]

theorem delete_fixup_subtree_idsList (t : RedBlackTree) (repo : Repo) (node : Nat)
    (sib0 : Option NodeColor) (rot : Rotation) (cs : Child) :
    (delete_fixup_subtree t repo node sib0 rot cs).2.1.idsList = repo.idsList := by
  unfold delete_fixup_subtree
  simp only []
  split
  · split <;>
      simp [rotate_idsList, Repo.idsList_update, Repo.idsList_updateOpt,
        delete_fixup_close_step_idsList, delete_fixup_sibling_step_idsList]
  · simp [Repo.idsList_updateOpt, delete_fixup_sibling_step_idsList]

theorem delete_fixup_subtree_length (t : RedBlackTree) (repo : Repo) (node : Nat)
    (sib0 : Option NodeColor) (rot : Rotation) (cs : Child) :
    (delete_fixup_subtree t repo node sib0 rot cs).1.length = t.length := by
  unfold delete_fixup_subtree
  simp only []
  split
  · split <;>
      simp [rotate_length, delete_fixup_close_step_length, delete_fixup_sibling_step_length]
  · simp [delete_fixup_sibling_step_length]

theorem delete_fixup_subtree_idCounter (t : RedBlackTree) (repo : Repo) (node : Nat)
    (sib0 : Option NodeColor) (rot : Rotation) (cs : Child) :
    (delete_fixup_subtree t repo node sib0 rot cs).1.idCounter = t.idCounter := by
  unfold delete_fixup_subtree
  simp only []
  split
  · split <;>
      simp [rotate_idCounter, delete_fixup_close_step_idCounter,
        delete_fixup_sibling_step_idCounter]
  · simp [delete_fixup_sibling_step_idCounter]

theorem delete_fixup_go_idsList (fuel : Nat) : ∀ (t : RedBlackTree) (repo : Repo)
    (nc : Option NodeColor), (delete_fixup_go t repo fuel nc).2.idsList = repo.idsList := by
  induction fuel with
  | zero => intro t repo nc; cases nc <;> rfl
  | succ n ih =>
    intro t repo nc
    cases nc with
    | none => rfl
    | some c =>
      rw [delete_fixup_go]
      split
      · rw [ih, delete_fixup_subtree_idsList]
      · split <;> simp [Repo.idsList_update]

theorem delete_fixup_go_length (fuel : Nat) : ∀ (t : RedBlackTree) (repo : Repo)
    (nc : Option NodeColor), (delete_fixup_go t repo fuel nc).1.length = t.length := by
  induction fuel with
  | zero => intro t repo nc; cases nc <;> rfl
  | succ n ih =>
    intro t repo nc
    cases nc with
    | none => rfl
    | some c =>
      rw [delete_fixup_go]
      split
      · rw [ih, delete_fixup_subtree_length]
      · split <;> rfl

theorem delete_fixup_go_idCounter (fuel : Nat) : ∀ (t : RedBlackTree) (repo : Repo)
    (nc : Option NodeColor), (delete_fixup_go t repo fuel nc).1.idCounter = t.idCounter := by
  induction fuel with
  | zero => intro t repo nc; cases nc <;> rfl
  | succ n ih =>
    intro t repo nc
    cases nc with
    | none => rfl
    | some c =>
      rw [delete_fixup_go]
      split
      · rw [ih, delete_fixup_subtree_idCounter]
      · split <;> rfl

theorem delete_fixup_idsList (t : RedBlackTree) (repo : Repo) (node : Option Nat) :
    (delete_fixup t repo node).2.idsList = repo.idsList := by
  unfold delete_fixup
  simp only []
  generalize hgo : delete_fixup_go t repo (repo.size + 1)
      ((node.bind repo.get).map fun n => (⟨n.id, n.color⟩ : NodeColor)) = tr
  have h2 : tr.2.idsList = repo.idsList := by
    rw [← hgo]; exact delete_fixup_go_idsList _ _ _ _
  cases hr : tr.1.root <;> simp [hr, Repo.idsList_update, h2]

theorem delete_fixup_length (t : RedBlackTree) (repo : Repo) (node : Option Nat) :
    (delete_fixup t repo node).1.length = t.length := by
  unfold delete_fixup
  simp only []
  generalize hgo : delete_fixup_go t repo (repo.size + 1)
      ((node.bind repo.get).map fun n => (⟨n.id, n.color⟩ : NodeColor)) = tr
  have h2 : tr.1.length = t.length := by
    rw [← hgo]; exact delete_fixup_go_length _ _ _ _
  cases hr : tr.1.root <;> simp [hr, h2]

theorem delete_fixup_idCounter (t : RedBlackTree) (repo : Repo) (node : Option Nat) :
    (delete_fixup t repo node).1.idCounter = t.idCounter := by
  unfold delete_fixup
  simp only []
  generalize hgo : delete_fixup_go t repo (repo.size + 1)
      ((node.bind repo.get).map fun n => (⟨n.id, n.color⟩ : NodeColor)) = tr
  have h2 : tr.1.idCounter = t.idCounter := by
    rw [← hgo]; exact delete_fixup_go_idCounter _ _ _ _
  cases hr : tr.1.root <;> simp [hr, h2]

/-! ## Membership facts about the read-only helpers -/

theorem Repo.bind_get_mem (repo : Repo) {o : Option Nat} {n : Node}
    (h : o.bind repo.get = some n) : n ∈ repo.nodes ∧ n.id ∈ repo.idsList := by
  cases o with
  | none => simp at h
  | some j =>
    simp only [Option.some_bind] at h
    obtain ⟨hm, hid⟩ := repo.get_mem j n h
    exact ⟨hm, List.mem_map.2 ⟨n, hm, rfl⟩⟩

theorem Repo.getLeft_mem (repo : Repo) {i : Nat} {n : Node} (h : repo.getLeft i = some n) :
    n ∈ repo.nodes ∧ n.id ∈ repo.idsList := repo.bind_get_mem h

theorem Repo.getRight_mem (repo : Repo) {i : Nat} {n : Node} (h : repo.getRight i = some n) :
    n ∈ repo.nodes ∧ n.id ∈ repo.idsList := repo.bind_get_mem h

theorem Repo.getParent_mem (repo : Repo) {i : Nat} {n : Node} (h : repo.getParent i = some n) :
    n ∈ repo.nodes ∧ n.id ∈ repo.idsList := repo.bind_get_mem h

theorem find_node_go_some (repo : Repo) (v : Int) (fuel : Nat) :
    ∀ (cur : Option Nat) (n : Node), find_node_go repo v fuel cur = some n →
      n ∈ repo.nodes ∧ n.id ∈ repo.idsList ∧ n.key = v := by
  induction fuel with
  | zero => intro cur n h; cases cur <;> rw [find_node_go.eq_1] at h <;> simp at h
  | succ m ih =>
    intro cur n h
    cases cur with
    | none => rw [find_node_go.eq_2 _ _ _ (by simp)] at h; simp at h
    | some nid =>
      rw [find_node_go.eq_3] at h
      cases hg : repo.get nid with
      | none => rw [hg] at h; simp at h
      | some node =>
        rw [hg] at h
        simp only [] at h
        by_cases hk : node.key = v
        · rw [if_pos hk] at h
          have hnn : node = n := Option.some.inj h
          subst hnn
          obtain ⟨hm, hid⟩ := repo.get_mem nid node hg
          exact ⟨hm, List.mem_map.2 ⟨node, hm, rfl⟩, hk⟩
        · rw [if_neg hk] at h
          by_cases hlt : v < node.key
          · rw [if_pos hlt] at h; exact ih _ _ h
          · rw [if_neg hlt] at h; exact ih _ _ h

theorem find_node_some (t : RedBlackTree) (repo : Repo) (v : Int) (n : Node)
    (h : find_node t repo v = some n) :
    n ∈ repo.nodes ∧ n.id ∈ repo.idsList ∧ n.key = v :=
  find_node_go_some repo v _ _ n h

theorem tree_min_go_mem (repo : Repo) (fuel : Nat) :
    ∀ (cur : Option Node) (res : Option Nat) (i : Nat),
      (∀ n, cur = some n → n.id ∈ repo.idsList) →
      (∀ j, res = some j → j ∈ repo.idsList) →
      tree_min_go repo fuel cur res = some i → i ∈ repo.idsList := by
  induction fuel with
  | zero =>
    intro cur res i hc hr h
    cases cur <;> (rw [tree_min_go.eq_1] at h; exact hr i h)
  | succ m ih =>
    intro cur res i hc hr h
    cases cur with
    | none => rw [tree_min_go.eq_2 _ _ _ (by simp)] at h; exact hr i h
    | some n =>
      rw [tree_min_go.eq_3] at h
      refine ih _ _ _ ?_ ?_ h
      · intro n' hn'
        exact (repo.getLeft_mem hn').2
      · intro j hj
        cases hj
        exact hc n rfl

theorem tree_minimum_mem (repo : Repo) (o : Option Nat) (i : Nat)
    (h : tree_minimum repo o = some i) : i ∈ repo.idsList := by
  cases o with
  | none => simp [tree_minimum] at h
  | some nid =>
    rw [tree_minimum] at h
    refine tree_min_go_mem repo _ _ _ _ ?_ ?_ h
    · intro n hn
      exact List.mem_map.2 ⟨n, (repo.get_mem nid n hn).1, rfl⟩
    · intro j hj
      simp at hj

/-! ## Store bookkeeping of removal -/

theorem Repo.idsList_removeRec (repo : Repo) (i : Nat) :
    (repo.removeRec i).idsList = repo.idsList.filter (fun x => x != i) := by
  simp only [Repo.removeRec, Repo.idsList]
  induction repo.nodes with
  | nil => rfl
  | cons a l ih =>
    by_cases h : a.id = i <;>
      simp [List.filter_cons, h, ih]

@[simp] theorem Node.id_new (i : Nat) (k : Int) : (Node.new i k).id = i := rfl

@[simp] theorem Repo.mk_nodes (repo : Repo) : (⟨repo.nodes⟩ : Repo) = repo := rfl

@[simp] theorem Repo.idsList_cons (n : Node) (l : List Node) :
    Repo.idsList ⟨n :: l⟩ = n.id :: Repo.idsList ⟨l⟩ := by
  simp [Repo.idsList]

theorem Repo.get_map_id_of_mem (repo : Repo) (i : Nat) (h : i ∈ repo.idsList) :
    (repo.get i).map Node.id = some i := by
  obtain ⟨n, hn⟩ := Option.isSome_iff_exists.1 (repo.get_isSome_of_mem i h)
  rw [hn]
  simp [(repo.get_mem i n hn).2]

/-! ## Effect of one insert on the bookkeeping state -/

theorem insert_step (t : RedBlackTree) (repo : Repo) (k : Int)
    (hfresh : t.idCounter + 1 ∉ repo.idsList) :
    (insert t repo k).1.length = t.length + 1 ∧
    (insert t repo k).1.idCounter = t.idCounter + 1 ∧
    (insert t repo k).2.idsList = (t.idCounter + 1) :: repo.idsList := by
  have hget : repo.get (t.idCounter + 1) = none := repo.get_none_of_not_mem _ hfresh
  unfold insert
  cases hroot : t.root with
  | none =>
    simp [hroot, Repo.add, hget, insert_fixup_length, insert_fixup_idCounter,
      insert_fixup_idsList]
  | some r =>
    simp only [hroot]
    refine ⟨?_, ?_, ?_⟩
    · split <;>
        simp [Repo.add, hget, insert_fixup_length]
    · split <;>
        simp [Repo.add, hget, insert_fixup_idCounter]
    · split <;>
      · rw [insert_fixup_idsList]
        first
        | (split <;>
            simp [Repo.add, hget, Repo.idsList_update])
        | simp [Repo.add, hget, Repo.idsList_update]

/-! ## Effect of one delete on the bookkeeping state -/

theorem delete_of_find_none (t : RedBlackTree) (repo : Repo) (k : Int)
    (h : find_node t repo k = none) : delete t repo k = (t, repo, none) := by
  unfold delete
  rw [h]

theorem delete_hit (t : RedBlackTree) (repo : Repo) (k : Int) (found : Node)
    (hf : find_node t repo k = some found) :
    (delete t repo k).1.idCounter = t.idCounter ∧
    (delete t repo k).1.length = t.length - 1 ∧
    ∃ i ∈ repo.idsList, (delete t repo k).2.1.idsList = repo.idsList.filter (fun x => x != i) ∧
      (delete t repo k).2.2 = some i := by
  have hmem0 : found.id ∈ repo.idsList := (find_node_some t repo k found hf).2.1
  unfold delete
  rw [hf]
  simp only []
  cases hoc : get_if_one_child repo found.id with
  | some childId =>
    try dsimp only
    refine ⟨?_, ?_, found.id, hmem0, ?_, ?_⟩
    · split <;> simp [delete_fixup_idCounter, replace_idCounter]
    · split <;> simp [delete_fixup_length, replace_length]
    · rw [Repo.idsList_removeRec]
      split <;> simp [delete_fixup_idsList, replace_idsList]
    · try dsimp only
      apply Repo.get_map_id_of_mem
      split
      · rw [delete_fixup_idsList, replace_idsList]; exact hmem0
      · rw [replace_idsList]; exact hmem0
  | none =>
    try dsimp only
    cases hmin : tree_minimum repo ((repo.getRight found.id).map Node.id) with
    | some rid =>
      try dsimp only
      have hridmem : rid ∈ repo.idsList := tree_minimum_mem repo _ rid hmin
      refine ⟨?_, ?_, rid, hridmem, ?_, ?_⟩
      · split <;>
          simp [delete_fixup_idCounter, replace_idCounter]
      · split <;>
          simp [delete_fixup_length, replace_length]
      · rw [Repo.idsList_removeRec]
        split <;>
          simp [delete_fixup_idsList, replace_idsList, Repo.idsList_update]
      · try dsimp only
        apply Repo.get_map_id_of_mem
        split
        · rw [delete_fixup_idsList, replace_idsList, Repo.idsList_update _ _ _ (by simp)]
          exact hridmem
        · rw [replace_idsList, Repo.idsList_update _ _ _ (by simp)]
          exact hridmem
    | none =>
      try dsimp only
      refine ⟨?_, ?_, found.id, hmem0, ?_, ?_⟩
      · split <;> simp [delete_fixup_idCounter, replace_idCounter]
      · split <;> simp [delete_fixup_length, replace_length]
      · rw [Repo.idsList_removeRec]
        split <;> simp [delete_fixup_idsList, replace_idsList]
      · try dsimp only
        apply Repo.get_map_id_of_mem
        split
        · rw [delete_fixup_idsList, replace_idsList]; exact hmem0
        · rw [replace_idsList]; exact hmem0

theorem sizeInv_init : SizeInv initState := by
  refine ⟨List.nodup_nil, rfl, ?_⟩
  intro i hi
  simp [initState, Repo.idsList] at hi

theorem countStep_inv (s : SysState) (a b : Nat) (op : Op)
    (hinv : SizeInv s) (hc : s.tree.length + b = a) :
    SizeInv (countStep (s, a, b) op).1 ∧
    (countStep (s, a, b) op).1.tree.length + (countStep (s, a, b) op).2.2 =
      (countStep (s, a, b) op).2.1 := by
  obtain ⟨hnd, hlen, hbound⟩ := hinv
  cases op with
  | ins k =>
    have hfresh : s.tree.idCounter + 1 ∉ s.repo.idsList := by
      intro hmem
      exact absurd (hbound _ hmem) (by omega)
    obtain ⟨h1, h2, h3⟩ := insert_step s.tree s.repo k hfresh
    refine ⟨⟨?_, ?_, ?_⟩, ?_⟩
    · show ((insert s.tree s.repo k).2.idsList).Nodup
      rw [h3]
      exact List.nodup_cons.2 ⟨hfresh, hnd⟩
    · show ((insert s.tree s.repo k).2.idsList).length = (insert s.tree s.repo k).1.length
      rw [h3, h1]
      simp [hlen]
    · show ∀ i ∈ (insert s.tree s.repo k).2.idsList, i ≤ (insert s.tree s.repo k).1.idCounter
      rw [h3, h2]
      intro i hi
      rcases List.mem_cons.1 hi with h | h
      · omega
      · exact Nat.le_trans (hbound i h) (Nat.le_succ _)
    · show (insert s.tree s.repo k).1.length + b = a + 1
      rw [h1]
      omega
  | del k =>
    cases hfind : find_node s.tree s.repo k with
    | none =>
      have hdel := delete_of_find_none s.tree s.repo k hfind
      constructor
      · show SizeInv ⟨(delete s.tree s.repo k).1, (delete s.tree s.repo k).2.1⟩
        rw [hdel]
        exact ⟨hnd, hlen, hbound⟩
      · show (delete s.tree s.repo k).1.length +
            (b + if (delete s.tree s.repo k).2.2.isSome then 1 else 0) = a
        rw [hdel]
        simp
        omega
    | some found =>
      obtain ⟨h1, h2, i, hi, h3, h4⟩ := delete_hit s.tree s.repo k found hfind
      have hpos : 1 ≤ s.tree.length := by
        rw [← hlen]
        exact List.length_pos.2 (List.ne_nil_of_mem hi)
      have hfe : s.repo.idsList.filter (fun x => x != i) = s.repo.idsList.erase i :=
        (List.Nodup.erase_eq_filter hnd i).symm
      refine ⟨⟨?_, ?_, ?_⟩, ?_⟩
      · show ((delete s.tree s.repo k).2.1.idsList).Nodup
        rw [h3, hfe]
        exact hnd.erase i
      · show ((delete s.tree s.repo k).2.1.idsList).length = (delete s.tree s.repo k).1.length
        rw [h3, hfe, h2, ← hlen]
        have := List.length_erase_add_one hi
        omega
      · show ∀ j ∈ (delete s.tree s.repo k).2.1.idsList, j ≤ (delete s.tree s.repo k).1.idCounter
        rw [h3, hfe, h1]
        intro j hj
        exact hbound j (List.mem_of_mem_erase hj)
      · show (delete s.tree s.repo k).1.length +
            (b + if (delete s.tree s.repo k).2.2.isSome then 1 else 0) = a
        rw [h2, h4]
        simp
        omega

theorem runCount_aux (ops : List Op) : ∀ (s : SysState) (a b : Nat),
    SizeInv s → s.tree.length + b = a →
    SizeInv (ops.foldl countStep (s, a, b)).1 ∧
    (ops.foldl countStep (s, a, b)).1.tree.length + (ops.foldl countStep (s, a, b)).2.2 =
      (ops.foldl countStep (s, a, b)).2.1 := by
  induction ops with
  | nil => intro s a b h1 h2; exact ⟨h1, h2⟩
  | cons op rest ih =>
    intro s a b h1 h2
    rw [List.foldl_cons]
    obtain ⟨h3, h4⟩ := countStep_inv s a b op h1 h2
    have heta : countStep (s, a, b) op =
        ((countStep (s, a, b) op).1, (countStep (s, a, b) op).2.1,
          (countStep (s, a, b) op).2.2) := rfl
    rw [heta]
    exact ih _ _ _ h3 h4

theorem runCount_fst_aux (ops : List Op) : ∀ (s : SysState) (a b : Nat),
    (ops.foldl countStep (s, a, b)).1 = ops.foldl opStep s := by
  induction ops with
  | nil => intro s a b; rfl
  | cons op rest ih =>
    intro s a b
    rw [List.foldl_cons, List.foldl_cons]
    have hstep : (countStep (s, a, b) op).1 = opStep s op := by
      cases op <;> rfl
    have heta : countStep (s, a, b) op =
        ((countStep (s, a, b) op).1, (countStep (s, a, b) op).2.1,
          (countStep (s, a, b) op).2.2) := rfl
    rw [heta, hstep]
    exact ih _ _ _

theorem runCount_fst (ops : List Op) : (runCount ops).1 = runOps ops :=
  runCount_fst_aux ops initState 0 0

theorem sizeInv_runOps (ops : List Op) : SizeInv (runOps ops) := by
  rw [← runCount_fst ops]
  exact (runCount_aux ops initState 0 0 sizeInv_init rfl).1

/-- C8: after any sequence of operations on an initially empty tree, length
equals the number of insert calls minus the number of successful delete calls
(stated additively), and pointwise: an insert increments length by one, a
delete that finds its key decrements it by one, and a delete miss leaves it
unchanged. -/
theorem C8_length_is_net_inserts :
    (∀ ops : List Op, (runOps ops).tree.length + (runCount ops).2.2 = (runCount ops).2.1) ∧
    (∀ (ops : List Op) (k : Int),
      (applyOp (runOps ops) (Op.ins k)).1.tree.length = (runOps ops).tree.length + 1) ∧
    (∀ (ops : List Op) (k : Int), (applyOp (runOps ops) (Op.del k)).2.isSome = true →
      (applyOp (runOps ops) (Op.del k)).1.tree.length + 1 = (runOps ops).tree.length) ∧
    (∀ (ops : List Op) (k : Int), (applyOp (runOps ops) (Op.del k)).2 = none →
      (applyOp (runOps ops) (Op.del k)).1.tree.length = (runOps ops).tree.length) := by
  refine ⟨?_, ?_, ?_, ?_⟩
  · intro ops
    rw [← runCount_fst ops]
    exact (runCount_aux ops initState 0 0 sizeInv_init rfl).2
  · intro ops k
    obtain ⟨hnd, hlen, hbound⟩ := sizeInv_runOps ops
    have hfresh : (runOps ops).tree.idCounter + 1 ∉ (runOps ops).repo.idsList := by
      intro hm
      exact absurd (hbound _ hm) (by omega)
    exact (insert_step _ _ k hfresh).1
  · intro ops k hhit
    cases hfind : find_node (runOps ops).tree (runOps ops).repo k with
    | none =>
      have hdel := delete_of_find_none _ _ k hfind
      have : (applyOp (runOps ops) (Op.del k)).2 = none := by
        show (delete (runOps ops).tree (runOps ops).repo k).2.2 = none
        rw [hdel]
      rw [this] at hhit
      simp at hhit
    | some found =>
      obtain ⟨h1, h2, i, hi, h3, h4⟩ := delete_hit _ _ k found hfind
      obtain ⟨hnd, hlen, hbound⟩ := sizeInv_runOps ops
      have hpos : 1 ≤ (runOps ops).tree.length := by
        rw [← hlen]
        exact List.length_pos.2 (List.ne_nil_of_mem hi)
      show (delete (runOps ops).tree (runOps ops).repo k).1.length + 1 =
        (runOps ops).tree.length
      rw [h2]
      omega
  · intro ops k hmiss
    cases hfind : find_node (runOps ops).tree (runOps ops).repo k with
    | none =>
      have hdel := delete_of_find_none _ _ k hfind
      show (delete (runOps ops).tree (runOps ops).repo k).1.length = (runOps ops).tree.length
      rw [hdel]
    | some found =>
      obtain ⟨h1, h2, i, hi, h3, h4⟩ := delete_hit _ _ k found hfind
      have : (applyOp (runOps ops) (Op.del k)).2 = some i := by
        show (delete (runOps ops).tree (runOps ops).repo k).2.2 = some i
        exact h4
      rw [this] at hmiss
      simp at hmiss

/-- Closed instantiation of the hypotheses of the C8 theorem: a successful
delete after one insert, and a delete miss on the empty tree. -/
theorem C8_length_is_net_inserts_witness :
    (applyOp (runOps [Op.ins 1]) (Op.del 1)).1.tree.length + 1 =
      (runOps [Op.ins 1]).tree.length ∧
    (applyOp (runOps []) (Op.del 5)).1.tree.length = (runOps []).tree.length :=
  ⟨C8_length_is_net_inserts.2.2.1 [Op.ins 1] 1 (by decide),
   C8_length_is_net_inserts.2.2.2 [] 5 (by decide)⟩

/-! ## Pointwise store lookups through updates -/

theorem Repo.get_update_pred (repo : Repo) (i : Nat) (f : Node → Node)
    (hf : ∀ n, (f n).id = n.id) (j : Nat) :
    (repo.update i f).get j =
      (repo.nodes.find? (fun n => n.id == j)).map (fun n => if n.id == i then f n else n) := by
  unfold Repo.get Repo.update
  rw [List.find?_map]
  have hpq : ((fun n : Node => n.id == j) ∘ fun n => if n.id == i then f n else n) =
      (fun n : Node => n.id == j) := by
    funext n
    by_cases h : n.id = i <;> simp [h, hf]
  rw [hpq]

theorem Repo.get_update_self (repo : Repo) (i : Nat) (f : Node → Node)
    (hf : ∀ n, (f n).id = n.id) : (repo.update i f).get i = (repo.get i).map f := by
  rw [Repo.get_update_pred repo i f hf i]
  show _ = (repo.nodes.find? (fun n => n.id == i)).map f
  cases hfind : repo.nodes.find? (fun n => n.id == i) with
  | none => rfl
  | some n =>
    have hn := List.find?_some hfind
    simp only [beq_iff_eq] at hn
    simp [hn]

theorem Repo.get_update_ne (repo : Repo) (i j : Nat) (f : Node → Node)
    (hf : ∀ n, (f n).id = n.id) (hne : j ≠ i) : (repo.update i f).get j = repo.get j := by
  rw [Repo.get_update_pred repo i f hf j]
  show _ = repo.nodes.find? (fun n => n.id == j)
  cases hfind : repo.nodes.find? (fun n => n.id == j) with
  | none => rfl
  | some n =>
    have hn := List.find?_some hfind
    simp only [beq_iff_eq] at hn
    have : ¬ n.id = i := by rw [hn]; exact hne
    simp [this]

theorem Repo.get_removeRec_self (repo : Repo) (i : Nat) : (repo.removeRec i).get i = none := by
  unfold Repo.get Repo.removeRec
  induction repo.nodes with
  | nil => rfl
  | cons a l ih =>
    rw [List.filter_cons]
    by_cases h : a.id = i
    · rw [if_neg (by simp [bne_iff_ne, h])]
      exact ih
    · rw [if_pos (by simp [bne_iff_ne, h]), List.find?_cons_of_neg _ (by simp [h])]
      exact ih

theorem Repo.get_removeRec_ne (repo : Repo) (i j : Nat) (hne : j ≠ i) :
    (repo.removeRec i).get j = repo.get j := by
  unfold Repo.get Repo.removeRec
  induction repo.nodes with
  | nil => rfl
  | cons a l ih =>
    rw [List.filter_cons]
    by_cases h : a.id = i
    · have h2 : ¬ (a.id == j) = true := by
        simp only [beq_iff_eq, h]
        exact fun hh => hne hh.symm
      have hcons : List.find? (fun n : Node => n.id == j) (a :: l) =
          List.find? (fun n : Node => n.id == j) l := List.find?_cons_of_neg _ h2
      rw [if_neg (by simp [bne_iff_ne, h]), hcons]
      exact ih
    · rw [if_pos (by simp [bne_iff_ne, h])]
      by_cases h3 : a.id = j
      · have hc1 : List.find? (fun n : Node => n.id == j)
            (a :: List.filter (fun n => n.id != i) l) = some a :=
          List.find?_cons_of_pos _ (by simp [h3])
        have hc2 : List.find? (fun n : Node => n.id == j) (a :: l) = some a :=
          List.find?_cons_of_pos _ (by simp [h3])
        rw [hc1, hc2]
      · have hc1 : List.find? (fun n : Node => n.id == j)
            (a :: List.filter (fun n => n.id != i) l) =
            List.find? (fun n : Node => n.id == j) (List.filter (fun n => n.id != i) l) :=
          List.find?_cons_of_neg _ (by simp [h3])
        have hc2 : List.find? (fun n : Node => n.id == j) (a :: l) =
            List.find? (fun n : Node => n.id == j) l := List.find?_cons_of_neg _ (by simp [h3])
        rw [hc1, hc2]
        exact ih

/-! ## Keys are never changed by the rebalancing helpers -/

theorem Repo.keys_update (repo : Repo) (i : Nat) (f : Node → Node)
    (hf : ∀ n, (f n).id = n.id) (hk : ∀ n, (f n).key = n.key) (j : Nat) :
    ((repo.update i f).get j).map Node.key = (repo.get j).map Node.key := by
  by_cases h : j = i
  · subst h
    rw [Repo.get_update_self repo j f hf]
    cases repo.get j <;> simp [hk]
  · rw [Repo.get_update_ne repo i j f hf h]

theorem Repo.keys_updateOpt (repo : Repo) (o : Option Nat) (f : Node → Node)
    (hf : ∀ n, (f n).id = n.id) (hk : ∀ n, (f n).key = n.key) (j : Nat) :
    ((repo.updateOpt o f).get j).map Node.key = (repo.get j).map Node.key := by
  cases o with
  | none => rfl
  | some i => exact Repo.keys_update repo i f hf hk j

theorem keys_set_child_side (repo : Repo) (p : Nat) (side : Option Child) (c : Option Nat)
    (j : Nat) :
    ((set_child_side repo p side c).get j).map Node.key = (repo.get j).map Node.key := by
  cases side with
  | none => rfl
  | some ch => cases ch <;> exact Repo.keys_update repo p _ (by simp) (by simp [Node.setLeftChild, Node.setRightChild]) j

@[simp] theorem Node.key_setColor (n : Node) (c : Color) : (n.setColor c).key = n.key := rfl

@[simp] theorem Node.key_setParent (n : Node) (p : Option Nat) :
    (n.setParent p).key = n.key := rfl

@[simp] theorem Node.key_setLeftChild (n : Node) (x : Option Nat) :
    (n.setLeftChild x).key = n.key := rfl

@[simp] theorem Node.key_setRightChild (n : Node) (x : Option Nat) :
    (n.setRightChild x).key = n.key := rfl

theorem rotate_keys (t : RedBlackTree) (repo : Repo) (c : Nat) (r : Rotation) (j : Nat) :
    ((rotate t repo c r).2.get j).map Node.key = (repo.get j).map Node.key := by
  cases r with
  | Left =>
    unfold rotate
    cases hp : (get_relatives repo c Rotation.Left).parent <;>
      simp [hp, Repo.keys_update, Repo.keys_updateOpt, keys_set_child_side]
  | Right =>
    unfold rotate
    cases hp : (get_relatives repo c Rotation.Right).parent <;>
      simp [hp, Repo.keys_update, Repo.keys_updateOpt, keys_set_child_side]

theorem delete_fixup_sibling_step_keys (t : RedBlackTree) (repo : Repo) (node parentId : Nat)
    (sib0 : Option NodeColor) (rot : Rotation) (cs : Child) (j : Nat) :
    ((delete_fixup_sibling_step t repo node parentId sib0 rot cs).2.1.get j).map Node.key =
      (repo.get j).map Node.key := by
  unfold delete_fixup_sibling_step
  cases sib0 with
  | none => rfl
  | some s =>
    simp only []
    split
    · cases cs <;>
        simp [rotate_keys, Repo.keys_update, Repo.keys_updateOpt]
    · rfl

theorem delete_fixup_close_step_keys (t : RedBlackTree) (repo : Repo) (parentId : Nat)
    (sibling closeNephew : Option Nat) (rot : Rotation) (cs : Child) (j : Nat) :
    ((delete_fixup_close_step t repo parentId sibling closeNephew rot cs).2.1.get j).map
      Node.key = (repo.get j).map Node.key := by
  unfold delete_fixup_close_step
  cases sibling <;> cases cs <;>
    simp [rotate_keys, Repo.keys_update, Repo.keys_updateOpt]

theorem delete_fixup_subtree_keys (t : RedBlackTree) (repo : Repo) (node : Nat)
    (sib0 : Option NodeColor) (rot : Rotation) (cs : Child) (j : Nat) :
    ((delete_fixup_subtree t repo node sib0 rot cs).2.1.get j).map Node.key =
      (repo.get j).map Node.key := by
  unfold delete_fixup_subtree
  simp only []
  split
  · split <;>
      simp [rotate_keys, Repo.keys_update, Repo.keys_updateOpt,
        delete_fixup_close_step_keys, delete_fixup_sibling_step_keys]
  · simp [Repo.keys_updateOpt, delete_fixup_sibling_step_keys]

theorem delete_fixup_go_keys (fuel : Nat) : ∀ (t : RedBlackTree) (repo : Repo)
    (nc : Option NodeColor) (j : Nat),
    ((delete_fixup_go t repo fuel nc).2.get j).map Node.key = (repo.get j).map Node.key := by
  induction fuel with
  | zero => intro t repo nc j; cases nc <;> rfl
  | succ n ih =>
    intro t repo nc j
    cases nc with
    | none => rfl
    | some c =>
      rw [delete_fixup_go]
      split
      · rw [ih, delete_fixup_subtree_keys]
      · split <;> simp [Repo.keys_update]

theorem delete_fixup_keys (t : RedBlackTree) (repo : Repo) (node : Option Nat) (j : Nat) :
    ((delete_fixup t repo node).2.get j).map Node.key = (repo.get j).map Node.key := by
  unfold delete_fixup
  simp only []
  generalize hgo : delete_fixup_go t repo (repo.size + 1)
      ((node.bind repo.get).map fun n => (⟨n.id, n.color⟩ : NodeColor)) = tr
  have h2 : ∀ j, (tr.2.get j).map Node.key = (repo.get j).map Node.key := by
    intro j
    rw [← hgo]
    exact delete_fixup_go_keys _ _ _ _ _
  cases hr : tr.1.root <;> simp [hr, Repo.keys_update, h2]

theorem replace_keys (t : RedBlackTree) (repo : Repo) (removable : Nat)
    (replacement : Option Nat) (j : Nat) :
    ((replace t repo removable replacement).2.get j).map Node.key =
      (repo.get j).map Node.key := by
  unfold replace
  cases hrl : ((repo.getParent removable).map Node.id).map (fun p =>
      match repo.getLeft p with
      | some l => node_is removable (some l.id)
      | none => false) with
  | none => simp [hrl, Repo.keys_updateOpt]
  | some b => cases b <;> simp [hrl, Repo.keys_updateOpt, Repo.keys_update]

theorem find_node_go_get (repo : Repo) (v : Int) (fuel : Nat) :
    ∀ (cur : Option Nat) (n : Node), find_node_go repo v fuel cur = some n →
      repo.get n.id = some n := by
  induction fuel with
  | zero => intro cur n h; cases cur <;> rw [find_node_go.eq_1] at h <;> simp at h
  | succ m ih =>
    intro cur n h
    cases cur with
    | none => rw [find_node_go.eq_2 _ _ _ (by simp)] at h; simp at h
    | some nid =>
      rw [find_node_go.eq_3] at h
      cases hg : repo.get nid with
      | none => rw [hg] at h; simp at h
      | some node =>
        rw [hg] at h
        simp only [] at h
        by_cases hk : node.key = v
        · rw [if_pos hk] at h
          have hnn : node = n := Option.some.inj h
          subst hnn
          rw [(repo.get_mem nid node hg).2]
          exact hg
        · rw [if_neg hk] at h
          by_cases hlt : v < node.key
          · rw [if_pos hlt] at h; exact ih _ _ h
          · rw [if_neg hlt] at h; exact ih _ _ h

theorem find_node_get (t : RedBlackTree) (repo : Repo) (v : Int) (z : Node)
    (h : find_node t repo v = some z) : repo.get z.id = some z :=
  find_node_go_get repo v _ _ z h

/-- C10 (amended): when delete finds a node with two children, the returned
identifier is the in-order successor's (computed by tree_minimum on the right
subtree), the successor's record is the one removed from the store, and the
matched node keeps its identifier and receives the successor's key (its color
may be changed by the subsequent delete-fixup); when the found node has at
most one child, the returned identifier is the matched node's own and its
record is removed from the store. -/
theorem C10_delete_returns_successor (t : RedBlackTree) (repo : Repo) (k : Int) (z : Node)
    (hf : find_node t repo k = some z) :
    (∀ (lc rc : Node) (y : Nat), repo.getLeft z.id = some lc →
        repo.getRight z.id = some rc →
        tree_minimum repo (some rc.id) = some y → y ≠ z.id →
        (delete t repo k).2.2 = some y ∧
        (delete t repo k).2.1.get y = none ∧
        ((delete t repo k).2.1.get z.id).map Node.id = some z.id ∧
        ((delete t repo k).2.1.get z.id).map Node.key = (repo.get y).map Node.key) ∧
    (repo.getLeft z.id = none ∨ repo.getRight z.id = none →
        (delete t repo k).2.2 = some z.id ∧
        (delete t repo k).2.1.get z.id = none) := by
  have hzmem : z.id ∈ repo.idsList := (find_node_some t repo k z hf).2.1
  constructor
  · intro lc rc y hl hr hmin hyz
    have hoc : get_if_one_child repo z.id = none := by
      simp [get_if_one_child, hl, hr]
    have hymem : y ∈ repo.idsList := tree_minimum_mem repo _ y hmin
    obtain ⟨ny, hny⟩ := Option.isSome_iff_exists.1 (repo.get_isSome_of_mem y hymem)
    unfold delete
    rw [hf]
    simp only []
    rw [hoc]
    simp only []
    have hrcid : (repo.getRight z.id).map Node.id = some rc.id := by rw [hr]; rfl
    rw [hrcid, hmin]
    simp only []
    refine ⟨?_, ?_, ?_, ?_⟩
    · show ((if _ then _ else _ : RedBlackTree × Repo).2.get y).map Node.id = some y
      apply Repo.get_map_id_of_mem
      split
      · rw [delete_fixup_idsList, replace_idsList, Repo.idsList_update _ _ _ (by simp)]
        exact hymem
      · rw [replace_idsList, Repo.idsList_update _ _ _ (by simp)]
        exact hymem
    · exact Repo.get_removeRec_self _ y
    · rw [Repo.get_removeRec_ne _ y z.id (fun hh => hyz hh.symm)]
      apply Repo.get_map_id_of_mem
      split
      · rw [delete_fixup_idsList, replace_idsList, Repo.idsList_update _ _ _ (by simp)]
        exact hzmem
      · rw [replace_idsList, Repo.idsList_update _ _ _ (by simp)]
        exact hzmem
    · rw [Repo.get_removeRec_ne _ y z.id (fun hh => hyz hh.symm)]
      have hchain : ∀ j, ((if ((repo.get y).getD default).color = Color.Black then
            delete_fixup
              (replace t (repo.update z.id fun n =>
                n.setKey ((repo.get y).getD default).key) y
                ((((repo.update z.id fun n =>
                  n.setKey ((repo.get y).getD default).key)).getRight y).map Node.id)).1
              (replace t (repo.update z.id fun n =>
                n.setKey ((repo.get y).getD default).key) y
                ((((repo.update z.id fun n =>
                  n.setKey ((repo.get y).getD default).key)).getRight y).map Node.id)).2
              ((((repo.update z.id fun n =>
                n.setKey ((repo.get y).getD default).key)).getRight y).map Node.id)
          else
            replace t (repo.update z.id fun n =>
              n.setKey ((repo.get y).getD default).key) y
              ((((repo.update z.id fun n =>
                n.setKey ((repo.get y).getD default).key)).getRight y).map Node.id)).2.get
            j).map Node.key =
          (((repo.update z.id fun n =>
            n.setKey ((repo.get y).getD default).key)).get j).map Node.key := by
        intro j
        split
        · rw [delete_fixup_keys, replace_keys]
        · rw [replace_keys]
      rw [hchain z.id,
        Repo.get_update_self repo z.id _ (by simp [Node.setKey]),
        find_node_get t repo k z hf, hny]
      simp [Node.setKey]
  · intro hone
    unfold delete
    rw [hf]
    simp only []
    cases hoc : get_if_one_child repo z.id with
    | some childId =>
      try dsimp only
      constructor
      · apply Repo.get_map_id_of_mem
        split
        · rw [delete_fixup_idsList, replace_idsList]
          exact hzmem
        · rw [replace_idsList]
          exact hzmem
      · exact Repo.get_removeRec_self _ z.id
    | none =>
      have hrn : repo.getRight z.id = none := by
        rcases hone with hone | hone
        · by_contra hcon
          cases hre : repo.getRight z.id with
          | none => exact hcon hre
          | some rc =>
            have : get_if_one_child repo z.id = some rc.id := by
              simp [get_if_one_child, hone, hre]
            rw [this] at hoc
            simp at hoc
        · exact hone
      try dsimp only
      have hrcid : (repo.getRight z.id).map Node.id = none := by rw [hrn]; rfl
      rw [hrcid]
      have hmin0 : tree_minimum repo none = none := rfl
      rw [hmin0]
      try dsimp only
      constructor
      · apply Repo.get_map_id_of_mem
        split
        · rw [delete_fixup_idsList, replace_idsList]
          exact hzmem
        · rw [replace_idsList]
          exact hzmem
      · exact Repo.get_removeRec_self _ z.id

/-- Closed instantiation of the C10 theorem: the two-children delete of key 7
in the tenOpsPrefix run (successor id 4), and the one-child delete of key 1
after inserting 1 and 2. -/
theorem C10_delete_returns_successor_witness :
    ((delete (runOps tenOpsPrefix).tree (runOps tenOpsPrefix).repo 7).2.2 = some 4 ∧
     (delete (runOps tenOpsPrefix).tree (runOps tenOpsPrefix).repo 7).2.1.get 4 = none ∧
     ((delete (runOps tenOpsPrefix).tree (runOps tenOpsPrefix).repo 7).2.1.get 2).map
        Node.id = some 2 ∧
     ((delete (runOps tenOpsPrefix).tree (runOps tenOpsPrefix).repo 7).2.1.get 2).map
        Node.key = ((runOps tenOpsPrefix).repo.get 4).map Node.key) ∧
    ((delete (runOps [Op.ins 1, Op.ins 2]).tree
        (runOps [Op.ins 1, Op.ins 2]).repo 1).2.2 = some 1 ∧
     (delete (runOps [Op.ins 1, Op.ins 2]).tree
        (runOps [Op.ins 1, Op.ins 2]).repo 1).2.1.get 1 = none) :=
  ⟨(C10_delete_returns_successor _ _ 7 (Node.mk 2 Color.Red 7 (some 5) (some 7) (some 4))
      (by decide)).1
      (Node.mk 7 Color.Black 3 (some 2) none (some 10))
      (Node.mk 4 Color.Black 7 (some 2) none (some 8)) 4
      (by decide) (by decide) (by decide) (by decide),
   (C10_delete_returns_successor _ _ 1 (Node.mk 1 Color.Black 1 none none (some 2))
      (by decide)).2 (Or.inl (by decide))⟩

/-! ## Claim theorems -/

/-- C3: the claim says that after every completed insert or delete no Red node
has a Red parent.  The code violates this: after the eight ascending inserts
1..8 the node holding key 6 is Red while its parent (the node holding key 4)
is also Red, because the red-uncle fixup case hands back its continuation
tagged Black, which ends the fixup loop before the pushed-up violation at the
grandparent is examined. -/
theorem C3_red_red_violated_after_ascending_inserts :
    ((runOps ascendingEight).repo.get 6).map Node.color = some Color.Red ∧
    ((runOps ascendingEight).repo.get 6).bind Node.parent = some 4 ∧
    ((runOps ascendingEight).repo.get 4).map Node.color = some Color.Red ∧
    redRedOk (runOps ascendingEight).tree (runOps ascendingEight).repo = false := by
  decide

/-- C4: the claim says black-height stays uniform after every completed public
operation.  The code violates this: deleting the black leaf 1 from the tree
built by inserting 1, 2, 3, 4 records a Black removed color with an absent
replacement position, so delete_fixup does nothing and the resulting tree has
paths with different black counts. -/
theorem C4_black_height_broken_after_black_leaf_delete :
    blackHeightUniform (runOps blackLeafDelete).tree (runOps blackLeafDelete).repo = false := by
  decide

/-- C5: the claim says that after the red-uncle recoloring the fixup loop
continues from the grandparent G so a violation created at G is repaired
before insert returns.  In the code the continuation returned by the
red-uncle case always carries color Black even though G was just colored Red,
and the loop stops immediately on a Black continuation; consequently after
the ascending inserts 1..8 the red-red violation created at the node holding
key 6 persists when insert returns. -/
theorem C5_uncle_red_continuation_reported_black :
    (∀ (t : RedBlackTree) (repo : Repo) (currentId : Nat) (child : Child) (p : Node),
        repo.getParent currentId = some p →
        uncle_is_red repo (find_uncle repo currentId) = true →
        ∃ g, (insert_fixup_subtree t repo currentId child).2.2 = some ⟨g, Color.Black⟩) ∧
    (∀ (t : RedBlackTree) (repo : Repo) (fuel : Nat) (g : Nat),
        insert_fixup_go t repo (fuel + 1) (some ⟨g, Color.Black⟩) = (t, repo)) ∧
    (((runOps ascendingEight).repo.get 6).map Node.color = some Color.Red ∧
     ((runOps ascendingEight).repo.getParent 6).map Node.color = some Color.Red) := by
  refine ⟨?_, ?_, by decide⟩
  · intro t repo currentId child p hp hu
    unfold insert_fixup_subtree
    rw [hp]
    simp only [hu, if_true]
    exact ⟨_, rfl⟩
  · intro t repo fuel g
    simp [insert_fixup_go]

/-- Closed instantiation of the hypotheses of the C5 theorem on a concrete
store in which node 4 has the red uncle 3. -/
theorem C5_uncle_red_continuation_reported_black_witness :
    ∃ g, (insert_fixup_subtree RedBlackTree.new redUncleRepo 4 Child.Left).2.2 =
      some ⟨g, Color.Black⟩ :=
  C5_uncle_red_continuation_reported_black.1 RedBlackTree.new redUncleRepo 4 Child.Left
    (Node.mk 2 Color.Red 5 (some 1) (some 4) none) (by decide) (by decide)

/-- C6: the claim says that when the removed node's recorded color is Black,
delete-fixup runs at the replacement position even when that position is
absent, so the double-black deficiency is repaired.  In the code delete_fixup
invoked with an absent position only recolors the root and repairs nothing:
deleting the black childless node 1 from the tree built by inserting
1, 2, 3, 4 leaves black-height non-uniform. -/
theorem C6_fixup_is_noop_at_absent_position :
    (∀ (t : RedBlackTree) (repo : Repo),
        delete_fixup t repo none =
          (t, match t.root with
              | some r => repo.update r (fun n => n.setColor Color.Black)
              | none => repo)) ∧
    ((find_node (runOps [Op.ins 1, Op.ins 2, Op.ins 3, Op.ins 4]).tree
        (runOps [Op.ins 1, Op.ins 2, Op.ins 3, Op.ins 4]).repo 1).map Node.color =
        some Color.Black ∧
      get_if_one_child (runOps [Op.ins 1, Op.ins 2, Op.ins 3, Op.ins 4]).repo 1 = none ∧
      (runOps [Op.ins 1, Op.ins 2, Op.ins 3, Op.ins 4]).repo.getRight 1 = none ∧
      blackHeightUniform (runOps blackLeafDelete).tree (runOps blackLeafDelete).repo = false) := by
  refine ⟨?_, by decide⟩
  intro t repo
  cases h : t.root <;> simp [delete_fixup, delete_fixup_go, h]

/-- C7: delete of an absent key returns the not-found result and mutates
nothing: the store, root and length are returned exactly as they were. -/
theorem C7_delete_miss_no_mutation (t : RedBlackTree) (repo : Repo) (k : Int)
    (h : find_node t repo k = none) :
    delete t repo k = (t, repo, none) := by
  unfold delete
  rw [h]

/-- Closed instantiation of the C7 theorem: deleting the absent key 2 from the
one-node tree holding key 1. -/
theorem C7_delete_miss_no_mutation_witness :
    find_node (runOps [Op.ins 1]).tree (runOps [Op.ins 1]).repo 2 = none ∧
    delete (runOps [Op.ins 1]).tree (runOps [Op.ins 1]).repo 2 =
      ((runOps [Op.ins 1]).tree, (runOps [Op.ins 1]).repo, none) :=
  ⟨by decide, C7_delete_miss_no_mutation _ _ 2 (by decide)⟩

/-- C9 counterexample: after inserting the equal keys 5, 5, 5, 5 the fourth
inserted node (id 4) is not in the right subtree of the equal-keyed node
id 1 - that node has no right child at all - refuting the claim that an equal
key is always placed in the right subtree of every existing equal key. -/
theorem C9_counterexample_equal_key_not_in_right_subtree :
    ((runOps [Op.ins 5, Op.ins 5, Op.ins 5, Op.ins 5]).repo.get 1).map Node.key = some 5 ∧
    ((runOps [Op.ins 5, Op.ins 5, Op.ins 5, Op.ins 5]).repo.get 4).map Node.key = some 5 ∧
    ((runOps [Op.ins 5, Op.ins 5, Op.ins 5, Op.ins 5]).repo.get 1).bind Node.right = none := by
  decide

/-- C10 counterexample: in the state reached by tenOpsPrefix, delete 7 matches
the Red node id 2 with two children, yet after the delete node 2 is Black -
the subsequent delete-fixup recolors the matched node, refuting the claim
that it keeps its color. -/
theorem C10_counterexample_matched_node_recolored :
    (find_node (runOps tenOpsPrefix).tree (runOps tenOpsPrefix).repo 7).map
        (fun n => (n.id, n.color)) = some (2, Color.Red) ∧
    (((find_node (runOps tenOpsPrefix).tree (runOps tenOpsPrefix).repo 7).bind
        Node.left).isSome = true ∧
     ((find_node (runOps tenOpsPrefix).tree (runOps tenOpsPrefix).repo 7).bind
        Node.right).isSome = true) ∧
    ((runOps (tenOpsPrefix ++ [Op.del 7])).repo.get 2).map Node.color = some Color.Black := by
  decide

/-! ## Basic facts about plug and contexts -/

theorem plug_inorder (ctx : Ctx) : ∀ s : BT,
    (plug ctx s).inorder = ctxLeftOrder ctx ++ s.inorder ++ ctxRightOrder ctx := by
  induction ctx with
  | nil => intro s; simp [plug, ctxLeftOrder, ctxRightOrder]
  | cons f ctx ih =>
    intro s
    cases hs : f.side <;>
      simp [plug, hs, ctxLeftOrder, ctxRightOrder, ih, BT.inorder]

theorem plug_append (ctx1 ctx2 : Ctx) : ∀ s : BT,
    plug (ctx1 ++ ctx2) s = plug ctx2 (plug ctx1 s) := by
  induction ctx1 with
  | nil => intro s; rfl
  | cons f ctx ih =>
    intro s
    cases hs : f.side <;> simp [plug, hs, ih]

theorem plug_rootId (ctx : Ctx) (hne : ctx ≠ []) : ∀ s s' : BT,
    (plug ctx s).rootId = (plug ctx s').rootId := by
  induction ctx with
  | nil => exact absurd rfl hne
  | cons f ctx ih =>
    intro s s'
    rcases hc : ctx with _ | ⟨g, ctx2⟩
    · cases hs : f.side <;> simp [plug, hs, BT.rootId]
    · have hne2 : ctx ≠ [] := by rw [hc]; exact List.cons_ne_nil _ _
      rw [← hc]
      cases hs : f.side <;> simp [plug, hs] <;> exact ih hne2 _ _

theorem reps_plug (ctx : Ctx) : ∀ (repo : Repo) (par : Option Nat) (s : BT),
    reps repo par (plug ctx s) ↔
      repsCtx repo par ctx s.rootId ∧ reps repo (ctxUp par ctx) s := by
  induction ctx with
  | nil => intro repo par s; simp [plug, repsCtx, ctxUp]
  | cons f ctx ih =>
    intro repo par s
    cases hs : f.side
    · simp only [plug, hs]
      rw [ih]
      simp only [repsCtx, hs, reps, BT.record, BT.rootId, if_pos rfl, ctxUp]
      tauto
    · simp only [plug, hs]
      rw [ih]
      have hneq : ¬ (Child.Right = Child.Left) := by decide
      simp only [repsCtx, hs, reps, BT.record, BT.rootId, if_neg hneq, ctxUp]
      tauto

@[simp] theorem BT.ids_nil : BT.nil.ids = [] := rfl

theorem BT.ids_nd (l : BT) (i : Nat) (k : Int) (c : Color) (r : BT) :
    (BT.nd l i k c r).ids = l.ids ++ i :: r.ids := by
  simp [BT.ids, BT.inorder]

theorem BT.keys_nd (l : BT) (i : Nat) (k : Int) (c : Color) (r : BT) :
    (BT.nd l i k c r).keys = l.keys ++ k :: r.keys := by
  simp [BT.keys, BT.inorder]

theorem BT.size_nd (l : BT) (i : Nat) (k : Int) (c : Color) (r : BT) :
    (BT.nd l i k c r).size = l.size + r.size + 1 := by
  simp [BT.size, BT.inorder]
  omega

theorem BT.mem_ids_nd {l : BT} {i j : Nat} {k : Int} {c : Color} {r : BT} :
    j ∈ (BT.nd l i k c r).ids ↔ j ∈ l.ids ∨ j = i ∨ j ∈ r.ids := by
  rw [BT.ids_nd]
  simp

theorem reps_frame : ∀ (bt : BT) (repo repo' : Repo) (par : Option Nat),
    (∀ j ∈ bt.ids, repo'.get j = repo.get j) → reps repo par bt → reps repo' par bt := by
  intro bt
  induction bt with
  | nil => intro repo repo' par h hr; trivial
  | nd l i k c r ihl ihr =>
    intro repo repo' par h hr
    obtain ⟨h1, h2, h3⟩ := hr
    refine ⟨?_, ?_, ?_⟩
    · rw [h i (BT.mem_ids_nd.2 (Or.inr (Or.inl rfl)))]
      exact h1
    · exact ihl repo repo' (some i) (fun j hj => h j (BT.mem_ids_nd.2 (Or.inl hj))) h2
    · exact ihr repo repo' (some i) (fun j hj => h j (BT.mem_ids_nd.2 (Or.inr (Or.inr hj)))) h3

theorem reps_get_isSome : ∀ (bt : BT) (repo : Repo) (par : Option Nat),
    reps repo par bt → ∀ j ∈ bt.ids, (repo.get j).isSome := by
  intro bt
  induction bt with
  | nil => intro repo par h j hj; simp at hj
  | nd l i k c r ihl ihr =>
    intro repo par h j hj
    obtain ⟨h1, h2, h3⟩ := h
    rcases BT.mem_ids_nd.1 hj with hj | hj | hj
    · exact ihl repo (some i) h2 j hj
    · subst hj; rw [h1]; rfl
    · exact ihr repo (some i) h3 j hj

theorem reps_size_le (bt : BT) (repo : Repo) (par : Option Nat)
    (h : reps repo par bt) (hnd : bt.ids.Nodup) : bt.size ≤ repo.size := by
  have hsub : bt.ids ⊆ repo.idsList := by
    intro j hj
    have := reps_get_isSome bt repo par h j hj
    obtain ⟨n, hn⟩ := Option.isSome_iff_exists.1 this
    exact repo.get_mem_idsList j n hn
  have hlen : bt.ids.length ≤ repo.idsList.length :=
    (List.Nodup.subperm hnd hsub).length_le
  have h1 : bt.ids.length = bt.size := by simp [BT.ids, BT.size]
  have h2 : repo.idsList.length = repo.size := by simp [Repo.idsList, Repo.size]
  omega

theorem exists_ctx_of_mem : ∀ (bt : BT) (i : Nat), i ∈ bt.ids →
    ∃ (ctx : Ctx) (l : BT) (k : Int) (c : Color) (r : BT),
      bt = plug ctx (.nd l i k c r) := by
  intro bt
  induction bt with
  | nil => intro i hi; simp at hi
  | nd l j k c r ihl ihr =>
    intro i hi
    rcases BT.mem_ids_nd.1 hi with hi | hi | hi
    · obtain ⟨ctx, l2, k2, c2, r2, heq⟩ := ihl i hi
      refine ⟨ctx ++ [⟨.Left, j, k, c, r⟩], l2, k2, c2, r2, ?_⟩
      rw [plug_append]
      simp [plug, heq]
    · subst hi
      exact ⟨[], l, k, c, r, rfl⟩
    · obtain ⟨ctx, l2, k2, c2, r2, heq⟩ := ihr i hi
      refine ⟨ctx ++ [⟨.Right, j, k, c, l⟩], l2, k2, c2, r2, ?_⟩
      rw [plug_append]
      simp [plug, heq]

theorem plug_ids (ctx : Ctx) (s : BT) :
    (plug ctx s).ids = (ctxLeftOrder ctx).map Prod.fst ++ s.ids ++
      (ctxRightOrder ctx).map Prod.fst := by
  simp [BT.ids, plug_inorder]

theorem plug_nodup_parts {ctx : Ctx} {s : BT} (h : (plug ctx s).ids.Nodup) :
    s.ids.Nodup ∧ ∀ a ∈ s.ids, a ∉ ctxAllIds ctx := by
  rw [plug_ids, List.append_assoc] at h
  have h2 := h.of_append_right
  constructor
  · exact h2.of_append_left
  · intro a ha hctx
    rw [ctxAllIds, List.mem_append] at hctx
    rcases hctx with hctx | hctx
    · have hd := (List.nodup_append.1 h).2.2
      exact hd hctx (List.mem_append.2 (Or.inl ha))
    · have hd := (List.nodup_append.1 h2).2.2
      exact hd ha hctx

theorem mem_ctxAllIds_cons (f : Frame) (ctx : Ctx) (a : Nat) :
    a ∈ ctxAllIds (f :: ctx) ↔ a = f.i ∨ a ∈ f.sib.ids ∨ a ∈ ctxAllIds ctx := by
  cases hs : f.side <;>
    simp [ctxAllIds, ctxLeftOrder, ctxRightOrder, hs, BT.ids, List.mem_append] <;> tauto

theorem ctxAllIds_cons_subset (f : Frame) (ctx : Ctx) :
    ctxAllIds ctx ⊆ ctxAllIds (f :: ctx) := by
  intro a ha
  exact (mem_ctxAllIds_cons f ctx a).2 (Or.inr (Or.inr ha))

theorem head_mem_ctxAllIds (f : Frame) (ctx : Ctx) : f.i ∈ ctxAllIds (f :: ctx) :=
  (mem_ctxAllIds_cons f ctx f.i).2 (Or.inl rfl)

theorem sib_mem_ctxAllIds (f : Frame) (ctx : Ctx) (a : Nat) (ha : a ∈ f.sib.ids) :
    a ∈ ctxAllIds (f :: ctx) :=
  (mem_ctxAllIds_cons f ctx a).2 (Or.inr (Or.inl ha))

theorem repsCtx_frame : ∀ (ctx : Ctx) (repo repo' : Repo) (par : Option Nat)
    (hole : Option Nat),
    (∀ j ∈ ctxAllIds ctx, repo'.get j = repo.get j) →
    repsCtx repo par ctx hole → repsCtx repo' par ctx hole := by
  intro ctx
  induction ctx with
  | nil => intro repo repo' par hole h hr; trivial
  | cons f ctx ih =>
    intro repo repo' par hole h hr
    obtain ⟨h1, h2, h3⟩ := hr
    refine ⟨?_, ?_, ?_⟩
    · rw [h f.i (head_mem_ctxAllIds f ctx)]
      exact h1
    · exact reps_frame f.sib repo repo' (some f.i)
        (fun j hj => h j (sib_mem_ctxAllIds f ctx j (by simpa [BT.ids] using hj))) h2
    · exact ih repo repo' par (some f.i)
        (fun j hj => h j (ctxAllIds_cons_subset f ctx hj)) h3

theorem reps_rootId_get {repo : Repo} {par : Option Nat} : ∀ {b : BT}, reps repo par b →
    (b.rootId.bind repo.get).map Node.id = b.rootId := by
  intro b hb
  cases b with
  | nil => rfl
  | nd l i k c r =>
    obtain ⟨h1, _, _⟩ := hb
    simp [BT.rootId, h1, BT.record]

theorem ctxAllIds_nodup {ctx : Ctx} {s : BT} (h : (plug ctx s).ids.Nodup) :
    (ctxAllIds ctx).Nodup := by
  rw [plug_ids, List.append_assoc] at h
  rw [ctxAllIds]
  refine h.sublist ?_
  exact List.Sublist.append_left (List.sublist_append_right s.ids _) _

theorem ctxAllIds_cons_perm (f : Frame) (ctx : Ctx) :
    (ctxAllIds (f :: ctx)).Perm (f.i :: (f.sib.ids ++ ctxAllIds ctx)) := by
  rw [List.perm_iff_count]
  intro a
  cases hs : f.side <;>
    simp [ctxAllIds, ctxLeftOrder, ctxRightOrder, hs, BT.ids, List.count_append,
      List.count_cons] <;> omega

theorem ctxAllIds_cons_parts {f : Frame} {ctx : Ctx} (h : (ctxAllIds (f :: ctx)).Nodup) :
    f.i ∉ f.sib.ids ∧ f.i ∉ ctxAllIds ctx ∧
    (∀ a ∈ f.sib.ids, a ∉ ctxAllIds ctx) ∧ (ctxAllIds ctx).Nodup := by
  have h2 := ((ctxAllIds_cons_perm f ctx).nodup_iff).1 h
  rw [List.nodup_cons, List.nodup_append] at h2
  obtain ⟨hni, hsib, hrest, hd⟩ := h2
  rw [List.mem_append] at hni
  exact ⟨fun hh => hni (Or.inl hh), fun hh => hni (Or.inr hh), hd, hrest⟩

theorem nd_nodup_parts {l : BT} {i : Nat} {k : Int} {c : Color} {r : BT}
    (h : (BT.nd l i k c r).ids.Nodup) :
    l.ids.Nodup ∧ r.ids.Nodup ∧ i ∉ l.ids ∧ i ∉ r.ids ∧
    ∀ a ∈ l.ids, a ∉ r.ids := by
  rw [BT.ids_nd] at h
  rw [List.nodup_append] at h
  obtain ⟨hl, hir, hd⟩ := h
  rw [List.nodup_cons] at hir
  refine ⟨hl, hir.2, fun hh => hd hh (List.mem_cons_self i _) , hir.1, ?_⟩
  intro a ha har
  exact hd ha (List.mem_cons_of_mem i har)

theorem Repo.get_updateOpt_ne (repo : Repo) (o : Option Nat) (f : Node → Node)
    (hf : ∀ n, (f n).id = n.id) (j : Nat) (hj : o ≠ some j) :
    (repo.updateOpt o f).get j = repo.get j := by
  cases o with
  | none => rfl
  | some i =>
    exact Repo.get_update_ne repo i j f hf (fun hh => hj (by rw [hh]))

theorem Repo.get_updateOpt_self (repo : Repo) (i : Nat) (f : Node → Node)
    (hf : ∀ n, (f n).id = n.id) :
    (repo.updateOpt (some i) f).get i = (repo.get i).map f :=
  Repo.get_update_self repo i f hf

@[simp] theorem BT.rootId_recolor (j : Nat) (c : Color) : ∀ b : BT,
    (b.recolor j c).rootId = b.rootId := by
  intro b; cases b <;> simp [BT.recolor, BT.rootId]

@[simp] theorem BT.inorder_recolor (j : Nat) (c : Color) : ∀ b : BT,
    (b.recolor j c).inorder = b.inorder := by
  intro b
  induction b with
  | nil => rfl
  | nd l i k c0 r ihl ihr => simp [BT.recolor, BT.inorder, ihl, ihr]

@[simp] theorem BT.ids_recolor (j : Nat) (c : Color) (b : BT) :
    (b.recolor j c).ids = b.ids := by
  simp [BT.ids]

@[simp] theorem BT.rootId_rekey (j : Nat) (k : Int) : ∀ b : BT,
    (b.rekey j k).rootId = b.rootId := by
  intro b; cases b <;> simp [BT.rekey, BT.rootId]

theorem BT.inorder_rekey (j : Nat) (k : Int) : ∀ b : BT,
    (b.rekey j k).inorder = b.inorder.map (fun p => if p.1 = j then (p.1, k) else p) := by
  intro b
  induction b with
  | nil => rfl
  | nd l i k0 c r ihl ihr =>
    simp only [BT.rekey, BT.inorder, ihl, ihr, List.map_append, List.map_cons]
    by_cases h : i = j <;> simp [h]

@[simp] theorem BT.ids_rekey (j : Nat) (k : Int) (b : BT) :
    (b.rekey j k).ids = b.ids := by
  rw [BT.ids, BT.inorder_rekey, List.map_map, BT.ids]
  apply List.map_congr_left
  intro p _
  by_cases h : p.1 = j <;> simp [h]

theorem reps_recolor : ∀ (bt : BT) (repo : Repo) (par : Option Nat) (j : Nat) (c : Color),
    reps repo par bt →
    reps (repo.update j (fun n => n.setColor c)) par (bt.recolor j c) := by
  intro bt
  induction bt with
  | nil => intro repo par j c h; trivial
  | nd l i k c0 r ihl ihr =>
    intro repo par j c h
    obtain ⟨h1, h2, h3⟩ := h
    refine ⟨?_, ihl repo (some i) j c h2, ihr repo (some i) j c h3⟩
    by_cases hij : i = j
    · subst hij
      rw [Repo.get_update_self repo i (fun n => n.setColor c) (fun n => rfl), h1]
      simp [BT.record, Node.setColor, if_pos rfl]
    · rw [Repo.get_update_ne repo j i (fun n => n.setColor c) (fun n => rfl) hij, h1]
      simp [BT.record, if_neg hij]

theorem reps_rekey : ∀ (bt : BT) (repo : Repo) (par : Option Nat) (j : Nat) (k : Int),
    reps repo par bt →
    reps (repo.update j (fun n => n.setKey k)) par (bt.rekey j k) := by
  intro bt
  induction bt with
  | nil => intro repo par j k h; trivial
  | nd l i k0 c r ihl ihr =>
    intro repo par j k h
    obtain ⟨h1, h2, h3⟩ := h
    refine ⟨?_, ihl repo (some i) j k h2, ihr repo (some i) j k h3⟩
    by_cases hij : i = j
    · subst hij
      rw [Repo.get_update_self repo i (fun n => n.setKey k) (fun n => rfl), h1]
      simp [BT.record, Node.setKey, if_pos rfl]
    · rw [Repo.get_update_ne repo j i (fun n => n.setKey k) (fun n => rfl) hij, h1]
      simp [BT.record, if_neg hij]

theorem reps_update_not_mem {bt : BT} {repo : Repo} {par : Option Nat} {j : Nat}
    {f : Node → Node} (hf : ∀ n, (f n).id = n.id) (hj : j ∉ bt.ids)
    (h : reps repo par bt) : reps (repo.update j f) par bt := by
  refine reps_frame bt repo _ par ?_ h
  intro a ha
  exact Repo.get_update_ne repo j a f hf (fun hh => hj (hh ▸ ha))

theorem reps_updateOpt_color (bt : BT) (repo : Repo) (par : Option Nat) (o : Option Nat)
    (c : Color) (h : reps repo par bt) :
    reps (repo.updateOpt o (fun n => n.setColor c)) par
      (match o with | some j => bt.recolor j c | none => bt) := by
  cases o with
  | none => exact h
  | some j => exact reps_recolor bt repo par j c h

/-! ## Reading the parent and child-side of a plugged node -/

theorem getParent_plug_nil {repo : Repo} {l : BT} {i : Nat} {k : Int} {c : Color} {r : BT}
    (h : reps repo none (plug [] (.nd l i k c r))) :
    repo.getParent i = none ∧ node_is_child repo i = none := by
  have h2 : reps repo none (BT.nd l i k c r) := h
  obtain ⟨h1, _, _⟩ := h2
  have hp : repo.getParent i = none := by
    rw [Repo.getParent, h1]
    rfl
  exact ⟨hp, by rw [node_is_child, hp]⟩

theorem getParent_plug_cons {repo : Repo} {f : Frame} {ctx : Ctx} {l : BT} {i : Nat}
    {k : Int} {c : Color} {r : BT}
    (h : reps repo none (plug (f :: ctx) (.nd l i k c r)))
    (hnd : (plug (f :: ctx) (.nd l i k c r)).ids.Nodup) :
    repo.getParent i = some
      { id := f.i, color := f.c, key := f.k, parent := ctxUp none ctx,
        left := if f.side = .Left then some i else f.sib.rootId,
        right := if f.side = .Left then f.sib.rootId else some i } ∧
    node_is_child repo i = some f.side := by
  rw [reps_plug] at h
  obtain ⟨hctx, hsub⟩ := h
  obtain ⟨hfrec, hsib, _⟩ := hctx
  have hself : repo.get i = some (BT.record i k c (some f.i) l r) := hsub.1
  have hp : repo.getParent i = some
      { id := f.i, color := f.c, key := f.k, parent := ctxUp none ctx,
        left := if f.side = .Left then some i else f.sib.rootId,
        right := if f.side = .Left then f.sib.rootId else some i } := by
    rw [Repo.getParent, hself]
    show repo.get f.i = _
    rw [hfrec]
    rfl
  refine ⟨hp, ?_⟩
  rw [node_is_child, hp]
  cases hs : f.side
  · simp only [hs, if_pos rfl]
    simp [hself, BT.record]
  · have hne : ¬ (Child.Right = Child.Left) := by decide
    simp only [hs, if_neg hne]
    have hdisj := (plug_nodup_parts hnd).2
    cases hsr : f.sib.rootId with
    | none => simp
    | some sid =>
      have hsidmem : sid ∈ f.sib.ids := by
        cases hb : f.sib with
        | nil => rw [hb] at hsr; exact absurd hsr (by simp [BT.rootId])
        | nd sl si sk sc sr2 =>
          rw [hb] at hsr
          simp only [BT.rootId, Option.some.injEq] at hsr
          exact BT.mem_ids_nd.2 (Or.inr (Or.inl hsr.symm))
      have hsrec := reps_rootId_get hsib
      rw [hsr] at hsrec
      simp only [Option.some_bind] at hsrec
      cases hget : repo.get sid with
      | none => rw [hget] at hsrec; simp at hsrec
      | some n =>
        rw [hget] at hsrec
        have hid : n.id = sid := by simpa using hsrec
        have hne2 : sid ≠ i := by
          intro hh
          rw [hh] at hsidmem
          exact hdisj i (BT.mem_ids_nd.2 (Or.inr (Or.inl rfl)))
            (sib_mem_ctxAllIds f ctx i hsidmem)
        simp [hget, hid, hne2]

theorem BT.rootId_mem : ∀ {b : BT} {i : Nat}, b.rootId = some i → i ∈ b.ids := by
  intro b i h
  cases b with
  | nil => exact absurd h (by simp [BT.rootId])
  | nd l j k c r =>
    simp only [BT.rootId, Option.some.injEq] at h
    exact BT.mem_ids_nd.2 (Or.inr (Or.inl h.symm))

theorem rotate_left_abs (t : RedBlackTree) (repo : Repo) (ctx : Ctx)
    (a b g : BT) (x y : Nat) (kx ky : Int) (cx cy : Color)
    (hr : reps repo none (plug ctx (.nd a x kx cx (.nd b y ky cy g))))
    (hnd : (plug ctx (.nd a x kx cx (.nd b y ky cy g))).ids.Nodup)
    (hroot : t.root = (plug ctx (.nd a x kx cx (.nd b y ky cy g))).rootId) :
    (rotate t repo x .Left).1 =
      { t with root := (plug ctx (.nd (.nd a x kx cx b) y ky cy g)).rootId } ∧
    reps (rotate t repo x .Left).2 none (plug ctx (.nd (.nd a x kx cx b) y ky cy g)) := by
  rw [reps_plug] at hr
  obtain ⟨hctx, hsub⟩ := hr
  obtain ⟨hx, ha, hsuby⟩ := hsub
  obtain ⟨hy, hb, hg⟩ := hsuby
  obtain ⟨hnd0, hdisj⟩ := plug_nodup_parts hnd
  obtain ⟨hndA, hndYR, hxA, hxYR, hAYR⟩ := nd_nodup_parts hnd0
  obtain ⟨hndB, hndG, hyB, hyG, hBG⟩ := nd_nodup_parts hndYR
  have hyYR : y ∈ (BT.nd b y ky cy g).ids := BT.mem_ids_nd.2 (Or.inr (Or.inl rfl))
  have hxy : x ≠ y := fun h => hxYR (BT.mem_ids_nd.2 (Or.inr (Or.inl h)))
  have hxB : x ∉ b.ids := fun h => hxYR (BT.mem_ids_nd.2 (Or.inl h))
  have hxG : x ∉ g.ids := fun h => hxYR (BT.mem_ids_nd.2 (Or.inr (Or.inr h)))
  have hbx : b.rootId ≠ some x := fun h => hxB (BT.rootId_mem h)
  have hby : b.rootId ≠ some y := fun h => hyB (BT.rootId_mem h)
  have hmemx : x ∈ (BT.nd a x kx cx (BT.nd b y ky cy g)).ids :=
    BT.mem_ids_nd.2 (Or.inr (Or.inl rfl))
  have hmemy : y ∈ (BT.nd a x kx cx (BT.nd b y ky cy g)).ids :=
    BT.mem_ids_nd.2 (Or.inr (Or.inr hyYR))
  have hmemA : ∀ j ∈ a.ids, j ∈ (BT.nd a x kx cx (BT.nd b y ky cy g)).ids := fun j hj =>
    BT.mem_ids_nd.2 (Or.inl hj)
  have hmemB : ∀ j ∈ b.ids, j ∈ (BT.nd a x kx cx (BT.nd b y ky cy g)).ids := fun j hj =>
    BT.mem_ids_nd.2 (Or.inr (Or.inr (BT.mem_ids_nd.2 (Or.inl hj))))
  have hmemG : ∀ j ∈ g.ids, j ∈ (BT.nd a x kx cx (BT.nd b y ky cy g)).ids := fun j hj =>
    BT.mem_ids_nd.2 (Or.inr (Or.inr (BT.mem_ids_nd.2 (Or.inr (Or.inr hj)))))
  have hgc : (repo.getLeft y).map Node.id = b.rootId := by
    rw [Repo.getLeft, hy]
    exact reps_rootId_get hb
  have hrel : get_relatives repo x .Left = ⟨ctxUp none ctx, y, b.rootId⟩ := by
    simp [get_relatives, hx, BT.record, BT.rootId, hgc]
  cases ctx with
  | nil =>
    simp only [ctxUp] at hrel
    have hrot : rotate t repo x .Left =
        ({ t with root := some y },
         (((((repo.update x (fun n => n.setRightChild b.rootId)).updateOpt b.rootId
              (fun n => n.setParent (some x))).update y
              (fun n => n.setParent none)).update y
              (fun n => n.setLeftChild (some x))).update x
              (fun n => n.setParent (some y)))) := by
      simp only [rotate, hrel]
    rw [hrot]
    refine ⟨rfl, ?_⟩
    show reps _ none (BT.nd (BT.nd a x kx cx b) y ky cy g)
    have hskip : ∀ j, j ≠ x → j ≠ y → b.rootId ≠ some j →
        ((((((repo.update x (fun n => n.setRightChild b.rootId)).updateOpt b.rootId
              (fun n => n.setParent (some x))).update y
              (fun n => n.setParent none)).update y
              (fun n => n.setLeftChild (some x))).update x
              (fun n => n.setParent (some y)))).get j = repo.get j := by
      intro j hjx hjy hjb
      rw [Repo.get_update_ne _ x j (fun n => n.setParent (some y)) (fun n => rfl) hjx]
      rw [Repo.get_update_ne _ y j (fun n => n.setLeftChild (some x)) (fun n => rfl) hjy]
      rw [Repo.get_update_ne _ y j (fun n => n.setParent none) (fun n => rfl) hjy]
      rw [Repo.get_updateOpt_ne _ b.rootId (fun n => n.setParent (some x)) (fun n => rfl) j hjb]
      rw [Repo.get_update_ne _ x j (fun n => n.setRightChild b.rootId) (fun n => rfl) hjx]
    have hgx : ((((((repo.update x (fun n => n.setRightChild b.rootId)).updateOpt b.rootId
              (fun n => n.setParent (some x))).update y
              (fun n => n.setParent none)).update y
              (fun n => n.setLeftChild (some x))).update x
              (fun n => n.setParent (some y)))).get x =
        some (BT.record x kx cx (some y) a b) := by
      rw [Repo.get_update_self _ x (fun n => n.setParent (some y)) (fun n => rfl)]
      rw [Repo.get_update_ne _ y x (fun n => n.setLeftChild (some x)) (fun n => rfl) hxy]
      rw [Repo.get_update_ne _ y x (fun n => n.setParent none) (fun n => rfl) hxy]
      rw [Repo.get_updateOpt_ne _ b.rootId (fun n => n.setParent (some x)) (fun n => rfl) x hbx]
      rw [Repo.get_update_self _ x (fun n => n.setRightChild b.rootId) (fun n => rfl)]
      rw [hx]
      simp [BT.record, Node.setRightChild, Node.setParent]
    have hgy : ((((((repo.update x (fun n => n.setRightChild b.rootId)).updateOpt b.rootId
              (fun n => n.setParent (some x))).update y
              (fun n => n.setParent none)).update y
              (fun n => n.setLeftChild (some x))).update x
              (fun n => n.setParent (some y)))).get y =
        some (BT.record y ky cy none (BT.nd a x kx cx b) g) := by
      rw [Repo.get_update_ne _ x y (fun n => n.setParent (some y)) (fun n => rfl)
        (fun h => hxy h.symm)]
      rw [Repo.get_update_self _ y (fun n => n.setLeftChild (some x)) (fun n => rfl)]
      rw [Repo.get_update_self _ y (fun n => n.setParent none) (fun n => rfl)]
      rw [Repo.get_updateOpt_ne _ b.rootId (fun n => n.setParent (some x)) (fun n => rfl) y hby]
      rw [Repo.get_update_ne _ x y (fun n => n.setRightChild b.rootId) (fun n => rfl)
        (fun h => hxy h.symm)]
      rw [hy]
      simp [BT.record, Node.setLeftChild, Node.setParent, BT.rootId]
    refine ⟨hgy, ⟨hgx, ?_, ?_⟩, ?_⟩
    · refine reps_frame a repo _ (some x) ?_ ha
      intro j hj
      refine hskip j (fun h => hxA (h ▸ hj)) (fun h => hAYR j hj (by rw [h]; exact hyYR))
        (fun h => hAYR j hj (BT.mem_ids_nd.2 (Or.inl (BT.rootId_mem h))))
    · cases b with
      | nil => trivial
      | nd bl bi bk bc2 br =>
        obtain ⟨hbrec, hbl, hbr⟩ := hb
        obtain ⟨hndBL, hndBR, hbiBL, hbiBR, hBLBR⟩ := nd_nodup_parts hndB
        have hbimem : bi ∈ (BT.nd bl bi bk bc2 br).ids := BT.mem_ids_nd.2 (Or.inr (Or.inl rfl))
        have hbix : bi ≠ x := fun h => hxB (h ▸ hbimem)
        have hbiy : bi ≠ y := fun h => hyB (h ▸ hbimem)
        have hgb : ((((((repo.update x
              (fun n => n.setRightChild (BT.nd bl bi bk bc2 br).rootId)).updateOpt
              (BT.nd bl bi bk bc2 br).rootId
              (fun n => n.setParent (some x))).update y
              (fun n => n.setParent none)).update y
              (fun n => n.setLeftChild (some x))).update x
              (fun n => n.setParent (some y)))).get bi =
            some (BT.record bi bk bc2 (some x) bl br) := by
          rw [Repo.get_update_ne _ x bi (fun n => n.setParent (some y)) (fun n => rfl) hbix]
          rw [Repo.get_update_ne _ y bi (fun n => n.setLeftChild (some x)) (fun n => rfl) hbiy]
          rw [Repo.get_update_ne _ y bi (fun n => n.setParent none) (fun n => rfl) hbiy]
          show ((repo.update x _).update bi (fun n => n.setParent (some x))).get bi = _
          rw [Repo.get_update_self _ bi (fun n => n.setParent (some x)) (fun n => rfl)]
          rw [Repo.get_update_ne _ x bi
            (fun n => n.setRightChild (BT.nd bl bi bk bc2 br).rootId) (fun n => rfl) hbix]
          rw [hbrec]
          simp [BT.record, Node.setParent]
        refine ⟨hgb, ?_, ?_⟩
        · refine reps_frame bl repo _ (some bi) ?_ hbl
          intro j hj
          refine hskip j (fun h => hxB (h ▸ BT.mem_ids_nd.2 (Or.inl hj)))
            (fun h => hyB (h ▸ BT.mem_ids_nd.2 (Or.inl hj)))
            (fun h => hbiBL ((Option.some.inj h).symm ▸ hj))
        · refine reps_frame br repo _ (some bi) ?_ hbr
          intro j hj
          refine hskip j (fun h => hxB (h ▸ BT.mem_ids_nd.2 (Or.inr (Or.inr hj))))
            (fun h => hyB (h ▸ BT.mem_ids_nd.2 (Or.inr (Or.inr hj))))
            (fun h => hbiBR ((Option.some.inj h).symm ▸ hj))
    · refine reps_frame g repo _ (some y) ?_ hg
      intro j hj
      refine hskip j (fun h => hxG (h ▸ hj)) (fun h => hyG (h ▸ hj))
        (fun h => hBG j (BT.rootId_mem h) hj)
  | cons f ctx' =>
    obtain ⟨hfrec, hsib, htail⟩ := hctx
    simp only [ctxUp] at hrel
    obtain ⟨hfisib, hfictx, hsibctx, hndctx'⟩ := ctxAllIds_cons_parts (ctxAllIds_nodup hnd)
    have hfix : f.i ≠ x := fun h => hdisj x hmemx (h ▸ head_mem_ctxAllIds f ctx')
    have hfiy : f.i ≠ y := fun h => hdisj y hmemy (h ▸ head_mem_ctxAllIds f ctx')
    have hbfi : (BT.rootId b) ≠ some f.i := fun h =>
      hdisj f.i (hmemB f.i (BT.rootId_mem h)) (head_mem_ctxAllIds f ctx')
    have hsibx : ∀ j ∈ f.sib.ids, j ≠ x := fun j hj h =>
      hdisj x hmemx (h ▸ sib_mem_ctxAllIds f ctx' j hj)
    have hsiby : ∀ j ∈ f.sib.ids, j ≠ y := fun j hj h =>
      hdisj y hmemy (h ▸ sib_mem_ctxAllIds f ctx' j hj)
    have hsibb : ∀ j ∈ f.sib.ids, (BT.rootId b) ≠ some j := fun j hj h =>
      hdisj j (hmemB j (BT.rootId_mem h)) (sib_mem_ctxAllIds f ctx' j hj)
    have hctxx : ∀ j ∈ ctxAllIds ctx', j ≠ x := fun j hj h =>
      hdisj x hmemx (h ▸ ctxAllIds_cons_subset f ctx' hj)
    have hctxy : ∀ j ∈ ctxAllIds ctx', j ≠ y := fun j hj h =>
      hdisj y hmemy (h ▸ ctxAllIds_cons_subset f ctx' hj)
    have hctxb : ∀ j ∈ ctxAllIds ctx', (BT.rootId b) ≠ some j := fun j hj h =>
      hdisj j (hmemB j (BT.rootId_mem h)) (ctxAllIds_cons_subset f ctx' hj)
    have hnic : node_is_child (((repo.update x
        (fun n => n.setRightChild b.rootId)).updateOpt b.rootId
        (fun n => n.setParent (some x))).update y
        (fun n => n.setParent (some f.i))) x = some f.side := by
      have hx3 : (((repo.update x
          (fun n => n.setRightChild b.rootId)).updateOpt b.rootId
          (fun n => n.setParent (some x))).update y
          (fun n => n.setParent (some f.i))).get x =
          some ((BT.record x kx cx (some f.i) a (BT.nd b y ky cy g)).setRightChild
            b.rootId) := by
        rw [Repo.get_update_ne _ y x (fun n => n.setParent (some f.i)) (fun n => rfl) hxy]
        rw [Repo.get_updateOpt_ne _ b.rootId (fun n => n.setParent (some x))
          (fun n => rfl) x hbx]
        rw [Repo.get_update_self _ x (fun n => n.setRightChild b.rootId) (fun n => rfl)]
        rw [hx]
        rfl
      have hfi3 : (((repo.update x
          (fun n => n.setRightChild b.rootId)).updateOpt b.rootId
          (fun n => n.setParent (some x))).update y
          (fun n => n.setParent (some f.i))).get f.i = repo.get f.i := by
        rw [Repo.get_update_ne _ y f.i (fun n => n.setParent (some f.i)) (fun n => rfl) hfiy]
        rw [Repo.get_updateOpt_ne _ b.rootId (fun n => n.setParent (some x))
          (fun n => rfl) f.i hbfi]
        rw [Repo.get_update_ne _ x f.i (fun n => n.setRightChild b.rootId)
          (fun n => rfl) hfix]
      rw [node_is_child, Repo.getParent, hx3, Option.some_bind]
      rw [show Node.parent ((BT.record x kx cx (some f.i) a
        (BT.nd b y ky cy g)).setRightChild b.rootId) = some f.i from rfl]
      rw [Option.some_bind, hfi3, hfrec]
      cases hfs : f.side
      · rw [show (if Child.Left = Child.Left
            then (BT.nd a x kx cx (BT.nd b y ky cy g)).rootId else f.sib.rootId) = some x
          from by rw [if_pos rfl]; rfl]
        dsimp only
        rw [hx3]
        dsimp only [BT.record, Node.setRightChild]
        simp
      · have hne : ¬ (Child.Right = Child.Left) := by decide
        rw [show (if Child.Right = Child.Left
            then (BT.nd a x kx cx (BT.nd b y ky cy g)).rootId else f.sib.rootId) =
            f.sib.rootId from by rw [if_neg hne]]
        cases hsr : f.sib.rootId with
        | none => simp
        | some sid =>
          have hsidmem : sid ∈ f.sib.ids := BT.rootId_mem hsr
          have hsrec := reps_rootId_get hsib
          rw [hsr] at hsrec
          simp only [Option.some_bind] at hsrec
          cases hget : repo.get sid with
          | none => rw [hget] at hsrec; simp at hsrec
          | some n =>
            rw [hget] at hsrec
            have hid : n.id = sid := by simpa using hsrec
            have hg3 : (((repo.update x
                (fun n => n.setRightChild b.rootId)).updateOpt b.rootId
                (fun n => n.setParent (some x))).update y
                (fun n => n.setParent (some f.i))).get sid = repo.get sid := by
              rw [Repo.get_update_ne _ y sid (fun n => n.setParent (some f.i)) (fun n => rfl)
                (hsiby sid hsidmem)]
              rw [Repo.get_updateOpt_ne _ b.rootId (fun n => n.setParent (some x))
                (fun n => rfl) sid (hsibb sid hsidmem)]
              rw [Repo.get_update_ne _ x sid (fun n => n.setRightChild b.rootId)
                (fun n => rfl) (hsibx sid hsidmem)]
            dsimp only
            rw [hg3, hget]
            dsimp only
            rw [hid]
            simp [hsibx sid hsidmem]
    cases hfs : f.side
    all_goals rw [hfs] at hnic
    case Left =>
      have hrot : rotate t repo x .Left =
          (t,
           (((((((repo.update x (fun n => n.setRightChild b.rootId)).updateOpt b.rootId
                (fun n => n.setParent (some x))).update y
                (fun n => n.setParent (some f.i))).update f.i
                (fun n => n.setLeftChild (some y))).update y
                (fun n => n.setLeftChild (some x))).update x
                (fun n => n.setParent (some y))))) := by
        simp only [rotate, hrel, hnic, set_child_side]
      rw [hrot]
      have hplugroot : (plug (f :: ctx') (BT.nd (BT.nd a x kx cx b) y ky cy g)).rootId
          = t.root := by
        rw [hroot]
        exact plug_rootId (f :: ctx') (List.cons_ne_nil f ctx') _ _
      refine ⟨by rw [hplugroot], ?_⟩
      have hskip : ∀ j, j ≠ x → j ≠ y → b.rootId ≠ some j → j ≠ f.i →
          ((((((((repo.update x (fun n => n.setRightChild b.rootId)).updateOpt b.rootId
                (fun n => n.setParent (some x))).update y
                (fun n => n.setParent (some f.i))).update f.i
                (fun n => n.setLeftChild (some y))).update y
                (fun n => n.setLeftChild (some x))).update x
                (fun n => n.setParent (some y))))).get j = repo.get j := by
        intro j hjx hjy hjb hjf
        rw [Repo.get_update_ne _ x j (fun n => n.setParent (some y)) (fun n => rfl) hjx]
        rw [Repo.get_update_ne _ y j (fun n => n.setLeftChild (some x)) (fun n => rfl) hjy]
        rw [Repo.get_update_ne _ f.i j (fun n => n.setLeftChild (some y)) (fun n => rfl) hjf]
        rw [Repo.get_update_ne _ y j (fun n => n.setParent (some f.i)) (fun n => rfl) hjy]
        rw [Repo.get_updateOpt_ne _ b.rootId (fun n => n.setParent (some x)) (fun n => rfl) j hjb]
        rw [Repo.get_update_ne _ x j (fun n => n.setRightChild b.rootId) (fun n => rfl) hjx]
      have hgx : ((((((((repo.update x (fun n => n.setRightChild b.rootId)).updateOpt b.rootId
                (fun n => n.setParent (some x))).update y
                (fun n => n.setParent (some f.i))).update f.i
                (fun n => n.setLeftChild (some y))).update y
                (fun n => n.setLeftChild (some x))).update x
                (fun n => n.setParent (some y))))).get x =
          some (BT.record x kx cx (some y) a b) := by
        rw [Repo.get_update_self _ x (fun n => n.setParent (some y)) (fun n => rfl)]
        rw [Repo.get_update_ne _ y x (fun n => n.setLeftChild (some x)) (fun n => rfl) hxy]
        rw [Repo.get_update_ne _ f.i x (fun n => n.setLeftChild (some y)) (fun n => rfl)
          (fun h => hfix h.symm)]
        rw [Repo.get_update_ne _ y x (fun n => n.setParent (some f.i)) (fun n => rfl) hxy]
        rw [Repo.get_updateOpt_ne _ b.rootId (fun n => n.setParent (some x)) (fun n => rfl) x hbx]
        rw [Repo.get_update_self _ x (fun n => n.setRightChild b.rootId) (fun n => rfl)]
        rw [hx]
        simp [BT.record, Node.setRightChild, Node.setParent]
      have hgy : ((((((((repo.update x (fun n => n.setRightChild b.rootId)).updateOpt b.rootId
                (fun n => n.setParent (some x))).update y
                (fun n => n.setParent (some f.i))).update f.i
                (fun n => n.setLeftChild (some y))).update y
                (fun n => n.setLeftChild (some x))).update x
                (fun n => n.setParent (some y))))).get y =
          some (BT.record y ky cy (some f.i) (BT.nd a x kx cx b) g) := by
        rw [Repo.get_update_ne _ x y (fun n => n.setParent (some y)) (fun n => rfl)
          (fun h => hxy h.symm)]
        rw [Repo.get_update_self _ y (fun n => n.setLeftChild (some x)) (fun n => rfl)]
        rw [Repo.get_update_ne _ f.i y (fun n => n.setLeftChild (some y)) (fun n => rfl)
          (fun h => hfiy h.symm)]
        rw [Repo.get_update_self _ y (fun n => n.setParent (some f.i)) (fun n => rfl)]
        rw [Repo.get_updateOpt_ne _ b.rootId (fun n => n.setParent (some x)) (fun n => rfl) y hby]
        rw [Repo.get_update_ne _ x y (fun n => n.setRightChild b.rootId) (fun n => rfl)
          (fun h => hxy h.symm)]
        rw [hy]
        simp [BT.record, Node.setLeftChild, Node.setParent, BT.rootId]
      have hgfi : ((((((((repo.update x (fun n => n.setRightChild b.rootId)).updateOpt b.rootId
                (fun n => n.setParent (some x))).update y
                (fun n => n.setParent (some f.i))).update f.i
                (fun n => n.setLeftChild (some y))).update y
                (fun n => n.setLeftChild (some x))).update x
                (fun n => n.setParent (some y))))).get f.i =
          some
            { id := f.i, color := f.c, key := f.k, parent := ctxUp none ctx',
              left := some y, right := f.sib.rootId } := by
        rw [Repo.get_update_ne _ x f.i (fun n => n.setParent (some y)) (fun n => rfl) hfix]
        rw [Repo.get_update_ne _ y f.i (fun n => n.setLeftChild (some x)) (fun n => rfl) hfiy]
        rw [Repo.get_update_self _ f.i (fun n => n.setLeftChild (some y)) (fun n => rfl)]
        rw [Repo.get_update_ne _ y f.i (fun n => n.setParent (some f.i)) (fun n => rfl) hfiy]
        rw [Repo.get_updateOpt_ne _ b.rootId (fun n => n.setParent (some x))
          (fun n => rfl) f.i hbfi]
        rw [Repo.get_update_ne _ x f.i (fun n => n.setRightChild b.rootId)
          (fun n => rfl) hfix]
        rw [hfrec]
        simp [Node.setLeftChild, hfs]
      rw [reps_plug]
      constructor
      · refine ⟨?_, ?_, ?_⟩
        · rw [hgfi]
          simp [hfs, BT.rootId]
        · refine reps_frame f.sib repo _ (some f.i) ?_ hsib
          intro j hj
          exact hskip j (hsibx j hj) (hsiby j hj) (hsibb j hj)
            (fun h => hfisib (h ▸ hj))
        · refine repsCtx_frame ctx' repo _ none (some f.i) ?_ htail
          intro j hj
          exact hskip j (hctxx j hj) (hctxy j hj) (hctxb j hj)
            (fun h => hfictx (h ▸ hj))
      · show reps _ (some f.i) _
        refine ⟨hgy, ⟨hgx, ?_, ?_⟩, ?_⟩
        · refine reps_frame a repo _ (some x) ?_ ha
          intro j hj
          refine hskip j (fun h => hxA (h ▸ hj)) (fun h => hAYR j hj (by rw [h]; exact hyYR))
            (fun h => hAYR j hj (BT.mem_ids_nd.2 (Or.inl (BT.rootId_mem h))))
            (fun h => hdisj j (hmemA j hj) (h ▸ head_mem_ctxAllIds f ctx'))
        · cases b with
          | nil => trivial
          | nd bl bi bk bc2 br =>
            obtain ⟨hbrec, hbl, hbr⟩ := hb
            obtain ⟨hndBL, hndBR, hbiBL, hbiBR, hBLBR⟩ := nd_nodup_parts hndB
            have hbimem : bi ∈ (BT.nd bl bi bk bc2 br).ids :=
              BT.mem_ids_nd.2 (Or.inr (Or.inl rfl))
            have hbix : bi ≠ x := fun h => hxB (h ▸ hbimem)
            have hbiy : bi ≠ y := fun h => hyB (h ▸ hbimem)
            have hbifi : bi ≠ f.i := fun h =>
              hdisj bi (hmemB bi hbimem) (h ▸ head_mem_ctxAllIds f ctx')
            have hgb : ((((((((repo.update x
                  (fun n => n.setRightChild (BT.nd bl bi bk bc2 br).rootId)).updateOpt
                  (BT.nd bl bi bk bc2 br).rootId
                  (fun n => n.setParent (some x))).update y
                  (fun n => n.setParent (some f.i))).update f.i
                  (fun n => n.setLeftChild (some y))).update y
                  (fun n => n.setLeftChild (some x))).update x
                  (fun n => n.setParent (some y))))).get bi =
                some (BT.record bi bk bc2 (some x) bl br) := by
              rw [Repo.get_update_ne _ x bi (fun n => n.setParent (some y)) (fun n => rfl) hbix]
              rw [Repo.get_update_ne _ y bi (fun n => n.setLeftChild (some x))
                (fun n => rfl) hbiy]
              rw [Repo.get_update_ne _ f.i bi (fun n => n.setLeftChild (some y))
                (fun n => rfl) hbifi]
              rw [Repo.get_update_ne _ y bi (fun n => n.setParent (some f.i))
                (fun n => rfl) hbiy]
              show ((repo.update x _).update bi (fun n => n.setParent (some x))).get bi = _
              rw [Repo.get_update_self _ bi (fun n => n.setParent (some x)) (fun n => rfl)]
              rw [Repo.get_update_ne _ x bi
                (fun n => n.setRightChild (BT.nd bl bi bk bc2 br).rootId)
                (fun n => rfl) hbix]
              rw [hbrec]
              simp [BT.record, Node.setParent]
            refine ⟨hgb, ?_, ?_⟩
            · refine reps_frame bl repo _ (some bi) ?_ hbl
              intro j hj
              refine hskip j (fun h => hxB (h ▸ BT.mem_ids_nd.2 (Or.inl hj)))
                (fun h => hyB (h ▸ BT.mem_ids_nd.2 (Or.inl hj)))
                (fun h => hbiBL ((Option.some.inj h).symm ▸ hj))
                (fun h => hdisj j (hmemB j (BT.mem_ids_nd.2 (Or.inl hj)))
                  (h ▸ head_mem_ctxAllIds f ctx'))
            · refine reps_frame br repo _ (some bi) ?_ hbr
              intro j hj
              refine hskip j (fun h => hxB (h ▸ BT.mem_ids_nd.2 (Or.inr (Or.inr hj))))
                (fun h => hyB (h ▸ BT.mem_ids_nd.2 (Or.inr (Or.inr hj))))
                (fun h => hbiBR ((Option.some.inj h).symm ▸ hj))
                (fun h => hdisj j (hmemB j (BT.mem_ids_nd.2 (Or.inr (Or.inr hj))))
                  (h ▸ head_mem_ctxAllIds f ctx'))
        · refine reps_frame g repo _ (some y) ?_ hg
          intro j hj
          refine hskip j (fun h => hxG (h ▸ hj)) (fun h => hyG (h ▸ hj))
            (fun h => hBG j (BT.rootId_mem h) hj)
            (fun h => hdisj j (hmemG j hj) (h ▸ head_mem_ctxAllIds f ctx'))
    case Right =>
      have hrot : rotate t repo x .Left =
          (t,
           (((((((repo.update x (fun n => n.setRightChild b.rootId)).updateOpt b.rootId
                (fun n => n.setParent (some x))).update y
                (fun n => n.setParent (some f.i))).update f.i
                (fun n => n.setRightChild (some y))).update y
                (fun n => n.setLeftChild (some x))).update x
                (fun n => n.setParent (some y))))) := by
        simp only [rotate, hrel, hnic, set_child_side]
      rw [hrot]
      have hplugroot : (plug (f :: ctx') (BT.nd (BT.nd a x kx cx b) y ky cy g)).rootId
          = t.root := by
        rw [hroot]
        exact plug_rootId (f :: ctx') (List.cons_ne_nil f ctx') _ _
      refine ⟨by rw [hplugroot], ?_⟩
      have hskip : ∀ j, j ≠ x → j ≠ y → b.rootId ≠ some j → j ≠ f.i →
          ((((((((repo.update x (fun n => n.setRightChild b.rootId)).updateOpt b.rootId
                (fun n => n.setParent (some x))).update y
                (fun n => n.setParent (some f.i))).update f.i
                (fun n => n.setRightChild (some y))).update y
                (fun n => n.setLeftChild (some x))).update x
                (fun n => n.setParent (some y))))).get j = repo.get j := by
        intro j hjx hjy hjb hjf
        rw [Repo.get_update_ne _ x j (fun n => n.setParent (some y)) (fun n => rfl) hjx]
        rw [Repo.get_update_ne _ y j (fun n => n.setLeftChild (some x)) (fun n => rfl) hjy]
        rw [Repo.get_update_ne _ f.i j (fun n => n.setRightChild (some y)) (fun n => rfl) hjf]
        rw [Repo.get_update_ne _ y j (fun n => n.setParent (some f.i)) (fun n => rfl) hjy]
        rw [Repo.get_updateOpt_ne _ b.rootId (fun n => n.setParent (some x)) (fun n => rfl) j hjb]
        rw [Repo.get_update_ne _ x j (fun n => n.setRightChild b.rootId) (fun n => rfl) hjx]
      have hgx : ((((((((repo.update x (fun n => n.setRightChild b.rootId)).updateOpt b.rootId
                (fun n => n.setParent (some x))).update y
                (fun n => n.setParent (some f.i))).update f.i
                (fun n => n.setRightChild (some y))).update y
                (fun n => n.setLeftChild (some x))).update x
                (fun n => n.setParent (some y))))).get x =
          some (BT.record x kx cx (some y) a b) := by
        rw [Repo.get_update_self _ x (fun n => n.setParent (some y)) (fun n => rfl)]
        rw [Repo.get_update_ne _ y x (fun n => n.setLeftChild (some x)) (fun n => rfl) hxy]
        rw [Repo.get_update_ne _ f.i x (fun n => n.setRightChild (some y)) (fun n => rfl)
          (fun h => hfix h.symm)]
        rw [Repo.get_update_ne _ y x (fun n => n.setParent (some f.i)) (fun n => rfl) hxy]
        rw [Repo.get_updateOpt_ne _ b.rootId (fun n => n.setParent (some x)) (fun n => rfl) x hbx]
        rw [Repo.get_update_self _ x (fun n => n.setRightChild b.rootId) (fun n => rfl)]
        rw [hx]
        simp [BT.record, Node.setRightChild, Node.setParent]
      have hgy : ((((((((repo.update x (fun n => n.setRightChild b.rootId)).updateOpt b.rootId
                (fun n => n.setParent (some x))).update y
                (fun n => n.setParent (some f.i))).update f.i
                (fun n => n.setRightChild (some y))).update y
                (fun n => n.setLeftChild (some x))).update x
                (fun n => n.setParent (some y))))).get y =
          some (BT.record y ky cy (some f.i) (BT.nd a x kx cx b) g) := by
        rw [Repo.get_update_ne _ x y (fun n => n.setParent (some y)) (fun n => rfl)
          (fun h => hxy h.symm)]
        rw [Repo.get_update_self _ y (fun n => n.setLeftChild (some x)) (fun n => rfl)]
        rw [Repo.get_update_ne _ f.i y (fun n => n.setRightChild (some y)) (fun n => rfl)
          (fun h => hfiy h.symm)]
        rw [Repo.get_update_self _ y (fun n => n.setParent (some f.i)) (fun n => rfl)]
        rw [Repo.get_updateOpt_ne _ b.rootId (fun n => n.setParent (some x)) (fun n => rfl) y hby]
        rw [Repo.get_update_ne _ x y (fun n => n.setRightChild b.rootId) (fun n => rfl)
          (fun h => hxy h.symm)]
        rw [hy]
        simp [BT.record, Node.setLeftChild, Node.setParent, BT.rootId]
      have hgfi : ((((((((repo.update x (fun n => n.setRightChild b.rootId)).updateOpt b.rootId
                (fun n => n.setParent (some x))).update y
                (fun n => n.setParent (some f.i))).update f.i
                (fun n => n.setRightChild (some y))).update y
                (fun n => n.setLeftChild (some x))).update x
                (fun n => n.setParent (some y))))).get f.i =
          some
            { id := f.i, color := f.c, key := f.k, parent := ctxUp none ctx',
              left := f.sib.rootId, right := some y } := by
        rw [Repo.get_update_ne _ x f.i (fun n => n.setParent (some y)) (fun n => rfl) hfix]
        rw [Repo.get_update_ne _ y f.i (fun n => n.setLeftChild (some x)) (fun n => rfl) hfiy]
        rw [Repo.get_update_self _ f.i (fun n => n.setRightChild (some y)) (fun n => rfl)]
        rw [Repo.get_update_ne _ y f.i (fun n => n.setParent (some f.i)) (fun n => rfl) hfiy]
        rw [Repo.get_updateOpt_ne _ b.rootId (fun n => n.setParent (some x))
          (fun n => rfl) f.i hbfi]
        rw [Repo.get_update_ne _ x f.i (fun n => n.setRightChild b.rootId)
          (fun n => rfl) hfix]
        rw [hfrec]
        simp [Node.setRightChild, hfs]
      rw [reps_plug]
      constructor
      · refine ⟨?_, ?_, ?_⟩
        · rw [hgfi]
          simp [hfs, BT.rootId]
        · refine reps_frame f.sib repo _ (some f.i) ?_ hsib
          intro j hj
          exact hskip j (hsibx j hj) (hsiby j hj) (hsibb j hj)
            (fun h => hfisib (h ▸ hj))
        · refine repsCtx_frame ctx' repo _ none (some f.i) ?_ htail
          intro j hj
          exact hskip j (hctxx j hj) (hctxy j hj) (hctxb j hj)
            (fun h => hfictx (h ▸ hj))
      · show reps _ (some f.i) _
        refine ⟨hgy, ⟨hgx, ?_, ?_⟩, ?_⟩
        · refine reps_frame a repo _ (some x) ?_ ha
          intro j hj
          refine hskip j (fun h => hxA (h ▸ hj)) (fun h => hAYR j hj (by rw [h]; exact hyYR))
            (fun h => hAYR j hj (BT.mem_ids_nd.2 (Or.inl (BT.rootId_mem h))))
            (fun h => hdisj j (hmemA j hj) (h ▸ head_mem_ctxAllIds f ctx'))
        · cases b with
          | nil => trivial
          | nd bl bi bk bc2 br =>
            obtain ⟨hbrec, hbl, hbr⟩ := hb
            obtain ⟨hndBL, hndBR, hbiBL, hbiBR, hBLBR⟩ := nd_nodup_parts hndB
            have hbimem : bi ∈ (BT.nd bl bi bk bc2 br).ids :=
              BT.mem_ids_nd.2 (Or.inr (Or.inl rfl))
            have hbix : bi ≠ x := fun h => hxB (h ▸ hbimem)
            have hbiy : bi ≠ y := fun h => hyB (h ▸ hbimem)
            have hbifi : bi ≠ f.i := fun h =>
              hdisj bi (hmemB bi hbimem) (h ▸ head_mem_ctxAllIds f ctx')
            have hgb : ((((((((repo.update x
                  (fun n => n.setRightChild (BT.nd bl bi bk bc2 br).rootId)).updateOpt
                  (BT.nd bl bi bk bc2 br).rootId
                  (fun n => n.setParent (some x))).update y
                  (fun n => n.setParent (some f.i))).update f.i
                  (fun n => n.setRightChild (some y))).update y
                  (fun n => n.setLeftChild (some x))).update x
                  (fun n => n.setParent (some y))))).get bi =
                some (BT.record bi bk bc2 (some x) bl br) := by
              rw [Repo.get_update_ne _ x bi (fun n => n.setParent (some y)) (fun n => rfl) hbix]
              rw [Repo.get_update_ne _ y bi (fun n => n.setLeftChild (some x))
                (fun n => rfl) hbiy]
              rw [Repo.get_update_ne _ f.i bi (fun n => n.setRightChild (some y))
                (fun n => rfl) hbifi]
              rw [Repo.get_update_ne _ y bi (fun n => n.setParent (some f.i))
                (fun n => rfl) hbiy]
              show ((repo.update x _).update bi (fun n => n.setParent (some x))).get bi = _
              rw [Repo.get_update_self _ bi (fun n => n.setParent (some x)) (fun n => rfl)]
              rw [Repo.get_update_ne _ x bi
                (fun n => n.setRightChild (BT.nd bl bi bk bc2 br).rootId)
                (fun n => rfl) hbix]
              rw [hbrec]
              simp [BT.record, Node.setParent]
            refine ⟨hgb, ?_, ?_⟩
            · refine reps_frame bl repo _ (some bi) ?_ hbl
              intro j hj
              refine hskip j (fun h => hxB (h ▸ BT.mem_ids_nd.2 (Or.inl hj)))
                (fun h => hyB (h ▸ BT.mem_ids_nd.2 (Or.inl hj)))
                (fun h => hbiBL ((Option.some.inj h).symm ▸ hj))
                (fun h => hdisj j (hmemB j (BT.mem_ids_nd.2 (Or.inl hj)))
                  (h ▸ head_mem_ctxAllIds f ctx'))
            · refine reps_frame br repo _ (some bi) ?_ hbr
              intro j hj
              refine hskip j (fun h => hxB (h ▸ BT.mem_ids_nd.2 (Or.inr (Or.inr hj))))
                (fun h => hyB (h ▸ BT.mem_ids_nd.2 (Or.inr (Or.inr hj))))
                (fun h => hbiBR ((Option.some.inj h).symm ▸ hj))
                (fun h => hdisj j (hmemB j (BT.mem_ids_nd.2 (Or.inr (Or.inr hj))))
                  (h ▸ head_mem_ctxAllIds f ctx'))
        · refine reps_frame g repo _ (some y) ?_ hg
          intro j hj
          refine hskip j (fun h => hxG (h ▸ hj)) (fun h => hyG (h ▸ hj))
            (fun h => hBG j (BT.rootId_mem h) hj)
            (fun h => hdisj j (hmemG j hj) (h ▸ head_mem_ctxAllIds f ctx'))

theorem rotate_right_abs (t : RedBlackTree) (repo : Repo) (ctx : Ctx)
    (a b g : BT) (x y : Nat) (kx ky : Int) (cx cy : Color)
    (hr : reps repo none (plug ctx (.nd (.nd g y ky cy b) x kx cx a)))
    (hnd : (plug ctx (.nd (.nd g y ky cy b) x kx cx a)).ids.Nodup)
    (hroot : t.root = (plug ctx (.nd (.nd g y ky cy b) x kx cx a)).rootId) :
    (rotate t repo x .Right).1 =
      { t with root := (plug ctx (.nd g y ky cy (.nd b x kx cx a))).rootId } ∧
    reps (rotate t repo x .Right).2 none (plug ctx (.nd g y ky cy (.nd b x kx cx a))) := by
  rw [reps_plug] at hr
  obtain ⟨hctx, hsub⟩ := hr
  obtain ⟨hx, hsuby, ha⟩ := hsub
  obtain ⟨hy, hg, hb⟩ := hsuby
  obtain ⟨hnd0, hdisj⟩ := plug_nodup_parts hnd
  obtain ⟨hndYL, hndA, hxYL, hxA, hYLA⟩ := nd_nodup_parts hnd0
  obtain ⟨hndG, hndB, hyG, hyB, hGB⟩ := nd_nodup_parts hndYL
  have hyYL : y ∈ (BT.nd g y ky cy b).ids := BT.mem_ids_nd.2 (Or.inr (Or.inl rfl))
  have hxy : x ≠ y := fun h => hxYL (h ▸ hyYL)
  have hxB : x ∉ b.ids := fun h => hxYL (BT.mem_ids_nd.2 (Or.inr (Or.inr h)))
  have hxG : x ∉ g.ids := fun h => hxYL (BT.mem_ids_nd.2 (Or.inl h))
  have hbx : b.rootId ≠ some x := fun h => hxB (BT.rootId_mem h)
  have hby : b.rootId ≠ some y := fun h => hyB (BT.rootId_mem h)
  have hmemx : x ∈ (BT.nd (BT.nd g y ky cy b) x kx cx a).ids :=
    BT.mem_ids_nd.2 (Or.inr (Or.inl rfl))
  have hmemy : y ∈ (BT.nd (BT.nd g y ky cy b) x kx cx a).ids :=
    BT.mem_ids_nd.2 (Or.inl hyYL)
  have hmemA : ∀ j ∈ a.ids, j ∈ (BT.nd (BT.nd g y ky cy b) x kx cx a).ids := fun j hj =>
    BT.mem_ids_nd.2 (Or.inr (Or.inr hj))
  have hmemB : ∀ j ∈ b.ids, j ∈ (BT.nd (BT.nd g y ky cy b) x kx cx a).ids := fun j hj =>
    BT.mem_ids_nd.2 (Or.inl (BT.mem_ids_nd.2 (Or.inr (Or.inr hj))))
  have hmemG : ∀ j ∈ g.ids, j ∈ (BT.nd (BT.nd g y ky cy b) x kx cx a).ids := fun j hj =>
    BT.mem_ids_nd.2 (Or.inl (BT.mem_ids_nd.2 (Or.inl hj)))
  have hgc : (repo.getRight y).map Node.id = b.rootId := by
    rw [Repo.getRight, hy]
    exact reps_rootId_get hb
  have hrel : get_relatives repo x .Right = ⟨ctxUp none ctx, y, b.rootId⟩ := by
    simp [get_relatives, hx, BT.record, BT.rootId, hgc]
  cases ctx with
  | nil =>
    simp only [ctxUp] at hrel
    have hrot : rotate t repo x .Right =
        ({ t with root := some y },
         (((((repo.update x (fun n => n.setLeftChild b.rootId)).updateOpt b.rootId
              (fun n => n.setParent (some x))).update y
              (fun n => n.setParent none)).update y
              (fun n => n.setRightChild (some x))).update x
              (fun n => n.setParent (some y)))) := by
      simp only [rotate, hrel]
    rw [hrot]
    refine ⟨rfl, ?_⟩
    show reps _ none (BT.nd g y ky cy (BT.nd b x kx cx a))
    have hskip : ∀ j, j ≠ x → j ≠ y → b.rootId ≠ some j →
        ((((((repo.update x (fun n => n.setLeftChild b.rootId)).updateOpt b.rootId
              (fun n => n.setParent (some x))).update y
              (fun n => n.setParent none)).update y
              (fun n => n.setRightChild (some x))).update x
              (fun n => n.setParent (some y)))).get j = repo.get j := by
      intro j hjx hjy hjb
      rw [Repo.get_update_ne _ x j (fun n => n.setParent (some y)) (fun n => rfl) hjx]
      rw [Repo.get_update_ne _ y j (fun n => n.setRightChild (some x)) (fun n => rfl) hjy]
      rw [Repo.get_update_ne _ y j (fun n => n.setParent none) (fun n => rfl) hjy]
      rw [Repo.get_updateOpt_ne _ b.rootId (fun n => n.setParent (some x)) (fun n => rfl) j hjb]
      rw [Repo.get_update_ne _ x j (fun n => n.setLeftChild b.rootId) (fun n => rfl) hjx]
    have hgx : ((((((repo.update x (fun n => n.setLeftChild b.rootId)).updateOpt b.rootId
              (fun n => n.setParent (some x))).update y
              (fun n => n.setParent none)).update y
              (fun n => n.setRightChild (some x))).update x
              (fun n => n.setParent (some y)))).get x =
        some (BT.record x kx cx (some y) b a) := by
      rw [Repo.get_update_self _ x (fun n => n.setParent (some y)) (fun n => rfl)]
      rw [Repo.get_update_ne _ y x (fun n => n.setRightChild (some x)) (fun n => rfl) hxy]
      rw [Repo.get_update_ne _ y x (fun n => n.setParent none) (fun n => rfl) hxy]
      rw [Repo.get_updateOpt_ne _ b.rootId (fun n => n.setParent (some x)) (fun n => rfl) x hbx]
      rw [Repo.get_update_self _ x (fun n => n.setLeftChild b.rootId) (fun n => rfl)]
      rw [hx]
      simp [BT.record, Node.setRightChild, Node.setLeftChild, Node.setParent]
    have hgy : ((((((repo.update x (fun n => n.setLeftChild b.rootId)).updateOpt b.rootId
              (fun n => n.setParent (some x))).update y
              (fun n => n.setParent none)).update y
              (fun n => n.setRightChild (some x))).update x
              (fun n => n.setParent (some y)))).get y =
        some (BT.record y ky cy none g (BT.nd b x kx cx a)) := by
      rw [Repo.get_update_ne _ x y (fun n => n.setParent (some y)) (fun n => rfl)
        (fun h => hxy h.symm)]
      rw [Repo.get_update_self _ y (fun n => n.setRightChild (some x)) (fun n => rfl)]
      rw [Repo.get_update_self _ y (fun n => n.setParent none) (fun n => rfl)]
      rw [Repo.get_updateOpt_ne _ b.rootId (fun n => n.setParent (some x)) (fun n => rfl) y hby]
      rw [Repo.get_update_ne _ x y (fun n => n.setLeftChild b.rootId) (fun n => rfl)
        (fun h => hxy h.symm)]
      rw [hy]
      simp [BT.record, Node.setRightChild, Node.setLeftChild, Node.setParent, BT.rootId]
    refine ⟨hgy, ?_, ⟨hgx, ?_, ?_⟩⟩
    · refine reps_frame g repo _ (some y) ?_ hg
      intro j hj
      refine hskip j (fun h => hxG (h ▸ hj)) (fun h => hyG (h ▸ hj))
        (fun h => hGB j hj (BT.rootId_mem h))
    · cases b with
      | nil => trivial
      | nd bl bi bk bc2 br =>
        obtain ⟨hbrec, hbl, hbr⟩ := hb
        obtain ⟨hndBL, hndBR, hbiBL, hbiBR, hBLBR⟩ := nd_nodup_parts hndB
        have hbimem : bi ∈ (BT.nd bl bi bk bc2 br).ids := BT.mem_ids_nd.2 (Or.inr (Or.inl rfl))
        have hbix : bi ≠ x := fun h => hxB (h ▸ hbimem)
        have hbiy : bi ≠ y := fun h => hyB (h ▸ hbimem)
        have hgb : ((((((repo.update x
              (fun n => n.setLeftChild (BT.nd bl bi bk bc2 br).rootId)).updateOpt
              (BT.nd bl bi bk bc2 br).rootId
              (fun n => n.setParent (some x))).update y
              (fun n => n.setParent none)).update y
              (fun n => n.setRightChild (some x))).update x
              (fun n => n.setParent (some y)))).get bi =
            some (BT.record bi bk bc2 (some x) bl br) := by
          rw [Repo.get_update_ne _ x bi (fun n => n.setParent (some y)) (fun n => rfl) hbix]
          rw [Repo.get_update_ne _ y bi (fun n => n.setRightChild (some x)) (fun n => rfl) hbiy]
          rw [Repo.get_update_ne _ y bi (fun n => n.setParent none) (fun n => rfl) hbiy]
          show ((repo.update x _).update bi (fun n => n.setParent (some x))).get bi = _
          rw [Repo.get_update_self _ bi (fun n => n.setParent (some x)) (fun n => rfl)]
          rw [Repo.get_update_ne _ x bi
            (fun n => n.setLeftChild (BT.nd bl bi bk bc2 br).rootId) (fun n => rfl) hbix]
          rw [hbrec]
          simp [BT.record, Node.setParent]
        refine ⟨hgb, ?_, ?_⟩
        · refine reps_frame bl repo _ (some bi) ?_ hbl
          intro j hj
          refine hskip j (fun h => hxB (h ▸ BT.mem_ids_nd.2 (Or.inl hj)))
            (fun h => hyB (h ▸ BT.mem_ids_nd.2 (Or.inl hj)))
            (fun h => hbiBL ((Option.some.inj h).symm ▸ hj))
        · refine reps_frame br repo _ (some bi) ?_ hbr
          intro j hj
          refine hskip j (fun h => hxB (h ▸ BT.mem_ids_nd.2 (Or.inr (Or.inr hj))))
            (fun h => hyB (h ▸ BT.mem_ids_nd.2 (Or.inr (Or.inr hj))))
            (fun h => hbiBR ((Option.some.inj h).symm ▸ hj))
    · refine reps_frame a repo _ (some x) ?_ ha
      intro j hj
      refine hskip j (fun h => hxA (h ▸ hj)) (fun h => hYLA y hyYL (h ▸ hj))
        (fun h => hYLA j (BT.mem_ids_nd.2 (Or.inr (Or.inr (BT.rootId_mem h)))) hj)
  | cons f ctx' =>
    obtain ⟨hfrec, hsib, htail⟩ := hctx
    simp only [ctxUp] at hrel
    obtain ⟨hfisib, hfictx, hsibctx, hndctx'⟩ := ctxAllIds_cons_parts (ctxAllIds_nodup hnd)
    have hfix : f.i ≠ x := fun h => hdisj x hmemx (h ▸ head_mem_ctxAllIds f ctx')
    have hfiy : f.i ≠ y := fun h => hdisj y hmemy (h ▸ head_mem_ctxAllIds f ctx')
    have hbfi : (BT.rootId b) ≠ some f.i := fun h =>
      hdisj f.i (hmemB f.i (BT.rootId_mem h)) (head_mem_ctxAllIds f ctx')
    have hsibx : ∀ j ∈ f.sib.ids, j ≠ x := fun j hj h =>
      hdisj x hmemx (h ▸ sib_mem_ctxAllIds f ctx' j hj)
    have hsiby : ∀ j ∈ f.sib.ids, j ≠ y := fun j hj h =>
      hdisj y hmemy (h ▸ sib_mem_ctxAllIds f ctx' j hj)
    have hsibb : ∀ j ∈ f.sib.ids, (BT.rootId b) ≠ some j := fun j hj h =>
      hdisj j (hmemB j (BT.rootId_mem h)) (sib_mem_ctxAllIds f ctx' j hj)
    have hctxx : ∀ j ∈ ctxAllIds ctx', j ≠ x := fun j hj h =>
      hdisj x hmemx (h ▸ ctxAllIds_cons_subset f ctx' hj)
    have hctxy : ∀ j ∈ ctxAllIds ctx', j ≠ y := fun j hj h =>
      hdisj y hmemy (h ▸ ctxAllIds_cons_subset f ctx' hj)
    have hctxb : ∀ j ∈ ctxAllIds ctx', (BT.rootId b) ≠ some j := fun j hj h =>
      hdisj j (hmemB j (BT.rootId_mem h)) (ctxAllIds_cons_subset f ctx' hj)
    have hnic : node_is_child (((repo.update x
        (fun n => n.setLeftChild b.rootId)).updateOpt b.rootId
        (fun n => n.setParent (some x))).update y
        (fun n => n.setParent (some f.i))) x = some f.side := by
      have hx3 : (((repo.update x
          (fun n => n.setLeftChild b.rootId)).updateOpt b.rootId
          (fun n => n.setParent (some x))).update y
          (fun n => n.setParent (some f.i))).get x =
          some ((BT.record x kx cx (some f.i) (BT.nd g y ky cy b) a).setLeftChild
            b.rootId) := by
        rw [Repo.get_update_ne _ y x (fun n => n.setParent (some f.i)) (fun n => rfl) hxy]
        rw [Repo.get_updateOpt_ne _ b.rootId (fun n => n.setParent (some x))
          (fun n => rfl) x hbx]
        rw [Repo.get_update_self _ x (fun n => n.setLeftChild b.rootId) (fun n => rfl)]
        rw [hx]
        rfl
      have hfi3 : (((repo.update x
          (fun n => n.setLeftChild b.rootId)).updateOpt b.rootId
          (fun n => n.setParent (some x))).update y
          (fun n => n.setParent (some f.i))).get f.i = repo.get f.i := by
        rw [Repo.get_update_ne _ y f.i (fun n => n.setParent (some f.i)) (fun n => rfl) hfiy]
        rw [Repo.get_updateOpt_ne _ b.rootId (fun n => n.setParent (some x))
          (fun n => rfl) f.i hbfi]
        rw [Repo.get_update_ne _ x f.i (fun n => n.setLeftChild b.rootId)
          (fun n => rfl) hfix]
      rw [node_is_child, Repo.getParent, hx3, Option.some_bind]
      rw [show Node.parent ((BT.record x kx cx (some f.i) (BT.nd g y ky cy b) a).setLeftChild b.rootId) = some f.i from rfl]
      rw [Option.some_bind, hfi3, hfrec]
      cases hfs : f.side
      · rw [show (if Child.Left = Child.Left
            then (BT.nd (BT.nd g y ky cy b) x kx cx a).rootId else f.sib.rootId) = some x
          from by rw [if_pos rfl]; rfl]
        dsimp only
        rw [hx3]
        dsimp only [BT.record, Node.setLeftChild]
        simp
      · have hne : ¬ (Child.Right = Child.Left) := by decide
        rw [show (if Child.Right = Child.Left
            then (BT.nd (BT.nd g y ky cy b) x kx cx a).rootId else f.sib.rootId) =
            f.sib.rootId from by rw [if_neg hne]]
        cases hsr : f.sib.rootId with
        | none => simp
        | some sid =>
          have hsidmem : sid ∈ f.sib.ids := BT.rootId_mem hsr
          have hsrec := reps_rootId_get hsib
          rw [hsr] at hsrec
          simp only [Option.some_bind] at hsrec
          cases hget : repo.get sid with
          | none => rw [hget] at hsrec; simp at hsrec
          | some n =>
            rw [hget] at hsrec
            have hid : n.id = sid := by simpa using hsrec
            have hg3 : (((repo.update x
                (fun n => n.setLeftChild b.rootId)).updateOpt b.rootId
                (fun n => n.setParent (some x))).update y
                (fun n => n.setParent (some f.i))).get sid = repo.get sid := by
              rw [Repo.get_update_ne _ y sid (fun n => n.setParent (some f.i)) (fun n => rfl)
                (hsiby sid hsidmem)]
              rw [Repo.get_updateOpt_ne _ b.rootId (fun n => n.setParent (some x))
                (fun n => rfl) sid (hsibb sid hsidmem)]
              rw [Repo.get_update_ne _ x sid (fun n => n.setLeftChild b.rootId)
                (fun n => rfl) (hsibx sid hsidmem)]
            dsimp only
            rw [hg3, hget]
            dsimp only
            rw [hid]
            simp [hsibx sid hsidmem]
    cases hfs : f.side
    all_goals rw [hfs] at hnic
    case Left =>
      have hrot : rotate t repo x .Right =
          (t,
           (((((((repo.update x (fun n => n.setLeftChild b.rootId)).updateOpt b.rootId
                (fun n => n.setParent (some x))).update y
                (fun n => n.setParent (some f.i))).update f.i
                (fun n => n.setLeftChild (some y))).update y
                (fun n => n.setRightChild (some x))).update x
                (fun n => n.setParent (some y))))) := by
        simp only [rotate, hrel, hnic, set_child_side]
      rw [hrot]
      have hplugroot : (plug (f :: ctx') (BT.nd g y ky cy (BT.nd b x kx cx a))).rootId
          = t.root := by
        rw [hroot]
        exact plug_rootId (f :: ctx') (List.cons_ne_nil f ctx') _ _
      refine ⟨by rw [hplugroot], ?_⟩
      have hskip : ∀ j, j ≠ x → j ≠ y → b.rootId ≠ some j → j ≠ f.i →
          ((((((((repo.update x (fun n => n.setLeftChild b.rootId)).updateOpt b.rootId
                (fun n => n.setParent (some x))).update y
                (fun n => n.setParent (some f.i))).update f.i
                (fun n => n.setLeftChild (some y))).update y
                (fun n => n.setRightChild (some x))).update x
                (fun n => n.setParent (some y))))).get j = repo.get j := by
        intro j hjx hjy hjb hjf
        rw [Repo.get_update_ne _ x j (fun n => n.setParent (some y)) (fun n => rfl) hjx]
        rw [Repo.get_update_ne _ y j (fun n => n.setRightChild (some x)) (fun n => rfl) hjy]
        rw [Repo.get_update_ne _ f.i j (fun n => n.setLeftChild (some y)) (fun n => rfl) hjf]
        rw [Repo.get_update_ne _ y j (fun n => n.setParent (some f.i)) (fun n => rfl) hjy]
        rw [Repo.get_updateOpt_ne _ b.rootId (fun n => n.setParent (some x)) (fun n => rfl) j hjb]
        rw [Repo.get_update_ne _ x j (fun n => n.setLeftChild b.rootId) (fun n => rfl) hjx]
      have hgx : ((((((((repo.update x (fun n => n.setLeftChild b.rootId)).updateOpt b.rootId
                (fun n => n.setParent (some x))).update y
                (fun n => n.setParent (some f.i))).update f.i
                (fun n => n.setLeftChild (some y))).update y
                (fun n => n.setRightChild (some x))).update x
                (fun n => n.setParent (some y))))).get x =
          some (BT.record x kx cx (some y) b a) := by
        rw [Repo.get_update_self _ x (fun n => n.setParent (some y)) (fun n => rfl)]
        rw [Repo.get_update_ne _ y x (fun n => n.setRightChild (some x)) (fun n => rfl) hxy]
        rw [Repo.get_update_ne _ f.i x (fun n => n.setLeftChild (some y)) (fun n => rfl)
          (fun h => hfix h.symm)]
        rw [Repo.get_update_ne _ y x (fun n => n.setParent (some f.i)) (fun n => rfl) hxy]
        rw [Repo.get_updateOpt_ne _ b.rootId (fun n => n.setParent (some x)) (fun n => rfl) x hbx]
        rw [Repo.get_update_self _ x (fun n => n.setLeftChild b.rootId) (fun n => rfl)]
        rw [hx]
        simp [BT.record, Node.setRightChild, Node.setLeftChild, Node.setParent]
      have hgy : ((((((((repo.update x (fun n => n.setLeftChild b.rootId)).updateOpt b.rootId
                (fun n => n.setParent (some x))).update y
                (fun n => n.setParent (some f.i))).update f.i
                (fun n => n.setLeftChild (some y))).update y
                (fun n => n.setRightChild (some x))).update x
                (fun n => n.setParent (some y))))).get y =
          some (BT.record y ky cy (some f.i) g (BT.nd b x kx cx a)) := by
        rw [Repo.get_update_ne _ x y (fun n => n.setParent (some y)) (fun n => rfl)
          (fun h => hxy h.symm)]
        rw [Repo.get_update_self _ y (fun n => n.setRightChild (some x)) (fun n => rfl)]
        rw [Repo.get_update_ne _ f.i y (fun n => n.setLeftChild (some y)) (fun n => rfl)
          (fun h => hfiy h.symm)]
        rw [Repo.get_update_self _ y (fun n => n.setParent (some f.i)) (fun n => rfl)]
        rw [Repo.get_updateOpt_ne _ b.rootId (fun n => n.setParent (some x)) (fun n => rfl) y hby]
        rw [Repo.get_update_ne _ x y (fun n => n.setLeftChild b.rootId) (fun n => rfl)
          (fun h => hxy h.symm)]
        rw [hy]
        simp [BT.record, Node.setRightChild, Node.setLeftChild, Node.setParent, BT.rootId]
      have hgfi : ((((((((repo.update x (fun n => n.setLeftChild b.rootId)).updateOpt b.rootId
                (fun n => n.setParent (some x))).update y
                (fun n => n.setParent (some f.i))).update f.i
                (fun n => n.setLeftChild (some y))).update y
                (fun n => n.setRightChild (some x))).update x
                (fun n => n.setParent (some y))))).get f.i =
          some
            { id := f.i, color := f.c, key := f.k, parent := ctxUp none ctx',
              left := some y, right := f.sib.rootId } := by
        rw [Repo.get_update_ne _ x f.i (fun n => n.setParent (some y)) (fun n => rfl) hfix]
        rw [Repo.get_update_ne _ y f.i (fun n => n.setRightChild (some x)) (fun n => rfl) hfiy]
        rw [Repo.get_update_self _ f.i (fun n => n.setLeftChild (some y)) (fun n => rfl)]
        rw [Repo.get_update_ne _ y f.i (fun n => n.setParent (some f.i)) (fun n => rfl) hfiy]
        rw [Repo.get_updateOpt_ne _ b.rootId (fun n => n.setParent (some x))
          (fun n => rfl) f.i hbfi]
        rw [Repo.get_update_ne _ x f.i (fun n => n.setLeftChild b.rootId)
          (fun n => rfl) hfix]
        rw [hfrec]
        simp [Node.setLeftChild, hfs]
      rw [reps_plug]
      constructor
      · refine ⟨?_, ?_, ?_⟩
        · rw [hgfi]
          simp [hfs, BT.rootId]
        · refine reps_frame f.sib repo _ (some f.i) ?_ hsib
          intro j hj
          exact hskip j (hsibx j hj) (hsiby j hj) (hsibb j hj)
            (fun h => hfisib (h ▸ hj))
        · refine repsCtx_frame ctx' repo _ none (some f.i) ?_ htail
          intro j hj
          exact hskip j (hctxx j hj) (hctxy j hj) (hctxb j hj)
            (fun h => hfictx (h ▸ hj))
      · show reps _ (some f.i) _
        refine ⟨hgy, ?_, ⟨hgx, ?_, ?_⟩⟩
        · refine reps_frame g repo _ (some y) ?_ hg
          intro j hj
          refine hskip j (fun h => hxG (h ▸ hj)) (fun h => hyG (h ▸ hj))
            (fun h => hGB j hj (BT.rootId_mem h))
            (fun h => hdisj j (hmemG j hj) (h ▸ head_mem_ctxAllIds f ctx'))
        · cases b with
          | nil => trivial
          | nd bl bi bk bc2 br =>
            obtain ⟨hbrec, hbl, hbr⟩ := hb
            obtain ⟨hndBL, hndBR, hbiBL, hbiBR, hBLBR⟩ := nd_nodup_parts hndB
            have hbimem : bi ∈ (BT.nd bl bi bk bc2 br).ids :=
              BT.mem_ids_nd.2 (Or.inr (Or.inl rfl))
            have hbix : bi ≠ x := fun h => hxB (h ▸ hbimem)
            have hbiy : bi ≠ y := fun h => hyB (h ▸ hbimem)
            have hbifi : bi ≠ f.i := fun h =>
              hdisj bi (hmemB bi hbimem) (h ▸ head_mem_ctxAllIds f ctx')
            have hgb : ((((((((repo.update x
                  (fun n => n.setLeftChild (BT.nd bl bi bk bc2 br).rootId)).updateOpt
                  (BT.nd bl bi bk bc2 br).rootId
                  (fun n => n.setParent (some x))).update y
                  (fun n => n.setParent (some f.i))).update f.i
                  (fun n => n.setLeftChild (some y))).update y
                  (fun n => n.setRightChild (some x))).update x
                  (fun n => n.setParent (some y))))).get bi =
                some (BT.record bi bk bc2 (some x) bl br) := by
              rw [Repo.get_update_ne _ x bi (fun n => n.setParent (some y)) (fun n => rfl) hbix]
              rw [Repo.get_update_ne _ y bi (fun n => n.setRightChild (some x))
                (fun n => rfl) hbiy]
              rw [Repo.get_update_ne _ f.i bi (fun n => n.setLeftChild (some y))
                (fun n => rfl) hbifi]
              rw [Repo.get_update_ne _ y bi (fun n => n.setParent (some f.i))
                (fun n => rfl) hbiy]
              show ((repo.update x _).update bi (fun n => n.setParent (some x))).get bi = _
              rw [Repo.get_update_self _ bi (fun n => n.setParent (some x)) (fun n => rfl)]
              rw [Repo.get_update_ne _ x bi
                (fun n => n.setLeftChild (BT.nd bl bi bk bc2 br).rootId)
                (fun n => rfl) hbix]
              rw [hbrec]
              simp [BT.record, Node.setParent]
            refine ⟨hgb, ?_, ?_⟩
            · refine reps_frame bl repo _ (some bi) ?_ hbl
              intro j hj
              refine hskip j (fun h => hxB (h ▸ BT.mem_ids_nd.2 (Or.inl hj)))
                (fun h => hyB (h ▸ BT.mem_ids_nd.2 (Or.inl hj)))
                (fun h => hbiBL ((Option.some.inj h).symm ▸ hj))
                (fun h => hdisj j (hmemB j (BT.mem_ids_nd.2 (Or.inl hj)))
                  (h ▸ head_mem_ctxAllIds f ctx'))
            · refine reps_frame br repo _ (some bi) ?_ hbr
              intro j hj
              refine hskip j (fun h => hxB (h ▸ BT.mem_ids_nd.2 (Or.inr (Or.inr hj))))
                (fun h => hyB (h ▸ BT.mem_ids_nd.2 (Or.inr (Or.inr hj))))
                (fun h => hbiBR ((Option.some.inj h).symm ▸ hj))
                (fun h => hdisj j (hmemB j (BT.mem_ids_nd.2 (Or.inr (Or.inr hj))))
                  (h ▸ head_mem_ctxAllIds f ctx'))
        · refine reps_frame a repo _ (some x) ?_ ha
          intro j hj
          refine hskip j (fun h => hxA (h ▸ hj)) (fun h => hYLA y hyYL (h ▸ hj))
            (fun h => hYLA j (BT.mem_ids_nd.2 (Or.inr (Or.inr (BT.rootId_mem h)))) hj)
            (fun h => hdisj j (hmemA j hj) (h ▸ head_mem_ctxAllIds f ctx'))
    case Right =>
      have hrot : rotate t repo x .Right =
          (t,
           (((((((repo.update x (fun n => n.setLeftChild b.rootId)).updateOpt b.rootId
                (fun n => n.setParent (some x))).update y
                (fun n => n.setParent (some f.i))).update f.i
                (fun n => n.setRightChild (some y))).update y
                (fun n => n.setRightChild (some x))).update x
                (fun n => n.setParent (some y))))) := by
        simp only [rotate, hrel, hnic, set_child_side]
      rw [hrot]
      have hplugroot : (plug (f :: ctx') (BT.nd g y ky cy (BT.nd b x kx cx a))).rootId
          = t.root := by
        rw [hroot]
        exact plug_rootId (f :: ctx') (List.cons_ne_nil f ctx') _ _
      refine ⟨by rw [hplugroot], ?_⟩
      have hskip : ∀ j, j ≠ x → j ≠ y → b.rootId ≠ some j → j ≠ f.i →
          ((((((((repo.update x (fun n => n.setLeftChild b.rootId)).updateOpt b.rootId
                (fun n => n.setParent (some x))).update y
                (fun n => n.setParent (some f.i))).update f.i
                (fun n => n.setRightChild (some y))).update y
                (fun n => n.setRightChild (some x))).update x
                (fun n => n.setParent (some y))))).get j = repo.get j := by
        intro j hjx hjy hjb hjf
        rw [Repo.get_update_ne _ x j (fun n => n.setParent (some y)) (fun n => rfl) hjx]
        rw [Repo.get_update_ne _ y j (fun n => n.setRightChild (some x)) (fun n => rfl) hjy]
        rw [Repo.get_update_ne _ f.i j (fun n => n.setRightChild (some y)) (fun n => rfl) hjf]
        rw [Repo.get_update_ne _ y j (fun n => n.setParent (some f.i)) (fun n => rfl) hjy]
        rw [Repo.get_updateOpt_ne _ b.rootId (fun n => n.setParent (some x)) (fun n => rfl) j hjb]
        rw [Repo.get_update_ne _ x j (fun n => n.setLeftChild b.rootId) (fun n => rfl) hjx]
      have hgx : ((((((((repo.update x (fun n => n.setLeftChild b.rootId)).updateOpt b.rootId
                (fun n => n.setParent (some x))).update y
                (fun n => n.setParent (some f.i))).update f.i
                (fun n => n.setRightChild (some y))).update y
                (fun n => n.setRightChild (some x))).update x
                (fun n => n.setParent (some y))))).get x =
          some (BT.record x kx cx (some y) b a) := by
        rw [Repo.get_update_self _ x (fun n => n.setParent (some y)) (fun n => rfl)]
        rw [Repo.get_update_ne _ y x (fun n => n.setRightChild (some x)) (fun n => rfl) hxy]
        rw [Repo.get_update_ne _ f.i x (fun n => n.setRightChild (some y)) (fun n => rfl)
          (fun h => hfix h.symm)]
        rw [Repo.get_update_ne _ y x (fun n => n.setParent (some f.i)) (fun n => rfl) hxy]
        rw [Repo.get_updateOpt_ne _ b.rootId (fun n => n.setParent (some x)) (fun n => rfl) x hbx]
        rw [Repo.get_update_self _ x (fun n => n.setLeftChild b.rootId) (fun n => rfl)]
        rw [hx]
        simp [BT.record, Node.setRightChild, Node.setLeftChild, Node.setParent]
      have hgy : ((((((((repo.update x (fun n => n.setLeftChild b.rootId)).updateOpt b.rootId
                (fun n => n.setParent (some x))).update y
                (fun n => n.setParent (some f.i))).update f.i
                (fun n => n.setRightChild (some y))).update y
                (fun n => n.setRightChild (some x))).update x
                (fun n => n.setParent (some y))))).get y =
          some (BT.record y ky cy (some f.i) g (BT.nd b x kx cx a)) := by
        rw [Repo.get_update_ne _ x y (fun n => n.setParent (some y)) (fun n => rfl)
          (fun h => hxy h.symm)]
        rw [Repo.get_update_self _ y (fun n => n.setRightChild (some x)) (fun n => rfl)]
        rw [Repo.get_update_ne _ f.i y (fun n => n.setRightChild (some y)) (fun n => rfl)
          (fun h => hfiy h.symm)]
        rw [Repo.get_update_self _ y (fun n => n.setParent (some f.i)) (fun n => rfl)]
        rw [Repo.get_updateOpt_ne _ b.rootId (fun n => n.setParent (some x)) (fun n => rfl) y hby]
        rw [Repo.get_update_ne _ x y (fun n => n.setLeftChild b.rootId) (fun n => rfl)
          (fun h => hxy h.symm)]
        rw [hy]
        simp [BT.record, Node.setRightChild, Node.setLeftChild, Node.setParent, BT.rootId]
      have hgfi : ((((((((repo.update x (fun n => n.setLeftChild b.rootId)).updateOpt b.rootId
                (fun n => n.setParent (some x))).update y
                (fun n => n.setParent (some f.i))).update f.i
                (fun n => n.setRightChild (some y))).update y
                (fun n => n.setRightChild (some x))).update x
                (fun n => n.setParent (some y))))).get f.i =
          some
            { id := f.i, color := f.c, key := f.k, parent := ctxUp none ctx',
              left := f.sib.rootId, right := some y } := by
        rw [Repo.get_update_ne _ x f.i (fun n => n.setParent (some y)) (fun n => rfl) hfix]
        rw [Repo.get_update_ne _ y f.i (fun n => n.setRightChild (some x)) (fun n => rfl) hfiy]
        rw [Repo.get_update_self _ f.i (fun n => n.setRightChild (some y)) (fun n => rfl)]
        rw [Repo.get_update_ne _ y f.i (fun n => n.setParent (some f.i)) (fun n => rfl) hfiy]
        rw [Repo.get_updateOpt_ne _ b.rootId (fun n => n.setParent (some x))
          (fun n => rfl) f.i hbfi]
        rw [Repo.get_update_ne _ x f.i (fun n => n.setLeftChild b.rootId)
          (fun n => rfl) hfix]
        rw [hfrec]
        simp [Node.setRightChild, hfs]
      rw [reps_plug]
      constructor
      · refine ⟨?_, ?_, ?_⟩
        · rw [hgfi]
          simp [hfs, BT.rootId]
        · refine reps_frame f.sib repo _ (some f.i) ?_ hsib
          intro j hj
          exact hskip j (hsibx j hj) (hsiby j hj) (hsibb j hj)
            (fun h => hfisib (h ▸ hj))
        · refine repsCtx_frame ctx' repo _ none (some f.i) ?_ htail
          intro j hj
          exact hskip j (hctxx j hj) (hctxy j hj) (hctxb j hj)
            (fun h => hfictx (h ▸ hj))
      · show reps _ (some f.i) _
        refine ⟨hgy, ?_, ⟨hgx, ?_, ?_⟩⟩
        · refine reps_frame g repo _ (some y) ?_ hg
          intro j hj
          refine hskip j (fun h => hxG (h ▸ hj)) (fun h => hyG (h ▸ hj))
            (fun h => hGB j hj (BT.rootId_mem h))
            (fun h => hdisj j (hmemG j hj) (h ▸ head_mem_ctxAllIds f ctx'))


        · cases b with
          | nil => trivial
          | nd bl bi bk bc2 br =>
            obtain ⟨hbrec, hbl, hbr⟩ := hb
            obtain ⟨hndBL, hndBR, hbiBL, hbiBR, hBLBR⟩ := nd_nodup_parts hndB
            have hbimem : bi ∈ (BT.nd bl bi bk bc2 br).ids :=
              BT.mem_ids_nd.2 (Or.inr (Or.inl rfl))
            have hbix : bi ≠ x := fun h => hxB (h ▸ hbimem)
            have hbiy : bi ≠ y := fun h => hyB (h ▸ hbimem)
            have hbifi : bi ≠ f.i := fun h =>
              hdisj bi (hmemB bi hbimem) (h ▸ head_mem_ctxAllIds f ctx')
            have hgb : ((((((((repo.update x
                  (fun n => n.setLeftChild (BT.nd bl bi bk bc2 br).rootId)).updateOpt
                  (BT.nd bl bi bk bc2 br).rootId
                  (fun n => n.setParent (some x))).update y
                  (fun n => n.setParent (some f.i))).update f.i
                  (fun n => n.setRightChild (some y))).update y
                  (fun n => n.setRightChild (some x))).update x
                  (fun n => n.setParent (some y))))).get bi =
                some (BT.record bi bk bc2 (some x) bl br) := by
              rw [Repo.get_update_ne _ x bi (fun n => n.setParent (some y)) (fun n => rfl) hbix]
              rw [Repo.get_update_ne _ y bi (fun n => n.setRightChild (some x))
                (fun n => rfl) hbiy]
              rw [Repo.get_update_ne _ f.i bi (fun n => n.setRightChild (some y))
                (fun n => rfl) hbifi]
              rw [Repo.get_update_ne _ y bi (fun n => n.setParent (some f.i))
                (fun n => rfl) hbiy]
              show ((repo.update x _).update bi (fun n => n.setParent (some x))).get bi = _
              rw [Repo.get_update_self _ bi (fun n => n.setParent (some x)) (fun n => rfl)]
              rw [Repo.get_update_ne _ x bi
                (fun n => n.setLeftChild (BT.nd bl bi bk bc2 br).rootId)
                (fun n => rfl) hbix]
              rw [hbrec]
              simp [BT.record, Node.setParent]
            refine ⟨hgb, ?_, ?_⟩
            · refine reps_frame bl repo _ (some bi) ?_ hbl
              intro j hj
              refine hskip j (fun h => hxB (h ▸ BT.mem_ids_nd.2 (Or.inl hj)))
                (fun h => hyB (h ▸ BT.mem_ids_nd.2 (Or.inl hj)))
                (fun h => hbiBL ((Option.some.inj h).symm ▸ hj))
                (fun h => hdisj j (hmemB j (BT.mem_ids_nd.2 (Or.inl hj)))
                  (h ▸ head_mem_ctxAllIds f ctx'))
            · refine reps_frame br repo _ (some bi) ?_ hbr
              intro j hj
              refine hskip j (fun h => hxB (h ▸ BT.mem_ids_nd.2 (Or.inr (Or.inr hj))))
                (fun h => hyB (h ▸ BT.mem_ids_nd.2 (Or.inr (Or.inr hj))))
                (fun h => hbiBR ((Option.some.inj h).symm ▸ hj))
                (fun h => hdisj j (hmemB j (BT.mem_ids_nd.2 (Or.inr (Or.inr hj))))
                  (h ▸ head_mem_ctxAllIds f ctx'))
        · refine reps_frame a repo _ (some x) ?_ ha
          intro j hj
          refine hskip j (fun h => hxA (h ▸ hj)) (fun h => hYLA y hyYL (h ▸ hj))
            (fun h => hYLA j (BT.mem_ids_nd.2 (Or.inr (Or.inr (BT.rootId_mem h)))) hj)
            (fun h => hdisj j (hmemA j hj) (h ▸ head_mem_ctxAllIds f ctx'))

/-! ## Small-step equations for the fueled loops -/

theorem go_walk_none (repo : Repo) (fuel : Nat) : go_walk_in_order repo fuel none = [] := by
  cases fuel <;> rfl

theorem go_walk_succ (repo : Repo) (fuel : Nat) (nid : Nat) :
    go_walk_in_order repo (fuel + 1) (some nid) =
      match repo.get nid with
      | none => []
      | some n =>
        go_walk_in_order repo fuel n.left ++ n :: go_walk_in_order repo fuel n.right := rfl

theorem find_node_go_none (repo : Repo) (v : Int) (fuel : Nat) :
    find_node_go repo v fuel none = none := by
  cases fuel <;> rfl

theorem find_node_go_succ (repo : Repo) (v : Int) (fuel : Nat) (nid : Nat) :
    find_node_go repo v (fuel + 1) (some nid) =
      match repo.get nid with
      | none => none
      | some node =>
        if node.key = v then some node
        else if v < node.key then find_node_go repo v fuel node.left
        else find_node_go repo v fuel node.right := rfl

theorem tree_min_go_none (repo : Repo) (fuel : Nat) (res : Option Nat) :
    tree_min_go repo fuel none res = res := by
  cases fuel <;> rfl

theorem tree_min_go_succ (repo : Repo) (fuel : Nat) (n : Node) (res : Option Nat) :
    tree_min_go repo (fuel + 1) (some n) res =
      tree_min_go repo fuel (repo.getLeft n.id) (some n.id) := rfl

theorem find_parent_go_none (repo : Repo) (nw : Node) (fuel : Nat) (prev : Option Nat) :
    find_parent_go repo nw fuel none prev = prev := by
  cases fuel <;> rfl

theorem find_parent_go_succ (repo : Repo) (nw : Node) (fuel : Nat) (nid : Nat)
    (prev : Option Nat) :
    find_parent_go repo nw (fuel + 1) (some nid) prev =
      match repo.get nid with
      | none => some nid
      | some node =>
        if nw.key < node.key then find_parent_go repo nw fuel node.left (some nid)
        else find_parent_go repo nw fuel node.right (some nid) := rfl

/-! ## Order bookkeeping for appended contexts -/

theorem ctxLeftOrder_append (c1 c2 : Ctx) :
    ctxLeftOrder (c1 ++ c2) = ctxLeftOrder c2 ++ ctxLeftOrder c1 := by
  induction c1 with
  | nil => simp [ctxLeftOrder]
  | cons f c1 ih =>
    cases hs : f.side <;> simp [ctxLeftOrder, hs, ih]

theorem ctxRightOrder_append (c1 c2 : Ctx) :
    ctxRightOrder (c1 ++ c2) = ctxRightOrder c1 ++ ctxRightOrder c2 := by
  induction c1 with
  | nil => simp [ctxRightOrder]
  | cons f c1 ih =>
    cases hs : f.side <;> simp [ctxRightOrder, hs, ih]

/-! ## Sorted keys decompose at a node -/

theorem keys_sorted_parts {l : BT} {i : Nat} {k : Int} {c : Color} {r : BT}
    (h : ((BT.nd l i k c r).keys).Pairwise (· ≤ ·)) :
    l.keys.Pairwise (· ≤ ·) ∧ r.keys.Pairwise (· ≤ ·) ∧
    (∀ q ∈ l.keys, q ≤ k) ∧ (∀ q ∈ r.keys, k ≤ q) := by
  rw [BT.keys_nd, List.pairwise_append] at h
  obtain ⟨hl, hkr, hcross⟩ := h
  rw [List.pairwise_cons] at hkr
  refine ⟨hl, hkr.2, ?_, hkr.1⟩
  intro q hq
  exact hcross q hq k (List.mem_cons_self k _)

/-! ## The in-order walk reads off the represented tree -/

theorem go_walk_map : ∀ (bt : BT) (repo : Repo) (par : Option Nat) (fuel : Nat),
    reps repo par bt → bt.size < fuel →
    (go_walk_in_order repo fuel bt.rootId).map (fun n => (n.id, n.key)) = bt.inorder := by
  intro bt
  induction bt with
  | nil =>
    intro repo par fuel h hf
    rw [show BT.nil.rootId = none from rfl, go_walk_none]
    rfl
  | nd l i k c r ihl ihr =>
    intro repo par fuel h hf
    obtain ⟨h1, h2, h3⟩ := h
    rw [BT.size_nd] at hf
    cases fuel with
    | zero => omega
    | succ f =>
      rw [show (BT.nd l i k c r).rootId = some i from rfl, go_walk_succ, h1]
      have hfl : l.size < f := by omega
      have hfr : r.size < f := by omega
      show ((go_walk_in_order repo f l.rootId) ++ _ ::
        (go_walk_in_order repo f r.rootId)).map _ = _
      rw [List.map_append, List.map_cons, ihl repo (some i) f h2 hfl,
        ihr repo (some i) f h3 hfr]
      rfl

/-! ## Search follows the keys on a sorted tree -/

theorem find_node_go_spec : ∀ (bt : BT) (repo : Repo) (par : Option Nat) (v : Int)
    (fuel : Nat), reps repo par bt → bt.size < fuel → (bt.keys).Pairwise (· ≤ ·) →
    (find_node_go repo v fuel bt.rootId = none ∧ v ∉ bt.keys) ∨
    (∃ n, find_node_go repo v fuel bt.rootId = some n ∧ n.key = v ∧ v ∈ bt.keys ∧
      n.id ∈ bt.ids ∧ repo.get n.id = some n) := by
  intro bt
  induction bt with
  | nil =>
    intro repo par v fuel h hf hs
    left
    rw [show BT.nil.rootId = none from rfl, find_node_go_none]
    exact ⟨rfl, by simp [BT.keys, BT.inorder]⟩
  | nd l i k c r ihl ihr =>
    intro repo par v fuel h hf hs
    obtain ⟨h1, h2, h3⟩ := h
    obtain ⟨hsl, hsr, hlk, hkr⟩ := keys_sorted_parts hs
    rw [BT.size_nd] at hf
    have hkmem : v ∈ (BT.nd l i k c r).keys ↔ v ∈ l.keys ∨ v = k ∨ v ∈ r.keys := by
      rw [BT.keys_nd]
      simp
    cases fuel with
    | zero => omega
    | succ f =>
      rw [show (BT.nd l i k c r).rootId = some i from rfl, find_node_go_succ, h1]
      show ((if k = v then some (BT.record i k c par l r)
          else if v < k then find_node_go repo v f l.rootId
          else find_node_go repo v f r.rootId) = none ∧ v ∉ (BT.nd l i k c r).keys) ∨
        (∃ n, (if k = v then some (BT.record i k c par l r)
          else if v < k then find_node_go repo v f l.rootId
          else find_node_go repo v f r.rootId) = some n ∧ n.key = v ∧
          v ∈ (BT.nd l i k c r).keys ∧ n.id ∈ (BT.nd l i k c r).ids ∧
          repo.get n.id = some n)
      by_cases hkv : k = v
      · right
        refine ⟨BT.record i k c par l r, ?_, hkv, hkmem.2 (Or.inr (Or.inl hkv.symm)), ?_, ?_⟩
        · rw [if_pos hkv]
        · exact BT.mem_ids_nd.2 (Or.inr (Or.inl rfl))
        · exact h1
      · rw [if_neg hkv]
        by_cases hvk : v < k
        · rw [if_pos hvk]
          rcases ihl repo (some i) v f h2 (by omega) hsl with ⟨hnone, hmem⟩ | ⟨n, hn⟩
          · left
            refine ⟨hnone, ?_⟩
            rw [hkmem]
            push_neg
            refine ⟨hmem, fun hh => hkv hh.symm, fun hh => ?_⟩
            have := hkr v hh
            omega
          · right
            exact ⟨n, hn.1, hn.2.1, hkmem.2 (Or.inl hn.2.2.1),
              BT.mem_ids_nd.2 (Or.inl hn.2.2.2.1), hn.2.2.2.2⟩
        · rw [if_neg hvk]
          rcases ihr repo (some i) v f h3 (by omega) hsr with ⟨hnone, hmem⟩ | ⟨n, hn⟩
          · left
            refine ⟨hnone, ?_⟩
            rw [hkmem]
            push_neg
            refine ⟨fun hh => ?_, fun hh => hkv hh.symm, hmem⟩
            have := hlk v hh
            omega
          · right
            exact ⟨n, hn.1, hn.2.1, hkmem.2 (Or.inr (Or.inr hn.2.2.1)),
              BT.mem_ids_nd.2 (Or.inr (Or.inr hn.2.2.2.1)), hn.2.2.2.2⟩

/-! ## Minimum descends the left spine -/

theorem tree_min_go_spec : ∀ (bt : BT) (repo : Repo) (par : Option Nat) (fuel : Nat)
    (res : Option Nat), reps repo par bt → bt.size < fuel →
    (bt = .nil → tree_min_go repo fuel (bt.rootId.bind repo.get) res = res) ∧
    (bt ≠ .nil →
      ∃ (ctxm : Ctx) (m : Nat) (km : Int) (cm : Color) (rm : BT),
        bt = plug ctxm (.nd .nil m km cm rm) ∧ ctxLeftOrder ctxm = [] ∧
        tree_min_go repo fuel (bt.rootId.bind repo.get) res = some m) := by
  intro bt
  induction bt with
  | nil =>
    intro repo par fuel res h hf
    refine ⟨fun _ => ?_, fun hne => absurd rfl hne⟩
    rw [show (BT.nil.rootId.bind repo.get) = none from rfl, tree_min_go_none]
  | nd l j k c r ihl ihr =>
    intro repo par fuel res h hf
    obtain ⟨h1, h2, h3⟩ := h
    rw [BT.size_nd] at hf
    refine ⟨fun hh => absurd hh (by simp), fun _ => ?_⟩
    cases fuel with
    | zero => omega
    | succ f =>
      rw [show ((BT.nd l j k c r).rootId.bind repo.get) = repo.get j from rfl, h1,
        tree_min_go_succ]
      have hgl : repo.getLeft ((BT.record j k c par l r).id) = (l.rootId.bind repo.get) := by
        rw [Repo.getLeft]
        rw [show (BT.record j k c par l r).id = j from rfl, h1]
        rfl
      rw [hgl, show (BT.record j k c par l r).id = j from rfl]
      cases l with
      | nil =>
        refine ⟨[], j, k, c, r, rfl, rfl, ?_⟩
        rw [show (BT.nil.rootId.bind repo.get) = none from rfl, tree_min_go_none]
      | nd ll lj lk lc lr =>
        obtain ⟨ctxm, m, km, cm, rm, heq, hlo, hrun⟩ :=
          ((ihl repo (some j) f (some j) h2 (by omega)).2 (by simp))
        refine ⟨ctxm ++ [⟨.Left, j, k, c, r⟩], m, km, cm, rm, ?_, ?_, ?_⟩
        · rw [plug_append]
          show BT.nd (BT.nd ll lj lk lc lr) j k c r = BT.nd (plug ctxm _) j k c r
          rw [← heq]
        · rw [ctxLeftOrder_append, hlo]
          rfl
        · exact hrun

/-! ## The parent search lands on an empty link bounded by the visited keys -/

theorem find_parent_go_spec : ∀ (bt : BT) (repo : Repo) (par prev : Option Nat)
    (fuel : Nat) (nw : Node), reps repo par bt → bt.size < fuel →
    (bt.keys).Pairwise (· ≤ ·) → bt ≠ .nil →
    ∃ (f : Frame) (ctx : Ctx),
      find_parent_go repo nw fuel bt.rootId prev = some f.i ∧
      bt = plug (f :: ctx) .nil ∧
      (f.side = .Left ↔ nw.key < f.k) ∧
      (∀ p ∈ ctxLeftOrder (f :: ctx), p.2 ≤ nw.key) ∧
      (∀ p ∈ ctxRightOrder (f :: ctx), nw.key < p.2) := by
  intro bt
  induction bt with
  | nil => intro repo par prev fuel nw h hf hs hne; exact absurd rfl hne
  | nd l j k c r ihl ihr =>
    intro repo par prev fuel nw h hf hs hne
    obtain ⟨h1, h2, h3⟩ := h
    obtain ⟨hsl, hsr, hlk, hkr⟩ := keys_sorted_parts hs
    rw [BT.size_nd] at hf
    cases fuel with
    | zero => omega
    | succ f =>
      rw [show (BT.nd l j k c r).rootId = some j from rfl, find_parent_go_succ, h1]
      show ∃ (fr : Frame) (ctx : Ctx),
        (if nw.key < k then find_parent_go repo nw f l.rootId (some j)
         else find_parent_go repo nw f r.rootId (some j)) = some fr.i ∧
        BT.nd l j k c r = plug (fr :: ctx) BT.nil ∧
        (fr.side = Child.Left ↔ nw.key < fr.k) ∧
        (∀ p ∈ ctxLeftOrder (fr :: ctx), p.2 ≤ nw.key) ∧
        (∀ p ∈ ctxRightOrder (fr :: ctx), nw.key < p.2)
      by_cases hv : nw.key < k
      · rw [if_pos hv]
        cases l with
        | nil =>
          refine ⟨⟨.Left, j, k, c, r⟩, [], ?_, rfl, ?_, ?_, ?_⟩
          · rw [show BT.nil.rootId = none from rfl, find_parent_go_none]
          · exact ⟨fun _ => hv, fun _ => rfl⟩
          · intro p hp
            simp [ctxLeftOrder] at hp
          · intro p hp
            have hp2 : p = (j, k) ∨ p ∈ r.inorder := by simpa [ctxRightOrder] using hp
            rcases hp2 with hp2 | hp2
            · rw [hp2]
              exact hv
            · have hm : p.2 ∈ r.keys := by
                rw [BT.keys]
                exact List.mem_map.2 ⟨p, hp2, rfl⟩
              have := hkr p.2 hm
              omega
        | nd ll lj lk lc lr =>
          obtain ⟨fr, ctx, hrun, heq, hiff, hL, hR⟩ :=
            ihl repo (some j) (some j) f nw h2 (by omega) hsl (by simp)
          refine ⟨fr, ctx ++ [⟨.Left, j, k, c, r⟩], hrun, ?_, hiff, ?_, ?_⟩
          · rw [show (fr :: (ctx ++ [⟨Child.Left, j, k, c, r⟩])) =
              (fr :: ctx) ++ [⟨Child.Left, j, k, c, r⟩] from rfl, plug_append]
            show BT.nd (BT.nd ll lj lk lc lr) j k c r = BT.nd (plug (fr :: ctx) .nil) j k c r
            rw [← heq]
          · intro p hp
            rw [show (fr :: (ctx ++ [⟨Child.Left, j, k, c, r⟩])) =
              (fr :: ctx) ++ [⟨Child.Left, j, k, c, r⟩] from rfl,
              ctxLeftOrder_append] at hp
            rcases List.mem_append.1 hp with hp | hp
            · simp [ctxLeftOrder] at hp
            · exact hL p hp
          · intro p hp
            rw [show (fr :: (ctx ++ [⟨Child.Left, j, k, c, r⟩])) =
              (fr :: ctx) ++ [⟨Child.Left, j, k, c, r⟩] from rfl,
              ctxRightOrder_append] at hp
            rcases List.mem_append.1 hp with hp | hp
            · exact hR p hp
            · have hp2 : p = (j, k) ∨ p ∈ r.inorder := by simpa [ctxRightOrder] using hp
              rcases hp2 with hp2 | hp2
              · rw [hp2]
                exact hv
              · have hm : p.2 ∈ r.keys := by
                  rw [BT.keys]
                  exact List.mem_map.2 ⟨p, hp2, rfl⟩
                have := hkr p.2 hm
                omega
      · rw [if_neg hv]
        cases r with
        | nil =>
          refine ⟨⟨.Right, j, k, c, l⟩, [], ?_, rfl, ?_, ?_, ?_⟩
          · rw [show BT.nil.rootId = none from rfl, find_parent_go_none]
          · exact ⟨fun h => by simp at h, fun h => absurd h hv⟩
          · intro p hp
            have hp2 : p ∈ l.inorder ∨ p = (j, k) := by simpa [ctxLeftOrder] using hp
            rcases hp2 with hp2 | hp2
            · have hm : p.2 ∈ l.keys := by
                rw [BT.keys]
                exact List.mem_map.2 ⟨p, hp2, rfl⟩
              have := hlk p.2 hm
              omega
            · rw [hp2]
              omega
          · intro p hp
            simp [ctxRightOrder] at hp
        | nd rl rj rk rc rr =>
          obtain ⟨fr, ctx, hrun, heq, hiff, hL, hR⟩ :=
            ihr repo (some j) (some j) f nw h3 (by omega) hsr (by simp)
          refine ⟨fr, ctx ++ [⟨.Right, j, k, c, l⟩], hrun, ?_, hiff, ?_, ?_⟩
          · rw [show (fr :: (ctx ++ [⟨Child.Right, j, k, c, l⟩])) =
              (fr :: ctx) ++ [⟨Child.Right, j, k, c, l⟩] from rfl, plug_append]
            show BT.nd l j k c (BT.nd rl rj rk rc rr) = BT.nd l j k c (plug (fr :: ctx) .nil)
            rw [← heq]
          · intro p hp
            rw [show (fr :: (ctx ++ [⟨Child.Right, j, k, c, l⟩])) =
              (fr :: ctx) ++ [⟨Child.Right, j, k, c, l⟩] from rfl,
              ctxLeftOrder_append] at hp
            rcases List.mem_append.1 hp with hp | hp
            · have hp2 : p ∈ l.inorder ∨ p = (j, k) := by simpa [ctxLeftOrder] using hp
              rcases hp2 with hp2 | hp2
              · have hm : p.2 ∈ l.keys := by
                  rw [BT.keys]
                  exact List.mem_map.2 ⟨p, hp2, rfl⟩
                have := hlk p.2 hm
                omega
              · rw [hp2]
                omega
            · exact hL p hp
          · intro p hp
            rw [show (fr :: (ctx ++ [⟨Child.Right, j, k, c, l⟩])) =
              (fr :: ctx) ++ [⟨Child.Right, j, k, c, l⟩] from rfl,
              ctxRightOrder_append] at hp
            rcases List.mem_append.1 hp with hp | hp
            · exact hR p hp
            · simp [ctxRightOrder] at hp

theorem reps_recolor_at (repo : Repo) (par : Option Nat) (ctx : Ctx) (l : BT) (i : Nat)
    (k : Int) (c0 c : Color) (r : BT)
    (h : reps repo par (plug ctx (.nd l i k c0 r)))
    (hnd : (plug ctx (.nd l i k c0 r)).ids.Nodup) :
    reps (repo.update i (fun n => n.setColor c)) par (plug ctx (.nd l i k c r)) := by
  rw [reps_plug] at h ⊢
  obtain ⟨hctx, hsub⟩ := h
  obtain ⟨h1, h2, h3⟩ := hsub
  obtain ⟨hnd0, hdisj⟩ := plug_nodup_parts hnd
  obtain ⟨hndL, hndR, hiL, hiR, hLR⟩ := nd_nodup_parts hnd0
  have himem : i ∈ (BT.nd l i k c0 r).ids := BT.mem_ids_nd.2 (Or.inr (Or.inl rfl))
  constructor
  · refine repsCtx_frame ctx repo _ par _ ?_ hctx
    intro j hj
    exact Repo.get_update_ne _ i j _ (fun n => rfl) (fun hh => hdisj i himem (hh ▸ hj))
  · refine ⟨?_, ?_, ?_⟩
    · rw [Repo.get_update_self _ i (fun n => n.setColor c) (fun n => rfl), h1]
      simp [BT.record, Node.setColor]
    · exact reps_update_not_mem (fun n => rfl) hiL h2
    · exact reps_update_not_mem (fun n => rfl) hiR h3

theorem reps_rekey_at (repo : Repo) (par : Option Nat) (ctx : Ctx) (l : BT) (i : Nat)
    (k0 k : Int) (c : Color) (r : BT)
    (h : reps repo par (plug ctx (.nd l i k0 c r)))
    (hnd : (plug ctx (.nd l i k0 c r)).ids.Nodup) :
    reps (repo.update i (fun n => n.setKey k)) par (plug ctx (.nd l i k c r)) := by
  rw [reps_plug] at h ⊢
  obtain ⟨hctx, hsub⟩ := h
  obtain ⟨h1, h2, h3⟩ := hsub
  obtain ⟨hnd0, hdisj⟩ := plug_nodup_parts hnd
  obtain ⟨hndL, hndR, hiL, hiR, hLR⟩ := nd_nodup_parts hnd0
  have himem : i ∈ (BT.nd l i k0 c r).ids := BT.mem_ids_nd.2 (Or.inr (Or.inl rfl))
  constructor
  · refine repsCtx_frame ctx repo _ par _ ?_ hctx
    intro j hj
    exact Repo.get_update_ne _ i j _ (fun n => rfl) (fun hh => hdisj i himem (hh ▸ hj))
  · refine ⟨?_, ?_, ?_⟩
    · rw [Repo.get_update_self _ i (fun n => n.setKey k) (fun n => rfl), h1]
      simp [BT.record, Node.setKey]
    · exact reps_update_not_mem (fun n => rfl) hiL h2
    · exact reps_update_not_mem (fun n => rfl) hiR h3

theorem Repo.get_add_fresh_self (repo : Repo) (i : Nat) (k : Int)
    (h : repo.get i = none) : (repo.add i k).get i = some (Node.new i k) := by
  rw [Repo.add, h]
  show (Repo.mk (Node.new i k :: repo.nodes)).get i = _
  rw [Repo.get]
  exact List.find?_cons_of_pos _ (by simp [Node.new])

theorem Repo.get_add_ne (repo : Repo) (i : Nat) (k : Int) (j : Nat) (h : j ≠ i) :
    (repo.add i k).get j = repo.get j := by
  rw [Repo.add]
  by_cases hs : (repo.get i).isSome
  · rw [if_pos hs]
    show (Repo.mk (repo.nodes.map fun n =>
      if n.id == i then Node.new i k else n)).get j = _
    rw [Repo.get, Repo.get]
    show List.find? _ (repo.nodes.map _) = _
    rw [List.find?_map]
    have hpq : ((fun n : Node => n.id == j) ∘ fun n =>
        if n.id == i then Node.new i k else n) = (fun n : Node => n.id == j) := by
      funext n
      by_cases hn : n.id = i
      · simp [hn, Node.new]
      · simp [hn]
    rw [hpq]
    cases hfind : repo.nodes.find? (fun n : Node => n.id == j) with
    | none => rfl
    | some n =>
      have hn := List.find?_some hfind
      simp only [beq_iff_eq] at hn
      have hni : ¬ (n.id == i) = true := by simp [hn, h]
      simp [hni]
      exact fun hh => absurd (by simp [hh]) hni
  · rw [if_neg hs]
    show (Repo.mk (Node.new i k :: repo.nodes)).get j = _
    rw [Repo.get]
    rw [List.find?_cons_of_neg _ (by simp [Node.new]; exact fun hh => absurd hh.symm h)]
    rfl

theorem Repo.idsList_add_fresh (repo : Repo) (i : Nat) (k : Int)
    (h : repo.get i = none) : (repo.add i k).idsList = i :: repo.idsList := by
  rw [Repo.add, h]
  show (Repo.mk (Node.new i k :: repo.nodes)).idsList = _
  rw [Repo.idsList]
  rfl

theorem plug_cons_left (f : Frame) (ctx : Ctx) (s : BT) (hfs : f.side = .Left) :
    plug (f :: ctx) s = plug ctx (.nd s f.i f.k f.c f.sib) := by
  simp only [plug, hfs]

theorem plug_cons_right (f : Frame) (ctx : Ctx) (s : BT) (hfs : f.side = .Right) :
    plug (f :: ctx) s = plug ctx (.nd f.sib f.i f.k f.c s) := by
  simp only [plug, hfs]

theorem plug_rootId_congr (ctx : Ctx) (a a2 b b2 : BT) (i : Nat) (k k2 : Int)
    (c c2 : Color) :
    (plug ctx (.nd a i k c b)).rootId = (plug ctx (.nd a2 i k2 c2 b2)).rootId := by
  cases ctx with
  | nil => rfl
  | cons f ctx => exact plug_rootId (f :: ctx) (List.cons_ne_nil f ctx) _ _

theorem BT.ids_eq_of_inorder_eq {t1 t2 : BT} (h : t1.inorder = t2.inorder) :
    t1.ids = t2.ids := by
  rw [BT.ids, BT.ids, h]

theorem mem_ids_plug_of_hole {ctx : Ctx} {s : BT} {j : Nat} (h : j ∈ s.ids) :
    j ∈ (plug ctx s).ids := by
  rw [plug_ids]
  exact List.mem_append.2 (Or.inl (List.mem_append.2 (Or.inr h)))

/-- The uncle found from a two-frame context is the grandparent frame's
sibling subtree. -/
theorem find_uncle_eval {repo : Repo} {f g : Frame} {ctx2 : Ctx} {l : BT} {i : Nat}
    {k : Int} {c : Color} {r : BT}
    (hr : reps repo none (plug (f :: g :: ctx2) (.nd l i k c r)))
    (hnd : (plug (f :: g :: ctx2) (.nd l i k c r)).ids.Nodup) :
    find_uncle repo i = g.sib.rootId := by
  obtain ⟨hgp, hnc⟩ := getParent_plug_cons hr hnd
  rw [find_uncle, hgp]
  dsimp only
  cases hfs : f.side
  · rw [plug_cons_left f (g :: ctx2) _ hfs] at hr hnd
    obtain ⟨hgpf, hncf⟩ := getParent_plug_cons hr hnd
    rw [hgpf, hncf]
    cases hgs : g.side <;> simp [hgs]
  · rw [plug_cons_right f (g :: ctx2) _ hfs] at hr hnd
    obtain ⟨hgpf, hncf⟩ := getParent_plug_cons hr hnd
    rw [hgpf, hncf]
    cases hgs : g.side <;> simp [hgs]

theorem insert_fixup_subtree_abs (t : RedBlackTree) (repo : Repo)
    (bt : BT) (cid : Nat)
    (hroot : t.root = bt.rootId) (hr : reps repo none bt) (hnd : bt.ids.Nodup)
    (hmem : cid ∈ bt.ids) :
    ∃ bt2,
      (insert_fixup_subtree t repo cid ((node_is_child repo cid).getD .Left)).1 =
        { t with root := bt2.rootId } ∧
      reps (insert_fixup_subtree t repo cid ((node_is_child repo cid).getD .Left)).2.1
        none bt2 ∧
      bt2.inorder = bt.inorder ∧
      (∀ nc, (insert_fixup_subtree t repo cid ((node_is_child repo cid).getD .Left)).2.2 =
        some nc → nc.color = Color.Black ∨ nc.id ∈ bt2.ids) := by
  obtain ⟨ctx0, L, K, C, R, hbt⟩ := exists_ctx_of_mem bt cid hmem
  subst hbt
  cases ctx0 with
  | nil =>
    obtain ⟨hgp, hnc⟩ := getParent_plug_nil hr
    rw [hnc]
    have hstep : insert_fixup_subtree t repo cid ((none : Option Child).getD .Left) =
        (t, repo, none) := by
      rw [insert_fixup_subtree, hgp]
    rw [hstep]
    refine ⟨plug [] (.nd L cid K C R), ?_, hr, rfl, fun nc hnc2 => by cases hnc2⟩
    rw [← hroot]
  | cons f ctx1 =>
    obtain ⟨hgp, hnc⟩ := getParent_plug_cons hr hnd
    rw [hnc]
    show ∃ bt2,
      (insert_fixup_subtree t repo cid f.side).1 = _ ∧
      reps (insert_fixup_subtree t repo cid f.side).2.1 none bt2 ∧ _ ∧
      (∀ nc, (insert_fixup_subtree t repo cid f.side).2.2 = some nc → _)
    cases ctx1 with
    | nil =>
      have hfu : find_uncle repo cid = none := by
        rw [find_uncle, hgp]
        dsimp only
        cases hfs : f.side
        · rw [plug_cons_left f [] _ hfs] at hr
          obtain ⟨hgpf, hncf⟩ := getParent_plug_nil hr
          rw [hgpf]
        · rw [plug_cons_right f [] _ hfs] at hr
          obtain ⟨hgpf, hncf⟩ := getParent_plug_nil hr
          rw [hgpf]
      cases hfs : f.side
      · rw [plug_cons_left f [] _ hfs] at hr hnd hroot ⊢
        obtain ⟨hgpf, hncf⟩ := getParent_plug_nil hr
        have hstep : insert_fixup_subtree t repo cid Child.Left =
            ((rotate t repo f.i Rotation.Right).1, (rotate t repo f.i Rotation.Right).2,
             some ⟨f.i,
               (((rotate t repo f.i Rotation.Right).2.get f.i).getD default).color⟩) := by
          rw [insert_fixup_subtree, hgp]
          simp only [hfu, uncle_is_red, hncf, get_rotation, Option.isSome_none,
            Bool.false_and, if_false, Bool.false_eq_true]
        rw [hstep]
        obtain ⟨ht2, hreps2⟩ := rotate_right_abs t repo [] f.sib R L f.i cid f.k K f.c C
          hr hnd hroot
        refine ⟨BT.nd L cid K C (BT.nd R f.i f.k f.c f.sib), ht2, hreps2, ?_, ?_⟩
        · show _ = (BT.nd (BT.nd L cid K C R) f.i f.k f.c f.sib).inorder
          simp [BT.inorder]
        · intro nc hnc2
          injection hnc2 with hnc3
          right
          rw [← hnc3]
          exact BT.mem_ids_nd.2 (Or.inr (Or.inr (BT.mem_ids_nd.2 (Or.inr (Or.inl rfl)))))
      · rw [plug_cons_right f [] _ hfs] at hr hnd hroot ⊢
        obtain ⟨hgpf, hncf⟩ := getParent_plug_nil hr
        have hstep : insert_fixup_subtree t repo cid Child.Right =
            ((rotate t repo f.i Rotation.Left).1, (rotate t repo f.i Rotation.Left).2,
             some ⟨f.i,
               (((rotate t repo f.i Rotation.Left).2.get f.i).getD default).color⟩) := by
          rw [insert_fixup_subtree, hgp]
          simp only [hfu, uncle_is_red, hncf, get_rotation, Option.isSome_none,
            Bool.false_and, if_false, Bool.false_eq_true]
        rw [hstep]
        obtain ⟨ht2, hreps2⟩ := rotate_left_abs t repo [] f.sib L R f.i cid f.k K f.c C
          hr hnd hroot
        refine ⟨BT.nd (BT.nd f.sib f.i f.k f.c L) cid K C R, ht2, hreps2, ?_, ?_⟩
        · show _ = (BT.nd f.sib f.i f.k f.c (BT.nd L cid K C R)).inorder
          simp [BT.inorder]
        · intro nc hnc2
          injection hnc2 with hnc3
          right
          rw [← hnc3]
          exact BT.mem_ids_nd.2 (Or.inl (BT.mem_ids_nd.2 (Or.inr (Or.inl rfl))))
    | cons g ctx2 =>
      have hfu : find_uncle repo cid = g.sib.rootId := find_uncle_eval hr hnd
      by_cases hur : uncle_is_red repo g.sib.rootId = true
      · -- red-uncle case: three recolors, continuation reported Black
        cases hgs : g.sib with
        | nil =>
          rw [hgs] at hur
          have hz : uncle_is_red repo BT.nil.rootId = false := rfl
          rw [hz] at hur
          exact absurd hur (by simp)
        | nd sl si sk sc sr =>
          rw [hgs] at hur hfu
          have hr2 := hr
          rw [reps_plug] at hr2
          obtain ⟨⟨hfrec, hfsib, hgrec, hgsib, htail⟩, hsubf⟩ := hr2
          rw [hgs] at hgsib
          obtain ⟨hsirec, hsl, hsr⟩ := hgsib
          have hscred : sc = Color.Red := by
            rw [show ((BT.nd sl si sk sc sr).rootId : Option Nat) = some si from rfl,
              uncle_is_red, hsirec] at hur
            simpa [BT.record] using hur
          subst hscred
          have hured : uncle_is_red repo (some si) = true := by
            rw [uncle_is_red, hsirec]
            simp [BT.record]
          have hfget : repo.get f.i = some
              { id := f.i, color := f.c, key := f.k, parent := some g.i,
                left := if f.side = Child.Left then (BT.nd L cid K C R).rootId
                  else f.sib.rootId,
                right := if f.side = Child.Left then f.sib.rootId
                  else (BT.nd L cid K C R).rootId } := hfrec
          have hparmap : ∀ (r0 : Repo) (a : Nat) (ca : Color) (j : Nat),
              ((r0.update a (fun n => n.setColor ca)).get j).map Node.parent =
                (r0.get j).map Node.parent := by
            intro r0 a ca j
            by_cases h : j = a
            · subst h
              rw [Repo.get_update_self r0 j (fun n => n.setColor ca) (fun n => rfl)]
              cases r0.get j <;> simp [Node.setColor]
            · rw [Repo.get_update_ne r0 a j (fun n => n.setColor ca) (fun n => rfl) h]
          have hidmap : ∀ (r0 : Repo) (a : Nat) (ca : Color) (j : Nat),
              ((r0.update a (fun n => n.setColor ca)).get j).map Node.id =
                (r0.get j).map Node.id := by
            intro r0 a ca j
            by_cases h : j = a
            · subst h
              rw [Repo.get_update_self r0 j (fun n => n.setColor ca) (fun n => rfl)]
              cases r0.get j <;> simp [Node.setColor]
            · rw [Repo.get_update_ne r0 a j (fun n => n.setColor ca) (fun n => rfl) h]
          have hbindc : ∀ (o o2 : Option Node), o.map Node.parent = o2.map Node.parent →
              o.bind Node.parent = o2.bind Node.parent := by
            intro o o2 h
            cases o <;> cases o2 <;> simp_all
          have hgpB : ((repo.update f.i (fun n => n.setColor .Black)).update si
              (fun n => n.setColor .Black)).getParent f.i =
              ((repo.update f.i (fun n => n.setColor .Black)).update si
                (fun n => n.setColor .Black)).get g.i := by
            rw [Repo.getParent]
            have h1 : (((repo.update f.i (fun n => n.setColor .Black)).update si
                (fun n => n.setColor .Black)).get f.i).bind Node.parent = some g.i := by
              rw [hbindc _ (repo.get f.i) (by rw [hparmap, hparmap])]
              rw [hfget]
              rfl
            rw [h1]
            rfl
          have hgiB : ∃ n2, ((repo.update f.i (fun n => n.setColor .Black)).update si
              (fun n => n.setColor .Black)).get g.i = some n2 ∧ n2.id = g.i := by
            have h2 : (((repo.update f.i (fun n => n.setColor .Black)).update si
                (fun n => n.setColor .Black)).get g.i).map Node.id = some g.i := by
              rw [hidmap, hidmap, hgrec]
              rfl
            cases hg2 : ((repo.update f.i (fun n => n.setColor .Black)).update si
                (fun n => n.setColor .Black)).get g.i with
            | none => rw [hg2] at h2; cases h2
            | some n2 =>
              rw [hg2] at h2
              exact ⟨n2, rfl, by simpa using h2⟩
          obtain ⟨n2, hn2, hn2id⟩ := hgiB
          have hstep : insert_fixup_subtree t repo cid f.side =
              (t, ((repo.update f.i (fun n => n.setColor .Black)).update si
                (fun n => n.setColor .Black)).update g.i (fun n => n.setColor .Red),
               some ⟨g.i, .Black⟩) := by
            rw [insert_fixup_subtree, hgp]
            dsimp only
            rw [hfu]
            rw [show ((BT.nd sl si sk Color.Red sr).rootId : Option Nat) = some si from rfl]
            rw [hured]
            simp only [if_true, Option.getD_some]
            rw [hgpB, hn2]
            simp only [Option.getD_some, hn2id]
          rw [hstep]
          refine ⟨((plug (f :: g :: ctx2) (BT.nd L cid K C R)).recolor f.i
              Color.Black |>.recolor si Color.Black |>.recolor g.i Color.Red), ?_, ?_, ?_, ?_⟩
          · show t = _
            have : (((plug (f :: g :: ctx2) (BT.nd L cid K C R)).recolor f.i
                Color.Black |>.recolor si Color.Black |>.recolor g.i Color.Red)).rootId =
                t.root := by
              simp only [BT.rootId_recolor]
              exact hroot.symm
            rw [this]
          · exact reps_recolor _ _ _ _ _ (reps_recolor _ _ _ _ _ (reps_recolor _ _ _ _ _ hr))
          · simp only [BT.inorder_recolor]
          · intro nc hnc2
            injection hnc2 with hnc3
            left
            rw [← hnc3]
      · -- uncle absent or black: a single or double rotation
        have hurf : uncle_is_red repo (g.sib.rootId) = false := by
          cases hu2 : uncle_is_red repo (g.sib.rootId)
          · rfl
          · exact absurd hu2 hur
        cases hfs : f.side
        · -- current node is a left child
          rw [plug_cons_left f (g :: ctx2) _ hfs] at hr hnd hroot ⊢
          obtain ⟨hgpf, hncf⟩ := getParent_plug_cons hr hnd
          cases hgss : g.side
          · -- parent is a left child as well: recolor and rotate at the grandparent
            rw [plug_cons_left g ctx2 _ hgss] at hr hnd hroot ⊢
            have hstep : insert_fixup_subtree t repo cid Child.Left =
                ((rotate t ((repo.updateOpt (some g.i) (fun n => n.setColor .Red)).update
                    f.i (fun n => n.setColor .Black)) g.i Rotation.Right).1,
                 (rotate t ((repo.updateOpt (some g.i) (fun n => n.setColor .Red)).update
                    f.i (fun n => n.setColor .Black)) g.i Rotation.Right).2,
                 some ⟨f.i, (((rotate t ((repo.updateOpt (some g.i)
                     (fun n => n.setColor .Red)).update
                     f.i (fun n => n.setColor .Black)) g.i Rotation.Right).2.get
                     f.i).getD default).color⟩) := by
              rw [insert_fixup_subtree, hgp]
              dsimp only
              rw [hfu, hurf, hncf, hgpf]
              simp only [get_rotation, if_false, Bool.false_eq_true, Option.isSome_some,
                Bool.true_and, hgss, Option.getD_some, beq_self_eq_true, if_true,
                Option.map_some]
              rfl
            rw [hstep]
            -- recolor the grandparent Red at its context
            have hrA := reps_recolor_at repo none ctx2 (BT.nd (BT.nd L cid K C R) f.i f.k
              f.c f.sib) g.i g.k g.c Color.Red g.sib hr hnd
            have hinoA : (plug ctx2 (BT.nd (BT.nd (BT.nd L cid K C R) f.i f.k f.c f.sib)
                g.i g.k Color.Red g.sib)).inorder =
                (plug ctx2 (BT.nd (BT.nd (BT.nd L cid K C R) f.i f.k f.c f.sib)
                g.i g.k g.c g.sib)).inorder := by
              rw [plug_inorder, plug_inorder]
              simp [BT.inorder]
            have hndA : (plug ctx2 (BT.nd (BT.nd (BT.nd L cid K C R) f.i f.k f.c f.sib)
                g.i g.k Color.Red g.sib)).ids.Nodup := by
              rw [BT.ids, hinoA]
              exact hnd
            -- recolor the parent Black below the recolored grandparent frame
            have hrA2 : reps (repo.update g.i (fun n => n.setColor Color.Red)) none
                (plug (⟨.Left, g.i, g.k, Color.Red, g.sib⟩ :: ctx2)
                  (BT.nd (BT.nd L cid K C R) f.i f.k f.c f.sib)) := by
              rw [plug_cons_left ⟨.Left, g.i, g.k, Color.Red, g.sib⟩ ctx2 _ rfl]
              exact hrA
            have hndA2 : (plug (⟨.Left, g.i, g.k, Color.Red, g.sib⟩ :: ctx2)
                (BT.nd (BT.nd L cid K C R) f.i f.k f.c f.sib)).ids.Nodup := by
              rw [plug_cons_left ⟨.Left, g.i, g.k, Color.Red, g.sib⟩ ctx2 _ rfl]
              exact hndA
            have hrB := reps_recolor_at _ none _ (BT.nd L cid K C R) f.i f.k
              f.c Color.Black f.sib hrA2 hndA2
            rw [plug_cons_left ⟨.Left, g.i, g.k, Color.Red, g.sib⟩ ctx2 _ rfl] at hrB
            have hinoB : (plug ctx2 (BT.nd (BT.nd (BT.nd L cid K C R) f.i f.k Color.Black
                f.sib) g.i g.k Color.Red g.sib)).inorder =
                (plug ctx2 (BT.nd (BT.nd (BT.nd L cid K C R) f.i f.k f.c f.sib)
                g.i g.k g.c g.sib)).inorder := by
              rw [plug_inorder, plug_inorder]
              simp [BT.inorder]
            have hndB : (plug ctx2 (BT.nd (BT.nd (BT.nd L cid K C R) f.i f.k Color.Black
                f.sib) g.i g.k Color.Red g.sib)).ids.Nodup := by
              rw [BT.ids, hinoB]
              exact hnd
            have hrootB : t.root = (plug ctx2 (BT.nd (BT.nd (BT.nd L cid K C R) f.i f.k
                Color.Black f.sib) g.i g.k Color.Red g.sib)).rootId := by
              rw [hroot]
              exact (plug_rootId_congr ctx2 _ _ _ _ g.i _ _ _ _).symm
            obtain ⟨ht2, hreps2⟩ := rotate_right_abs t
              ((repo.updateOpt (some g.i) (fun n => n.setColor .Red)).update
                f.i (fun n => n.setColor .Black)) ctx2 g.sib f.sib (BT.nd L cid K C R)
              g.i f.i g.k f.k Color.Red Color.Black hrB hndB hrootB
            refine ⟨plug ctx2 (BT.nd (BT.nd L cid K C R) f.i f.k Color.Black
              (BT.nd f.sib g.i g.k Color.Red g.sib)), ht2, hreps2, ?_, ?_⟩
            · rw [plug_inorder, plug_inorder]
              simp [BT.inorder]
            · intro nc hnc2
              injection hnc2 with hnc3
              right
              rw [← hnc3]
              exact mem_ids_plug_of_hole (BT.mem_ids_nd.2 (Or.inr (Or.inl rfl)))
          · -- zigzag: parent is a right child; single rotation at the parent
            have hstep : insert_fixup_subtree t repo cid Child.Left =
                ((rotate t repo f.i Rotation.Right).1,
                 (rotate t repo f.i Rotation.Right).2,
                 some ⟨f.i, (((rotate t repo f.i Rotation.Right).2.get
                     f.i).getD default).color⟩) := by
              rw [insert_fixup_subtree, hgp]
              dsimp only
              rw [hfu, hurf, hncf]
              simp only [get_rotation, if_false, Bool.false_eq_true, Option.isSome_some,
                Bool.true_and, hgss, Option.getD_some,
                show (Child.Left == Child.Right) = false from rfl]
            rw [hstep]
            obtain ⟨ht2, hreps2⟩ := rotate_right_abs t repo (g :: ctx2) f.sib R L
              f.i cid f.k K f.c C hr hnd hroot
            refine ⟨plug (g :: ctx2) (BT.nd L cid K C (BT.nd R f.i f.k f.c f.sib)),
              ht2, hreps2, ?_, ?_⟩
            · rw [plug_inorder, plug_inorder]
              simp [BT.inorder]
            · intro nc hnc2
              injection hnc2 with hnc3
              right
              rw [← hnc3]
              exact mem_ids_plug_of_hole (BT.mem_ids_nd.2 (Or.inr (Or.inr
                (BT.mem_ids_nd.2 (Or.inr (Or.inl rfl))))))
        · -- current node is a right child
          rw [plug_cons_right f (g :: ctx2) _ hfs] at hr hnd hroot ⊢
          obtain ⟨hgpf, hncf⟩ := getParent_plug_cons hr hnd
          cases hgss : g.side
          · -- zigzag: parent is a left child; single rotation at the parent
            have hstep : insert_fixup_subtree t repo cid Child.Right =
                ((rotate t repo f.i Rotation.Left).1,
                 (rotate t repo f.i Rotation.Left).2,
                 some ⟨f.i, (((rotate t repo f.i Rotation.Left).2.get
                     f.i).getD default).color⟩) := by
              rw [insert_fixup_subtree, hgp]
              dsimp only
              rw [hfu, hurf, hncf]
              simp only [get_rotation, if_false, Bool.false_eq_true, Option.isSome_some,
                Bool.true_and, hgss, Option.getD_some,
                show (Child.Right == Child.Left) = false from rfl]
            rw [hstep]
            obtain ⟨ht2, hreps2⟩ := rotate_left_abs t repo (g :: ctx2) f.sib L R
              f.i cid f.k K f.c C hr hnd hroot
            refine ⟨plug (g :: ctx2) (BT.nd (BT.nd f.sib f.i f.k f.c L) cid K C R),
              ht2, hreps2, ?_, ?_⟩
            · rw [plug_inorder, plug_inorder]
              simp [BT.inorder]
            · intro nc hnc2
              injection hnc2 with hnc3
              right
              rw [← hnc3]
              exact mem_ids_plug_of_hole (BT.mem_ids_nd.2 (Or.inl
                (BT.mem_ids_nd.2 (Or.inr (Or.inl rfl)))))
          · -- parent is a right child as well: recolor and rotate at the grandparent
            rw [plug_cons_right g ctx2 _ hgss] at hr hnd hroot ⊢
            have hstep : insert_fixup_subtree t repo cid Child.Right =
                ((rotate t ((repo.updateOpt (some g.i) (fun n => n.setColor .Red)).update
                    f.i (fun n => n.setColor .Black)) g.i Rotation.Left).1,
                 (rotate t ((repo.updateOpt (some g.i) (fun n => n.setColor .Red)).update
                    f.i (fun n => n.setColor .Black)) g.i Rotation.Left).2,
                 some ⟨f.i, (((rotate t ((repo.updateOpt (some g.i)
                     (fun n => n.setColor .Red)).update
                     f.i (fun n => n.setColor .Black)) g.i Rotation.Left).2.get
                     f.i).getD default).color⟩) := by
              rw [insert_fixup_subtree, hgp]
              dsimp only
              rw [hfu, hurf, hncf, hgpf]
              simp only [get_rotation, if_false, Bool.false_eq_true, Option.isSome_some,
                Bool.true_and, hgss, Option.getD_some, beq_self_eq_true, if_true,
                Option.map_some]
              rfl
            rw [hstep]
            have hrA := reps_recolor_at repo none ctx2 g.sib g.i g.k g.c Color.Red
              (BT.nd f.sib f.i f.k f.c (BT.nd L cid K C R)) hr hnd
            have hinoA : (plug ctx2 (BT.nd g.sib g.i g.k Color.Red
                (BT.nd f.sib f.i f.k f.c (BT.nd L cid K C R)))).inorder =
                (plug ctx2 (BT.nd g.sib g.i g.k g.c
                (BT.nd f.sib f.i f.k f.c (BT.nd L cid K C R)))).inorder := by
              rw [plug_inorder, plug_inorder]
              simp [BT.inorder]
            have hndA : (plug ctx2 (BT.nd g.sib g.i g.k Color.Red
                (BT.nd f.sib f.i f.k f.c (BT.nd L cid K C R)))).ids.Nodup := by
              rw [BT.ids, hinoA]
              exact hnd
            have hrA2 : reps (repo.update g.i (fun n => n.setColor Color.Red)) none
                (plug (⟨.Right, g.i, g.k, Color.Red, g.sib⟩ :: ctx2)
                  (BT.nd f.sib f.i f.k f.c (BT.nd L cid K C R))) := by
              rw [plug_cons_right ⟨.Right, g.i, g.k, Color.Red, g.sib⟩ ctx2 _ rfl]
              exact hrA
            have hndA2 : (plug (⟨.Right, g.i, g.k, Color.Red, g.sib⟩ :: ctx2)
                (BT.nd f.sib f.i f.k f.c (BT.nd L cid K C R))).ids.Nodup := by
              rw [plug_cons_right ⟨.Right, g.i, g.k, Color.Red, g.sib⟩ ctx2 _ rfl]
              exact hndA
            have hrB := reps_recolor_at _ none _ f.sib f.i f.k
              f.c Color.Black (BT.nd L cid K C R) hrA2 hndA2
            rw [plug_cons_right ⟨.Right, g.i, g.k, Color.Red, g.sib⟩ ctx2 _ rfl] at hrB
            have hinoB : (plug ctx2 (BT.nd g.sib g.i g.k Color.Red
                (BT.nd f.sib f.i f.k Color.Black (BT.nd L cid K C R)))).inorder =
                (plug ctx2 (BT.nd g.sib g.i g.k g.c
                (BT.nd f.sib f.i f.k f.c (BT.nd L cid K C R)))).inorder := by
              rw [plug_inorder, plug_inorder]
              simp [BT.inorder]
            have hndB : (plug ctx2 (BT.nd g.sib g.i g.k Color.Red
                (BT.nd f.sib f.i f.k Color.Black (BT.nd L cid K C R)))).ids.Nodup := by
              rw [BT.ids, hinoB]
              exact hnd
            have hrootB : t.root = (plug ctx2 (BT.nd g.sib g.i g.k Color.Red
                (BT.nd f.sib f.i f.k Color.Black (BT.nd L cid K C R)))).rootId := by
              rw [hroot]
              exact (plug_rootId_congr ctx2 _ _ _ _ g.i _ _ _ _).symm
            obtain ⟨ht2, hreps2⟩ := rotate_left_abs t
              ((repo.updateOpt (some g.i) (fun n => n.setColor .Red)).update
                f.i (fun n => n.setColor .Black)) ctx2 g.sib f.sib (BT.nd L cid K C R)
              g.i f.i g.k f.k Color.Red Color.Black hrB hndB hrootB
            refine ⟨plug ctx2 (BT.nd (BT.nd g.sib g.i g.k Color.Red f.sib) f.i f.k
              Color.Black (BT.nd L cid K C R)), ht2, hreps2, ?_, ?_⟩
            · rw [plug_inorder, plug_inorder]
              simp [BT.inorder]
            · intro nc hnc2
              injection hnc2 with hnc3
              right
              rw [← hnc3]
              exact mem_ids_plug_of_hole (BT.mem_ids_nd.2 (Or.inr (Or.inl rfl)))

theorem insert_fixup_go_zero (t : RedBlackTree) (repo : Repo) (nc : Option NodeColor) :
    insert_fixup_go t repo 0 nc = (t, repo) := by
  cases nc <;> rfl

theorem insert_fixup_go_none (t : RedBlackTree) (repo : Repo) (fuel : Nat) :
    insert_fixup_go t repo fuel none = (t, repo) := by
  cases fuel <;> rfl

theorem insert_fixup_go_succ (t : RedBlackTree) (repo : Repo) (fuel : Nat)
    (c : NodeColor) :
    insert_fixup_go t repo (fuel + 1) (some c) =
      if c.color = Color.Black then (t, repo)
      else
        match repo.getParent c.id with
        | none => (t, repo)
        | some p =>
          match p.color with
          | .Black => (t, repo)
          | .Red =>
            let st := insert_fixup_subtree t repo c.id
              ((node_is_child repo c.id).getD .Left)
            insert_fixup_go st.1 st.2.1 fuel st.2.2 := rfl

theorem insert_fixup_go_abs : ∀ (fuel : Nat) (t : RedBlackTree) (repo : Repo)
    (nc : Option NodeColor) (bt : BT),
    t.root = bt.rootId → reps repo none bt → bt.ids.Nodup →
    (∀ c, nc = some c → c.color = Color.Black ∨ c.id ∈ bt.ids) →
    ∃ bt2, (insert_fixup_go t repo fuel nc).1 = { t with root := bt2.rootId } ∧
      reps (insert_fixup_go t repo fuel nc).2 none bt2 ∧ bt2.inorder = bt.inorder := by
  intro fuel
  induction fuel with
  | zero =>
    intro t repo nc bt h1 h2 h3 h4
    rw [insert_fixup_go_zero]
    exact ⟨bt, by rw [← h1], h2, rfl⟩
  | succ f ih =>
    intro t repo nc bt h1 h2 h3 h4
    cases nc with
    | none =>
      rw [insert_fixup_go_none]
      exact ⟨bt, by rw [← h1], h2, rfl⟩
    | some c =>
      rw [insert_fixup_go_succ]
      by_cases hc : c.color = Color.Black
      · rw [if_pos hc]
        exact ⟨bt, by rw [← h1], h2, rfl⟩
      · rw [if_neg hc]
        have hmem : c.id ∈ bt.ids := by
          rcases h4 c rfl with h | h
          · exact absurd h hc
          · exact h
        cases hp : repo.getParent c.id with
        | none => exact ⟨bt, by rw [← h1], h2, rfl⟩
        | some p =>
          dsimp only
          cases hpc : p.color with
          | Black => exact ⟨bt, by rw [← h1], h2, rfl⟩
          | Red =>
            obtain ⟨bt2, hs1, hs2, hs3, hs4⟩ := insert_fixup_subtree_abs t repo bt c.id
              h1 h2 h3 hmem
            have hnd2 : bt2.ids.Nodup := by
              rw [BT.ids, hs3]
              exact h3
            have hroot2 : (insert_fixup_subtree t repo c.id
                ((node_is_child repo c.id).getD Child.Left)).1.root = bt2.rootId := by
              rw [hs1]
            obtain ⟨bt3, hf1, hf2, hf3⟩ := ih
              (insert_fixup_subtree t repo c.id ((node_is_child repo c.id).getD
                Child.Left)).1
              (insert_fixup_subtree t repo c.id ((node_is_child repo c.id).getD
                Child.Left)).2.1
              (insert_fixup_subtree t repo c.id ((node_is_child repo c.id).getD
                Child.Left)).2.2
              bt2 hroot2 hs2 hnd2 hs4
            refine ⟨bt3, ?_, hf2, by rw [hf3, hs3]⟩
            rw [hf1, hs1]

theorem insert_fixup_abs (t : RedBlackTree) (repo : Repo) (inserted : Nat) (bt : BT)
    (hroot : t.root = bt.rootId) (hr : reps repo none bt) (hnd : bt.ids.Nodup)
    (hmem : inserted ∈ bt.ids) :
    ∃ bt2, (insert_fixup t repo inserted).1 = { t with root := bt2.rootId } ∧
      reps (insert_fixup t repo inserted).2 none bt2 ∧ bt2.inorder = bt.inorder := by
  obtain ⟨bt2, hg1, hg2, hg3⟩ := insert_fixup_go_abs (repo.size + 1) t repo
    ((repo.get inserted).map fun n => (⟨inserted, n.color⟩ : NodeColor)) bt hroot hr hnd
    (by
      intro c hc
      right
      cases hgi : repo.get inserted with
      | none => rw [hgi] at hc; cases hc
      | some n =>
        rw [hgi] at hc
        injection hc with hc2
        rw [← hc2]
        exact hmem)
  cases hb2 : bt2 with
  | nil =>
    rw [hb2] at hg1 hg2 hg3
    have hroot2 : (insert_fixup_go t repo (repo.size + 1)
        ((repo.get inserted).map fun n => (⟨inserted, n.color⟩ : NodeColor))).1.root =
        none := by
      rw [hg1]
      rfl
    have hfix : insert_fixup t repo inserted =
        insert_fixup_go t repo (repo.size + 1)
          ((repo.get inserted).map fun n => (⟨inserted, n.color⟩ : NodeColor)) := by
      rw [insert_fixup]
      rw [hroot2]
    rw [hfix]
    exact ⟨BT.nil, hg1, hg2, hg3⟩
  | nd l i k c r =>
    rw [hb2] at hg1 hg2 hg3
    have hroot2 : (insert_fixup_go t repo (repo.size + 1)
        ((repo.get inserted).map fun n => (⟨inserted, n.color⟩ : NodeColor))).1.root =
        some i := by
      rw [hg1]
      rfl
    have hfix : insert_fixup t repo inserted =
        ((insert_fixup_go t repo (repo.size + 1)
          ((repo.get inserted).map fun n => (⟨inserted, n.color⟩ : NodeColor))).1,
         (insert_fixup_go t repo (repo.size + 1)
          ((repo.get inserted).map fun n => (⟨inserted, n.color⟩ : NodeColor))).2.update i
           (fun n => n.setColor Color.Black)) := by
      rw [insert_fixup]
      rw [hroot2]
    rw [hfix]
    refine ⟨(BT.nd l i k c r).recolor i Color.Black, ?_, ?_, ?_⟩
    · rw [hg1]
      simp only [BT.rootId_recolor]
    · exact reps_recolor _ _ _ _ _ hg2
    · rw [BT.inorder_recolor]
      exact hg3

theorem ids_plug_nil (ctx : Ctx) : (plug ctx BT.nil).ids = ctxAllIds ctx := by
  rw [plug_ids, ctxAllIds]
  simp

theorem insert_abs (t : RedBlackTree) (repo : Repo) (v : Int) (bt : BT)
    (hroot : t.root = bt.rootId) (hr : reps repo none bt) (hnd : bt.ids.Nodup)
    (hcnt : ∀ i ∈ bt.ids, i ≤ t.idCounter)
    (hfresh : repo.get (t.idCounter + 1) = none)
    (hsorted : bt.keys.Pairwise (· ≤ ·)) :
    ∃ (bt2 : BT) (l1 l2 : List (Nat × Int)),
      bt.inorder = l1 ++ l2 ∧
      bt2.inorder = l1 ++ (t.idCounter + 1, v) :: l2 ∧
      (∀ p ∈ l1, p.2 ≤ v) ∧ (∀ p ∈ l2, v < p.2) ∧
      (insert t repo v).1.root = bt2.rootId ∧
      reps (insert t repo v).2 none bt2 := by
  cases hbt : bt with
  | nil =>
    rw [hbt] at hroot hr hnd hcnt hsorted
    have hadd := Repo.get_add_fresh_self repo (t.idCounter + 1) v hfresh
    have hrleaf : reps (repo.add (t.idCounter + 1) v) none
        (BT.nd .nil (t.idCounter + 1) v Color.Red .nil) := by
      refine ⟨?_, trivial, trivial⟩
      rw [hadd]
      rfl
    obtain ⟨bt2, hf1, hf2, hf3⟩ := insert_fixup_abs
      { t with idCounter := t.idCounter + 1, root := some (t.idCounter + 1) }
      (repo.add (t.idCounter + 1) v) (t.idCounter + 1)
      (BT.nd .nil (t.idCounter + 1) v Color.Red .nil) rfl hrleaf
      (by rw [BT.ids_nd]; simp)
      (BT.mem_ids_nd.2 (Or.inr (Or.inl rfl)))
    have hins : insert t repo v =
        ({ (insert_fixup { t with idCounter := t.idCounter + 1, root := some (t.idCounter + 1) } (repo.add (t.idCounter + 1) v) (t.idCounter + 1)).1 with length := (insert_fixup { t with idCounter := t.idCounter + 1, root := some (t.idCounter + 1) } (repo.add (t.idCounter + 1) v) (t.idCounter + 1)).1.length + 1 },
         (insert_fixup { t with idCounter := t.idCounter + 1, root := some (t.idCounter + 1) } (repo.add (t.idCounter + 1) v) (t.idCounter + 1)).2) := by
      rw [insert]
      rw [show ({ t with idCounter := t.idCounter + 1 } : RedBlackTree).root = t.root from rfl]
      rw [hroot]
      rfl
    rw [hins]
    refine ⟨bt2, [], [], by simp [BT.inorder], ?_, by simp, by simp, ?_, hf2⟩
    · rw [hf3]
      rfl
    · rw [hf1]
  | nd bl bi bk bc br =>
    have hne : bt ≠ BT.nil := by rw [hbt]; simp
    have hrootsome : t.root = some bi := by rw [hroot, hbt]; rfl
    have hbtroot : bt.rootId = some bi := by rw [hbt]; rfl
    have hr1 : reps (repo.add (t.idCounter + 1) v) none bt :=
      reps_frame bt repo _ none
        (fun j hj => Repo.get_add_ne repo _ v j (fun hh => by have := hcnt j hj; omega)) hr
    have hget1 : (repo.add (t.idCounter + 1) v).get (t.idCounter + 1) =
        some (Node.new (t.idCounter + 1) v) := Repo.get_add_fresh_self repo _ v hfresh
    have hsize : bt.size < (repo.add (t.idCounter + 1) v).size + 1 := by
      have := reps_size_le bt (repo.add (t.idCounter + 1) v) none hr1 hnd
      omega
    obtain ⟨f, ctx, hrun, heq, hiff, hL, hR⟩ := find_parent_go_spec bt
      (repo.add (t.idCounter + 1) v) none none ((repo.add (t.idCounter + 1) v).size + 1)
      (Node.new (t.idCounter + 1) v) hr1 hsize hsorted hne
    have hfp : find_parent (repo.add (t.idCounter + 1) v) (some bi) (t.idCounter + 1) =
        some f.i := by
      rw [find_parent, hget1, ← hbtroot]
      exact hrun
    have hfimem : f.i ∈ bt.ids := by
      rw [heq, ids_plug_nil]
      exact head_mem_ctxAllIds f ctx
    have hfine : f.i ≠ t.idCounter + 1 := by
      have := hcnt f.i hfimem
      omega
    have hr1p := hr1
    rw [heq, reps_plug] at hr1p
    obtain ⟨hctx1, -⟩ := hr1p
    obtain ⟨hfrec, hfsib, htail⟩ := hctx1
    have hndctx : (ctxAllIds (f :: ctx)).Nodup := by
      have := hnd
      rw [heq] at this
      exact ctxAllIds_nodup this
    obtain ⟨hfisib, hfictx, hsibctx, hndctx2⟩ := ctxAllIds_cons_parts hndctx
    have hmemctx : ∀ j, j ∈ ctxAllIds (f :: ctx) → j ∈ bt.ids := by
      intro j hj
      rw [heq, ids_plug_nil]
      exact hj
    have hgetnew2 : ((repo.add (t.idCounter + 1) v).update (t.idCounter + 1)
        (fun n => n.setParent (some f.i))).get (t.idCounter + 1) =
        some ((Node.new (t.idCounter + 1) v).setParent (some f.i)) := by
      rw [Repo.get_update_self _ (t.idCounter + 1)
        (fun n => n.setParent (some f.i)) (fun n => rfl), hget1]
      rfl
    have hgetfi2 : ((repo.add (t.idCounter + 1) v).update (t.idCounter + 1)
        (fun n => n.setParent (some f.i))).get f.i =
        (repo.add (t.idCounter + 1) v).get f.i :=
      Repo.get_update_ne _ (t.idCounter + 1) f.i
        (fun n => n.setParent (some f.i)) (fun n => rfl) hfine
    by_cases hvk : v < f.k
    · have hfs : f.side = Child.Left := hiff.2 hvk
      have hins : insert t repo v =
          ({ (insert_fixup { t with idCounter := t.idCounter + 1 } (((repo.add (t.idCounter + 1) v).update (t.idCounter + 1) (fun n => n.setParent (some f.i))).update f.i (fun n => n.setLeftChild (some (t.idCounter + 1)))) (t.idCounter + 1)).1 with length := (insert_fixup { t with idCounter := t.idCounter + 1 } (((repo.add (t.idCounter + 1) v).update (t.idCounter + 1) (fun n => n.setParent (some f.i))).update f.i (fun n => n.setLeftChild (some (t.idCounter + 1)))) (t.idCounter + 1)).1.length + 1 },
           (insert_fixup { t with idCounter := t.idCounter + 1 } (((repo.add (t.idCounter + 1) v).update (t.idCounter + 1) (fun n => n.setParent (some f.i))).update f.i (fun n => n.setLeftChild (some (t.idCounter + 1)))) (t.idCounter + 1)).2) := by
        rw [insert]
        dsimp only
        rw [hrootsome]
        dsimp only
        rw [hfp]
        dsimp only
        rw [hgetnew2, hgetfi2, hfrec]
        try dsimp only
        simp only [Option.getD_some,
          show ((Node.new (t.idCounter + 1) v).setParent (some f.i)).key = v from rfl,
          show ({ id := f.i, color := f.c, key := f.k, parent := ctxUp none ctx, left := if f.side = Child.Left then BT.nil.rootId else f.sib.rootId, right := if f.side = Child.Left then f.sib.rootId else BT.nil.rootId } : Node).key = f.k from rfl]
        rw [if_pos hvk]
      have hrAT : reps (((repo.add (t.idCounter + 1) v).update (t.idCounter + 1)
          (fun n => n.setParent (some f.i))).update f.i
          (fun n => n.setLeftChild (some (t.idCounter + 1)))) none
          (plug (f :: ctx) (BT.nd .nil (t.idCounter + 1) v Color.Red .nil)) := by
        rw [reps_plug]
        constructor
        · refine ⟨?_, ?_, ?_⟩
          · rw [Repo.get_update_self _ f.i
              (fun n => n.setLeftChild (some (t.idCounter + 1))) (fun n => rfl)]
            rw [hgetfi2, hfrec]
            simp [Node.setLeftChild, hfs, BT.rootId]
          · refine reps_frame f.sib _ _ (some f.i) ?_ hfsib
            intro j hj
            have hjb : j ∈ bt.ids := hmemctx j (sib_mem_ctxAllIds f ctx j hj)
            have hjne : j ≠ t.idCounter + 1 := by have := hcnt j hjb; omega
            rw [Repo.get_update_ne _ f.i j
              (fun n => n.setLeftChild (some (t.idCounter + 1))) (fun n => rfl)
              (fun hh => hfisib (hh ▸ hj))]
            exact Repo.get_update_ne _ (t.idCounter + 1) j
              (fun n => n.setParent (some f.i)) (fun n => rfl) hjne
          · refine repsCtx_frame ctx _ _ none (some f.i) ?_ htail
            intro j hj
            have hjb : j ∈ bt.ids := hmemctx j (ctxAllIds_cons_subset f ctx hj)
            have hjne : j ≠ t.idCounter + 1 := by have := hcnt j hjb; omega
            rw [Repo.get_update_ne _ f.i j
              (fun n => n.setLeftChild (some (t.idCounter + 1))) (fun n => rfl)
              (fun hh => hfictx (hh ▸ hj))]
            exact Repo.get_update_ne _ (t.idCounter + 1) j
              (fun n => n.setParent (some f.i)) (fun n => rfl) hjne
        · refine ⟨?_, trivial, trivial⟩
          rw [Repo.get_update_ne _ f.i (t.idCounter + 1)
            (fun n => n.setLeftChild (some (t.idCounter + 1))) (fun n => rfl)
            (fun hh => hfine hh.symm)]
          rw [hgetnew2]
          rfl
      have hfreshids : (t.idCounter + 1) ∉
          (ctxLeftOrder (f :: ctx)).map Prod.fst ++
            (ctxRightOrder (f :: ctx)).map Prod.fst := by
        intro hmem2
        have h2 : (t.idCounter + 1) ∈ bt.ids := by
          rw [heq, ids_plug_nil, ctxAllIds]
          exact hmem2
        have := hcnt _ h2
        omega
      have hndAT : (plug (f :: ctx)
          (BT.nd .nil (t.idCounter + 1) v Color.Red .nil)).ids.Nodup := by
        rw [plug_ids]
        rw [show (BT.nd BT.nil (t.idCounter + 1) v Color.Red BT.nil).ids =
          [t.idCounter + 1] from by rw [BT.ids_nd]; rfl]
        have hold := hnd
        rw [heq, ids_plug_nil, ctxAllIds] at hold
        rw [show (ctxLeftOrder (f :: ctx)).map Prod.fst ++ [t.idCounter + 1] ++
          (ctxRightOrder (f :: ctx)).map Prod.fst =
          (ctxLeftOrder (f :: ctx)).map Prod.fst ++ (t.idCounter + 1) ::
          (ctxRightOrder (f :: ctx)).map Prod.fst from by simp]
        rw [List.nodup_middle]
        exact List.nodup_cons.2 ⟨hfreshids, hold⟩
      have hrootAT : ({ t with idCounter := t.idCounter + 1 } : RedBlackTree).root =
          (plug (f :: ctx) (BT.nd .nil (t.idCounter + 1) v Color.Red .nil)).rootId := by
        show t.root = _
        rw [hroot, heq]
        exact plug_rootId (f :: ctx) (List.cons_ne_nil f ctx) _ _
      obtain ⟨bt2, hf1, hf2, hf3⟩ := insert_fixup_abs
        { t with idCounter := t.idCounter + 1 }
        (((repo.add (t.idCounter + 1) v).update (t.idCounter + 1)
          (fun n => n.setParent (some f.i))).update f.i
          (fun n => n.setLeftChild (some (t.idCounter + 1))))
        (t.idCounter + 1)
        (plug (f :: ctx) (BT.nd .nil (t.idCounter + 1) v Color.Red .nil))
        hrootAT hrAT hndAT
        (mem_ids_plug_of_hole (BT.mem_ids_nd.2 (Or.inr (Or.inl rfl))))
      rw [hins]
      refine ⟨bt2, ctxLeftOrder (f :: ctx), ctxRightOrder (f :: ctx), ?_, ?_, ?_, ?_,
        ?_, hf2⟩
      · rw [← hbt, heq, plug_inorder]
        simp [BT.inorder]
      · rw [hf3, plug_inorder]
        simp [BT.inorder]
      · intro p hp
        exact hL p hp
      · intro p hp
        exact hR p hp
      · rw [show ({ (insert_fixup { t with idCounter := t.idCounter + 1 } (((repo.add (t.idCounter + 1) v).update (t.idCounter + 1) (fun n => n.setParent (some f.i))).update f.i (fun n => n.setLeftChild (some (t.idCounter + 1)))) (t.idCounter + 1)).1 with length := (insert_fixup { t with idCounter := t.idCounter + 1 } (((repo.add (t.idCounter + 1) v).update (t.idCounter + 1) (fun n => n.setParent (some f.i))).update f.i (fun n => n.setLeftChild (some (t.idCounter + 1)))) (t.idCounter + 1)).1.length + 1 } : RedBlackTree).root = (insert_fixup { t with idCounter := t.idCounter + 1 } (((repo.add (t.idCounter + 1) v).update (t.idCounter + 1) (fun n => n.setParent (some f.i))).update f.i (fun n => n.setLeftChild (some (t.idCounter + 1)))) (t.idCounter + 1)).1.root from rfl]
        rw [hf1]
    · have hfs : f.side = Child.Right := by
        cases hfs2 : f.side
        · exact absurd (hiff.1 hfs2) hvk
        · rfl
      have hins : insert t repo v =
          ({ (insert_fixup { t with idCounter := t.idCounter + 1 } (((repo.add (t.idCounter + 1) v).update (t.idCounter + 1) (fun n => n.setParent (some f.i))).update f.i (fun n => n.setRightChild (some (t.idCounter + 1)))) (t.idCounter + 1)).1 with length := (insert_fixup { t with idCounter := t.idCounter + 1 } (((repo.add (t.idCounter + 1) v).update (t.idCounter + 1) (fun n => n.setParent (some f.i))).update f.i (fun n => n.setRightChild (some (t.idCounter + 1)))) (t.idCounter + 1)).1.length + 1 },
           (insert_fixup { t with idCounter := t.idCounter + 1 } (((repo.add (t.idCounter + 1) v).update (t.idCounter + 1) (fun n => n.setParent (some f.i))).update f.i (fun n => n.setRightChild (some (t.idCounter + 1)))) (t.idCounter + 1)).2) := by
        rw [insert]
        dsimp only
        rw [hrootsome]
        dsimp only
        rw [hfp]
        dsimp only
        rw [hgetnew2, hgetfi2, hfrec]
        try dsimp only
        simp only [Option.getD_some,
          show ((Node.new (t.idCounter + 1) v).setParent (some f.i)).key = v from rfl,
          show ({ id := f.i, color := f.c, key := f.k, parent := ctxUp none ctx, left := if f.side = Child.Left then BT.nil.rootId else f.sib.rootId, right := if f.side = Child.Left then f.sib.rootId else BT.nil.rootId } : Node).key = f.k from rfl]
        rw [if_neg hvk]
      have hrAT : reps (((repo.add (t.idCounter + 1) v).update (t.idCounter + 1)
          (fun n => n.setParent (some f.i))).update f.i
          (fun n => n.setRightChild (some (t.idCounter + 1)))) none
          (plug (f :: ctx) (BT.nd .nil (t.idCounter + 1) v Color.Red .nil)) := by
        rw [reps_plug]
        constructor
        · refine ⟨?_, ?_, ?_⟩
          · rw [Repo.get_update_self _ f.i
              (fun n => n.setRightChild (some (t.idCounter + 1))) (fun n => rfl)]
            rw [hgetfi2, hfrec]
            simp [Node.setRightChild, hfs, BT.rootId]
          · refine reps_frame f.sib _ _ (some f.i) ?_ hfsib
            intro j hj
            have hjb : j ∈ bt.ids := hmemctx j (sib_mem_ctxAllIds f ctx j hj)
            have hjne : j ≠ t.idCounter + 1 := by have := hcnt j hjb; omega
            rw [Repo.get_update_ne _ f.i j
              (fun n => n.setRightChild (some (t.idCounter + 1))) (fun n => rfl)
              (fun hh => hfisib (hh ▸ hj))]
            exact Repo.get_update_ne _ (t.idCounter + 1) j
              (fun n => n.setParent (some f.i)) (fun n => rfl) hjne
          · refine repsCtx_frame ctx _ _ none (some f.i) ?_ htail
            intro j hj
            have hjb : j ∈ bt.ids := hmemctx j (ctxAllIds_cons_subset f ctx hj)
            have hjne : j ≠ t.idCounter + 1 := by have := hcnt j hjb; omega
            rw [Repo.get_update_ne _ f.i j
              (fun n => n.setRightChild (some (t.idCounter + 1))) (fun n => rfl)
              (fun hh => hfictx (hh ▸ hj))]
            exact Repo.get_update_ne _ (t.idCounter + 1) j
              (fun n => n.setParent (some f.i)) (fun n => rfl) hjne
        · refine ⟨?_, trivial, trivial⟩
          rw [Repo.get_update_ne _ f.i (t.idCounter + 1)
            (fun n => n.setRightChild (some (t.idCounter + 1))) (fun n => rfl)
            (fun hh => hfine hh.symm)]
          rw [hgetnew2]
          rfl
      have hfreshids : (t.idCounter + 1) ∉
          (ctxLeftOrder (f :: ctx)).map Prod.fst ++
            (ctxRightOrder (f :: ctx)).map Prod.fst := by
        intro hmem2
        have h2 : (t.idCounter + 1) ∈ bt.ids := by
          rw [heq, ids_plug_nil, ctxAllIds]
          exact hmem2
        have := hcnt _ h2
        omega
      have hndAT : (plug (f :: ctx)
          (BT.nd .nil (t.idCounter + 1) v Color.Red .nil)).ids.Nodup := by
        rw [plug_ids]
        rw [show (BT.nd BT.nil (t.idCounter + 1) v Color.Red BT.nil).ids =
          [t.idCounter + 1] from by rw [BT.ids_nd]; rfl]
        have hold := hnd
        rw [heq, ids_plug_nil, ctxAllIds] at hold
        rw [show (ctxLeftOrder (f :: ctx)).map Prod.fst ++ [t.idCounter + 1] ++
          (ctxRightOrder (f :: ctx)).map Prod.fst =
          (ctxLeftOrder (f :: ctx)).map Prod.fst ++ (t.idCounter + 1) ::
          (ctxRightOrder (f :: ctx)).map Prod.fst from by simp]
        rw [List.nodup_middle]
        exact List.nodup_cons.2 ⟨hfreshids, hold⟩
      have hrootAT : ({ t with idCounter := t.idCounter + 1 } : RedBlackTree).root =
          (plug (f :: ctx) (BT.nd .nil (t.idCounter + 1) v Color.Red .nil)).rootId := by
        show t.root = _
        rw [hroot, heq]
        exact plug_rootId (f :: ctx) (List.cons_ne_nil f ctx) _ _
      obtain ⟨bt2, hf1, hf2, hf3⟩ := insert_fixup_abs
        { t with idCounter := t.idCounter + 1 }
        (((repo.add (t.idCounter + 1) v).update (t.idCounter + 1)
          (fun n => n.setParent (some f.i))).update f.i
          (fun n => n.setRightChild (some (t.idCounter + 1))))
        (t.idCounter + 1)
        (plug (f :: ctx) (BT.nd .nil (t.idCounter + 1) v Color.Red .nil))
        hrootAT hrAT hndAT
        (mem_ids_plug_of_hole (BT.mem_ids_nd.2 (Or.inr (Or.inl rfl))))
      rw [hins]
      refine ⟨bt2, ctxLeftOrder (f :: ctx), ctxRightOrder (f :: ctx), ?_, ?_, ?_, ?_,
        ?_, hf2⟩
      · rw [← hbt, heq, plug_inorder]
        simp [BT.inorder]
      · rw [hf3, plug_inorder]
        simp [BT.inorder]
      · intro p hp
        exact hL p hp
      · intro p hp
        exact hR p hp
      · rw [show ({ (insert_fixup { t with idCounter := t.idCounter + 1 } (((repo.add (t.idCounter + 1) v).update (t.idCounter + 1) (fun n => n.setParent (some f.i))).update f.i (fun n => n.setRightChild (some (t.idCounter + 1)))) (t.idCounter + 1)).1 with length := (insert_fixup { t with idCounter := t.idCounter + 1 } (((repo.add (t.idCounter + 1) v).update (t.idCounter + 1) (fun n => n.setParent (some f.i))).update f.i (fun n => n.setRightChild (some (t.idCounter + 1)))) (t.idCounter + 1)).1.length + 1 } : RedBlackTree).root = (insert_fixup { t with idCounter := t.idCounter + 1 } (((repo.add (t.idCounter + 1) v).update (t.idCounter + 1) (fun n => n.setParent (some f.i))).update f.i (fun n => n.setRightChild (some (t.idCounter + 1)))) (t.idCounter + 1)).1.root from rfl]
        rw [hf1]

/-- Splicing out a node with an empty left link: the right subtree takes its
place. -/
theorem replace_left_nil_abs (t : RedBlackTree) (repo : Repo) (ctx : Ctx)
    (d : Nat) (kd : Int) (cd : Color) (R : BT)
    (hr : reps repo none (plug ctx (.nd .nil d kd cd R)))
    (hnd : (plug ctx (.nd .nil d kd cd R)).ids.Nodup)
    (hroot : t.root = (plug ctx (.nd .nil d kd cd R)).rootId) :
    (replace t repo d R.rootId).1 = { t with root := (plug ctx R).rootId } ∧
    reps (replace t repo d R.rootId).2 none (plug ctx R) := by
  have hr0 := hr
  rw [reps_plug] at hr0
  obtain ⟨hctx, hsub⟩ := hr0
  obtain ⟨hdrec, -, hR⟩ := hsub
  obtain ⟨hnd0, hdisj⟩ := plug_nodup_parts hnd
  obtain ⟨-, hndR, -, hdR, -⟩ := nd_nodup_parts hnd0
  have hdmem : d ∈ (BT.nd BT.nil d kd cd R).ids := BT.mem_ids_nd.2 (Or.inr (Or.inl rfl))
  have hRmem : ∀ j ∈ R.ids, j ∈ (BT.nd BT.nil d kd cd R).ids := fun j hj =>
    BT.mem_ids_nd.2 (Or.inr (Or.inr hj))
  have hRd : R.rootId ≠ some d := by
    intro hh
    exact hdR (BT.rootId_mem hh)
  cases ctx with
  | nil =>
    obtain ⟨hgp, -⟩ := getParent_plug_nil hr
    have hrep : replace t repo d R.rootId =
        ({ t with root := R.rootId },
         repo.updateOpt R.rootId (fun n => n.setParent none)) := by
      rw [replace, hgp]
      rfl
    rw [hrep]
    constructor
    · rfl
    · show reps _ none R
      cases hRc : R with
      | nil => trivial
      | nd rl ri rk rc rr =>
        rw [hRc] at hR
        obtain ⟨hrrec, hrl, hrr⟩ := hR
        obtain ⟨hndRL, hndRR, hriRL, hriRR, hRLRR⟩ := nd_nodup_parts (hRc ▸ hndR)
        refine ⟨?_, ?_, ?_⟩
        · rw [show ((BT.nd rl ri rk rc rr).rootId : Option Nat) = some ri from rfl]
          rw [Repo.get_updateOpt_self _ ri (fun n => n.setParent none) (fun n => rfl)]
          rw [hrrec]
          rfl
        · refine reps_frame rl repo _ (some ri) ?_ hrl
          intro j hj
          rw [show ((BT.nd rl ri rk rc rr).rootId : Option Nat) = some ri from rfl]
          exact Repo.get_updateOpt_ne _ (some ri) (fun n => n.setParent none)
            (fun n => rfl) j (fun hh => hriRL (by rw [Option.some.inj hh]; exact hj))
        · refine reps_frame rr repo _ (some ri) ?_ hrr
          intro j hj
          rw [show ((BT.nd rl ri rk rc rr).rootId : Option Nat) = some ri from rfl]
          exact Repo.get_updateOpt_ne _ (some ri) (fun n => n.setParent none)
            (fun n => rfl) j (fun hh => hriRR (by rw [Option.some.inj hh]; exact hj))
  | cons f ctx1 =>
    obtain ⟨hgp, -⟩ := getParent_plug_cons hr hnd
    rw [reps_plug] at hr
    obtain ⟨⟨hfrec, hfsib, htail⟩, hsub2⟩ := hr
    obtain ⟨hdrec2, -, hR2⟩ := hsub2
    obtain ⟨hfisib, hfictx, hsibctx, hndctx⟩ := ctxAllIds_cons_parts (ctxAllIds_nodup hnd)
    have hRfi : R.rootId ≠ some f.i := fun hh =>
      hdisj f.i (hRmem f.i (BT.rootId_mem hh)) (head_mem_ctxAllIds f ctx1)
    have hRsib : ∀ j ∈ f.sib.ids, R.rootId ≠ some j := fun j hj hh =>
      hdisj j (hRmem j (BT.rootId_mem hh)) (sib_mem_ctxAllIds f ctx1 j hj)
    have hRctx : ∀ j ∈ ctxAllIds ctx1, R.rootId ≠ some j := fun j hj hh =>
      hdisj j (hRmem j (BT.rootId_mem hh)) (ctxAllIds_cons_subset f ctx1 hj)
    have hdfi : d ≠ f.i := fun hh =>
      hdisj d hdmem (hh ▸ head_mem_ctxAllIds f ctx1)
    have hRhole : ∀ j ∈ R.ids, j ≠ f.i ∧ j ∉ ctxAllIds ctx1 := fun j hj =>
      ⟨fun hh => hdisj j (hRmem j hj) (hh ▸ head_mem_ctxAllIds f ctx1),
       fun hh => hdisj j (hRmem j hj) (ctxAllIds_cons_subset f ctx1 hh)⟩
    have hroot2 : (plug (f :: ctx1) R).rootId = t.root := by
      rw [hroot]
      exact plug_rootId (f :: ctx1) (List.cons_ne_nil f ctx1) _ _
    have hfinish : ∀ (g0 : Node → Node), (∀ n, (g0 n).id = n.id) →
        (g0 { id := f.i, color := f.c, key := f.k, parent := ctxUp none ctx1,
                left := if f.side = Child.Left then (BT.nd BT.nil d kd cd R).rootId
                  else f.sib.rootId,
                right := if f.side = Child.Left then f.sib.rootId
                  else (BT.nd BT.nil d kd cd R).rootId } =
          { id := f.i, color := f.c, key := f.k, parent := ctxUp none ctx1,
              left := if f.side = Child.Left then R.rootId else f.sib.rootId,
              right := if f.side = Child.Left then f.sib.rootId else R.rootId }) →
        reps ((repo.update f.i g0).updateOpt R.rootId
          (fun n => n.setParent (some f.i))) none (plug (f :: ctx1) R) := by
      intro g0 hg0 hg0rec
      rw [reps_plug]
      constructor
      · refine ⟨?_, ?_, ?_⟩
        · rw [Repo.get_updateOpt_ne _ R.rootId (fun n => n.setParent (some f.i))
            (fun n => rfl) f.i hRfi]
          rw [Repo.get_update_self _ f.i g0 hg0, hfrec]
          rw [Option.map_some', hg0rec]
        · refine reps_frame f.sib _ _ (some f.i) ?_ hfsib
          intro j hj
          rw [Repo.get_updateOpt_ne _ R.rootId (fun n => n.setParent (some f.i))
            (fun n => rfl) j (hRsib j hj)]
          exact Repo.get_update_ne _ f.i j g0 hg0 (fun hh => hfisib (hh ▸ hj))
        · refine repsCtx_frame ctx1 _ _ none (some f.i) ?_ htail
          intro j hj
          rw [Repo.get_updateOpt_ne _ R.rootId (fun n => n.setParent (some f.i))
            (fun n => rfl) j (hRctx j hj)]
          exact Repo.get_update_ne _ f.i j g0 hg0 (fun hh => hfictx (hh ▸ hj))
      · show reps _ (some f.i) R
        cases R with
        | nil => trivial
        | nd rl ri rk rc rr =>
          obtain ⟨hrrec, hrl, hrr⟩ := hR2
          obtain ⟨hndRL, hndRR, hriRL, hriRR, hRLRR⟩ := nd_nodup_parts hndR
          have hrimem : ri ∈ (BT.nd rl ri rk rc rr).ids :=
            BT.mem_ids_nd.2 (Or.inr (Or.inl rfl))
          refine ⟨?_, ?_, ?_⟩
          · rw [show ((BT.nd rl ri rk rc rr).rootId : Option Nat) = some ri from rfl]
            rw [Repo.get_updateOpt_self _ ri (fun n => n.setParent (some f.i))
              (fun n => rfl)]
            rw [Repo.get_update_ne _ f.i ri g0 hg0 (hRhole ri hrimem).1]
            rw [hrrec]
            rfl
          · refine reps_frame rl _ _ (some ri) ?_ hrl
            intro j hj
            rw [show ((BT.nd rl ri rk rc rr).rootId : Option Nat) = some ri from rfl]
            rw [Repo.get_updateOpt_ne _ (some ri) (fun n => n.setParent (some f.i))
              (fun n => rfl) j (fun hh => hriRL (by rw [Option.some.inj hh]; exact hj))]
            exact Repo.get_update_ne _ f.i j g0 hg0
              (hRhole j (BT.mem_ids_nd.2 (Or.inl hj))).1
          · refine reps_frame rr _ _ (some ri) ?_ hrr
            intro j hj
            rw [show ((BT.nd rl ri rk rc rr).rootId : Option Nat) = some ri from rfl]
            rw [Repo.get_updateOpt_ne _ (some ri) (fun n => n.setParent (some f.i))
              (fun n => rfl) j (fun hh => hriRR (by rw [Option.some.inj hh]; exact hj))]
            exact Repo.get_update_ne _ f.i j g0 hg0
              (hRhole j (BT.mem_ids_nd.2 (Or.inr (Or.inr hj)))).1
    cases hfs : f.side
    · have hgl : repo.getLeft f.i = repo.get d := by
        rw [Repo.getLeft, hfrec]
        simp [hfs, BT.rootId]
      have hrep : replace t repo d R.rootId =
          (t, (repo.update f.i (fun n => n.setLeftChild R.rootId)).updateOpt R.rootId
            (fun n => n.setParent (some f.i))) := by
        rw [replace, hgp]
        simp only [Option.map_some']
        try dsimp only
        rw [hgl, hdrec2]
        dsimp only [node_is, BT.record]
        simp only [beq_self_eq_true]
        rfl
      rw [hrep]
      refine ⟨by rw [hroot2], ?_⟩
      exact hfinish (fun n => n.setLeftChild R.rootId) (fun n => rfl)
        (by simp [Node.setLeftChild, hfs])
    · rcases hsb : f.sib with _ | ⟨sl, si, sk, sc, sr⟩
      · have hgl : repo.getLeft f.i = none := by
          rw [Repo.getLeft, hfrec]
          simp [hfs, hsb, BT.rootId]
        have hrep : replace t repo d R.rootId =
            (t, (repo.update f.i (fun n => n.setRightChild R.rootId)).updateOpt R.rootId
              (fun n => n.setParent (some f.i))) := by
          rw [replace, hgp]
          simp only [Option.map_some']
          try dsimp only
          rw [hgl]
          rfl
        rw [hrep]
        refine ⟨by rw [hroot2], ?_⟩
        exact hfinish (fun n => n.setRightChild R.rootId) (fun n => rfl)
          (by simp [Node.setRightChild, hfs])
      · have hsrec : repo.get si = some (BT.record si sk sc (some f.i) sl sr) := by
          rw [hsb] at hfsib
          exact hfsib.1
        have hsid : si ≠ d := by
          intro hh
          refine hdisj d hdmem ?_
          rw [← hh]
          refine sib_mem_ctxAllIds f ctx1 si ?_
          rw [hsb]
          exact BT.mem_ids_nd.2 (Or.inr (Or.inl rfl))
        have h1 : (repo.get f.i).bind Node.left = (BT.nd sl si sk sc sr).rootId := by
          rw [hfrec, Option.some_bind]
          simp [hfs, hsb]
        have hgl : repo.getLeft f.i = some (BT.record si sk sc (some f.i) sl sr) := by
          rw [Repo.getLeft, h1]
          exact hsrec
        have hrep : replace t repo d R.rootId =
            (t, (repo.update f.i (fun n => n.setRightChild R.rootId)).updateOpt R.rootId
              (fun n => n.setParent (some f.i))) := by
          rw [replace, hgp]
          simp only [Option.map_some']
          try dsimp only
          rw [hgl]
          dsimp only [node_is, BT.record]
          rw [show ((si == d) = false) from beq_eq_false_iff_ne.2 hsid]
          rfl
        rw [hrep]
        refine ⟨by rw [hroot2], ?_⟩
        exact hfinish (fun n => n.setRightChild R.rootId) (fun n => rfl)
          (by simp [Node.setRightChild, hfs])

/-- Splicing out a node with an empty right link: the left subtree takes its
place. -/
theorem replace_right_nil_abs (t : RedBlackTree) (repo : Repo) (ctx : Ctx)
    (d : Nat) (kd : Int) (cd : Color) (L : BT)
    (hr : reps repo none (plug ctx (.nd L d kd cd .nil)))
    (hnd : (plug ctx (.nd L d kd cd .nil)).ids.Nodup)
    (hroot : t.root = (plug ctx (.nd L d kd cd .nil)).rootId) :
    (replace t repo d L.rootId).1 = { t with root := (plug ctx L).rootId } ∧
    reps (replace t repo d L.rootId).2 none (plug ctx L) := by
  have hr0 := hr
  rw [reps_plug] at hr0
  obtain ⟨hctx, hsub⟩ := hr0
  obtain ⟨hdrec, hR, -⟩ := hsub
  obtain ⟨hnd0, hdisj⟩ := plug_nodup_parts hnd
  obtain ⟨hndR, -, hdR, -, -⟩ := nd_nodup_parts hnd0
  have hdmem : d ∈ (BT.nd L d kd cd BT.nil).ids := BT.mem_ids_nd.2 (Or.inr (Or.inl rfl))
  have hRmem : ∀ j ∈ L.ids, j ∈ (BT.nd L d kd cd BT.nil).ids := fun j hj =>
    BT.mem_ids_nd.2 (Or.inl hj)
  have hRd : L.rootId ≠ some d := by
    intro hh
    exact hdR (BT.rootId_mem hh)
  cases ctx with
  | nil =>
    obtain ⟨hgp, -⟩ := getParent_plug_nil hr
    have hrep : replace t repo d L.rootId =
        ({ t with root := L.rootId },
         repo.updateOpt L.rootId (fun n => n.setParent none)) := by
      rw [replace, hgp]
      rfl
    rw [hrep]
    constructor
    · rfl
    · show reps _ none L
      cases hRc : L with
      | nil => trivial
      | nd rl ri rk rc rr =>
        rw [hRc] at hR
        obtain ⟨hrrec, hrl, hrr⟩ := hR
        obtain ⟨hndRL, hndRR, hriRL, hriRR, hRLRR⟩ := nd_nodup_parts (hRc ▸ hndR)
        refine ⟨?_, ?_, ?_⟩
        · rw [show ((BT.nd rl ri rk rc rr).rootId : Option Nat) = some ri from rfl]
          rw [Repo.get_updateOpt_self _ ri (fun n => n.setParent none) (fun n => rfl)]
          rw [hrrec]
          rfl
        · refine reps_frame rl repo _ (some ri) ?_ hrl
          intro j hj
          rw [show ((BT.nd rl ri rk rc rr).rootId : Option Nat) = some ri from rfl]
          exact Repo.get_updateOpt_ne _ (some ri) (fun n => n.setParent none)
            (fun n => rfl) j (fun hh => hriRL (by rw [Option.some.inj hh]; exact hj))
        · refine reps_frame rr repo _ (some ri) ?_ hrr
          intro j hj
          rw [show ((BT.nd rl ri rk rc rr).rootId : Option Nat) = some ri from rfl]
          exact Repo.get_updateOpt_ne _ (some ri) (fun n => n.setParent none)
            (fun n => rfl) j (fun hh => hriRR (by rw [Option.some.inj hh]; exact hj))
  | cons f ctx1 =>
    obtain ⟨hgp, -⟩ := getParent_plug_cons hr hnd
    rw [reps_plug] at hr
    obtain ⟨⟨hfrec, hfsib, htail⟩, hsub2⟩ := hr
    obtain ⟨hdrec2, hR2, -⟩ := hsub2
    obtain ⟨hfisib, hfictx, hsibctx, hndctx⟩ := ctxAllIds_cons_parts (ctxAllIds_nodup hnd)
    have hRfi : L.rootId ≠ some f.i := fun hh =>
      hdisj f.i (hRmem f.i (BT.rootId_mem hh)) (head_mem_ctxAllIds f ctx1)
    have hRsib : ∀ j ∈ f.sib.ids, L.rootId ≠ some j := fun j hj hh =>
      hdisj j (hRmem j (BT.rootId_mem hh)) (sib_mem_ctxAllIds f ctx1 j hj)
    have hRctx : ∀ j ∈ ctxAllIds ctx1, L.rootId ≠ some j := fun j hj hh =>
      hdisj j (hRmem j (BT.rootId_mem hh)) (ctxAllIds_cons_subset f ctx1 hj)
    have hdfi : d ≠ f.i := fun hh =>
      hdisj d hdmem (hh ▸ head_mem_ctxAllIds f ctx1)
    have hRhole : ∀ j ∈ L.ids, j ≠ f.i ∧ j ∉ ctxAllIds ctx1 := fun j hj =>
      ⟨fun hh => hdisj j (hRmem j hj) (hh ▸ head_mem_ctxAllIds f ctx1),
       fun hh => hdisj j (hRmem j hj) (ctxAllIds_cons_subset f ctx1 hh)⟩
    have hroot2 : (plug (f :: ctx1) L).rootId = t.root := by
      rw [hroot]
      exact plug_rootId (f :: ctx1) (List.cons_ne_nil f ctx1) _ _
    have hfinish : ∀ (g0 : Node → Node), (∀ n, (g0 n).id = n.id) →
        (g0 { id := f.i, color := f.c, key := f.k, parent := ctxUp none ctx1,
                left := if f.side = Child.Left then (BT.nd L d kd cd BT.nil).rootId
                  else f.sib.rootId,
                right := if f.side = Child.Left then f.sib.rootId
                  else (BT.nd L d kd cd BT.nil).rootId } =
          { id := f.i, color := f.c, key := f.k, parent := ctxUp none ctx1,
              left := if f.side = Child.Left then L.rootId else f.sib.rootId,
              right := if f.side = Child.Left then f.sib.rootId else L.rootId }) →
        reps ((repo.update f.i g0).updateOpt L.rootId
          (fun n => n.setParent (some f.i))) none (plug (f :: ctx1) L) := by
      intro g0 hg0 hg0rec
      rw [reps_plug]
      constructor
      · refine ⟨?_, ?_, ?_⟩
        · rw [Repo.get_updateOpt_ne _ L.rootId (fun n => n.setParent (some f.i))
            (fun n => rfl) f.i hRfi]
          rw [Repo.get_update_self _ f.i g0 hg0, hfrec]
          rw [Option.map_some', hg0rec]
        · refine reps_frame f.sib _ _ (some f.i) ?_ hfsib
          intro j hj
          rw [Repo.get_updateOpt_ne _ L.rootId (fun n => n.setParent (some f.i))
            (fun n => rfl) j (hRsib j hj)]
          exact Repo.get_update_ne _ f.i j g0 hg0 (fun hh => hfisib (hh ▸ hj))
        · refine repsCtx_frame ctx1 _ _ none (some f.i) ?_ htail
          intro j hj
          rw [Repo.get_updateOpt_ne _ L.rootId (fun n => n.setParent (some f.i))
            (fun n => rfl) j (hRctx j hj)]
          exact Repo.get_update_ne _ f.i j g0 hg0 (fun hh => hfictx (hh ▸ hj))
      · show reps _ (some f.i) L
        cases L with
        | nil => trivial
        | nd rl ri rk rc rr =>
          obtain ⟨hrrec, hrl, hrr⟩ := hR2
          obtain ⟨hndRL, hndRR, hriRL, hriRR, hRLRR⟩ := nd_nodup_parts hndR
          have hrimem : ri ∈ (BT.nd rl ri rk rc rr).ids :=
            BT.mem_ids_nd.2 (Or.inr (Or.inl rfl))
          refine ⟨?_, ?_, ?_⟩
          · rw [show ((BT.nd rl ri rk rc rr).rootId : Option Nat) = some ri from rfl]
            rw [Repo.get_updateOpt_self _ ri (fun n => n.setParent (some f.i))
              (fun n => rfl)]
            rw [Repo.get_update_ne _ f.i ri g0 hg0 (hRhole ri hrimem).1]
            rw [hrrec]
            rfl
          · refine reps_frame rl _ _ (some ri) ?_ hrl
            intro j hj
            rw [show ((BT.nd rl ri rk rc rr).rootId : Option Nat) = some ri from rfl]
            rw [Repo.get_updateOpt_ne _ (some ri) (fun n => n.setParent (some f.i))
              (fun n => rfl) j (fun hh => hriRL (by rw [Option.some.inj hh]; exact hj))]
            exact Repo.get_update_ne _ f.i j g0 hg0
              (hRhole j (BT.mem_ids_nd.2 (Or.inl hj))).1
          · refine reps_frame rr _ _ (some ri) ?_ hrr
            intro j hj
            rw [show ((BT.nd rl ri rk rc rr).rootId : Option Nat) = some ri from rfl]
            rw [Repo.get_updateOpt_ne _ (some ri) (fun n => n.setParent (some f.i))
              (fun n => rfl) j (fun hh => hriRR (by rw [Option.some.inj hh]; exact hj))]
            exact Repo.get_update_ne _ f.i j g0 hg0
              (hRhole j (BT.mem_ids_nd.2 (Or.inr (Or.inr hj)))).1
    cases hfs : f.side
    · have hgl : repo.getLeft f.i = repo.get d := by
        rw [Repo.getLeft, hfrec]
        simp [hfs, BT.rootId]
      have hrep : replace t repo d L.rootId =
          (t, (repo.update f.i (fun n => n.setLeftChild L.rootId)).updateOpt L.rootId
            (fun n => n.setParent (some f.i))) := by
        rw [replace, hgp]
        simp only [Option.map_some']
        try dsimp only
        rw [hgl, hdrec2]
        dsimp only [node_is, BT.record]
        simp only [beq_self_eq_true]
        rfl
      rw [hrep]
      refine ⟨by rw [hroot2], ?_⟩
      exact hfinish (fun n => n.setLeftChild L.rootId) (fun n => rfl)
        (by simp [Node.setLeftChild, hfs])
    · rcases hsb : f.sib with _ | ⟨sl, si, sk, sc, sr⟩
      · have hgl : repo.getLeft f.i = none := by
          rw [Repo.getLeft, hfrec]
          simp [hfs, hsb, BT.rootId]
        have hrep : replace t repo d L.rootId =
            (t, (repo.update f.i (fun n => n.setRightChild L.rootId)).updateOpt L.rootId
              (fun n => n.setParent (some f.i))) := by
          rw [replace, hgp]
          simp only [Option.map_some']
          try dsimp only
          rw [hgl]
          rfl
        rw [hrep]
        refine ⟨by rw [hroot2], ?_⟩
        exact hfinish (fun n => n.setRightChild L.rootId) (fun n => rfl)
          (by simp [Node.setRightChild, hfs])
      · have hsrec : repo.get si = some (BT.record si sk sc (some f.i) sl sr) := by
          rw [hsb] at hfsib
          exact hfsib.1
        have hsid : si ≠ d := by
          intro hh
          refine hdisj d hdmem ?_
          rw [← hh]
          refine sib_mem_ctxAllIds f ctx1 si ?_
          rw [hsb]
          exact BT.mem_ids_nd.2 (Or.inr (Or.inl rfl))
        have h1 : (repo.get f.i).bind Node.left = (BT.nd sl si sk sc sr).rootId := by
          rw [hfrec, Option.some_bind]
          simp [hfs, hsb]
        have hgl : repo.getLeft f.i = some (BT.record si sk sc (some f.i) sl sr) := by
          rw [Repo.getLeft, h1]
          exact hsrec
        have hrep : replace t repo d L.rootId =
            (t, (repo.update f.i (fun n => n.setRightChild L.rootId)).updateOpt L.rootId
              (fun n => n.setParent (some f.i))) := by
          rw [replace, hgp]
          simp only [Option.map_some']
          try dsimp only
          rw [hgl]
          dsimp only [node_is, BT.record]
          rw [show ((si == d) = false) from beq_eq_false_iff_ne.2 hsid]
          rfl
        rw [hrep]
        refine ⟨by rw [hroot2], ?_⟩
        exact hfinish (fun n => n.setRightChild L.rootId) (fun n => rfl)
          (by simp [Node.setRightChild, hfs])

theorem delete_fixup_subtree_eq (t : RedBlackTree) (repo : Repo) (node : Nat)
    (sibling0 : Option NodeColor) (rotation : Rotation) (childSide : Child) :
    delete_fixup_subtree t repo node sibling0 rotation childSide =
      (let parentId := ((repo.getParent node).getD default).id
       let st := delete_fixup_sibling_step t repo node parentId sibling0 rotation childSide
       delete_fixup_tail st.1 st.2.1 node parentId st.2.2 rotation childSide) := rfl

/-- The continuation reported from the root of the rotated tree names an
identifier of the tree. -/
theorem root_cont_mem (t2 : RedBlackTree) (repo2 : Repo) (bt2 : BT)
    (hroot : t2.root = bt2.rootId) (hr : reps repo2 none bt2) :
    ∀ nc : NodeColor, ((t2.root.bind repo2.get).map fun n => (⟨n.id, n.color⟩ : NodeColor)) =
      some nc → nc.id ∈ bt2.ids := by
  intro nc hnc
  cases hbt : bt2 with
  | nil =>
    rw [hroot, hbt] at hnc
    cases hnc
  | nd l i k c r =>
    rw [hbt] at hr
    obtain ⟨hrec, -, -⟩ := hr
    rw [hroot, hbt] at hnc
    rw [show ((BT.nd l i k c r).rootId : Option Nat) = some i from rfl] at hnc
    rw [Option.some_bind, hrec] at hnc
    injection hnc with hnc2
    rw [← hnc2]
    exact BT.mem_ids_nd.2 (Or.inr (Or.inl rfl))

theorem mem_ids_plug_of_ctx {ctx : Ctx} (s : BT) {j : Nat} (h : j ∈ ctxAllIds ctx) :
    j ∈ (plug ctx s).ids := by
  rw [plug_ids]
  rcases List.mem_append.1 h with h2 | h2
  · exact List.mem_append.2 (Or.inl (List.mem_append.2 (Or.inl h2)))
  · exact List.mem_append.2 (Or.inr h2)

/-- The parent record fetched for any represented node names an identifier of
the tree. -/
theorem getParent_id_mem (repo : Repo) (bt : BT) (node : Nat)
    (hr : reps repo none bt) (hnd : bt.ids.Nodup) (hmem : node ∈ bt.ids) :
    ∀ p : Node, repo.getParent node = some p → p.id ∈ bt.ids := by
  obtain ⟨ctx, L, K, C, R, hbt⟩ := exists_ctx_of_mem bt node hmem
  subst hbt
  cases ctx with
  | nil =>
    obtain ⟨hgp, -⟩ := getParent_plug_nil hr
    intro p hp
    rw [hgp] at hp
    cases hp
  | cons f ctx1 =>
    obtain ⟨hgp, -⟩ := getParent_plug_cons hr hnd
    intro p hp
    rw [hgp] at hp
    injection hp with hp2
    rw [← hp2]
    exact mem_ids_plug_of_ctx _ (head_mem_ctxAllIds f ctx1)

theorem getParent_map_id_update (r0 : Repo) (a : Nat) (f : Node → Node)
    (hid : ∀ n, (f n).id = n.id) (hpar : ∀ n, (f n).parent = n.parent) (j : Nat) :
    ((r0.update a f).getParent j).map Node.id = (r0.getParent j).map Node.id := by
  have hparmap : ∀ y, ((r0.update a f).get y).bind Node.parent =
      (r0.get y).bind Node.parent := by
    intro y
    by_cases h : y = a
    · subst h
      rw [Repo.get_update_self r0 y f hid]
      cases r0.get y with
      | none => rfl
      | some n => simp [hpar n]
    · rw [Repo.get_update_ne r0 a y f hid h]
  have hidmap : ∀ y, ((r0.update a f).get y).map Node.id = (r0.get y).map Node.id := by
    intro y
    by_cases h : y = a
    · subst h
      rw [Repo.get_update_self r0 y f hid]
      cases r0.get y with
      | none => rfl
      | some n => simp [hid n]
    · rw [Repo.get_update_ne r0 a y f hid h]
  rw [Repo.getParent, Repo.getParent, hparmap]
  cases (r0.get j).bind Node.parent with
  | none => rfl
  | some y => exact hidmap y

/-- The no-red-nephew branch of the delete-fixup tail: the sibling is
recolored Red and the parent is handed back as the continuation. -/
theorem delete_fixup_tail_easy (t : RedBlackTree) (repo : Repo) (bt : BT)
    (node fi : Nat) (sib : Option Nat) (rot : Rotation) (cs : Child)
    (hr : reps repo none bt) (hnd : bt.ids.Nodup) (hroot : t.root = bt.rootId)
    (hmem : node ∈ bt.ids)
    (hrn : any_colors repo (childrens repo sib cs) Color.Red = false) :
    ∃ bt2,
      (delete_fixup_tail t repo node fi sib rot cs).1 = { t with root := bt2.rootId } ∧
      reps (delete_fixup_tail t repo node fi sib rot cs).2.1 none bt2 ∧
      bt2.inorder = bt.inorder ∧
      ∀ nc, (delete_fixup_tail t repo node fi sib rot cs).2.2 = some nc →
        nc.id ∈ bt2.ids := by
  have hstep : delete_fixup_tail t repo node fi sib rot cs =
      (t, repo.updateOpt sib (fun n => n.setColor .Red),
       ((repo.updateOpt sib (fun n => n.setColor .Red)).getParent node).map
         fun p => (⟨p.id, p.color⟩ : NodeColor)) := by
    rw [delete_fixup_tail]
    dsimp only
    rw [hrn]
    rfl
  rw [hstep]
  cases sib with
  | none =>
    refine ⟨bt, by rw [← hroot], hr, rfl, ?_⟩
    intro nc hnc
    have hnc2 : ((repo.getParent node).map fun p => (⟨p.id, p.color⟩ : NodeColor)) =
        some nc := hnc
    cases hgp0 : repo.getParent node with
    | none => rw [hgp0] at hnc2; cases hnc2
    | some p =>
      rw [hgp0] at hnc2
      injection hnc2 with hnc3
      have := getParent_id_mem repo bt node hr hnd hmem p hgp0
      rw [← hnc3]
      exact this
  | some sid =>
    refine ⟨bt.recolor sid Color.Red, ?_, ?_, by simp, ?_⟩
    · show t = _
      have h2 : (bt.recolor sid Color.Red).rootId = t.root := by
        rw [BT.rootId_recolor, hroot]
      rw [h2]
    · exact reps_recolor bt repo none sid Color.Red hr
    · intro nc hnc
      have hnc2 : (((repo.update sid (fun n => n.setColor Color.Red)).getParent node).map
          fun p => (⟨p.id, p.color⟩ : NodeColor)) = some nc := hnc
      cases hgp2 : (repo.update sid (fun n => n.setColor Color.Red)).getParent node with
      | none => rw [hgp2] at hnc2; cases hnc2
      | some p =>
        rw [hgp2] at hnc2
        injection hnc2 with hnc3
        have hidp : (repo.getParent node).map Node.id = some p.id := by
          rw [← getParent_map_id_update repo sid (fun n => n.setColor Color.Red)
            (fun n => rfl) (fun n => rfl) node]
          rw [hgp2]
          rfl
        cases hgp0 : repo.getParent node with
        | none => rw [hgp0] at hidp; cases hidp
        | some q =>
          rw [hgp0] at hidp
          have hpq : q.id = p.id := by simpa using hidp
          have hqm := getParent_id_mem repo bt node hr hnd hmem q hgp0
          rw [← hnc3]
          show p.id ∈ (bt.recolor sid Color.Red).ids
          rw [BT.ids_recolor]
          rw [← hpq]
          exact hqm

/-- Delete-fixup tail, left side, red close nephew and absent distant nephew:
recolor and rotate left at the parent. -/
theorem delete_fixup_tail_left_red_nil (t : RedBlackTree) (repo : Repo) (ctx : Ctx)
    (hl hr2 cl cr : BT) (node fi sid cn : Nat) (hk fk sk ck : Int)
    (hc fc sc : Color)
    (hr : reps repo none (plug ctx (.nd (.nd hl node hk hc hr2) fi fk fc
      (.nd (.nd cl cn ck Color.Red cr) sid sk sc .nil))))
    (hnd : (plug ctx (.nd (.nd hl node hk hc hr2) fi fk fc
      (.nd (.nd cl cn ck Color.Red cr) sid sk sc .nil))).ids.Nodup)
    (hroot : t.root = (plug ctx (.nd (.nd hl node hk hc hr2) fi fk fc
      (.nd (.nd cl cn ck Color.Red cr) sid sk sc .nil))).rootId) :
    ∃ bt2,
      (delete_fixup_tail t repo node fi (some sid) Rotation.Left Child.Left).1 =
        { t with root := bt2.rootId } ∧
      reps (delete_fixup_tail t repo node fi (some sid) Rotation.Left Child.Left).2.1
        none bt2 ∧
      bt2.inorder = (plug ctx (.nd (.nd hl node hk hc hr2) fi fk fc
        (.nd (.nd cl cn ck Color.Red cr) sid sk sc .nil))).inorder ∧
      ∀ nc, (delete_fixup_tail t repo node fi (some sid) Rotation.Left Child.Left).2.2 =
        some nc → nc.id ∈ bt2.ids := by
  have hrp := hr
  rw [reps_plug] at hrp
  obtain ⟨hctx, hfirec, hHr, hSr⟩ := hrp
  obtain ⟨hnoderec, -, -⟩ := hHr
  obtain ⟨hsrec, hSLr, -⟩ := hSr
  obtain ⟨hcrec, -, -⟩ := hSLr
  obtain ⟨hnd0, hdisj⟩ := plug_nodup_parts hnd
  obtain ⟨hndH, hndS, hfiH, hfiS, hHS⟩ := nd_nodup_parts hnd0
  have hnodesid : node ≠ sid := by
    intro hh
    exact hHS node (BT.mem_ids_nd.2 (Or.inr (Or.inl rfl)))
      (hh ▸ BT.mem_ids_nd.2 (Or.inr (Or.inl rfl)))
  have hch : childrens repo (some sid) Child.Left = [some cn, none] := by
    rw [childrens]
    try dsimp only
    rw [hsrec]
    rfl
  have hrnv : any_colors repo [some cn, none] Color.Red = true := by
    simp [any_colors, hcrec, BT.record]
  have hdbv : any_colors repo [(none : Option Nat)] Color.Black = false := rfl
  have hnp : ((repo.update sid (fun n => n.setColor fc)).get node).bind Node.parent =
      some fi := by
    rw [Repo.get_update_ne _ sid node (fun n => n.setColor fc) (fun n => rfl) hnodesid]
    rw [hnoderec]
    rfl
  have hstep : delete_fixup_tail t repo node fi (some sid) Rotation.Left Child.Left =
      ((rotate t ((repo.update sid (fun n => n.setColor fc)).update fi
          (fun n => n.setColor Color.Black)) fi Rotation.Left).1,
       (rotate t ((repo.update sid (fun n => n.setColor fc)).update fi
          (fun n => n.setColor Color.Black)) fi Rotation.Left).2,
       ((rotate t ((repo.update sid (fun n => n.setColor fc)).update fi
          (fun n => n.setColor Color.Black)) fi Rotation.Left).1.root.bind
        (rotate t ((repo.update sid (fun n => n.setColor fc)).update fi
          (fun n => n.setColor Color.Black)) fi Rotation.Left).2.get).map
         fun n => (⟨n.id, n.color⟩ : NodeColor)) := by
    rw [delete_fixup_tail]
    rw [hch, hrnv]
    rw [show List.drop 1 [some cn, (none : Option Nat)] = [(none : Option Nat)] from rfl]
    rw [show List.take 1 [some cn, (none : Option Nat)] = [some cn] from rfl]
    try dsimp only
    rw [hdbv]
    simp only [eq_self_iff_true, if_true, Bool.false_eq_true, if_false]
    rw [show (List.getD [(none : Option Nat)] 0 none : Option Nat) = none from rfl]
    dsimp only [Repo.updateOpt]
    rw [hfirec]
    dsimp only [BT.record, Option.getD]
    rw [hnp]
  rw [hstep]
  -- recolor the sibling to the parent's color at its context
  have hrA := reps_recolor_at repo none
    (⟨.Right, fi, fk, fc, BT.nd hl node hk hc hr2⟩ :: ctx)
    (BT.nd cl cn ck Color.Red cr) sid sk sc fc BT.nil
    (by rw [plug_cons_right ⟨.Right, fi, fk, fc, BT.nd hl node hk hc hr2⟩ ctx _ rfl]
        exact hr)
    (by rw [plug_cons_right ⟨.Right, fi, fk, fc, BT.nd hl node hk hc hr2⟩ ctx _ rfl]
        exact hnd)
  rw [plug_cons_right ⟨.Right, fi, fk, fc, BT.nd hl node hk hc hr2⟩ ctx _ rfl] at hrA
  -- recolor the parent Black at its context
  have hinoA : (plug ctx (BT.nd (BT.nd hl node hk hc hr2) fi fk fc
      (BT.nd (BT.nd cl cn ck Color.Red cr) sid sk fc BT.nil))).inorder =
      (plug ctx (BT.nd (BT.nd hl node hk hc hr2) fi fk fc
      (BT.nd (BT.nd cl cn ck Color.Red cr) sid sk sc BT.nil))).inorder := by
    rw [plug_inorder, plug_inorder]
    simp [BT.inorder]
  have hndA : (plug ctx (BT.nd (BT.nd hl node hk hc hr2) fi fk fc
      (BT.nd (BT.nd cl cn ck Color.Red cr) sid sk fc BT.nil))).ids.Nodup := by
    rw [BT.ids, hinoA]
    exact hnd
  have hrB := reps_recolor_at (repo.update sid (fun n => n.setColor fc)) none ctx
    (BT.nd hl node hk hc hr2) fi fk fc Color.Black
    (BT.nd (BT.nd cl cn ck Color.Red cr) sid sk fc BT.nil) hrA hndA
  have hinoB : (plug ctx (BT.nd (BT.nd hl node hk hc hr2) fi fk Color.Black
      (BT.nd (BT.nd cl cn ck Color.Red cr) sid sk fc BT.nil))).inorder =
      (plug ctx (BT.nd (BT.nd hl node hk hc hr2) fi fk fc
      (BT.nd (BT.nd cl cn ck Color.Red cr) sid sk sc BT.nil))).inorder := by
    rw [plug_inorder, plug_inorder]
    simp [BT.inorder]
  have hndB : (plug ctx (BT.nd (BT.nd hl node hk hc hr2) fi fk Color.Black
      (BT.nd (BT.nd cl cn ck Color.Red cr) sid sk fc BT.nil))).ids.Nodup := by
    rw [BT.ids, hinoB]
    exact hnd
  have hrootB : t.root = (plug ctx (BT.nd (BT.nd hl node hk hc hr2) fi fk Color.Black
      (BT.nd (BT.nd cl cn ck Color.Red cr) sid sk fc BT.nil))).rootId := by
    rw [hroot]
    exact plug_rootId_congr ctx _ _ _ _ fi _ _ _ _
  obtain ⟨ht2, hreps2⟩ := rotate_left_abs t
    ((repo.update sid (fun n => n.setColor fc)).update fi (fun n => n.setColor Color.Black))
    ctx (BT.nd hl node hk hc hr2) (BT.nd cl cn ck Color.Red cr) BT.nil fi sid fk sk
    Color.Black fc hrB hndB hrootB
  refine ⟨plug ctx (BT.nd (BT.nd (BT.nd hl node hk hc hr2) fi fk Color.Black
    (BT.nd cl cn ck Color.Red cr)) sid sk fc BT.nil), ht2, hreps2, ?_, ?_⟩
  · rw [plug_inorder, plug_inorder]
    simp [BT.inorder]
  · exact root_cont_mem _ _ _ (by rw [ht2]) hreps2

/-- Delete-fixup tail, left side, red distant nephew: recolor the distant
nephew Black, recolor, and rotate left at the parent. -/
theorem delete_fixup_tail_left_red_distant (t : RedBlackTree) (repo : Repo) (ctx : Ctx)
    (hl hr2 SL dl dr : BT) (node fi sid dn : Nat) (hk fk sk dk : Int)
    (hc fc sc : Color)
    (hr : reps repo none (plug ctx (.nd (.nd hl node hk hc hr2) fi fk fc
      (.nd SL sid sk sc (.nd dl dn dk Color.Red dr)))))
    (hnd : (plug ctx (.nd (.nd hl node hk hc hr2) fi fk fc
      (.nd SL sid sk sc (.nd dl dn dk Color.Red dr)))).ids.Nodup)
    (hroot : t.root = (plug ctx (.nd (.nd hl node hk hc hr2) fi fk fc
      (.nd SL sid sk sc (.nd dl dn dk Color.Red dr)))).rootId) :
    ∃ bt2,
      (delete_fixup_tail t repo node fi (some sid) Rotation.Left Child.Left).1 =
        { t with root := bt2.rootId } ∧
      reps (delete_fixup_tail t repo node fi (some sid) Rotation.Left Child.Left).2.1
        none bt2 ∧
      bt2.inorder = (plug ctx (.nd (.nd hl node hk hc hr2) fi fk fc
        (.nd SL sid sk sc (.nd dl dn dk Color.Red dr)))).inorder ∧
      ∀ nc, (delete_fixup_tail t repo node fi (some sid) Rotation.Left Child.Left).2.2 =
        some nc → nc.id ∈ bt2.ids := by
  have hrp := hr
  rw [reps_plug] at hrp
  obtain ⟨hctx, hfirec, hHr, hSr⟩ := hrp
  obtain ⟨hnoderec, -, -⟩ := hHr
  obtain ⟨hsrec, -, hSRr⟩ := hSr
  obtain ⟨hdnrec, -, -⟩ := hSRr
  obtain ⟨hnd0, hdisj⟩ := plug_nodup_parts hnd
  obtain ⟨hndH, hndS, hfiH, hfiS, hHS⟩ := nd_nodup_parts hnd0
  have hdnS : dn ∈ (BT.nd SL sid sk sc (BT.nd dl dn dk Color.Red dr)).ids :=
    BT.mem_ids_nd.2 (Or.inr (Or.inr (BT.mem_ids_nd.2 (Or.inr (Or.inl rfl)))))
  have hnodeH : node ∈ (BT.nd hl node hk hc hr2).ids :=
    BT.mem_ids_nd.2 (Or.inr (Or.inl rfl))
  have hnodesid : node ≠ sid := by
    intro hh
    exact hHS node hnodeH (hh ▸ BT.mem_ids_nd.2 (Or.inr (Or.inl rfl)))
  have hnodedn : node ≠ dn := by
    intro hh
    exact hHS node hnodeH (hh ▸ hdnS)
  have hfidn : fi ≠ dn := by
    intro hh
    exact hfiS (hh ▸ hdnS)
  have hch : childrens repo (some sid) Child.Left = [SL.rootId, some dn] := by
    rw [childrens]
    try dsimp only
    rw [hsrec]
    rfl
  have hrnv : any_colors repo [SL.rootId, some dn] Color.Red = true := by
    simp [any_colors, hdnrec, BT.record]
  have hdbv : any_colors repo [some dn] Color.Black = false := by
    simp [any_colors, hdnrec, BT.record]
  have hfirec2 : (repo.update dn (fun n => n.setColor Color.Black)).get fi =
      some (BT.record fi fk fc (ctxUp none ctx) (BT.nd hl node hk hc hr2)
        (BT.nd SL sid sk sc (BT.nd dl dn dk Color.Red dr))) := by
    rw [Repo.get_update_ne _ dn fi (fun n => n.setColor Color.Black) (fun n => rfl) hfidn]
    exact hfirec
  have hnp : (((repo.update dn (fun n => n.setColor Color.Black)).update sid
      (fun n => n.setColor fc)).get node).bind Node.parent = some fi := by
    rw [Repo.get_update_ne _ sid node (fun n => n.setColor fc) (fun n => rfl) hnodesid]
    rw [Repo.get_update_ne _ dn node (fun n => n.setColor Color.Black) (fun n => rfl)
      hnodedn]
    rw [hnoderec]
    rfl
  have hstep : delete_fixup_tail t repo node fi (some sid) Rotation.Left Child.Left =
      ((rotate t (((repo.update dn (fun n => n.setColor Color.Black)).update sid
          (fun n => n.setColor fc)).update fi
          (fun n => n.setColor Color.Black)) fi Rotation.Left).1,
       (rotate t (((repo.update dn (fun n => n.setColor Color.Black)).update sid
          (fun n => n.setColor fc)).update fi
          (fun n => n.setColor Color.Black)) fi Rotation.Left).2,
       ((rotate t (((repo.update dn (fun n => n.setColor Color.Black)).update sid
          (fun n => n.setColor fc)).update fi
          (fun n => n.setColor Color.Black)) fi Rotation.Left).1.root.bind
        (rotate t (((repo.update dn (fun n => n.setColor Color.Black)).update sid
          (fun n => n.setColor fc)).update fi
          (fun n => n.setColor Color.Black)) fi Rotation.Left).2.get).map
         fun n => (⟨n.id, n.color⟩ : NodeColor)) := by
    rw [delete_fixup_tail]
    rw [hch, hrnv]
    rw [show List.drop 1 [SL.rootId, some dn] = [some dn] from rfl]
    rw [show List.take 1 [SL.rootId, some dn] = [SL.rootId] from rfl]
    try dsimp only
    rw [hdbv]
    simp only [eq_self_iff_true, if_true, Bool.false_eq_true, if_false]
    rw [show (List.getD [some dn] 0 none : Option Nat) = some dn from rfl]
    dsimp only [Repo.updateOpt]
    rw [hfirec2]
    dsimp only [BT.record, Option.getD]
    rw [hnp]
  rw [hstep]
  -- recolor the distant nephew Black at its context
  have hrA := reps_recolor_at repo none
    (⟨.Right, sid, sk, sc, SL⟩ :: ⟨.Right, fi, fk, fc, BT.nd hl node hk hc hr2⟩ :: ctx)
    dl dn dk Color.Red Color.Black dr
    (by rw [plug_cons_right ⟨.Right, sid, sk, sc, SL⟩ _ _ rfl,
          plug_cons_right ⟨.Right, fi, fk, fc, BT.nd hl node hk hc hr2⟩ ctx _ rfl]
        exact hr)
    (by rw [plug_cons_right ⟨.Right, sid, sk, sc, SL⟩ _ _ rfl,
          plug_cons_right ⟨.Right, fi, fk, fc, BT.nd hl node hk hc hr2⟩ ctx _ rfl]
        exact hnd)
  rw [plug_cons_right ⟨.Right, sid, sk, sc, SL⟩ _ _ rfl,
    plug_cons_right ⟨.Right, fi, fk, fc, BT.nd hl node hk hc hr2⟩ ctx _ rfl] at hrA
  have hinoA : (plug ctx (BT.nd (BT.nd hl node hk hc hr2) fi fk fc
      (BT.nd SL sid sk sc (BT.nd dl dn dk Color.Black dr)))).inorder =
      (plug ctx (BT.nd (BT.nd hl node hk hc hr2) fi fk fc
      (BT.nd SL sid sk sc (BT.nd dl dn dk Color.Red dr)))).inorder := by
    rw [plug_inorder, plug_inorder]
    simp [BT.inorder]
  have hndA : (plug ctx (BT.nd (BT.nd hl node hk hc hr2) fi fk fc
      (BT.nd SL sid sk sc (BT.nd dl dn dk Color.Black dr)))).ids.Nodup := by
    rw [BT.ids, hinoA]
    exact hnd
  -- recolor the sibling to the parent's color at its context
  have hrB := reps_recolor_at (repo.update dn (fun n => n.setColor Color.Black)) none
    (⟨.Right, fi, fk, fc, BT.nd hl node hk hc hr2⟩ :: ctx)
    SL sid sk sc fc (BT.nd dl dn dk Color.Black dr)
    (by rw [plug_cons_right ⟨.Right, fi, fk, fc, BT.nd hl node hk hc hr2⟩ ctx _ rfl]
        exact hrA)
    (by rw [plug_cons_right ⟨.Right, fi, fk, fc, BT.nd hl node hk hc hr2⟩ ctx _ rfl]
        exact hndA)
  rw [plug_cons_right ⟨.Right, fi, fk, fc, BT.nd hl node hk hc hr2⟩ ctx _ rfl] at hrB
  have hinoB : (plug ctx (BT.nd (BT.nd hl node hk hc hr2) fi fk fc
      (BT.nd SL sid sk fc (BT.nd dl dn dk Color.Black dr)))).inorder =
      (plug ctx (BT.nd (BT.nd hl node hk hc hr2) fi fk fc
      (BT.nd SL sid sk sc (BT.nd dl dn dk Color.Red dr)))).inorder := by
    rw [plug_inorder, plug_inorder]
    simp [BT.inorder]
  have hndB : (plug ctx (BT.nd (BT.nd hl node hk hc hr2) fi fk fc
      (BT.nd SL sid sk fc (BT.nd dl dn dk Color.Black dr)))).ids.Nodup := by
    rw [BT.ids, hinoB]
    exact hnd
  -- recolor the parent Black at its context
  have hrC := reps_recolor_at ((repo.update dn (fun n => n.setColor Color.Black)).update
    sid (fun n => n.setColor fc)) none ctx
    (BT.nd hl node hk hc hr2) fi fk fc Color.Black
    (BT.nd SL sid sk fc (BT.nd dl dn dk Color.Black dr)) hrB hndB
  have hinoC : (plug ctx (BT.nd (BT.nd hl node hk hc hr2) fi fk Color.Black
      (BT.nd SL sid sk fc (BT.nd dl dn dk Color.Black dr)))).inorder =
      (plug ctx (BT.nd (BT.nd hl node hk hc hr2) fi fk fc
      (BT.nd SL sid sk sc (BT.nd dl dn dk Color.Red dr)))).inorder := by
    rw [plug_inorder, plug_inorder]
    simp [BT.inorder]
  have hndC : (plug ctx (BT.nd (BT.nd hl node hk hc hr2) fi fk Color.Black
      (BT.nd SL sid sk fc (BT.nd dl dn dk Color.Black dr)))).ids.Nodup := by
    rw [BT.ids, hinoC]
    exact hnd
  have hrootC : t.root = (plug ctx (BT.nd (BT.nd hl node hk hc hr2) fi fk Color.Black
      (BT.nd SL sid sk fc (BT.nd dl dn dk Color.Black dr)))).rootId := by
    rw [hroot]
    exact plug_rootId_congr ctx _ _ _ _ fi _ _ _ _
  obtain ⟨ht2, hreps2⟩ := rotate_left_abs t
    (((repo.update dn (fun n => n.setColor Color.Black)).update sid
      (fun n => n.setColor fc)).update fi (fun n => n.setColor Color.Black))
    ctx (BT.nd hl node hk hc hr2) SL (BT.nd dl dn dk Color.Black dr) fi sid fk sk
    Color.Black fc hrC hndC hrootC
  refine ⟨plug ctx (BT.nd (BT.nd (BT.nd hl node hk hc hr2) fi fk Color.Black SL)
    sid sk fc (BT.nd dl dn dk Color.Black dr)), ht2, hreps2, ?_, ?_⟩
  · rw [plug_inorder, plug_inorder]
    simp [BT.inorder]
  · exact root_cont_mem _ _ _ (by rw [ht2]) hreps2

/-- Delete-fixup tail, left side, red close nephew with black distant nephew:
the close-nephew step rotates right at the sibling, then the parent step
rotates left at the parent. -/
theorem delete_fixup_tail_left_close (t : RedBlackTree) (repo : Repo) (ctx : Ctx)
    (hl hr2 cl cr dl dr : BT) (node fi sid cn dn : Nat) (hk fk sk ck dk : Int)
    (hc fc sc : Color)
    (hr : reps repo none (plug ctx (.nd (.nd hl node hk hc hr2) fi fk fc
      (.nd (.nd cl cn ck Color.Red cr) sid sk sc (.nd dl dn dk Color.Black dr)))))
    (hnd : (plug ctx (.nd (.nd hl node hk hc hr2) fi fk fc
      (.nd (.nd cl cn ck Color.Red cr) sid sk sc
        (.nd dl dn dk Color.Black dr)))).ids.Nodup)
    (hroot : t.root = (plug ctx (.nd (.nd hl node hk hc hr2) fi fk fc
      (.nd (.nd cl cn ck Color.Red cr) sid sk sc
        (.nd dl dn dk Color.Black dr)))).rootId) :
    ∃ bt2,
      (delete_fixup_tail t repo node fi (some sid) Rotation.Left Child.Left).1 =
        { t with root := bt2.rootId } ∧
      reps (delete_fixup_tail t repo node fi (some sid) Rotation.Left Child.Left).2.1
        none bt2 ∧
      bt2.inorder = (plug ctx (.nd (.nd hl node hk hc hr2) fi fk fc
        (.nd (.nd cl cn ck Color.Red cr) sid sk sc
          (.nd dl dn dk Color.Black dr)))).inorder ∧
      ∀ nc, (delete_fixup_tail t repo node fi (some sid) Rotation.Left Child.Left).2.2 =
        some nc → nc.id ∈ bt2.ids := by
  have hrp := hr
  rw [reps_plug] at hrp
  obtain ⟨hctx, hfirec, hHr, hSr⟩ := hrp
  obtain ⟨hnoderec, -, -⟩ := hHr
  obtain ⟨hsrec, hSLr, hSRr⟩ := hSr
  obtain ⟨hcrec, -, -⟩ := hSLr
  obtain ⟨hdnrec, -, -⟩ := hSRr
  obtain ⟨hnd0, hdisj⟩ := plug_nodup_parts hnd
  obtain ⟨hndH, hndS, hfiH, hfiS, hHS⟩ := nd_nodup_parts hnd0
  have hcnS : cn ∈ (BT.nd (BT.nd cl cn ck Color.Red cr) sid sk sc
      (BT.nd dl dn dk Color.Black dr)).ids :=
    BT.mem_ids_nd.2 (Or.inl (BT.mem_ids_nd.2 (Or.inr (Or.inl rfl))))
  have hnodeH : node ∈ (BT.nd hl node hk hc hr2).ids :=
    BT.mem_ids_nd.2 (Or.inr (Or.inl rfl))
  have hnodesid : node ≠ sid := by
    intro hh
    exact hHS node hnodeH (hh ▸ BT.mem_ids_nd.2 (Or.inr (Or.inl rfl)))
  have hnodecn : node ≠ cn := by
    intro hh
    exact hHS node hnodeH (hh ▸ hcnS)
  have hch : childrens repo (some sid) Child.Left = [some cn, some dn] := by
    rw [childrens]
    try dsimp only
    rw [hsrec]
    rfl
  have hrnv : any_colors repo [some cn, some dn] Color.Red = true := by
    simp [any_colors, hcrec, BT.record]
  have hdbv : any_colors repo [some dn] Color.Black = true := by
    simp [any_colors, hdnrec, BT.record]
  -- the close-nephew recolor at its context
  have hrA := reps_recolor_at repo none
    (⟨.Left, sid, sk, sc, BT.nd dl dn dk Color.Black dr⟩ ::
      ⟨.Right, fi, fk, fc, BT.nd hl node hk hc hr2⟩ :: ctx)
    cl cn ck Color.Red Color.Black cr
    (by rw [plug_cons_left ⟨.Left, sid, sk, sc, BT.nd dl dn dk Color.Black dr⟩ _ _ rfl,
          plug_cons_right ⟨.Right, fi, fk, fc, BT.nd hl node hk hc hr2⟩ ctx _ rfl]
        exact hr)
    (by rw [plug_cons_left ⟨.Left, sid, sk, sc, BT.nd dl dn dk Color.Black dr⟩ _ _ rfl,
          plug_cons_right ⟨.Right, fi, fk, fc, BT.nd hl node hk hc hr2⟩ ctx _ rfl]
        exact hnd)
  rw [plug_cons_left ⟨.Left, sid, sk, sc, BT.nd dl dn dk Color.Black dr⟩ _ _ rfl,
    plug_cons_right ⟨.Right, fi, fk, fc, BT.nd hl node hk hc hr2⟩ ctx _ rfl] at hrA
  have hinoA : (plug ctx (BT.nd (BT.nd hl node hk hc hr2) fi fk fc
      (BT.nd (BT.nd cl cn ck Color.Black cr) sid sk sc
        (BT.nd dl dn dk Color.Black dr)))).inorder =
      (plug ctx (BT.nd (BT.nd hl node hk hc hr2) fi fk fc
      (BT.nd (BT.nd cl cn ck Color.Red cr) sid sk sc
        (BT.nd dl dn dk Color.Black dr)))).inorder := by
    rw [plug_inorder, plug_inorder]
    simp [BT.inorder]
  have hndA : (plug ctx (BT.nd (BT.nd hl node hk hc hr2) fi fk fc
      (BT.nd (BT.nd cl cn ck Color.Black cr) sid sk sc
        (BT.nd dl dn dk Color.Black dr)))).ids.Nodup := by
    rw [BT.ids, hinoA]
    exact hnd
  -- the sibling recolor Red at its context
  have hrB := reps_recolor_at (repo.update cn (fun n => n.setColor Color.Black)) none
    (⟨.Right, fi, fk, fc, BT.nd hl node hk hc hr2⟩ :: ctx)
    (BT.nd cl cn ck Color.Black cr) sid sk sc Color.Red (BT.nd dl dn dk Color.Black dr)
    (by rw [plug_cons_right ⟨.Right, fi, fk, fc, BT.nd hl node hk hc hr2⟩ ctx _ rfl]
        exact hrA)
    (by rw [plug_cons_right ⟨.Right, fi, fk, fc, BT.nd hl node hk hc hr2⟩ ctx _ rfl]
        exact hndA)
  have hinoB : (plug (⟨.Right, fi, fk, fc, BT.nd hl node hk hc hr2⟩ :: ctx)
      (BT.nd (BT.nd cl cn ck Color.Black cr) sid sk Color.Red
        (BT.nd dl dn dk Color.Black dr))).inorder =
      (plug ctx (BT.nd (BT.nd hl node hk hc hr2) fi fk fc
      (BT.nd (BT.nd cl cn ck Color.Red cr) sid sk sc
        (BT.nd dl dn dk Color.Black dr)))).inorder := by
    rw [plug_cons_right ⟨.Right, fi, fk, fc, BT.nd hl node hk hc hr2⟩ ctx _ rfl]
    rw [plug_inorder, plug_inorder]
    simp [BT.inorder]
  have hndB : (plug (⟨.Right, fi, fk, fc, BT.nd hl node hk hc hr2⟩ :: ctx)
      (BT.nd (BT.nd cl cn ck Color.Black cr) sid sk Color.Red
        (BT.nd dl dn dk Color.Black dr))).ids.Nodup := by
    rw [BT.ids, hinoB]
    exact hnd
  have hrootB : t.root = (plug (⟨.Right, fi, fk, fc, BT.nd hl node hk hc hr2⟩ :: ctx)
      (BT.nd (BT.nd cl cn ck Color.Black cr) sid sk Color.Red
        (BT.nd dl dn dk Color.Black dr))).rootId := by
    rw [hroot]
    rw [plug_cons_right ⟨.Right, fi, fk, fc, BT.nd hl node hk hc hr2⟩ ctx _ rfl]
    exact plug_rootId_congr ctx _ _ _ _ fi _ _ _ _
  -- the close-nephew rotation right at the sibling
  obtain ⟨htR1, hrepsR1⟩ := rotate_right_abs t
    ((repo.update cn (fun n => n.setColor Color.Black)).update sid
      (fun n => n.setColor Color.Red))
    (⟨.Right, fi, fk, fc, BT.nd hl node hk hc hr2⟩ :: ctx)
    (BT.nd dl dn dk Color.Black dr) cr cl sid cn sk ck Color.Red Color.Black
    hrB hndB hrootB
  rw [plug_cons_right ⟨.Right, fi, fk, fc, BT.nd hl node hk hc hr2⟩ ctx _ rfl] at hrepsR1
  -- records in the rotated store
  have hrpR := hrepsR1
  rw [reps_plug] at hrpR
  obtain ⟨hctx3, hfirec3, hHr3, -⟩ := hrpR
  obtain ⟨hnoderec3, -, -⟩ := hHr3
  have hsib2 : (((rotate t ((repo.update cn (fun n => n.setColor Color.Black)).update sid
      (fun n => n.setColor Color.Red)) sid Rotation.Right).2.get fi).bind Node.right) =
      some cn := by
    rw [hfirec3]
    rfl
  have hnp3 : (((rotate t ((repo.update cn (fun n => n.setColor Color.Black)).update sid
      (fun n => n.setColor Color.Red)) sid Rotation.Right).2.update cn
      (fun n => n.setColor fc)).get node).bind Node.parent = some fi := by
    rw [Repo.get_update_ne _ cn node (fun n => n.setColor fc) (fun n => rfl) hnodecn]
    rw [hnoderec3]
    rfl
  have hpc3 : ((((rotate t ((repo.update cn (fun n => n.setColor Color.Black)).update sid
      (fun n => n.setColor Color.Red)) sid Rotation.Right).2.get fi).getD
      default).color) = fc := by
    rw [hfirec3]
    rfl
  have hstep : delete_fixup_tail t repo node fi (some sid) Rotation.Left Child.Left =
      ((rotate (rotate t ((repo.update cn (fun n => n.setColor Color.Black)).update sid
          (fun n => n.setColor Color.Red)) sid Rotation.Right).1
          (((rotate t ((repo.update cn (fun n => n.setColor Color.Black)).update sid
            (fun n => n.setColor Color.Red)) sid Rotation.Right).2.update cn
            (fun n => n.setColor fc)).update fi (fun n => n.setColor Color.Black))
          fi Rotation.Left).1,
       (rotate (rotate t ((repo.update cn (fun n => n.setColor Color.Black)).update sid
          (fun n => n.setColor Color.Red)) sid Rotation.Right).1
          (((rotate t ((repo.update cn (fun n => n.setColor Color.Black)).update sid
            (fun n => n.setColor Color.Red)) sid Rotation.Right).2.update cn
            (fun n => n.setColor fc)).update fi (fun n => n.setColor Color.Black))
          fi Rotation.Left).2,
       ((rotate (rotate t ((repo.update cn (fun n => n.setColor Color.Black)).update sid
          (fun n => n.setColor Color.Red)) sid Rotation.Right).1
          (((rotate t ((repo.update cn (fun n => n.setColor Color.Black)).update sid
            (fun n => n.setColor Color.Red)) sid Rotation.Right).2.update cn
            (fun n => n.setColor fc)).update fi (fun n => n.setColor Color.Black))
          fi Rotation.Left).1.root.bind
        (rotate (rotate t ((repo.update cn (fun n => n.setColor Color.Black)).update sid
          (fun n => n.setColor Color.Red)) sid Rotation.Right).1
          (((rotate t ((repo.update cn (fun n => n.setColor Color.Black)).update sid
            (fun n => n.setColor Color.Red)) sid Rotation.Right).2.update cn
            (fun n => n.setColor fc)).update fi (fun n => n.setColor Color.Black))
          fi Rotation.Left).2.get).map
         fun n => (⟨n.id, n.color⟩ : NodeColor)) := by
    rw [delete_fixup_tail]
    rw [hch, hrnv]
    rw [show List.drop 1 [some cn, some dn] = [some dn] from rfl]
    rw [show List.take 1 [some cn, some dn] = [some cn] from rfl]
    try dsimp only
    rw [hdbv]
    simp only [eq_self_iff_true, if_true]
    rw [show (List.getD [some cn] 0 none : Option Nat) = some cn from rfl]
    rw [delete_fixup_close_step]
    try dsimp only
    try dsimp only [Repo.updateOpt, Rotation.flip]
    rw [hsib2]
    try dsimp only [Repo.updateOpt]
    rw [hpc3]
    rw [hnp3]
  rw [hstep]
  -- recolor the new sibling root to the parent color
  have hrC := reps_recolor_at
    ((rotate t ((repo.update cn (fun n => n.setColor Color.Black)).update sid
      (fun n => n.setColor Color.Red)) sid Rotation.Right).2) none
    (⟨.Right, fi, fk, fc, BT.nd hl node hk hc hr2⟩ :: ctx)
    cl cn ck Color.Black fc
    (BT.nd cr sid sk Color.Red (BT.nd dl dn dk Color.Black dr))
    (by rw [plug_cons_right ⟨.Right, fi, fk, fc, BT.nd hl node hk hc hr2⟩ ctx _ rfl]
        exact hrepsR1)
    (by rw [plug_cons_right ⟨.Right, fi, fk, fc, BT.nd hl node hk hc hr2⟩ ctx _ rfl]
        rw [BT.ids]
        rw [show (plug ctx (BT.nd (BT.nd hl node hk hc hr2) fi fk fc
          (BT.nd cl cn ck Color.Black
            (BT.nd cr sid sk Color.Red (BT.nd dl dn dk Color.Black dr))))).inorder =
          (plug ctx (BT.nd (BT.nd hl node hk hc hr2) fi fk fc
          (BT.nd (BT.nd cl cn ck Color.Red cr) sid sk sc
            (BT.nd dl dn dk Color.Black dr)))).inorder from by
          rw [plug_inorder, plug_inorder]
          simp [BT.inorder]]
        exact hnd)
  rw [plug_cons_right ⟨.Right, fi, fk, fc, BT.nd hl node hk hc hr2⟩ ctx _ rfl] at hrC
  have hinoC : (plug ctx (BT.nd (BT.nd hl node hk hc hr2) fi fk fc
      (BT.nd cl cn ck fc
        (BT.nd cr sid sk Color.Red (BT.nd dl dn dk Color.Black dr))))).inorder =
      (plug ctx (BT.nd (BT.nd hl node hk hc hr2) fi fk fc
      (BT.nd (BT.nd cl cn ck Color.Red cr) sid sk sc
        (BT.nd dl dn dk Color.Black dr)))).inorder := by
    rw [plug_inorder, plug_inorder]
    simp [BT.inorder]
  have hndC : (plug ctx (BT.nd (BT.nd hl node hk hc hr2) fi fk fc
      (BT.nd cl cn ck fc
        (BT.nd cr sid sk Color.Red (BT.nd dl dn dk Color.Black dr))))).ids.Nodup := by
    rw [BT.ids, hinoC]
    exact hnd
  -- recolor the parent Black
  have hrD := reps_recolor_at
    (((rotate t ((repo.update cn (fun n => n.setColor Color.Black)).update sid
      (fun n => n.setColor Color.Red)) sid Rotation.Right).2).update cn
      (fun n => n.setColor fc)) none ctx
    (BT.nd hl node hk hc hr2) fi fk fc Color.Black
    (BT.nd cl cn ck fc (BT.nd cr sid sk Color.Red (BT.nd dl dn dk Color.Black dr)))
    hrC hndC
  have hinoD : (plug ctx (BT.nd (BT.nd hl node hk hc hr2) fi fk Color.Black
      (BT.nd cl cn ck fc
        (BT.nd cr sid sk Color.Red (BT.nd dl dn dk Color.Black dr))))).inorder =
      (plug ctx (BT.nd (BT.nd hl node hk hc hr2) fi fk fc
      (BT.nd (BT.nd cl cn ck Color.Red cr) sid sk sc
        (BT.nd dl dn dk Color.Black dr)))).inorder := by
    rw [plug_inorder, plug_inorder]
    simp [BT.inorder]
  have hndD : (plug ctx (BT.nd (BT.nd hl node hk hc hr2) fi fk Color.Black
      (BT.nd cl cn ck fc
        (BT.nd cr sid sk Color.Red (BT.nd dl dn dk Color.Black dr))))).ids.Nodup := by
    rw [BT.ids, hinoD]
    exact hnd
  have hrootD : (rotate t ((repo.update cn (fun n => n.setColor Color.Black)).update sid
      (fun n => n.setColor Color.Red)) sid Rotation.Right).1.root =
      (plug ctx (BT.nd (BT.nd hl node hk hc hr2) fi fk Color.Black
      (BT.nd cl cn ck fc
        (BT.nd cr sid sk Color.Red (BT.nd dl dn dk Color.Black dr))))).rootId := by
    rw [htR1]
    show (plug (⟨.Right, fi, fk, fc, BT.nd hl node hk hc hr2⟩ :: ctx)
      (BT.nd cl cn ck Color.Black
        (BT.nd cr sid sk Color.Red (BT.nd dl dn dk Color.Black dr)))).rootId = _
    rw [plug_cons_right ⟨.Right, fi, fk, fc, BT.nd hl node hk hc hr2⟩ ctx _ rfl]
    exact plug_rootId_congr ctx _ _ _ _ fi _ _ _ _
  obtain ⟨htR2, hrepsR2⟩ := rotate_left_abs
    (rotate t ((repo.update cn (fun n => n.setColor Color.Black)).update sid
      (fun n => n.setColor Color.Red)) sid Rotation.Right).1
    (((rotate t ((repo.update cn (fun n => n.setColor Color.Black)).update sid
      (fun n => n.setColor Color.Red)) sid Rotation.Right).2.update cn
      (fun n => n.setColor fc)).update fi (fun n => n.setColor Color.Black))
    ctx (BT.nd hl node hk hc hr2) cl
    (BT.nd cr sid sk Color.Red (BT.nd dl dn dk Color.Black dr)) fi cn fk ck
    Color.Black fc hrD hndD hrootD
  refine ⟨plug ctx (BT.nd (BT.nd (BT.nd hl node hk hc hr2) fi fk Color.Black cl)
    cn ck fc (BT.nd cr sid sk Color.Red (BT.nd dl dn dk Color.Black dr))),
    ?_, hrepsR2, ?_, ?_⟩
  · rw [htR2, htR1]
  · rw [plug_inorder, plug_inorder]
    simp [BT.inorder]
  · exact root_cont_mem _ _ _ (by rw [htR2]) hrepsR2

/-- Delete-fixup tail, left side: all nephew configurations. -/
theorem delete_fixup_tail_abs_left (t : RedBlackTree) (repo : Repo) (ctx : Ctx)
    (H S : BT) (node fi : Nat) (fk : Int) (fc : Color)
    (hH : H.rootId = some node)
    (hr : reps repo none (plug ctx (.nd H fi fk fc S)))
    (hnd : (plug ctx (.nd H fi fk fc S)).ids.Nodup)
    (hroot : t.root = (plug ctx (.nd H fi fk fc S)).rootId) :
    ∃ bt2,
      (delete_fixup_tail t repo node fi S.rootId Rotation.Left Child.Left).1 =
        { t with root := bt2.rootId } ∧
      reps (delete_fixup_tail t repo node fi S.rootId Rotation.Left Child.Left).2.1
        none bt2 ∧
      bt2.inorder = (plug ctx (.nd H fi fk fc S)).inorder ∧
      ∀ nc, (delete_fixup_tail t repo node fi S.rootId Rotation.Left Child.Left).2.2 =
        some nc → nc.id ∈ bt2.ids := by
  cases H with
  | nil => simp [BT.rootId] at hH
  | nd hl hn hk hc hr2 =>
    rw [show ((BT.nd hl hn hk hc hr2).rootId : Option Nat) = some hn from rfl] at hH
    injection hH with hH2
    subst hH2
    have hmem : hn ∈ (plug ctx (.nd (.nd hl hn hk hc hr2) fi fk fc S)).ids :=
      mem_ids_plug_of_hole (BT.mem_ids_nd.2 (Or.inl
        (BT.mem_ids_nd.2 (Or.inr (Or.inl rfl)))))
    cases S with
    | nil =>
      exact delete_fixup_tail_easy t repo _ hn fi ((BT.nil : BT).rootId) .Left .Left
        hr hnd hroot hmem rfl
    | nd SL sid sk sc SR =>
      rw [show ((BT.nd SL sid sk sc SR).rootId : Option Nat) = some sid from rfl]
      have hrp := hr
      rw [reps_plug] at hrp
      obtain ⟨-, hsub⟩ := hrp
      obtain ⟨-, -, hSr⟩ := hsub
      obtain ⟨hsrec, hSLr, hSRr⟩ := hSr
      have hch : childrens repo (some sid) Child.Left = [SL.rootId, SR.rootId] := by
        rw [childrens]
        try dsimp only
        rw [hsrec]
        rfl
      rcases SR with _ | ⟨dl, dn, dk, dc, dr⟩
      · rcases SL with _ | ⟨cl, cn, ck, cc, cr⟩
        · refine delete_fixup_tail_easy t repo _ hn fi (some sid) .Left .Left
            hr hnd hroot hmem ?_
          rw [hch]
          rfl
        · obtain ⟨hcrec, -, -⟩ := hSLr
          cases cc with
          | Red =>
            exact delete_fixup_tail_left_red_nil t repo ctx hl hr2 cl cr hn fi sid cn
              hk fk sk ck hc fc sc hr hnd hroot
          | Black =>
            refine delete_fixup_tail_easy t repo _ hn fi (some sid) .Left .Left
              hr hnd hroot hmem ?_
            rw [hch]
            simp [any_colors, hcrec, BT.record, BT.rootId]
      · obtain ⟨hdnrec, -, -⟩ := hSRr
        cases dc with
        | Red =>
          exact delete_fixup_tail_left_red_distant t repo ctx hl hr2 SL dl dr hn fi sid dn
            hk fk sk dk hc fc sc hr hnd hroot
        | Black =>
          rcases SL with _ | ⟨cl, cn, ck, cc, cr⟩
          · refine delete_fixup_tail_easy t repo _ hn fi (some sid) .Left .Left
              hr hnd hroot hmem ?_
            rw [hch]
            simp [any_colors, hdnrec, BT.record, BT.rootId]
          · obtain ⟨hcrec, -, -⟩ := hSLr
            cases cc with
            | Red =>
              exact delete_fixup_tail_left_close t repo ctx hl hr2 cl cr dl dr hn fi sid
                cn dn hk fk sk ck dk hc fc sc hr hnd hroot
            | Black =>
              refine delete_fixup_tail_easy t repo _ hn fi (some sid) .Left .Left
                hr hnd hroot hmem ?_
              rw [hch]
              simp [any_colors, hcrec, hdnrec, BT.record, BT.rootId]

/-- Delete-fixup tail, right side, red close nephew and absent distant nephew:
recolor and rotate right at the parent. -/
theorem delete_fixup_tail_right_red_nil (t : RedBlackTree) (repo : Repo) (ctx : Ctx)
    (hl hr2 cl cr : BT) (node fi sid cn : Nat) (hk fk sk ck : Int)
    (hc fc sc : Color)
    (hr : reps repo none (plug ctx (.nd (.nd .nil sid sk sc (.nd cl cn ck Color.Red cr))
      fi fk fc (.nd hl node hk hc hr2))))
    (hnd : (plug ctx (.nd (.nd .nil sid sk sc (.nd cl cn ck Color.Red cr))
      fi fk fc (.nd hl node hk hc hr2))).ids.Nodup)
    (hroot : t.root = (plug ctx (.nd (.nd .nil sid sk sc (.nd cl cn ck Color.Red cr))
      fi fk fc (.nd hl node hk hc hr2))).rootId) :
    ∃ bt2,
      (delete_fixup_tail t repo node fi (some sid) Rotation.Right Child.Right).1 =
        { t with root := bt2.rootId } ∧
      reps (delete_fixup_tail t repo node fi (some sid) Rotation.Right Child.Right).2.1
        none bt2 ∧
      bt2.inorder = (plug ctx (.nd (.nd .nil sid sk sc (.nd cl cn ck Color.Red cr))
        fi fk fc (.nd hl node hk hc hr2))).inorder ∧
      ∀ nc, (delete_fixup_tail t repo node fi (some sid) Rotation.Right Child.Right).2.2 =
        some nc → nc.id ∈ bt2.ids := by
  have hrp := hr
  rw [reps_plug] at hrp
  obtain ⟨hctx, hfirec, hSr, hHr⟩ := hrp
  obtain ⟨hnoderec, -, -⟩ := hHr
  obtain ⟨hsrec, -, hSRr⟩ := hSr
  obtain ⟨hcrec, -, -⟩ := hSRr
  obtain ⟨hnd0, hdisj⟩ := plug_nodup_parts hnd
  obtain ⟨hndS, hndH, hfiS, hfiH, hSH⟩ := nd_nodup_parts hnd0
  have hnodeH : node ∈ (BT.nd hl node hk hc hr2).ids :=
    BT.mem_ids_nd.2 (Or.inr (Or.inl rfl))
  have hnodesid : node ≠ sid := by
    intro hh
    exact hSH sid (BT.mem_ids_nd.2 (Or.inr (Or.inl rfl))) (hh ▸ hnodeH)
  have hch : childrens repo (some sid) Child.Right = [some cn, none] := by
    rw [childrens]
    try dsimp only
    rw [hsrec]
    rfl
  have hrnv : any_colors repo [some cn, none] Color.Red = true := by
    simp [any_colors, hcrec, BT.record]
  have hdbv : any_colors repo [(none : Option Nat)] Color.Black = false := rfl
  have hnp : ((repo.update sid (fun n => n.setColor fc)).get node).bind Node.parent =
      some fi := by
    rw [Repo.get_update_ne _ sid node (fun n => n.setColor fc) (fun n => rfl) hnodesid]
    rw [hnoderec]
    rfl
  have hstep : delete_fixup_tail t repo node fi (some sid) Rotation.Right Child.Right =
      ((rotate t ((repo.update sid (fun n => n.setColor fc)).update fi
          (fun n => n.setColor Color.Black)) fi Rotation.Right).1,
       (rotate t ((repo.update sid (fun n => n.setColor fc)).update fi
          (fun n => n.setColor Color.Black)) fi Rotation.Right).2,
       ((rotate t ((repo.update sid (fun n => n.setColor fc)).update fi
          (fun n => n.setColor Color.Black)) fi Rotation.Right).1.root.bind
        (rotate t ((repo.update sid (fun n => n.setColor fc)).update fi
          (fun n => n.setColor Color.Black)) fi Rotation.Right).2.get).map
         fun n => (⟨n.id, n.color⟩ : NodeColor)) := by
    rw [delete_fixup_tail]
    rw [hch, hrnv]
    rw [show List.drop 1 [some cn, (none : Option Nat)] = [(none : Option Nat)] from rfl]
    rw [show List.take 1 [some cn, (none : Option Nat)] = [some cn] from rfl]
    try dsimp only
    rw [hdbv]
    simp only [eq_self_iff_true, if_true, Bool.false_eq_true, if_false]
    rw [show (List.getD [(none : Option Nat)] 0 none : Option Nat) = none from rfl]
    dsimp only [Repo.updateOpt]
    rw [hfirec]
    dsimp only [BT.record, Option.getD]
    rw [hnp]
  rw [hstep]
  -- recolor the sibling to the parent's color at its context
  have hrA := reps_recolor_at repo none
    (⟨.Left, fi, fk, fc, BT.nd hl node hk hc hr2⟩ :: ctx)
    BT.nil sid sk sc fc (BT.nd cl cn ck Color.Red cr)
    (by rw [plug_cons_left ⟨.Left, fi, fk, fc, BT.nd hl node hk hc hr2⟩ ctx _ rfl]
        exact hr)
    (by rw [plug_cons_left ⟨.Left, fi, fk, fc, BT.nd hl node hk hc hr2⟩ ctx _ rfl]
        exact hnd)
  rw [plug_cons_left ⟨.Left, fi, fk, fc, BT.nd hl node hk hc hr2⟩ ctx _ rfl] at hrA
  have hinoA : (plug ctx (BT.nd (BT.nd BT.nil sid sk fc (BT.nd cl cn ck Color.Red cr))
      fi fk fc (BT.nd hl node hk hc hr2))).inorder =
      (plug ctx (BT.nd (BT.nd BT.nil sid sk sc (BT.nd cl cn ck Color.Red cr))
      fi fk fc (BT.nd hl node hk hc hr2))).inorder := by
    rw [plug_inorder, plug_inorder]
    simp [BT.inorder]
  have hndA : (plug ctx (BT.nd (BT.nd BT.nil sid sk fc (BT.nd cl cn ck Color.Red cr))
      fi fk fc (BT.nd hl node hk hc hr2))).ids.Nodup := by
    rw [BT.ids, hinoA]
    exact hnd
  have hrB := reps_recolor_at (repo.update sid (fun n => n.setColor fc)) none ctx
    (BT.nd BT.nil sid sk fc (BT.nd cl cn ck Color.Red cr)) fi fk fc Color.Black
    (BT.nd hl node hk hc hr2) hrA hndA
  have hinoB : (plug ctx (BT.nd (BT.nd BT.nil sid sk fc (BT.nd cl cn ck Color.Red cr))
      fi fk Color.Black (BT.nd hl node hk hc hr2))).inorder =
      (plug ctx (BT.nd (BT.nd BT.nil sid sk sc (BT.nd cl cn ck Color.Red cr))
      fi fk fc (BT.nd hl node hk hc hr2))).inorder := by
    rw [plug_inorder, plug_inorder]
    simp [BT.inorder]
  have hndB : (plug ctx (BT.nd (BT.nd BT.nil sid sk fc (BT.nd cl cn ck Color.Red cr))
      fi fk Color.Black (BT.nd hl node hk hc hr2))).ids.Nodup := by
    rw [BT.ids, hinoB]
    exact hnd
  have hrootB : t.root = (plug ctx (BT.nd (BT.nd BT.nil sid sk fc
      (BT.nd cl cn ck Color.Red cr)) fi fk Color.Black
      (BT.nd hl node hk hc hr2))).rootId := by
    rw [hroot]
    exact plug_rootId_congr ctx _ _ _ _ fi _ _ _ _
  obtain ⟨ht2, hreps2⟩ := rotate_right_abs t
    ((repo.update sid (fun n => n.setColor fc)).update fi (fun n => n.setColor Color.Black))
    ctx (BT.nd hl node hk hc hr2) (BT.nd cl cn ck Color.Red cr) BT.nil fi sid fk sk
    Color.Black fc hrB hndB hrootB
  refine ⟨plug ctx (BT.nd BT.nil sid sk fc (BT.nd (BT.nd cl cn ck Color.Red cr)
    fi fk Color.Black (BT.nd hl node hk hc hr2))), ht2, hreps2, ?_, ?_⟩
  · rw [plug_inorder, plug_inorder]
    simp [BT.inorder]
  · exact root_cont_mem _ _ _ (by rw [ht2]) hreps2

/-- Delete-fixup tail, right side, red distant nephew: recolor the distant
nephew Black, recolor, and rotate right at the parent. -/
theorem delete_fixup_tail_right_red_distant (t : RedBlackTree) (repo : Repo) (ctx : Ctx)
    (hl hr2 SR dl dr : BT) (node fi sid dn : Nat) (hk fk sk dk : Int)
    (hc fc sc : Color)
    (hr : reps repo none (plug ctx (.nd (.nd (.nd dl dn dk Color.Red dr) sid sk sc SR)
      fi fk fc (.nd hl node hk hc hr2))))
    (hnd : (plug ctx (.nd (.nd (.nd dl dn dk Color.Red dr) sid sk sc SR)
      fi fk fc (.nd hl node hk hc hr2))).ids.Nodup)
    (hroot : t.root = (plug ctx (.nd (.nd (.nd dl dn dk Color.Red dr) sid sk sc SR)
      fi fk fc (.nd hl node hk hc hr2))).rootId) :
    ∃ bt2,
      (delete_fixup_tail t repo node fi (some sid) Rotation.Right Child.Right).1 =
        { t with root := bt2.rootId } ∧
      reps (delete_fixup_tail t repo node fi (some sid) Rotation.Right Child.Right).2.1
        none bt2 ∧
      bt2.inorder = (plug ctx (.nd (.nd (.nd dl dn dk Color.Red dr) sid sk sc SR)
        fi fk fc (.nd hl node hk hc hr2))).inorder ∧
      ∀ nc, (delete_fixup_tail t repo node fi (some sid) Rotation.Right Child.Right).2.2 =
        some nc → nc.id ∈ bt2.ids := by
  have hrp := hr
  rw [reps_plug] at hrp
  obtain ⟨hctx, hfirec, hSr, hHr⟩ := hrp
  obtain ⟨hnoderec, -, -⟩ := hHr
  obtain ⟨hsrec, hSLr, -⟩ := hSr
  obtain ⟨hdnrec, -, -⟩ := hSLr
  obtain ⟨hnd0, hdisj⟩ := plug_nodup_parts hnd
  obtain ⟨hndS, hndH, hfiS, hfiH, hSH⟩ := nd_nodup_parts hnd0
  have hdnS : dn ∈ (BT.nd (BT.nd dl dn dk Color.Red dr) sid sk sc SR).ids :=
    BT.mem_ids_nd.2 (Or.inl (BT.mem_ids_nd.2 (Or.inr (Or.inl rfl))))
  have hnodeH : node ∈ (BT.nd hl node hk hc hr2).ids :=
    BT.mem_ids_nd.2 (Or.inr (Or.inl rfl))
  have hnodesid : node ≠ sid := by
    intro hh
    exact hSH sid (BT.mem_ids_nd.2 (Or.inr (Or.inl rfl))) (hh ▸ hnodeH)
  have hnodedn : node ≠ dn := by
    intro hh
    exact hSH dn hdnS (hh ▸ hnodeH)
  have hfidn : fi ≠ dn := by
    intro hh
    exact hfiS (hh ▸ hdnS)
  have hch : childrens repo (some sid) Child.Right = [SR.rootId, some dn] := by
    rw [childrens]
    try dsimp only
    rw [hsrec]
    rfl
  have hrnv : any_colors repo [SR.rootId, some dn] Color.Red = true := by
    simp [any_colors, hdnrec, BT.record]
  have hdbv : any_colors repo [some dn] Color.Black = false := by
    simp [any_colors, hdnrec, BT.record]
  have hfirec2 : (repo.update dn (fun n => n.setColor Color.Black)).get fi =
      some (BT.record fi fk fc (ctxUp none ctx)
        (BT.nd (BT.nd dl dn dk Color.Red dr) sid sk sc SR)
        (BT.nd hl node hk hc hr2)) := by
    rw [Repo.get_update_ne _ dn fi (fun n => n.setColor Color.Black) (fun n => rfl) hfidn]
    exact hfirec
  have hnp : (((repo.update dn (fun n => n.setColor Color.Black)).update sid
      (fun n => n.setColor fc)).get node).bind Node.parent = some fi := by
    rw [Repo.get_update_ne _ sid node (fun n => n.setColor fc) (fun n => rfl) hnodesid]
    rw [Repo.get_update_ne _ dn node (fun n => n.setColor Color.Black) (fun n => rfl)
      hnodedn]
    rw [hnoderec]
    rfl
  have hstep : delete_fixup_tail t repo node fi (some sid) Rotation.Right Child.Right =
      ((rotate t (((repo.update dn (fun n => n.setColor Color.Black)).update sid
          (fun n => n.setColor fc)).update fi
          (fun n => n.setColor Color.Black)) fi Rotation.Right).1,
       (rotate t (((repo.update dn (fun n => n.setColor Color.Black)).update sid
          (fun n => n.setColor fc)).update fi
          (fun n => n.setColor Color.Black)) fi Rotation.Right).2,
       ((rotate t (((repo.update dn (fun n => n.setColor Color.Black)).update sid
          (fun n => n.setColor fc)).update fi
          (fun n => n.setColor Color.Black)) fi Rotation.Right).1.root.bind
        (rotate t (((repo.update dn (fun n => n.setColor Color.Black)).update sid
          (fun n => n.setColor fc)).update fi
          (fun n => n.setColor Color.Black)) fi Rotation.Right).2.get).map
         fun n => (⟨n.id, n.color⟩ : NodeColor)) := by
    rw [delete_fixup_tail]
    rw [hch, hrnv]
    rw [show List.drop 1 [SR.rootId, some dn] = [some dn] from rfl]
    rw [show List.take 1 [SR.rootId, some dn] = [SR.rootId] from rfl]
    try dsimp only
    rw [hdbv]
    simp only [eq_self_iff_true, if_true, Bool.false_eq_true, if_false]
    rw [show (List.getD [some dn] 0 none : Option Nat) = some dn from rfl]
    dsimp only [Repo.updateOpt]
    rw [hfirec2]
    dsimp only [BT.record, Option.getD]
    rw [hnp]
  rw [hstep]
  -- recolor the distant nephew Black at its context
  have hrA := reps_recolor_at repo none
    (⟨.Left, sid, sk, sc, SR⟩ :: ⟨.Left, fi, fk, fc, BT.nd hl node hk hc hr2⟩ :: ctx)
    dl dn dk Color.Red Color.Black dr
    (by rw [plug_cons_left ⟨.Left, sid, sk, sc, SR⟩ _ _ rfl,
          plug_cons_left ⟨.Left, fi, fk, fc, BT.nd hl node hk hc hr2⟩ ctx _ rfl]
        exact hr)
    (by rw [plug_cons_left ⟨.Left, sid, sk, sc, SR⟩ _ _ rfl,
          plug_cons_left ⟨.Left, fi, fk, fc, BT.nd hl node hk hc hr2⟩ ctx _ rfl]
        exact hnd)
  rw [plug_cons_left ⟨.Left, sid, sk, sc, SR⟩ _ _ rfl,
    plug_cons_left ⟨.Left, fi, fk, fc, BT.nd hl node hk hc hr2⟩ ctx _ rfl] at hrA
  have hinoA : (plug ctx (BT.nd (BT.nd (BT.nd dl dn dk Color.Black dr) sid sk sc SR)
      fi fk fc (BT.nd hl node hk hc hr2))).inorder =
      (plug ctx (BT.nd (BT.nd (BT.nd dl dn dk Color.Red dr) sid sk sc SR)
      fi fk fc (BT.nd hl node hk hc hr2))).inorder := by
    rw [plug_inorder, plug_inorder]
    simp [BT.inorder]
  have hndA : (plug ctx (BT.nd (BT.nd (BT.nd dl dn dk Color.Black dr) sid sk sc SR)
      fi fk fc (BT.nd hl node hk hc hr2))).ids.Nodup := by
    rw [BT.ids, hinoA]
    exact hnd
  -- recolor the sibling to the parent's color at its context
  have hrB := reps_recolor_at (repo.update dn (fun n => n.setColor Color.Black)) none
    (⟨.Left, fi, fk, fc, BT.nd hl node hk hc hr2⟩ :: ctx)
    (BT.nd dl dn dk Color.Black dr) sid sk sc fc SR
    (by rw [plug_cons_left ⟨.Left, fi, fk, fc, BT.nd hl node hk hc hr2⟩ ctx _ rfl]
        exact hrA)
    (by rw [plug_cons_left ⟨.Left, fi, fk, fc, BT.nd hl node hk hc hr2⟩ ctx _ rfl]
        exact hndA)
  rw [plug_cons_left ⟨.Left, fi, fk, fc, BT.nd hl node hk hc hr2⟩ ctx _ rfl] at hrB
  have hinoB : (plug ctx (BT.nd (BT.nd (BT.nd dl dn dk Color.Black dr) sid sk fc SR)
      fi fk fc (BT.nd hl node hk hc hr2))).inorder =
      (plug ctx (BT.nd (BT.nd (BT.nd dl dn dk Color.Red dr) sid sk sc SR)
      fi fk fc (BT.nd hl node hk hc hr2))).inorder := by
    rw [plug_inorder, plug_inorder]
    simp [BT.inorder]
  have hndB : (plug ctx (BT.nd (BT.nd (BT.nd dl dn dk Color.Black dr) sid sk fc SR)
      fi fk fc (BT.nd hl node hk hc hr2))).ids.Nodup := by
    rw [BT.ids, hinoB]
    exact hnd
  -- recolor the parent Black at its context
  have hrC := reps_recolor_at ((repo.update dn (fun n => n.setColor Color.Black)).update
    sid (fun n => n.setColor fc)) none ctx
    (BT.nd (BT.nd dl dn dk Color.Black dr) sid sk fc SR) fi fk fc Color.Black
    (BT.nd hl node hk hc hr2) hrB hndB
  have hinoC : (plug ctx (BT.nd (BT.nd (BT.nd dl dn dk Color.Black dr) sid sk fc SR)
      fi fk Color.Black (BT.nd hl node hk hc hr2))).inorder =
      (plug ctx (BT.nd (BT.nd (BT.nd dl dn dk Color.Red dr) sid sk sc SR)
      fi fk fc (BT.nd hl node hk hc hr2))).inorder := by
    rw [plug_inorder, plug_inorder]
    simp [BT.inorder]
  have hndC : (plug ctx (BT.nd (BT.nd (BT.nd dl dn dk Color.Black dr) sid sk fc SR)
      fi fk Color.Black (BT.nd hl node hk hc hr2))).ids.Nodup := by
    rw [BT.ids, hinoC]
    exact hnd
  have hrootC : t.root = (plug ctx (BT.nd (BT.nd (BT.nd dl dn dk Color.Black dr)
      sid sk fc SR) fi fk Color.Black (BT.nd hl node hk hc hr2))).rootId := by
    rw [hroot]
    exact plug_rootId_congr ctx _ _ _ _ fi _ _ _ _
  obtain ⟨ht2, hreps2⟩ := rotate_right_abs t
    (((repo.update dn (fun n => n.setColor Color.Black)).update sid
      (fun n => n.setColor fc)).update fi (fun n => n.setColor Color.Black))
    ctx (BT.nd hl node hk hc hr2) SR (BT.nd dl dn dk Color.Black dr) fi sid fk sk
    Color.Black fc hrC hndC hrootC
  refine ⟨plug ctx (BT.nd (BT.nd dl dn dk Color.Black dr) sid sk fc
    (BT.nd SR fi fk Color.Black (BT.nd hl node hk hc hr2))), ht2, hreps2, ?_, ?_⟩
  · rw [plug_inorder, plug_inorder]
    simp [BT.inorder]
  · exact root_cont_mem _ _ _ (by rw [ht2]) hreps2

/-- Delete-fixup tail, right side, red close nephew with black distant nephew:
the close-nephew step rotates left at the sibling, then the parent step
rotates right at the parent. -/
theorem delete_fixup_tail_right_close (t : RedBlackTree) (repo : Repo) (ctx : Ctx)
    (hl hr2 cl cr dl dr : BT) (node fi sid cn dn : Nat) (hk fk sk ck dk : Int)
    (hc fc sc : Color)
    (hr : reps repo none (plug ctx (.nd (.nd (.nd dl dn dk Color.Black dr) sid sk sc
      (.nd cl cn ck Color.Red cr)) fi fk fc (.nd hl node hk hc hr2))))
    (hnd : (plug ctx (.nd (.nd (.nd dl dn dk Color.Black dr) sid sk sc
      (.nd cl cn ck Color.Red cr)) fi fk fc (.nd hl node hk hc hr2))).ids.Nodup)
    (hroot : t.root = (plug ctx (.nd (.nd (.nd dl dn dk Color.Black dr) sid sk sc
      (.nd cl cn ck Color.Red cr)) fi fk fc (.nd hl node hk hc hr2))).rootId) :
    ∃ bt2,
      (delete_fixup_tail t repo node fi (some sid) Rotation.Right Child.Right).1 =
        { t with root := bt2.rootId } ∧
      reps (delete_fixup_tail t repo node fi (some sid) Rotation.Right Child.Right).2.1
        none bt2 ∧
      bt2.inorder = (plug ctx (.nd (.nd (.nd dl dn dk Color.Black dr) sid sk sc
        (.nd cl cn ck Color.Red cr)) fi fk fc (.nd hl node hk hc hr2))).inorder ∧
      ∀ nc, (delete_fixup_tail t repo node fi (some sid) Rotation.Right Child.Right).2.2 =
        some nc → nc.id ∈ bt2.ids := by
  have hrp := hr
  rw [reps_plug] at hrp
  obtain ⟨hctx, hfirec, hSr, hHr⟩ := hrp
  obtain ⟨hnoderec, -, -⟩ := hHr
  obtain ⟨hsrec, hSLr, hSRr⟩ := hSr
  obtain ⟨hdnrec, -, -⟩ := hSLr
  obtain ⟨hcrec, -, -⟩ := hSRr
  obtain ⟨hnd0, hdisj⟩ := plug_nodup_parts hnd
  obtain ⟨hndS, hndH, hfiS, hfiH, hSH⟩ := nd_nodup_parts hnd0
  have hcnS : cn ∈ (BT.nd (BT.nd dl dn dk Color.Black dr) sid sk sc
      (BT.nd cl cn ck Color.Red cr)).ids :=
    BT.mem_ids_nd.2 (Or.inr (Or.inr (BT.mem_ids_nd.2 (Or.inr (Or.inl rfl)))))
  have hnodeH : node ∈ (BT.nd hl node hk hc hr2).ids :=
    BT.mem_ids_nd.2 (Or.inr (Or.inl rfl))
  have hnodesid : node ≠ sid := by
    intro hh
    exact hSH sid (BT.mem_ids_nd.2 (Or.inr (Or.inl rfl))) (hh ▸ hnodeH)
  have hnodecn : node ≠ cn := by
    intro hh
    exact hSH cn hcnS (hh ▸ hnodeH)
  have hch : childrens repo (some sid) Child.Right = [some cn, some dn] := by
    rw [childrens]
    try dsimp only
    rw [hsrec]
    rfl
  have hrnv : any_colors repo [some cn, some dn] Color.Red = true := by
    simp [any_colors, hcrec, BT.record]
  have hdbv : any_colors repo [some dn] Color.Black = true := by
    simp [any_colors, hdnrec, BT.record]
  -- the close-nephew recolor at its context
  have hrA := reps_recolor_at repo none
    (⟨.Right, sid, sk, sc, BT.nd dl dn dk Color.Black dr⟩ ::
      ⟨.Left, fi, fk, fc, BT.nd hl node hk hc hr2⟩ :: ctx)
    cl cn ck Color.Red Color.Black cr
    (by rw [plug_cons_right ⟨.Right, sid, sk, sc, BT.nd dl dn dk Color.Black dr⟩ _ _ rfl,
          plug_cons_left ⟨.Left, fi, fk, fc, BT.nd hl node hk hc hr2⟩ ctx _ rfl]
        exact hr)
    (by rw [plug_cons_right ⟨.Right, sid, sk, sc, BT.nd dl dn dk Color.Black dr⟩ _ _ rfl,
          plug_cons_left ⟨.Left, fi, fk, fc, BT.nd hl node hk hc hr2⟩ ctx _ rfl]
        exact hnd)
  rw [plug_cons_right ⟨.Right, sid, sk, sc, BT.nd dl dn dk Color.Black dr⟩ _ _ rfl,
    plug_cons_left ⟨.Left, fi, fk, fc, BT.nd hl node hk hc hr2⟩ ctx _ rfl] at hrA
  have hinoA : (plug ctx (BT.nd (BT.nd (BT.nd dl dn dk Color.Black dr) sid sk sc
      (BT.nd cl cn ck Color.Black cr)) fi fk fc (BT.nd hl node hk hc hr2))).inorder =
      (plug ctx (BT.nd (BT.nd (BT.nd dl dn dk Color.Black dr) sid sk sc
      (BT.nd cl cn ck Color.Red cr)) fi fk fc (BT.nd hl node hk hc hr2))).inorder := by
    rw [plug_inorder, plug_inorder]
    simp [BT.inorder]
  have hndA : (plug ctx (BT.nd (BT.nd (BT.nd dl dn dk Color.Black dr) sid sk sc
      (BT.nd cl cn ck Color.Black cr)) fi fk fc
      (BT.nd hl node hk hc hr2))).ids.Nodup := by
    rw [BT.ids, hinoA]
    exact hnd
  -- the sibling recolor Red at its context
  have hrB := reps_recolor_at (repo.update cn (fun n => n.setColor Color.Black)) none
    (⟨.Left, fi, fk, fc, BT.nd hl node hk hc hr2⟩ :: ctx)
    (BT.nd dl dn dk Color.Black dr) sid sk sc Color.Red (BT.nd cl cn ck Color.Black cr)
    (by rw [plug_cons_left ⟨.Left, fi, fk, fc, BT.nd hl node hk hc hr2⟩ ctx _ rfl]
        exact hrA)
    (by rw [plug_cons_left ⟨.Left, fi, fk, fc, BT.nd hl node hk hc hr2⟩ ctx _ rfl]
        exact hndA)
  have hinoB : (plug (⟨.Left, fi, fk, fc, BT.nd hl node hk hc hr2⟩ :: ctx)
      (BT.nd (BT.nd dl dn dk Color.Black dr) sid sk Color.Red
        (BT.nd cl cn ck Color.Black cr))).inorder =
      (plug ctx (BT.nd (BT.nd (BT.nd dl dn dk Color.Black dr) sid sk sc
      (BT.nd cl cn ck Color.Red cr)) fi fk fc (BT.nd hl node hk hc hr2))).inorder := by
    rw [plug_cons_left ⟨.Left, fi, fk, fc, BT.nd hl node hk hc hr2⟩ ctx _ rfl]
    rw [plug_inorder, plug_inorder]
    simp [BT.inorder]
  have hndB : (plug (⟨.Left, fi, fk, fc, BT.nd hl node hk hc hr2⟩ :: ctx)
      (BT.nd (BT.nd dl dn dk Color.Black dr) sid sk Color.Red
        (BT.nd cl cn ck Color.Black cr))).ids.Nodup := by
    rw [BT.ids, hinoB]
    exact hnd
  have hrootB : t.root = (plug (⟨.Left, fi, fk, fc, BT.nd hl node hk hc hr2⟩ :: ctx)
      (BT.nd (BT.nd dl dn dk Color.Black dr) sid sk Color.Red
        (BT.nd cl cn ck Color.Black cr))).rootId := by
    rw [hroot]
    rw [plug_cons_left ⟨.Left, fi, fk, fc, BT.nd hl node hk hc hr2⟩ ctx _ rfl]
    exact plug_rootId_congr ctx _ _ _ _ fi _ _ _ _
  -- the close-nephew rotation left at the sibling
  obtain ⟨htR1, hrepsR1⟩ := rotate_left_abs t
    ((repo.update cn (fun n => n.setColor Color.Black)).update sid
      (fun n => n.setColor Color.Red))
    (⟨.Left, fi, fk, fc, BT.nd hl node hk hc hr2⟩ :: ctx)
    (BT.nd dl dn dk Color.Black dr) cl cr sid cn sk ck Color.Red Color.Black
    hrB hndB hrootB
  rw [plug_cons_left ⟨.Left, fi, fk, fc, BT.nd hl node hk hc hr2⟩ ctx _ rfl] at hrepsR1
  -- records in the rotated store
  have hrpR := hrepsR1
  rw [reps_plug] at hrpR
  obtain ⟨hctx3, hfirec3, -, hHr3⟩ := hrpR
  obtain ⟨hnoderec3, -, -⟩ := hHr3
  have hsib2 : (((rotate t ((repo.update cn (fun n => n.setColor Color.Black)).update sid
      (fun n => n.setColor Color.Red)) sid Rotation.Left).2.get fi).bind Node.left) =
      some cn := by
    rw [hfirec3]
    rfl
  have hnp3 : (((rotate t ((repo.update cn (fun n => n.setColor Color.Black)).update sid
      (fun n => n.setColor Color.Red)) sid Rotation.Left).2.update cn
      (fun n => n.setColor fc)).get node).bind Node.parent = some fi := by
    rw [Repo.get_update_ne _ cn node (fun n => n.setColor fc) (fun n => rfl) hnodecn]
    rw [hnoderec3]
    rfl
  have hpc3 : ((((rotate t ((repo.update cn (fun n => n.setColor Color.Black)).update sid
      (fun n => n.setColor Color.Red)) sid Rotation.Left).2.get fi).getD
      default).color) = fc := by
    rw [hfirec3]
    rfl
  have hstep : delete_fixup_tail t repo node fi (some sid) Rotation.Right Child.Right =
      ((rotate (rotate t ((repo.update cn (fun n => n.setColor Color.Black)).update sid
          (fun n => n.setColor Color.Red)) sid Rotation.Left).1
          (((rotate t ((repo.update cn (fun n => n.setColor Color.Black)).update sid
            (fun n => n.setColor Color.Red)) sid Rotation.Left).2.update cn
            (fun n => n.setColor fc)).update fi (fun n => n.setColor Color.Black))
          fi Rotation.Right).1,
       (rotate (rotate t ((repo.update cn (fun n => n.setColor Color.Black)).update sid
          (fun n => n.setColor Color.Red)) sid Rotation.Left).1
          (((rotate t ((repo.update cn (fun n => n.setColor Color.Black)).update sid
            (fun n => n.setColor Color.Red)) sid Rotation.Left).2.update cn
            (fun n => n.setColor fc)).update fi (fun n => n.setColor Color.Black))
          fi Rotation.Right).2,
       ((rotate (rotate t ((repo.update cn (fun n => n.setColor Color.Black)).update sid
          (fun n => n.setColor Color.Red)) sid Rotation.Left).1
          (((rotate t ((repo.update cn (fun n => n.setColor Color.Black)).update sid
            (fun n => n.setColor Color.Red)) sid Rotation.Left).2.update cn
            (fun n => n.setColor fc)).update fi (fun n => n.setColor Color.Black))
          fi Rotation.Right).1.root.bind
        (rotate (rotate t ((repo.update cn (fun n => n.setColor Color.Black)).update sid
          (fun n => n.setColor Color.Red)) sid Rotation.Left).1
          (((rotate t ((repo.update cn (fun n => n.setColor Color.Black)).update sid
            (fun n => n.setColor Color.Red)) sid Rotation.Left).2.update cn
            (fun n => n.setColor fc)).update fi (fun n => n.setColor Color.Black))
          fi Rotation.Right).2.get).map
         fun n => (⟨n.id, n.color⟩ : NodeColor)) := by
    rw [delete_fixup_tail]
    rw [hch, hrnv]
    rw [show List.drop 1 [some cn, some dn] = [some dn] from rfl]
    rw [show List.take 1 [some cn, some dn] = [some cn] from rfl]
    try dsimp only
    rw [hdbv]
    simp only [eq_self_iff_true, if_true]
    rw [show (List.getD [some cn] 0 none : Option Nat) = some cn from rfl]
    rw [delete_fixup_close_step]
    try dsimp only
    try dsimp only [Repo.updateOpt, Rotation.flip]
    rw [hsib2]
    try dsimp only [Repo.updateOpt]
    rw [hpc3]
    rw [hnp3]
  rw [hstep]
  -- recolor the new sibling root to the parent color
  have hrC := reps_recolor_at
    ((rotate t ((repo.update cn (fun n => n.setColor Color.Black)).update sid
      (fun n => n.setColor Color.Red)) sid Rotation.Left).2) none
    (⟨.Left, fi, fk, fc, BT.nd hl node hk hc hr2⟩ :: ctx)
    (BT.nd (BT.nd dl dn dk Color.Black dr) sid sk Color.Red cl) cn ck Color.Black fc cr
    (by rw [plug_cons_left ⟨.Left, fi, fk, fc, BT.nd hl node hk hc hr2⟩ ctx _ rfl]
        exact hrepsR1)
    (by rw [plug_cons_left ⟨.Left, fi, fk, fc, BT.nd hl node hk hc hr2⟩ ctx _ rfl]
        rw [BT.ids]
        rw [show (plug ctx (BT.nd (BT.nd (BT.nd (BT.nd dl dn dk Color.Black dr)
          sid sk Color.Red cl) cn ck Color.Black cr) fi fk fc
          (BT.nd hl node hk hc hr2))).inorder =
          (plug ctx (BT.nd (BT.nd (BT.nd dl dn dk Color.Black dr) sid sk sc
          (BT.nd cl cn ck Color.Red cr)) fi fk fc
          (BT.nd hl node hk hc hr2))).inorder from by
          rw [plug_inorder, plug_inorder]
          simp [BT.inorder]]
        exact hnd)
  rw [plug_cons_left ⟨.Left, fi, fk, fc, BT.nd hl node hk hc hr2⟩ ctx _ rfl] at hrC
  have hinoC : (plug ctx (BT.nd (BT.nd (BT.nd (BT.nd dl dn dk Color.Black dr)
      sid sk Color.Red cl) cn ck fc cr) fi fk fc
      (BT.nd hl node hk hc hr2))).inorder =
      (plug ctx (BT.nd (BT.nd (BT.nd dl dn dk Color.Black dr) sid sk sc
      (BT.nd cl cn ck Color.Red cr)) fi fk fc (BT.nd hl node hk hc hr2))).inorder := by
    rw [plug_inorder, plug_inorder]
    simp [BT.inorder]
  have hndC : (plug ctx (BT.nd (BT.nd (BT.nd (BT.nd dl dn dk Color.Black dr)
      sid sk Color.Red cl) cn ck fc cr) fi fk fc
      (BT.nd hl node hk hc hr2))).ids.Nodup := by
    rw [BT.ids, hinoC]
    exact hnd
  -- recolor the parent Black
  have hrD := reps_recolor_at
    (((rotate t ((repo.update cn (fun n => n.setColor Color.Black)).update sid
      (fun n => n.setColor Color.Red)) sid Rotation.Left).2).update cn
      (fun n => n.setColor fc)) none ctx
    (BT.nd (BT.nd (BT.nd dl dn dk Color.Black dr) sid sk Color.Red cl) cn ck fc cr)
    fi fk fc Color.Black (BT.nd hl node hk hc hr2)
    hrC hndC
  have hinoD : (plug ctx (BT.nd (BT.nd (BT.nd (BT.nd dl dn dk Color.Black dr)
      sid sk Color.Red cl) cn ck fc cr) fi fk Color.Black
      (BT.nd hl node hk hc hr2))).inorder =
      (plug ctx (BT.nd (BT.nd (BT.nd dl dn dk Color.Black dr) sid sk sc
      (BT.nd cl cn ck Color.Red cr)) fi fk fc (BT.nd hl node hk hc hr2))).inorder := by
    rw [plug_inorder, plug_inorder]
    simp [BT.inorder]
  have hndD : (plug ctx (BT.nd (BT.nd (BT.nd (BT.nd dl dn dk Color.Black dr)
      sid sk Color.Red cl) cn ck fc cr) fi fk Color.Black
      (BT.nd hl node hk hc hr2))).ids.Nodup := by
    rw [BT.ids, hinoD]
    exact hnd
  have hrootD : (rotate t ((repo.update cn (fun n => n.setColor Color.Black)).update sid
      (fun n => n.setColor Color.Red)) sid Rotation.Left).1.root =
      (plug ctx (BT.nd (BT.nd (BT.nd (BT.nd dl dn dk Color.Black dr)
      sid sk Color.Red cl) cn ck fc cr) fi fk Color.Black
      (BT.nd hl node hk hc hr2))).rootId := by
    rw [htR1]
    show (plug (⟨.Left, fi, fk, fc, BT.nd hl node hk hc hr2⟩ :: ctx)
      (BT.nd (BT.nd (BT.nd dl dn dk Color.Black dr) sid sk Color.Red cl)
        cn ck Color.Black cr)).rootId = _
    rw [plug_cons_left ⟨.Left, fi, fk, fc, BT.nd hl node hk hc hr2⟩ ctx _ rfl]
    exact plug_rootId_congr ctx _ _ _ _ fi _ _ _ _
  obtain ⟨htR2, hrepsR2⟩ := rotate_right_abs
    (rotate t ((repo.update cn (fun n => n.setColor Color.Black)).update sid
      (fun n => n.setColor Color.Red)) sid Rotation.Left).1
    (((rotate t ((repo.update cn (fun n => n.setColor Color.Black)).update sid
      (fun n => n.setColor Color.Red)) sid Rotation.Left).2.update cn
      (fun n => n.setColor fc)).update fi (fun n => n.setColor Color.Black))
    ctx (BT.nd hl node hk hc hr2) cr
    (BT.nd (BT.nd dl dn dk Color.Black dr) sid sk Color.Red cl) fi cn fk ck
    Color.Black fc hrD hndD hrootD
  refine ⟨plug ctx (BT.nd (BT.nd (BT.nd dl dn dk Color.Black dr) sid sk Color.Red cl)
    cn ck fc (BT.nd cr fi fk Color.Black (BT.nd hl node hk hc hr2))),
    ?_, hrepsR2, ?_, ?_⟩
  · rw [htR2, htR1]
  · rw [plug_inorder, plug_inorder]
    simp [BT.inorder]
  · exact root_cont_mem _ _ _ (by rw [htR2]) hrepsR2

/-- Delete-fixup tail, right side: all nephew configurations. -/
theorem delete_fixup_tail_abs_right (t : RedBlackTree) (repo : Repo) (ctx : Ctx)
    (H S : BT) (node fi : Nat) (fk : Int) (fc : Color)
    (hH : H.rootId = some node)
    (hr : reps repo none (plug ctx (.nd S fi fk fc H)))
    (hnd : (plug ctx (.nd S fi fk fc H)).ids.Nodup)
    (hroot : t.root = (plug ctx (.nd S fi fk fc H)).rootId) :
    ∃ bt2,
      (delete_fixup_tail t repo node fi S.rootId Rotation.Right Child.Right).1 =
        { t with root := bt2.rootId } ∧
      reps (delete_fixup_tail t repo node fi S.rootId Rotation.Right Child.Right).2.1
        none bt2 ∧
      bt2.inorder = (plug ctx (.nd S fi fk fc H)).inorder ∧
      ∀ nc, (delete_fixup_tail t repo node fi S.rootId Rotation.Right Child.Right).2.2 =
        some nc → nc.id ∈ bt2.ids := by
  cases H with
  | nil => simp [BT.rootId] at hH
  | nd hl hn hk hc hr2 =>
    rw [show ((BT.nd hl hn hk hc hr2).rootId : Option Nat) = some hn from rfl] at hH
    injection hH with hH2
    subst hH2
    have hmem : hn ∈ (plug ctx (.nd S fi fk fc (.nd hl hn hk hc hr2))).ids :=
      mem_ids_plug_of_hole (BT.mem_ids_nd.2 (Or.inr (Or.inr
        (BT.mem_ids_nd.2 (Or.inr (Or.inl rfl))))))
    cases S with
    | nil =>
      exact delete_fixup_tail_easy t repo _ hn fi ((BT.nil : BT).rootId) .Right .Right
        hr hnd hroot hmem rfl
    | nd SL sid sk sc SR =>
      rw [show ((BT.nd SL sid sk sc SR).rootId : Option Nat) = some sid from rfl]
      have hrp := hr
      rw [reps_plug] at hrp
      obtain ⟨-, hsub⟩ := hrp
      obtain ⟨-, hSr, -⟩ := hsub
      obtain ⟨hsrec, hSLr, hSRr⟩ := hSr
      have hch : childrens repo (some sid) Child.Right = [SR.rootId, SL.rootId] := by
        rw [childrens]
        try dsimp only
        rw [hsrec]
        rfl
      rcases SL with _ | ⟨dl, dn, dk, dc, dr⟩
      · rcases SR with _ | ⟨cl, cn, ck, cc, cr⟩
        · refine delete_fixup_tail_easy t repo _ hn fi (some sid) .Right .Right
            hr hnd hroot hmem ?_
          rw [hch]
          rfl
        · obtain ⟨hcrec, -, -⟩ := hSRr
          cases cc with
          | Red =>
            exact delete_fixup_tail_right_red_nil t repo ctx hl hr2 cl cr hn fi sid cn
              hk fk sk ck hc fc sc hr hnd hroot
          | Black =>
            refine delete_fixup_tail_easy t repo _ hn fi (some sid) .Right .Right
              hr hnd hroot hmem ?_
            rw [hch]
            simp [any_colors, hcrec, BT.record, BT.rootId]
      · obtain ⟨hdnrec, -, -⟩ := hSLr
        cases dc with
        | Red =>
          exact delete_fixup_tail_right_red_distant t repo ctx hl hr2 SR dl dr hn fi sid dn
            hk fk sk dk hc fc sc hr hnd hroot
        | Black =>
          rcases SR with _ | ⟨cl, cn, ck, cc, cr⟩
          · refine delete_fixup_tail_easy t repo _ hn fi (some sid) .Right .Right
              hr hnd hroot hmem ?_
            rw [hch]
            simp [any_colors, hdnrec, BT.record, BT.rootId]
          · obtain ⟨hcrec, -, -⟩ := hSRr
            cases cc with
            | Red =>
              exact delete_fixup_tail_right_close t repo ctx hl hr2 cl cr dl dr hn fi sid
                cn dn hk fk sk ck dk hc fc sc hr hnd hroot
            | Black =>
              refine delete_fixup_tail_easy t repo _ hn fi (some sid) .Right .Right
                hr hnd hroot hmem ?_
              rw [hch]
              simp [any_colors, hcrec, hdnrec, BT.record, BT.rootId]

/-- Delete-fixup subtree step, left side: red-sibling pre-step then the
nephew tail. -/
theorem delete_fixup_subtree_abs_left (t : RedBlackTree) (repo : Repo) (ctx : Ctx)
    (H S : BT) (node fi : Nat) (fk : Int) (fc : Color) (S0 : Option NodeColor)
    (hH : H.rootId = some node)
    (hS0 : S0 = (match S with
      | .nil => none
      | .nd _ sid _ sc _ => some ⟨sid, sc⟩))
    (hr : reps repo none (plug ctx (.nd H fi fk fc S)))
    (hnd : (plug ctx (.nd H fi fk fc S)).ids.Nodup)
    (hroot : t.root = (plug ctx (.nd H fi fk fc S)).rootId) :
    ∃ bt2,
      (delete_fixup_subtree t repo node S0 Rotation.Left Child.Left).1 =
        { t with root := bt2.rootId } ∧
      reps (delete_fixup_subtree t repo node S0 Rotation.Left Child.Left).2.1 none bt2 ∧
      bt2.inorder = (plug ctx (.nd H fi fk fc S)).inorder ∧
      ∀ nc, (delete_fixup_subtree t repo node S0 Rotation.Left Child.Left).2.2 =
        some nc → nc.id ∈ bt2.ids := by
  subst hS0
  cases H with
  | nil => simp [BT.rootId] at hH
  | nd hl hn hk hc hr2 =>
    rw [show ((BT.nd hl hn hk hc hr2).rootId : Option Nat) = some hn from rfl] at hH
    injection hH with hH2
    subst hH2
    have hrp := hr
    rw [reps_plug] at hrp
    obtain ⟨-, hsub⟩ := hrp
    obtain ⟨hfirec, hHr, hSr⟩ := hsub
    obtain ⟨hnoderec, -, -⟩ := hHr
    obtain ⟨hnd0, hdisj⟩ := plug_nodup_parts hnd
    obtain ⟨hndH, hndS, hfiH, hfiS, hHS⟩ := nd_nodup_parts hnd0
    have hgpv : repo.getParent hn = some (BT.record fi fk fc (ctxUp none ctx)
        (BT.nd hl hn hk hc hr2) S) := by
      rw [Repo.getParent, hnoderec]
      exact hfirec
    cases S with
    | nil =>
      have hstep : delete_fixup_subtree t repo hn none Rotation.Left Child.Left =
          delete_fixup_tail t repo hn fi none Rotation.Left Child.Left := by
        rw [delete_fixup_subtree_eq, hgpv]
        rfl
      rw [hstep]
      exact delete_fixup_tail_abs_left t repo ctx (BT.nd hl hn hk hc hr2) BT.nil
        hn fi fk fc rfl hr hnd hroot
    | nd SL sid sk sc SR =>
      obtain ⟨hsrec, hSLr, hSRr⟩ := hSr
      cases sc with
      | Black =>
        have hstep : delete_fixup_subtree t repo hn (some ⟨sid, Color.Black⟩)
            Rotation.Left Child.Left =
            delete_fixup_tail t repo hn fi (some sid) Rotation.Left Child.Left := by
          rw [delete_fixup_subtree_eq, hgpv]
          rfl
        rw [hstep]
        exact delete_fixup_tail_abs_left t repo ctx (BT.nd hl hn hk hc hr2)
          (BT.nd SL sid sk Color.Black SR) hn fi fk fc rfl hr hnd hroot
      | Red =>
        have hnodesid : hn ≠ sid := by
          intro hh
          exact hHS hn (BT.mem_ids_nd.2 (Or.inr (Or.inl rfl)))
            (hh ▸ BT.mem_ids_nd.2 (Or.inr (Or.inl rfl)))
        have hnpp : ((repo.update sid (fun n => n.setColor Color.Black)).get hn).bind
            Node.parent = some fi := by
          rw [Repo.get_update_ne _ sid hn (fun n => n.setColor Color.Black)
            (fun n => rfl) hnodesid]
          rw [hnoderec]
          rfl
        -- recolor sibling Black, parent Red, then rotate left at the parent
        have hrA := reps_recolor_at repo none
          (⟨.Right, fi, fk, fc, BT.nd hl hn hk hc hr2⟩ :: ctx)
          SL sid sk Color.Red Color.Black SR
          (by rw [plug_cons_right ⟨.Right, fi, fk, fc, BT.nd hl hn hk hc hr2⟩ ctx _ rfl]
              exact hr)
          (by rw [plug_cons_right ⟨.Right, fi, fk, fc, BT.nd hl hn hk hc hr2⟩ ctx _ rfl]
              exact hnd)
        rw [plug_cons_right ⟨.Right, fi, fk, fc, BT.nd hl hn hk hc hr2⟩ ctx _ rfl] at hrA
        have hinoA : (plug ctx (BT.nd (BT.nd hl hn hk hc hr2) fi fk fc
            (BT.nd SL sid sk Color.Black SR))).inorder =
            (plug ctx (BT.nd (BT.nd hl hn hk hc hr2) fi fk fc
            (BT.nd SL sid sk Color.Red SR))).inorder := by
          rw [plug_inorder, plug_inorder]
          simp [BT.inorder]
        have hndA : (plug ctx (BT.nd (BT.nd hl hn hk hc hr2) fi fk fc
            (BT.nd SL sid sk Color.Black SR))).ids.Nodup := by
          rw [BT.ids, hinoA]
          exact hnd
        have hrB := reps_recolor_at (repo.update sid (fun n => n.setColor Color.Black))
          none ctx (BT.nd hl hn hk hc hr2) fi fk fc Color.Red
          (BT.nd SL sid sk Color.Black SR) hrA hndA
        have hinoB : (plug ctx (BT.nd (BT.nd hl hn hk hc hr2) fi fk Color.Red
            (BT.nd SL sid sk Color.Black SR))).inorder =
            (plug ctx (BT.nd (BT.nd hl hn hk hc hr2) fi fk fc
            (BT.nd SL sid sk Color.Red SR))).inorder := by
          rw [plug_inorder, plug_inorder]
          simp [BT.inorder]
        have hndB : (plug ctx (BT.nd (BT.nd hl hn hk hc hr2) fi fk Color.Red
            (BT.nd SL sid sk Color.Black SR))).ids.Nodup := by
          rw [BT.ids, hinoB]
          exact hnd
        have hrootB : t.root = (plug ctx (BT.nd (BT.nd hl hn hk hc hr2) fi fk Color.Red
            (BT.nd SL sid sk Color.Black SR))).rootId := by
          rw [hroot]
          exact plug_rootId_congr ctx _ _ _ _ fi _ _ _ _
        obtain ⟨htR, hrepsR⟩ := rotate_left_abs t
          ((repo.update sid (fun n => n.setColor Color.Black)).update fi
            (fun n => n.setColor Color.Red))
          ctx (BT.nd hl hn hk hc hr2) SL SR fi sid fk sk Color.Red Color.Black
          hrB hndB hrootB
        have hrepsR2 : reps ((repo.update sid (fun n => n.setColor Color.Black)).update fi
            (fun n => n.setColor Color.Red) |> (rotate t · fi Rotation.Left) |>.2) none
            (plug (⟨.Left, sid, sk, Color.Black, SR⟩ :: ctx)
              (BT.nd (BT.nd hl hn hk hc hr2) fi fk Color.Red SL)) := by
          rw [plug_cons_left ⟨.Left, sid, sk, Color.Black, SR⟩ ctx _ rfl]
          exact hrepsR
        have hndR2 : (plug (⟨.Left, sid, sk, Color.Black, SR⟩ :: ctx)
            (BT.nd (BT.nd hl hn hk hc hr2) fi fk Color.Red SL)).ids.Nodup := by
          rw [plug_cons_left ⟨.Left, sid, sk, Color.Black, SR⟩ ctx _ rfl]
          rw [BT.ids]
          rw [show (plug ctx (BT.nd (BT.nd (BT.nd hl hn hk hc hr2) fi fk Color.Red SL)
            sid sk Color.Black SR)).inorder =
            (plug ctx (BT.nd (BT.nd hl hn hk hc hr2) fi fk fc
            (BT.nd SL sid sk Color.Red SR))).inorder from by
            rw [plug_inorder, plug_inorder]
            simp [BT.inorder]]
          exact hnd
        have hrootR2 : (rotate t ((repo.update sid (fun n => n.setColor Color.Black)).update
            fi (fun n => n.setColor Color.Red)) fi Rotation.Left).1.root =
            (plug (⟨.Left, sid, sk, Color.Black, SR⟩ :: ctx)
              (BT.nd (BT.nd hl hn hk hc hr2) fi fk Color.Red SL)).rootId := by
          rw [htR]
          rw [plug_cons_left ⟨.Left, sid, sk, Color.Black, SR⟩ ctx _ rfl]
        -- decompose the rotated store for the sibling recomputation
        have hrpR := hrepsR2
        rw [reps_plug] at hrpR
        obtain ⟨-, hsubR⟩ := hrpR
        obtain ⟨hfirec3, -, hSL3⟩ := hsubR
        have hsibv : (((rotate t ((repo.update sid (fun n => n.setColor Color.Black)).update
            fi (fun n => n.setColor Color.Red)) fi Rotation.Left).2.getRight fi).map
            Node.id) = SL.rootId := by
          rw [Repo.getRight, hfirec3]
          cases SL with
          | nil => rfl
          | nd a b c d e =>
            obtain ⟨hslrec, -, -⟩ := hSL3
            rw [Option.some_bind]
            try dsimp only [BT.record, BT.rootId]
            rw [Option.some_bind, hslrec]
            rfl
        have hssv : delete_fixup_sibling_step t repo hn fi (some ⟨sid, Color.Red⟩)
            Rotation.Left Child.Left =
            ((rotate t ((repo.update sid (fun n => n.setColor Color.Black)).update fi
              (fun n => n.setColor Color.Red)) fi Rotation.Left).1,
             (rotate t ((repo.update sid (fun n => n.setColor Color.Black)).update fi
              (fun n => n.setColor Color.Red)) fi Rotation.Left).2,
             SL.rootId) := by
          rw [delete_fixup_sibling_step]
          try dsimp only
          simp only [eq_self_iff_true, if_true]
          rw [hnpp]
          try dsimp only [Repo.updateOpt]
          rw [hsibv]
        have hstep : delete_fixup_subtree t repo hn (some ⟨sid, Color.Red⟩)
            Rotation.Left Child.Left =
            delete_fixup_tail
              (rotate t ((repo.update sid (fun n => n.setColor Color.Black)).update fi
                (fun n => n.setColor Color.Red)) fi Rotation.Left).1
              (rotate t ((repo.update sid (fun n => n.setColor Color.Black)).update fi
                (fun n => n.setColor Color.Red)) fi Rotation.Left).2
              hn fi SL.rootId Rotation.Left Child.Left := by
          rw [delete_fixup_subtree_eq, hgpv]
          try dsimp only [Option.getD, BT.record]
          rw [hssv]
        rw [hstep]
        obtain ⟨bt2, h1, h2, h3, h4⟩ := delete_fixup_tail_abs_left
          (rotate t ((repo.update sid (fun n => n.setColor Color.Black)).update fi
            (fun n => n.setColor Color.Red)) fi Rotation.Left).1
          (rotate t ((repo.update sid (fun n => n.setColor Color.Black)).update fi
            (fun n => n.setColor Color.Red)) fi Rotation.Left).2
          (⟨.Left, sid, sk, Color.Black, SR⟩ :: ctx)
          (BT.nd hl hn hk hc hr2) SL hn fi fk Color.Red rfl hrepsR2 hndR2 hrootR2
        refine ⟨bt2, ?_, h2, ?_, h4⟩
        · rw [h1, htR]
        · rw [h3]
          rw [plug_cons_left ⟨.Left, sid, sk, Color.Black, SR⟩ ctx _ rfl]
          rw [plug_inorder, plug_inorder]
          simp [BT.inorder]

/-- Delete-fixup subtree step, right side: red-sibling pre-step then the
nephew tail. -/
theorem delete_fixup_subtree_abs_right (t : RedBlackTree) (repo : Repo) (ctx : Ctx)
    (H S : BT) (node fi : Nat) (fk : Int) (fc : Color) (S0 : Option NodeColor)
    (hH : H.rootId = some node)
    (hS0 : S0 = (match S with
      | .nil => none
      | .nd _ sid _ sc _ => some ⟨sid, sc⟩))
    (hr : reps repo none (plug ctx (.nd S fi fk fc H)))
    (hnd : (plug ctx (.nd S fi fk fc H)).ids.Nodup)
    (hroot : t.root = (plug ctx (.nd S fi fk fc H)).rootId) :
    ∃ bt2,
      (delete_fixup_subtree t repo node S0 Rotation.Right Child.Right).1 =
        { t with root := bt2.rootId } ∧
      reps (delete_fixup_subtree t repo node S0 Rotation.Right Child.Right).2.1 none bt2 ∧
      bt2.inorder = (plug ctx (.nd S fi fk fc H)).inorder ∧
      ∀ nc, (delete_fixup_subtree t repo node S0 Rotation.Right Child.Right).2.2 =
        some nc → nc.id ∈ bt2.ids := by
  subst hS0
  cases H with
  | nil => simp [BT.rootId] at hH
  | nd hl hn hk hc hr2 =>
    rw [show ((BT.nd hl hn hk hc hr2).rootId : Option Nat) = some hn from rfl] at hH
    injection hH with hH2
    subst hH2
    have hrp := hr
    rw [reps_plug] at hrp
    obtain ⟨-, hsub⟩ := hrp
    obtain ⟨hfirec, hSr, hHr⟩ := hsub
    obtain ⟨hnoderec, -, -⟩ := hHr
    obtain ⟨hnd0, hdisj⟩ := plug_nodup_parts hnd
    obtain ⟨hndS, hndH, hfiS, hfiH, hSH⟩ := nd_nodup_parts hnd0
    have hgpv : repo.getParent hn = some (BT.record fi fk fc (ctxUp none ctx)
        S (BT.nd hl hn hk hc hr2)) := by
      rw [Repo.getParent, hnoderec]
      exact hfirec
    cases S with
    | nil =>
      have hstep : delete_fixup_subtree t repo hn none Rotation.Right Child.Right =
          delete_fixup_tail t repo hn fi none Rotation.Right Child.Right := by
        rw [delete_fixup_subtree_eq, hgpv]
        rfl
      rw [hstep]
      exact delete_fixup_tail_abs_right t repo ctx (BT.nd hl hn hk hc hr2) BT.nil
        hn fi fk fc rfl hr hnd hroot
    | nd SL sid sk sc SR =>
      obtain ⟨hsrec, hSLr, hSRr⟩ := hSr
      cases sc with
      | Black =>
        have hstep : delete_fixup_subtree t repo hn (some ⟨sid, Color.Black⟩)
            Rotation.Right Child.Right =
            delete_fixup_tail t repo hn fi (some sid) Rotation.Right Child.Right := by
          rw [delete_fixup_subtree_eq, hgpv]
          rfl
        rw [hstep]
        exact delete_fixup_tail_abs_right t repo ctx (BT.nd hl hn hk hc hr2)
          (BT.nd SL sid sk Color.Black SR) hn fi fk fc rfl hr hnd hroot
      | Red =>
        have hnodesid : hn ≠ sid := by
          intro hh
          exact hSH sid (BT.mem_ids_nd.2 (Or.inr (Or.inl rfl)))
            (by rw [hh]; exact BT.mem_ids_nd.2 (Or.inr (Or.inl rfl)))
        have hnpp : ((repo.update sid (fun n => n.setColor Color.Black)).get hn).bind
            Node.parent = some fi := by
          rw [Repo.get_update_ne _ sid hn (fun n => n.setColor Color.Black)
            (fun n => rfl) hnodesid]
          rw [hnoderec]
          rfl
        -- recolor sibling Black, parent Red, then rotate right at the parent
        have hrA := reps_recolor_at repo none
          (⟨.Left, fi, fk, fc, BT.nd hl hn hk hc hr2⟩ :: ctx)
          SL sid sk Color.Red Color.Black SR
          (by rw [plug_cons_left ⟨.Left, fi, fk, fc, BT.nd hl hn hk hc hr2⟩ ctx _ rfl]
              exact hr)
          (by rw [plug_cons_left ⟨.Left, fi, fk, fc, BT.nd hl hn hk hc hr2⟩ ctx _ rfl]
              exact hnd)
        rw [plug_cons_left ⟨.Left, fi, fk, fc, BT.nd hl hn hk hc hr2⟩ ctx _ rfl] at hrA
        have hinoA : (plug ctx (BT.nd (BT.nd SL sid sk Color.Black SR) fi fk fc
            (BT.nd hl hn hk hc hr2))).inorder =
            (plug ctx (BT.nd (BT.nd SL sid sk Color.Red SR) fi fk fc
            (BT.nd hl hn hk hc hr2))).inorder := by
          rw [plug_inorder, plug_inorder]
          simp [BT.inorder]
        have hndA : (plug ctx (BT.nd (BT.nd SL sid sk Color.Black SR) fi fk fc
            (BT.nd hl hn hk hc hr2))).ids.Nodup := by
          rw [BT.ids, hinoA]
          exact hnd
        have hrB := reps_recolor_at (repo.update sid (fun n => n.setColor Color.Black))
          none ctx (BT.nd SL sid sk Color.Black SR) fi fk fc Color.Red
          (BT.nd hl hn hk hc hr2) hrA hndA
        have hinoB : (plug ctx (BT.nd (BT.nd SL sid sk Color.Black SR) fi fk Color.Red
            (BT.nd hl hn hk hc hr2))).inorder =
            (plug ctx (BT.nd (BT.nd SL sid sk Color.Red SR) fi fk fc
            (BT.nd hl hn hk hc hr2))).inorder := by
          rw [plug_inorder, plug_inorder]
          simp [BT.inorder]
        have hndB : (plug ctx (BT.nd (BT.nd SL sid sk Color.Black SR) fi fk Color.Red
            (BT.nd hl hn hk hc hr2))).ids.Nodup := by
          rw [BT.ids, hinoB]
          exact hnd
        have hrootB : t.root = (plug ctx (BT.nd (BT.nd SL sid sk Color.Black SR)
            fi fk Color.Red (BT.nd hl hn hk hc hr2))).rootId := by
          rw [hroot]
          exact plug_rootId_congr ctx _ _ _ _ fi _ _ _ _
        obtain ⟨htR, hrepsR⟩ := rotate_right_abs t
          ((repo.update sid (fun n => n.setColor Color.Black)).update fi
            (fun n => n.setColor Color.Red))
          ctx (BT.nd hl hn hk hc hr2) SR SL fi sid fk sk Color.Red Color.Black
          hrB hndB hrootB
        have hrepsR2 : reps ((rotate t ((repo.update sid
            (fun n => n.setColor Color.Black)).update fi
            (fun n => n.setColor Color.Red)) fi Rotation.Right).2) none
            (plug (⟨.Right, sid, sk, Color.Black, SL⟩ :: ctx)
              (BT.nd SR fi fk Color.Red (BT.nd hl hn hk hc hr2))) := by
          rw [plug_cons_right ⟨.Right, sid, sk, Color.Black, SL⟩ ctx _ rfl]
          exact hrepsR
        have hndR2 : (plug (⟨.Right, sid, sk, Color.Black, SL⟩ :: ctx)
            (BT.nd SR fi fk Color.Red (BT.nd hl hn hk hc hr2))).ids.Nodup := by
          rw [plug_cons_right ⟨.Right, sid, sk, Color.Black, SL⟩ ctx _ rfl]
          rw [BT.ids]
          rw [show (plug ctx (BT.nd SL sid sk Color.Black
            (BT.nd SR fi fk Color.Red (BT.nd hl hn hk hc hr2)))).inorder =
            (plug ctx (BT.nd (BT.nd SL sid sk Color.Red SR) fi fk fc
            (BT.nd hl hn hk hc hr2))).inorder from by
            rw [plug_inorder, plug_inorder]
            simp [BT.inorder]]
          exact hnd
        have hrootR2 : (rotate t ((repo.update sid (fun n => n.setColor Color.Black)).update
            fi (fun n => n.setColor Color.Red)) fi Rotation.Right).1.root =
            (plug (⟨.Right, sid, sk, Color.Black, SL⟩ :: ctx)
              (BT.nd SR fi fk Color.Red (BT.nd hl hn hk hc hr2))).rootId := by
          rw [htR]
          rw [plug_cons_right ⟨.Right, sid, sk, Color.Black, SL⟩ ctx _ rfl]
        -- decompose the rotated store for the sibling recomputation
        have hrpR := hrepsR2
        rw [reps_plug] at hrpR
        obtain ⟨-, hsubR⟩ := hrpR
        obtain ⟨hfirec3, hSR3, -⟩ := hsubR
        have hsibv : (((rotate t ((repo.update sid (fun n => n.setColor Color.Black)).update
            fi (fun n => n.setColor Color.Red)) fi Rotation.Right).2.getLeft fi).map
            Node.id) = SR.rootId := by
          rw [Repo.getLeft, hfirec3]
          cases SR with
          | nil => rfl
          | nd a b c d e =>
            obtain ⟨hsrrec, -, -⟩ := hSR3
            rw [Option.some_bind]
            try dsimp only [BT.record, BT.rootId]
            rw [Option.some_bind, hsrrec]
            rfl
        have hssv : delete_fixup_sibling_step t repo hn fi (some ⟨sid, Color.Red⟩)
            Rotation.Right Child.Right =
            ((rotate t ((repo.update sid (fun n => n.setColor Color.Black)).update fi
              (fun n => n.setColor Color.Red)) fi Rotation.Right).1,
             (rotate t ((repo.update sid (fun n => n.setColor Color.Black)).update fi
              (fun n => n.setColor Color.Red)) fi Rotation.Right).2,
             SR.rootId) := by
          rw [delete_fixup_sibling_step]
          try dsimp only
          simp only [eq_self_iff_true, if_true]
          rw [hnpp]
          try dsimp only [Repo.updateOpt]
          rw [hsibv]
        have hstep : delete_fixup_subtree t repo hn (some ⟨sid, Color.Red⟩)
            Rotation.Right Child.Right =
            delete_fixup_tail
              (rotate t ((repo.update sid (fun n => n.setColor Color.Black)).update fi
                (fun n => n.setColor Color.Red)) fi Rotation.Right).1
              (rotate t ((repo.update sid (fun n => n.setColor Color.Black)).update fi
                (fun n => n.setColor Color.Red)) fi Rotation.Right).2
              hn fi SR.rootId Rotation.Right Child.Right := by
          rw [delete_fixup_subtree_eq, hgpv]
          try dsimp only [Option.getD, BT.record]
          rw [hssv]
        rw [hstep]
        obtain ⟨bt2, h1, h2, h3, h4⟩ := delete_fixup_tail_abs_right
          (rotate t ((repo.update sid (fun n => n.setColor Color.Black)).update fi
            (fun n => n.setColor Color.Red)) fi Rotation.Right).1
          (rotate t ((repo.update sid (fun n => n.setColor Color.Black)).update fi
            (fun n => n.setColor Color.Red)) fi Rotation.Right).2
          (⟨.Right, sid, sk, Color.Black, SL⟩ :: ctx)
          (BT.nd hl hn hk hc hr2) SR hn fi fk Color.Red rfl hrepsR2 hndR2 hrootR2
        refine ⟨bt2, ?_, h2, ?_, h4⟩
        · rw [h1, htR]
        · rw [h3]
          rw [plug_cons_right ⟨.Right, sid, sk, Color.Black, SL⟩ ctx _ rfl]
          rw [plug_inorder, plug_inorder]
          simp [BT.inorder]

theorem delete_fixup_go_zero (t : RedBlackTree) (repo : Repo) (nc : Option NodeColor) :
    delete_fixup_go t repo 0 nc = (t, repo) := by
  cases nc <;> rfl

theorem delete_fixup_go_none (t : RedBlackTree) (repo : Repo) (fuel : Nat) :
    delete_fixup_go t repo fuel none = (t, repo) := by
  cases fuel <;> rfl

theorem delete_fixup_go_succ (t : RedBlackTree) (repo : Repo) (fuel : Nat)
    (nc : NodeColor) :
    delete_fixup_go t repo (fuel + 1) (some nc) =
      (if nc.id ≠ t.root.getD 0 ∧ nc.color = Color.Black then
        let child := node_is_child repo nc.id
        let parentId := (repo.getParent nc.id).map Node.id
        let sibRot : Option Node × Rotation :=
          match child with
          | some .Left => ((parentId.bind fun p => repo.getRight p), Rotation.Left)
          | some .Right => ((parentId.bind fun p => repo.getLeft p), Rotation.Right)
          | none => (none, Rotation.Left)
        let sibling := sibRot.1.map fun s => (⟨s.id, s.color⟩ : NodeColor)
        let st := delete_fixup_subtree t repo nc.id sibling sibRot.2 (child.getD .Left)
        delete_fixup_go st.1 st.2.1 fuel st.2.2
      else
        let repo :=
          if nc.color = Color.Red then repo.update nc.id (fun n => n.setColor .Black)
          else repo
        (t, repo)) := rfl

/-- One guarded step of the delete-fixup loop, current node a left child. -/
theorem delete_fixup_go_step_left (t : RedBlackTree) (repo : Repo) (fuel : Nat)
    (nc : NodeColor) (prec : Node)
    (hg : nc.id ≠ t.root.getD 0 ∧ nc.color = Color.Black)
    (hnc2 : node_is_child repo nc.id = some Child.Left)
    (hgp : repo.getParent nc.id = some prec)
    (S0 : Option NodeColor)
    (hS0 : (repo.getRight prec.id).map (fun s => (⟨s.id, s.color⟩ : NodeColor)) = S0) :
    delete_fixup_go t repo (fuel + 1) (some nc) =
      delete_fixup_go
        (delete_fixup_subtree t repo nc.id S0 Rotation.Left Child.Left).1
        (delete_fixup_subtree t repo nc.id S0 Rotation.Left Child.Left).2.1 fuel
        (delete_fixup_subtree t repo nc.id S0 Rotation.Left Child.Left).2.2 := by
  rw [delete_fixup_go_succ, if_pos hg]
  try dsimp only
  rw [hnc2, hgp]
  try dsimp only
  rw [show ((some prec).map Node.id : Option Nat) = some prec.id from rfl]
  try dsimp only
  rw [show ((some prec.id).bind (fun p => repo.getRight p) : Option Node) =
    repo.getRight prec.id from rfl]
  rw [hS0]
  rfl

/-- One guarded step of the delete-fixup loop, current node a right child. -/
theorem delete_fixup_go_step_right (t : RedBlackTree) (repo : Repo) (fuel : Nat)
    (nc : NodeColor) (prec : Node)
    (hg : nc.id ≠ t.root.getD 0 ∧ nc.color = Color.Black)
    (hnc2 : node_is_child repo nc.id = some Child.Right)
    (hgp : repo.getParent nc.id = some prec)
    (S0 : Option NodeColor)
    (hS0 : (repo.getLeft prec.id).map (fun s => (⟨s.id, s.color⟩ : NodeColor)) = S0) :
    delete_fixup_go t repo (fuel + 1) (some nc) =
      delete_fixup_go
        (delete_fixup_subtree t repo nc.id S0 Rotation.Right Child.Right).1
        (delete_fixup_subtree t repo nc.id S0 Rotation.Right Child.Right).2.1 fuel
        (delete_fixup_subtree t repo nc.id S0 Rotation.Right Child.Right).2.2 := by
  rw [delete_fixup_go_succ, if_pos hg]
  try dsimp only
  rw [hnc2, hgp]
  try dsimp only
  rw [show ((some prec).map Node.id : Option Nat) = some prec.id from rfl]
  try dsimp only
  rw [show ((some prec.id).bind (fun p => repo.getLeft p) : Option Node) =
    repo.getLeft prec.id from rfl]
  rw [hS0]
  rfl

/-- The delete-fixup loop preserves the representation and the inorder
sequence. -/
theorem delete_fixup_go_abs : ∀ (fuel : Nat) (t : RedBlackTree) (repo : Repo)
    (bt : BT) (cont : Option NodeColor),
    t.root = bt.rootId → reps repo none bt → bt.ids.Nodup →
    (∀ nc, cont = some nc → nc.id ∈ bt.ids) →
    ∃ bt2, (delete_fixup_go t repo fuel cont).1 = { t with root := bt2.rootId } ∧
      reps (delete_fixup_go t repo fuel cont).2 none bt2 ∧
      bt2.inorder = bt.inorder := by
  intro fuel
  induction fuel with
  | zero =>
    intro t repo bt cont hroot hr hnd hcont
    rw [delete_fixup_go_zero]
    exact ⟨bt, by rw [← hroot], hr, rfl⟩
  | succ fuel ih =>
    intro t repo bt cont hroot hr hnd hcont
    cases cont with
    | none =>
      rw [delete_fixup_go_none]
      exact ⟨bt, by rw [← hroot], hr, rfl⟩
    | some nc =>
      by_cases hg : nc.id ≠ t.root.getD 0 ∧ nc.color = Color.Black
      · have hmem : nc.id ∈ bt.ids := hcont nc rfl
        obtain ⟨ctx0, L, K, C, R, hbt⟩ := exists_ctx_of_mem bt nc.id hmem
        subst hbt
        cases ctx0 with
        | nil =>
          exfalso
          apply hg.1
          rw [hroot]
          rfl
        | cons f ctx1 =>
          obtain ⟨hgp, hnc2⟩ := getParent_plug_cons hr hnd
          cases hfs : f.side
          · rw [hfs] at hnc2
            rw [plug_cons_left f ctx1 _ hfs] at hr hnd hroot ⊢
            have hrp := hr
            rw [reps_plug] at hrp
            obtain ⟨-, hsub⟩ := hrp
            obtain ⟨hfirec, -, hfsibr⟩ := hsub
            have hgrv : (repo.getRight f.i).map
                (fun s => (⟨s.id, s.color⟩ : NodeColor)) =
                (match f.sib with
                  | .nil => none
                  | .nd _ sid _ sc _ => some ⟨sid, sc⟩) := by
              rw [Repo.getRight, hfirec]
              cases hsb : f.sib with
              | nil => rfl
              | nd a b c d e =>
                try rw [hsb] at hfsibr
                obtain ⟨hsrec, -, -⟩ := hfsibr
                rw [Option.some_bind]
                try dsimp only [BT.record, BT.rootId]
                try rw [hsb]
                rw [Option.some_bind, hsrec]
                rfl
            rw [delete_fixup_go_step_left t repo fuel nc _ hg hnc2 hgp _ hgrv]
            obtain ⟨bt3, h1, h2, h3, h4⟩ := delete_fixup_subtree_abs_left t repo ctx1
              (BT.nd L nc.id K C R) f.sib nc.id f.i f.k f.c _ rfl rfl hr hnd hroot
            have hroot3 : (delete_fixup_subtree t repo nc.id
                (match f.sib with
                  | .nil => none
                  | .nd _ sid _ sc _ => some ⟨sid, sc⟩)
                Rotation.Left Child.Left).1.root = bt3.rootId := by
              rw [h1]
            have hnd3 : bt3.ids.Nodup := by
              rw [BT.ids_eq_of_inorder_eq h3]
              exact hnd
            obtain ⟨bt2, g1, g2, g3⟩ := ih _ _ bt3 _ hroot3 h2 hnd3 h4
            refine ⟨bt2, ?_, g2, g3.trans h3⟩
            rw [g1, h1]
          · rw [hfs] at hnc2
            rw [plug_cons_right f ctx1 _ hfs] at hr hnd hroot ⊢
            have hrp := hr
            rw [reps_plug] at hrp
            obtain ⟨-, hsub⟩ := hrp
            obtain ⟨hfirec, hfsibr, -⟩ := hsub
            have hglv : (repo.getLeft f.i).map
                (fun s => (⟨s.id, s.color⟩ : NodeColor)) =
                (match f.sib with
                  | .nil => none
                  | .nd _ sid _ sc _ => some ⟨sid, sc⟩) := by
              rw [Repo.getLeft, hfirec]
              cases hsb : f.sib with
              | nil => rfl
              | nd a b c d e =>
                try rw [hsb] at hfsibr
                obtain ⟨hsrec, -, -⟩ := hfsibr
                rw [Option.some_bind]
                try dsimp only [BT.record, BT.rootId]
                try rw [hsb]
                rw [Option.some_bind, hsrec]
                rfl
            rw [delete_fixup_go_step_right t repo fuel nc _ hg hnc2 hgp _ hglv]
            obtain ⟨bt3, h1, h2, h3, h4⟩ := delete_fixup_subtree_abs_right t repo ctx1
              (BT.nd L nc.id K C R) f.sib nc.id f.i f.k f.c _ rfl rfl hr hnd hroot
            have hroot3 : (delete_fixup_subtree t repo nc.id
                (match f.sib with
                  | .nil => none
                  | .nd _ sid _ sc _ => some ⟨sid, sc⟩)
                Rotation.Right Child.Right).1.root = bt3.rootId := by
              rw [h1]
            have hnd3 : bt3.ids.Nodup := by
              rw [BT.ids_eq_of_inorder_eq h3]
              exact hnd
            obtain ⟨bt2, g1, g2, g3⟩ := ih _ _ bt3 _ hroot3 h2 hnd3 h4
            refine ⟨bt2, ?_, g2, g3.trans h3⟩
            rw [g1, h1]
      · cases hcr : nc.color with
        | Red =>
          have hbody : delete_fixup_go t repo (fuel + 1) (some nc) =
              (t, repo.update nc.id (fun n => n.setColor Color.Black)) := by
            rw [delete_fixup_go_succ, if_neg hg, hcr]
            rfl
          rw [hbody]
          refine ⟨bt.recolor nc.id Color.Black, ?_,
            reps_recolor bt repo none nc.id Color.Black hr, by simp⟩
          show t = _
          rw [show (bt.recolor nc.id Color.Black).rootId = t.root from by
            rw [BT.rootId_recolor, hroot]]
        | Black =>
          have hbody : delete_fixup_go t repo (fuel + 1) (some nc) = (t, repo) := by
            rw [delete_fixup_go_succ, if_neg hg, hcr]
            rfl
          rw [hbody]
          exact ⟨bt, by rw [← hroot], hr, rfl⟩

/-- Any represented identifier resolves to its own record. -/
theorem reps_get_id (repo : Repo) (bt : BT) (j : Nat)
    (hr : reps repo none bt) (hj : j ∈ bt.ids) :
    ∃ n, repo.get j = some n ∧ n.id = j := by
  obtain ⟨ctx0, L, K, C, R, hbt⟩ := exists_ctx_of_mem bt j hj
  subst hbt
  rw [reps_plug] at hr
  obtain ⟨-, hsub⟩ := hr
  obtain ⟨hrec, -, -⟩ := hsub
  exact ⟨_, hrec, rfl⟩

/-- Delete-fixup preserves the representation and the inorder sequence. -/
theorem delete_fixup_abs (t : RedBlackTree) (repo : Repo) (node : Option Nat) (bt : BT)
    (hroot : t.root = bt.rootId) (hr : reps repo none bt) (hnd : bt.ids.Nodup)
    (hnode : ∀ j, node = some j → j ∈ bt.ids) :
    ∃ bt2, (delete_fixup t repo node).1 = { t with root := bt2.rootId } ∧
      reps (delete_fixup t repo node).2 none bt2 ∧
      bt2.inorder = bt.inorder := by
  have hcont : ∀ nc : NodeColor, ((node.bind repo.get).map fun n =>
      (⟨n.id, n.color⟩ : NodeColor)) = some nc → nc.id ∈ bt.ids := by
    intro nc hnc
    cases node with
    | none => cases hnc
    | some j =>
      have hj := hnode j rfl
      obtain ⟨n, hn, hnid⟩ := reps_get_id repo bt j hr hj
      rw [show ((some j).bind repo.get : Option Node) = repo.get j from rfl, hn] at hnc
      injection hnc with hnc2
      rw [← hnc2]
      show n.id ∈ bt.ids
      rw [hnid]
      exact hj
  obtain ⟨bt2, h1, h2, h3⟩ := delete_fixup_go_abs (repo.size + 1) t repo bt _
    hroot hr hnd hcont
  rw [delete_fixup]
  try dsimp only
  cases hrt : (delete_fixup_go t repo (repo.size + 1)
      ((node.bind repo.get).map fun n => (⟨n.id, n.color⟩ : NodeColor))).1.root with
  | none =>
    exact ⟨bt2, h1, h2, h3⟩
  | some r =>
    refine ⟨bt2.recolor r Color.Black, ?_, reps_recolor bt2 _ none r Color.Black h2,
      by simp [h3]⟩
    show (delete_fixup_go t repo (repo.size + 1)
      ((node.bind repo.get).map fun n => (⟨n.id, n.color⟩ : NodeColor))).1 = _
    rw [h1]
    rw [show (bt2.recolor r Color.Black).rootId = bt2.rootId from BT.rootId_recolor r _ _]

/-- Removing the distinguished middle element of a sorted key list keeps it
sorted and erases one occurrence from the multiset. -/
theorem delete_final_middle (l1 l2 : List Int) (v : Int)
    (hs : (l1 ++ v :: l2).Pairwise (· ≤ ·)) :
    (l1 ++ l2).Pairwise (· ≤ ·) ∧
    ((l1 ++ l2 : List Int) : Multiset Int) =
      ((l1 ++ v :: l2 : List Int) : Multiset Int).erase v := by
  constructor
  · exact hs.sublist (List.Sublist.append_left (List.sublist_cons_self v l2) l1)
  · have hperm : ((l1 ++ v :: l2 : List Int) : Multiset Int) =
        v ::ₘ ((l1 ++ l2 : List Int) : Multiset Int) := by
      exact Multiset.coe_eq_coe.2 List.perm_middle
    rw [hperm, Multiset.erase_cons_head]

/-- Removing the distinguished middle identifier keeps the rest distinct and
inside the original list, and the removed identifier is gone. -/
theorem ids_after_middle (i1 i2 : List Nat) (w : Nat)
    (hnd : (i1 ++ w :: i2).Nodup) :
    (i1 ++ i2).Nodup ∧ (∀ j ∈ i1 ++ i2, j ∈ i1 ++ w :: i2) ∧ w ∉ i1 ++ i2 := by
  have hsub : (i1 ++ i2).Sublist (i1 ++ w :: i2) :=
    List.Sublist.append_left (List.sublist_cons_self w i2) i1
  refine ⟨hnd.sublist hsub, fun j hj => hsub.subset hj, ?_⟩
  intro hw
  rw [List.nodup_append] at hnd
  obtain ⟨h1, h2, h3⟩ := hnd
  rcases List.mem_append.1 hw with hw1 | hw2
  · exact h3 hw1 (List.mem_cons_self w i2)
  · exact (List.nodup_cons.1 h2).1 hw2

/-- The conditional delete-fixup call preserves the representation and the
inorder sequence. -/
theorem delete_fixup_opt_abs (t : RedBlackTree) (repo : Repo) (node : Option Nat)
    (c : Color) (bt : BT)
    (hroot : t.root = bt.rootId) (hr : reps repo none bt) (hnd : bt.ids.Nodup)
    (hnode : ∀ j, node = some j → j ∈ bt.ids) :
    ∃ bt2, (if c = Color.Black then delete_fixup t repo node else (t, repo)).1 =
        { t with root := bt2.rootId } ∧
      reps (if c = Color.Black then delete_fixup t repo node else (t, repo)).2 none bt2 ∧
      bt2.inorder = bt.inorder := by
  cases c with
  | Red =>
    rw [if_neg (by simp)]
    exact ⟨bt, by rw [← hroot], hr, rfl⟩
  | Black =>
    rw [if_pos rfl]
    exact delete_fixup_abs t repo node bt hroot hr hnd hnode

/-- Delete keeps the store a sorted tree and erases one occurrence of the
key. -/
theorem delete_abs (t : RedBlackTree) (repo : Repo) (v : Int) (bt : BT)
    (hroot : t.root = bt.rootId) (hr : reps repo none bt) (hnd : bt.ids.Nodup)
    (hsorted : bt.keys.Pairwise (· ≤ ·)) :
    ∃ bt2,
      (delete t repo v).1.root = bt2.rootId ∧
      (delete t repo v).1.idCounter = t.idCounter ∧
      reps (delete t repo v).2.1 none bt2 ∧
      bt2.keys.Pairwise (· ≤ ·) ∧
      ((bt2.keys : List Int) : Multiset Int) =
        ((bt.keys : List Int) : Multiset Int).erase v ∧
      bt2.ids.Nodup ∧ (∀ i ∈ bt2.ids, i ∈ bt.ids) := by
  have hsize : bt.size < repo.size + 1 :=
    Nat.lt_succ_of_le (reps_size_le bt repo none hr hnd)
  rcases find_node_go_spec bt repo none v (repo.size + 1) hr hsize hsorted with
    ⟨hfn, hvnot⟩ | ⟨n, hfn, hkey, hvmem, hmemid, hget⟩
  · have hfind : find_node t repo v = none := by
      rw [find_node, hroot]
      exact hfn
    have hdel : delete t repo v = (t, repo, none) := by
      rw [delete, hfind]
    rw [hdel]
    refine ⟨bt, hroot, rfl, hr, hsorted, ?_, hnd, fun i h => h⟩
    rw [Multiset.erase_of_not_mem (by simpa using hvnot)]
  · have hfind : find_node t repo v = some n := by
      rw [find_node, hroot]
      exact hfn
    obtain ⟨ctx, L, K, C, R, hbt⟩ := exists_ctx_of_mem bt n.id hmemid
    subst hbt
    have hrp := hr
    rw [reps_plug] at hrp
    obtain ⟨hctx, hsub⟩ := hrp
    obtain ⟨hdrec, hLr, hRr⟩ := hsub
    have hn : n = BT.record n.id K C (ctxUp none ctx) L R := by
      have h2 := hget
      rw [hdrec] at h2
      exact (Option.some.inj h2).symm
    have hKv : v = K := by
      have h2 : n.key = v := hkey
      rw [hn] at h2
      exact h2.symm
    subst hKv
    obtain ⟨hnd0, hdisj⟩ := plug_nodup_parts hnd
    obtain ⟨hndL, hndR, hdL, hdR, hLR⟩ := nd_nodup_parts hnd0
    cases L with
    | nil =>
      cases R with
      | nil =>
        -- the found node is a leaf
        have hgl : repo.getLeft n.id = none := by
          rw [Repo.getLeft, hdrec]
          rfl
        have hgr : repo.getRight n.id = none := by
          rw [Repo.getRight, hdrec]
          rfl
        have hone : get_if_one_child repo n.id = none := by
          rw [get_if_one_child, hgl, hgr]
          rfl
        obtain ⟨htr1, htr2⟩ := replace_left_nil_abs t repo ctx n.id v C BT.nil
          hr hnd hroot
        have htr1' : (replace t repo n.id none).1 =
            { t with root := (plug ctx BT.nil).rootId } := htr1
        have htr2' : reps (replace t repo n.id none).2 none (plug ctx BT.nil) := htr2
        have hIdec : (plug ctx (BT.nd BT.nil n.id v C BT.nil)).ids =
            (ctxLeftOrder ctx).map Prod.fst ++ n.id ::
              (ctxRightOrder ctx).map Prod.fst := by
          rw [BT.ids, plug_inorder]
          simp [BT.inorder]
        have hIdec2 : (plug ctx (BT.nil : BT)).ids =
            (ctxLeftOrder ctx).map Prod.fst ++ (ctxRightOrder ctx).map Prod.fst := by
          rw [BT.ids, plug_inorder]
          simp [BT.inorder]
        obtain ⟨hnd2, hsub2, hwnot⟩ := ids_after_middle _ _ n.id
          (by rw [← hIdec]; exact hnd)
        have hnd2' : (plug ctx (BT.nil : BT)).ids.Nodup := by
          rw [hIdec2]
          exact hnd2
        have hKdec : (plug ctx (BT.nd BT.nil n.id v C BT.nil)).keys =
            (ctxLeftOrder ctx).map Prod.snd ++ v ::
              (ctxRightOrder ctx).map Prod.snd := by
          rw [BT.keys, plug_inorder]
          simp [BT.inorder]
        have hKdec2 : (plug ctx (BT.nil : BT)).keys =
            (ctxLeftOrder ctx).map Prod.snd ++ (ctxRightOrder ctx).map Prod.snd := by
          rw [BT.keys, plug_inorder]
          simp [BT.inorder]
        have hroot2 : (replace t repo n.id none).1.root =
            (plug ctx (BT.nil : BT)).rootId := by
          rw [htr1']
        obtain ⟨bt4, hopt1, hopt2, hopt3⟩ := delete_fixup_opt_abs
          (replace t repo n.id none).1 (replace t repo n.id none).2 none n.color
          (plug ctx (BT.nil : BT)) hroot2 htr2' hnd2' (fun j hj => by cases hj)
        have hdel : delete t repo v =
            ({ (if n.color = Color.Black then
                  delete_fixup (replace t repo n.id none).1
                    (replace t repo n.id none).2 none
                else ((replace t repo n.id none).1, (replace t repo n.id none).2)).1
                with length :=
                  (if n.color = Color.Black then
                    delete_fixup (replace t repo n.id none).1
                      (replace t repo n.id none).2 none
                  else ((replace t repo n.id none).1,
                    (replace t repo n.id none).2)).1.length - 1 },
             ((if n.color = Color.Black then
                delete_fixup (replace t repo n.id none).1
                  (replace t repo n.id none).2 none
              else ((replace t repo n.id none).1,
                (replace t repo n.id none).2)).2.removeRec n.id),
             (((if n.color = Color.Black then
                delete_fixup (replace t repo n.id none).1
                  (replace t repo n.id none).2 none
              else ((replace t repo n.id none).1,
                (replace t repo n.id none).2)).2.get n.id).map Node.id)) := by
          rw [delete, hfind]
          try dsimp only
          rw [hone]
          try dsimp only
          rw [hgr]
          rfl
        rw [hdel]
        have hbk : bt4.keys = (plug ctx (BT.nil : BT)).keys := by
          rw [BT.keys, BT.keys, hopt3]
        have hbi : bt4.ids = (plug ctx (BT.nil : BT)).ids :=
          BT.ids_eq_of_inorder_eq hopt3
        obtain ⟨hkS, hkM⟩ := delete_final_middle _ _ v (by rw [← hKdec]; exact hsorted)
        refine ⟨bt4, ?_, ?_, ?_, ?_, ?_, ?_, ?_⟩
        · rw [hopt1]
        · rw [hopt1, htr1']
        · refine reps_frame bt4 _ _ none ?_ hopt2
          intro j hj
          have hj2 : j ∈ (ctxLeftOrder ctx).map Prod.fst ++
              (ctxRightOrder ctx).map Prod.fst := by
            rw [← hIdec2, ← hbi]
            exact hj
          exact Repo.get_removeRec_ne _ n.id j (fun hh => hwnot (hh ▸ hj2))
        · rw [hbk, hKdec2]
          exact hkS
        · rw [hbk, hKdec2, hKdec]
          exact hkM
        · rw [hbi, hIdec2]
          exact hnd2
        · intro i hi
          rw [hbi, hIdec2] at hi
          rw [hIdec]
          exact hsub2 i hi
      | nd rl rid rk rc rr =>
        -- only a right child: splice it into the hole
        have hridrec : repo.get rid = some (BT.record rid rk rc (some n.id) rl rr) :=
          hRr.1
        have hgl : repo.getLeft n.id = none := by
          rw [Repo.getLeft, hdrec]
          rfl
        have hgr : repo.getRight n.id =
            some (BT.record rid rk rc (some n.id) rl rr) := by
          rw [Repo.getRight, hdrec]
          exact hridrec
        have hone : get_if_one_child repo n.id = some rid := by
          rw [get_if_one_child, hgl, hgr]
          rfl
        obtain ⟨htr1, htr2⟩ := replace_left_nil_abs t repo ctx n.id v C
          (BT.nd rl rid rk rc rr) hr hnd hroot
        have htr1' : (replace t repo n.id (some rid)).1 =
            { t with root := (plug ctx (BT.nd rl rid rk rc rr)).rootId } := htr1
        have htr2' : reps (replace t repo n.id (some rid)).2 none
            (plug ctx (BT.nd rl rid rk rc rr)) := htr2
        have hIdec : (plug ctx (BT.nd BT.nil n.id v C (BT.nd rl rid rk rc rr))).ids =
            (ctxLeftOrder ctx).map Prod.fst ++ n.id ::
              ((BT.nd rl rid rk rc rr).ids ++ (ctxRightOrder ctx).map Prod.fst) := by
          rw [BT.ids, plug_inorder]
          simp [BT.inorder, BT.ids]
        have hIdec2 : (plug ctx (BT.nd rl rid rk rc rr)).ids =
            (ctxLeftOrder ctx).map Prod.fst ++
              ((BT.nd rl rid rk rc rr).ids ++ (ctxRightOrder ctx).map Prod.fst) := by
          rw [BT.ids, plug_inorder]
          simp [BT.ids]
        obtain ⟨hnd2, hsub2, hwnot⟩ := ids_after_middle _ _ n.id
          (by rw [← hIdec]; exact hnd)
        have hnd2' : (plug ctx (BT.nd rl rid rk rc rr)).ids.Nodup := by
          rw [hIdec2]
          exact hnd2
        have hKdec : (plug ctx (BT.nd BT.nil n.id v C (BT.nd rl rid rk rc rr))).keys =
            (ctxLeftOrder ctx).map Prod.snd ++ v ::
              ((BT.nd rl rid rk rc rr).keys ++ (ctxRightOrder ctx).map Prod.snd) := by
          rw [BT.keys, plug_inorder]
          simp [BT.inorder, BT.keys]
        have hKdec2 : (plug ctx (BT.nd rl rid rk rc rr)).keys =
            (ctxLeftOrder ctx).map Prod.snd ++
              ((BT.nd rl rid rk rc rr).keys ++ (ctxRightOrder ctx).map Prod.snd) := by
          rw [BT.keys, plug_inorder]
          simp [BT.keys]
        have hroot2 : (replace t repo n.id (some rid)).1.root =
            (plug ctx (BT.nd rl rid rk rc rr)).rootId := by
          rw [htr1']
        obtain ⟨bt4, hopt1, hopt2, hopt3⟩ := delete_fixup_opt_abs
          (replace t repo n.id (some rid)).1 (replace t repo n.id (some rid)).2
          (some rid) n.color (plug ctx (BT.nd rl rid rk rc rr)) hroot2 htr2' hnd2'
          (fun j hj => by
            injection hj with hj2
            rw [← hj2]
            exact mem_ids_plug_of_hole (BT.mem_ids_nd.2 (Or.inr (Or.inl rfl))))
        have hdel : delete t repo v =
            ({ (if n.color = Color.Black then
                  delete_fixup (replace t repo n.id (some rid)).1
                    (replace t repo n.id (some rid)).2 (some rid)
                else ((replace t repo n.id (some rid)).1,
                  (replace t repo n.id (some rid)).2)).1
                with length :=
                  (if n.color = Color.Black then
                    delete_fixup (replace t repo n.id (some rid)).1
                      (replace t repo n.id (some rid)).2 (some rid)
                  else ((replace t repo n.id (some rid)).1,
                    (replace t repo n.id (some rid)).2)).1.length - 1 },
             ((if n.color = Color.Black then
                delete_fixup (replace t repo n.id (some rid)).1
                  (replace t repo n.id (some rid)).2 (some rid)
              else ((replace t repo n.id (some rid)).1,
                (replace t repo n.id (some rid)).2)).2.removeRec n.id),
             (((if n.color = Color.Black then
                delete_fixup (replace t repo n.id (some rid)).1
                  (replace t repo n.id (some rid)).2 (some rid)
              else ((replace t repo n.id (some rid)).1,
                (replace t repo n.id (some rid)).2)).2.get n.id).map Node.id)) := by
          rw [delete, hfind]
          try dsimp only
          rw [hone]
        rw [hdel]
        have hbk : bt4.keys = (plug ctx (BT.nd rl rid rk rc rr)).keys := by
          rw [BT.keys, BT.keys, hopt3]
        have hbi : bt4.ids = (plug ctx (BT.nd rl rid rk rc rr)).ids :=
          BT.ids_eq_of_inorder_eq hopt3
        obtain ⟨hkS, hkM⟩ := delete_final_middle _ _ v (by rw [← hKdec]; exact hsorted)
        refine ⟨bt4, ?_, ?_, ?_, ?_, ?_, ?_, ?_⟩
        · rw [hopt1]
        · rw [hopt1, htr1']
        · refine reps_frame bt4 _ _ none ?_ hopt2
          intro j hj
          have hj2 : j ∈ (ctxLeftOrder ctx).map Prod.fst ++
              ((BT.nd rl rid rk rc rr).ids ++ (ctxRightOrder ctx).map Prod.fst) := by
            rw [← hIdec2, ← hbi]
            exact hj
          exact Repo.get_removeRec_ne _ n.id j (fun hh => hwnot (hh ▸ hj2))
        · rw [hbk, hKdec2]
          exact hkS
        · rw [hbk, hKdec2, hKdec]
          exact hkM
        · rw [hbi, hIdec2]
          exact hnd2
        · intro i hi
          rw [hbi, hIdec2] at hi
          rw [hIdec]
          exact hsub2 i hi
    | nd ll lid lk lc lr =>
      cases R with
      | nil =>
        -- only a left child: splice it into the hole
        have hlidrec : repo.get lid = some (BT.record lid lk lc (some n.id) ll lr) :=
          hLr.1
        have hgl : repo.getLeft n.id =
            some (BT.record lid lk lc (some n.id) ll lr) := by
          rw [Repo.getLeft, hdrec]
          exact hlidrec
        have hgr : repo.getRight n.id = none := by
          rw [Repo.getRight, hdrec]
          rfl
        have hone : get_if_one_child repo n.id = some lid := by
          rw [get_if_one_child, hgl, hgr]
          rfl
        obtain ⟨htr1, htr2⟩ := replace_right_nil_abs t repo ctx n.id v C
          (BT.nd ll lid lk lc lr) hr hnd hroot
        have htr1' : (replace t repo n.id (some lid)).1 =
            { t with root := (plug ctx (BT.nd ll lid lk lc lr)).rootId } := htr1
        have htr2' : reps (replace t repo n.id (some lid)).2 none
            (plug ctx (BT.nd ll lid lk lc lr)) := htr2
        have hIdec : (plug ctx (BT.nd (BT.nd ll lid lk lc lr) n.id v C BT.nil)).ids =
            ((ctxLeftOrder ctx).map Prod.fst ++ (BT.nd ll lid lk lc lr).ids) ++ n.id ::
              (ctxRightOrder ctx).map Prod.fst := by
          rw [BT.ids, plug_inorder]
          simp [BT.inorder, BT.ids]
        have hIdec2 : (plug ctx (BT.nd ll lid lk lc lr)).ids =
            ((ctxLeftOrder ctx).map Prod.fst ++ (BT.nd ll lid lk lc lr).ids) ++
              (ctxRightOrder ctx).map Prod.fst := by
          rw [BT.ids, plug_inorder]
          simp [BT.ids]
        obtain ⟨hnd2, hsub2, hwnot⟩ := ids_after_middle _ _ n.id
          (by rw [← hIdec]; exact hnd)
        have hnd2' : (plug ctx (BT.nd ll lid lk lc lr)).ids.Nodup := by
          rw [hIdec2]
          exact hnd2
        have hKdec : (plug ctx (BT.nd (BT.nd ll lid lk lc lr) n.id v C BT.nil)).keys =
            ((ctxLeftOrder ctx).map Prod.snd ++ (BT.nd ll lid lk lc lr).keys) ++ v ::
              (ctxRightOrder ctx).map Prod.snd := by
          rw [BT.keys, plug_inorder]
          simp [BT.inorder, BT.keys]
        have hKdec2 : (plug ctx (BT.nd ll lid lk lc lr)).keys =
            ((ctxLeftOrder ctx).map Prod.snd ++ (BT.nd ll lid lk lc lr).keys) ++
              (ctxRightOrder ctx).map Prod.snd := by
          rw [BT.keys, plug_inorder]
          simp [BT.keys]
        have hroot2 : (replace t repo n.id (some lid)).1.root =
            (plug ctx (BT.nd ll lid lk lc lr)).rootId := by
          rw [htr1']
        obtain ⟨bt4, hopt1, hopt2, hopt3⟩ := delete_fixup_opt_abs
          (replace t repo n.id (some lid)).1 (replace t repo n.id (some lid)).2
          (some lid) n.color (plug ctx (BT.nd ll lid lk lc lr)) hroot2 htr2' hnd2'
          (fun j hj => by
            injection hj with hj2
            rw [← hj2]
            exact mem_ids_plug_of_hole (BT.mem_ids_nd.2 (Or.inr (Or.inl rfl))))
        have hdel : delete t repo v =
            ({ (if n.color = Color.Black then
                  delete_fixup (replace t repo n.id (some lid)).1
                    (replace t repo n.id (some lid)).2 (some lid)
                else ((replace t repo n.id (some lid)).1,
                  (replace t repo n.id (some lid)).2)).1
                with length :=
                  (if n.color = Color.Black then
                    delete_fixup (replace t repo n.id (some lid)).1
                      (replace t repo n.id (some lid)).2 (some lid)
                  else ((replace t repo n.id (some lid)).1,
                    (replace t repo n.id (some lid)).2)).1.length - 1 },
             ((if n.color = Color.Black then
                delete_fixup (replace t repo n.id (some lid)).1
                  (replace t repo n.id (some lid)).2 (some lid)
              else ((replace t repo n.id (some lid)).1,
                (replace t repo n.id (some lid)).2)).2.removeRec n.id),
             (((if n.color = Color.Black then
                delete_fixup (replace t repo n.id (some lid)).1
                  (replace t repo n.id (some lid)).2 (some lid)
              else ((replace t repo n.id (some lid)).1,
                (replace t repo n.id (some lid)).2)).2.get n.id).map Node.id)) := by
          rw [delete, hfind]
          try dsimp only
          rw [hone]
        rw [hdel]
        have hbk : bt4.keys = (plug ctx (BT.nd ll lid lk lc lr)).keys := by
          rw [BT.keys, BT.keys, hopt3]
        have hbi : bt4.ids = (plug ctx (BT.nd ll lid lk lc lr)).ids :=
          BT.ids_eq_of_inorder_eq hopt3
        obtain ⟨hkS, hkM⟩ := delete_final_middle _ _ v (by rw [← hKdec]; exact hsorted)
        refine ⟨bt4, ?_, ?_, ?_, ?_, ?_, ?_, ?_⟩
        · rw [hopt1]
        · rw [hopt1, htr1']
        · refine reps_frame bt4 _ _ none ?_ hopt2
          intro j hj
          have hj2 : j ∈ ((ctxLeftOrder ctx).map Prod.fst ++
              (BT.nd ll lid lk lc lr).ids) ++ (ctxRightOrder ctx).map Prod.fst := by
            rw [← hIdec2, ← hbi]
            exact hj
          exact Repo.get_removeRec_ne _ n.id j (fun hh => hwnot (hh ▸ hj2))
        · rw [hbk, hKdec2]
          exact hkS
        · rw [hbk, hKdec2, hKdec]
          exact hkM
        · rw [hbi, hIdec2]
          exact hnd2
        · intro i hi
          rw [hbi, hIdec2] at hi
          rw [hIdec]
          exact hsub2 i hi
      | nd rl rid rk rc rr =>
        -- two children: rekey with the successor, splice the successor out
        have hgl : repo.getLeft n.id =
            some (BT.record lid lk lc (some n.id) ll lr) := by
          rw [Repo.getLeft, hdrec]
          exact hLr.1
        have hgr : repo.getRight n.id =
            some (BT.record rid rk rc (some n.id) rl rr) := by
          rw [Repo.getRight, hdrec]
          exact hRr.1
        have hone : get_if_one_child repo n.id = none := by
          rw [get_if_one_child, hgl, hgr]
          rfl
        have hrc : (repo.getRight n.id).map Node.id = some rid := by
          rw [hgr]
          rfl
        obtain ⟨ctxm, m, km, cm, rm, hReq, hctxm0, hminv⟩ :=
          (tree_min_go_spec (BT.nd rl rid rk rc rr) repo (some n.id) (repo.size + 1)
            none hRr
            (Nat.lt_succ_of_le (reps_size_le _ repo (some n.id) hRr hndR))).2
            (by simp)
        have hminv2 : tree_minimum repo (some rid) = some m := by
          rw [tree_minimum]
          try dsimp only
          exact hminv
        have hRdec := hRr
        rw [hReq, reps_plug] at hRdec
        obtain ⟨hctxmr, hsubm⟩ := hRdec
        obtain ⟨hmrec, -, hrmr⟩ := hsubm
        have hmR : m ∈ (BT.nd rl rid rk rc rr).ids := by
          rw [hReq]
          exact mem_ids_plug_of_hole (BT.mem_ids_nd.2 (Or.inr (Or.inl rfl)))
        have hmn : m ≠ n.id := fun hh => hdR (hh ▸ hmR)
        have hrek := reps_rekey_at repo none ctx (BT.nd ll lid lk lc lr) n.id v km C
          (BT.nd rl rid rk rc rr) hr hnd
        have hmrec1 : (repo.update n.id (fun nn => nn.setKey km)).get m =
            some (BT.record m km cm (ctxUp (some n.id) ctxm) BT.nil rm) := by
          rw [Repo.get_update_ne _ n.id m (fun nn => nn.setKey km) (fun nn => rfl) hmn]
          exact hmrec
        have hrmchild : ((repo.update n.id (fun nn => nn.setKey km)).getRight m).map
            Node.id = rm.rootId := by
          rw [Repo.getRight, hmrec1]
          cases hrmc : rm with
          | nil => rfl
          | nd a b c d e =>
            try rw [hrmc] at hrmr
            obtain ⟨hbrec, -, -⟩ := hrmr
            have hbmem : b ∈ (BT.nd rl rid rk rc rr).ids := by
              rw [hReq]
              try rw [hrmc]
              exact mem_ids_plug_of_hole (BT.mem_ids_nd.2 (Or.inr (Or.inr
                (BT.mem_ids_nd.2 (Or.inr (Or.inl rfl))))))
            have hbn : b ≠ n.id := fun hh => hdR (hh ▸ hbmem)
            rw [Option.some_bind]
            try dsimp only [BT.record, BT.rootId]
            rw [Option.some_bind]
            rw [Repo.get_update_ne _ n.id b (fun nn => nn.setKey km) (fun nn => rfl) hbn]
            rw [hbrec]
            rfl
        have hbig : plug ctx (BT.nd (BT.nd ll lid lk lc lr) n.id km C
            (plug ctxm (BT.nd BT.nil m km cm rm))) =
            plug (ctxm ++ (⟨.Right, n.id, km, C, BT.nd ll lid lk lc lr⟩ :: ctx))
              (BT.nd BT.nil m km cm rm) := by
          rw [plug_append]
          rfl
        rw [hReq] at hrek
        rw [hbig] at hrek
        have hinoT : (plug (ctxm ++ (⟨.Right, n.id, km, C, BT.nd ll lid lk lc lr⟩ ::
            ctx)) (BT.nd BT.nil m km cm rm)).ids =
            (plug ctx (BT.nd (BT.nd ll lid lk lc lr) n.id v C
              (BT.nd rl rid rk rc rr))).ids := by
          rw [← hbig]
          rw [hReq]
          rw [BT.ids, BT.ids, plug_inorder, plug_inorder]
          simp [BT.inorder]
        have hndbig : (plug (ctxm ++ (⟨.Right, n.id, km, C, BT.nd ll lid lk lc lr⟩ ::
            ctx)) (BT.nd BT.nil m km cm rm)).ids.Nodup := by
          rw [hinoT]
          exact hnd
        have hrootbig : t.root = (plug (ctxm ++ (⟨.Right, n.id, km, C,
            BT.nd ll lid lk lc lr⟩ :: ctx)) (BT.nd BT.nil m km cm rm)).rootId := by
          rw [hroot, ← hbig, ← hReq]
          exact plug_rootId_congr ctx _ _ _ _ n.id _ _ _ _
        obtain ⟨htr1, htr2⟩ := replace_left_nil_abs t
          (repo.update n.id (fun nn => nn.setKey km))
          (ctxm ++ (⟨.Right, n.id, km, C, BT.nd ll lid lk lc lr⟩ :: ctx))
          m km cm rm hrek hndbig hrootbig
        have hIdec : (plug ctx (BT.nd (BT.nd ll lid lk lc lr) n.id v C
            (BT.nd rl rid rk rc rr))).ids =
            ((ctxLeftOrder ctx).map Prod.fst ++ (BT.nd ll lid lk lc lr).ids ++
              [n.id]) ++ m :: (rm.ids ++ (ctxRightOrder ctxm).map Prod.fst ++
              (ctxRightOrder ctx).map Prod.fst) := by
          rw [hReq]
          rw [BT.ids, plug_inorder]
          simp [BT.inorder, BT.ids, plug_inorder, hctxm0]
        have hIdec2 : (plug (ctxm ++ (⟨.Right, n.id, km, C,
            BT.nd ll lid lk lc lr⟩ :: ctx)) rm).ids =
            ((ctxLeftOrder ctx).map Prod.fst ++ (BT.nd ll lid lk lc lr).ids ++
              [n.id]) ++ (rm.ids ++ (ctxRightOrder ctxm).map Prod.fst ++
              (ctxRightOrder ctx).map Prod.fst) := by
          rw [BT.ids, plug_inorder, ctxLeftOrder_append, ctxRightOrder_append, hctxm0]
          simp [ctxLeftOrder, ctxRightOrder, BT.ids]
        obtain ⟨hnd2, hsub2, hwnot⟩ := ids_after_middle _ _ m
          (by rw [← hIdec]; exact hnd)
        have hnd2' : (plug (ctxm ++ (⟨.Right, n.id, km, C,
            BT.nd ll lid lk lc lr⟩ :: ctx)) rm).ids.Nodup := by
          rw [hIdec2]
          exact hnd2
        have hKdec : (plug ctx (BT.nd (BT.nd ll lid lk lc lr) n.id v C
            (BT.nd rl rid rk rc rr))).keys =
            ((ctxLeftOrder ctx).map Prod.snd ++ (BT.nd ll lid lk lc lr).keys) ++
              v :: (km :: (rm.keys ++ (ctxRightOrder ctxm).map Prod.snd ++
              (ctxRightOrder ctx).map Prod.snd)) := by
          rw [hReq]
          rw [BT.keys, plug_inorder]
          simp [BT.inorder, BT.keys, plug_inorder, hctxm0]
        have hKdec2 : (plug (ctxm ++ (⟨.Right, n.id, km, C,
            BT.nd ll lid lk lc lr⟩ :: ctx)) rm).keys =
            ((ctxLeftOrder ctx).map Prod.snd ++ (BT.nd ll lid lk lc lr).keys) ++
              (km :: (rm.keys ++ (ctxRightOrder ctxm).map Prod.snd ++
              (ctxRightOrder ctx).map Prod.snd)) := by
          rw [BT.keys, plug_inorder, ctxLeftOrder_append, ctxRightOrder_append, hctxm0]
          simp [ctxLeftOrder, ctxRightOrder, BT.keys]
        have hroot2 : (replace t (repo.update n.id (fun nn => nn.setKey km)) m
            rm.rootId).1.root =
            (plug (ctxm ++ (⟨.Right, n.id, km, C,
              BT.nd ll lid lk lc lr⟩ :: ctx)) rm).rootId := by
          rw [htr1]
        obtain ⟨bt4, hopt1, hopt2, hopt3⟩ := delete_fixup_opt_abs
          (replace t (repo.update n.id (fun nn => nn.setKey km)) m rm.rootId).1
          (replace t (repo.update n.id (fun nn => nn.setKey km)) m rm.rootId).2
          rm.rootId cm
          (plug (ctxm ++ (⟨.Right, n.id, km, C, BT.nd ll lid lk lc lr⟩ :: ctx)) rm)
          hroot2 htr2 hnd2'
          (fun j hj => mem_ids_plug_of_hole (BT.rootId_mem hj))
        have hdel : delete t repo v =
            ({ (if cm = Color.Black then
                  delete_fixup
                    (replace t (repo.update n.id (fun nn => nn.setKey km)) m
                      rm.rootId).1
                    (replace t (repo.update n.id (fun nn => nn.setKey km)) m
                      rm.rootId).2 rm.rootId
                else ((replace t (repo.update n.id (fun nn => nn.setKey km)) m
                    rm.rootId).1,
                  (replace t (repo.update n.id (fun nn => nn.setKey km)) m
                    rm.rootId).2)).1
                with length :=
                  (if cm = Color.Black then
                    delete_fixup
                      (replace t (repo.update n.id (fun nn => nn.setKey km)) m
                        rm.rootId).1
                      (replace t (repo.update n.id (fun nn => nn.setKey km)) m
                        rm.rootId).2 rm.rootId
                  else ((replace t (repo.update n.id (fun nn => nn.setKey km)) m
                      rm.rootId).1,
                    (replace t (repo.update n.id (fun nn => nn.setKey km)) m
                      rm.rootId).2)).1.length - 1 },
             ((if cm = Color.Black then
                delete_fixup
                  (replace t (repo.update n.id (fun nn => nn.setKey km)) m
                    rm.rootId).1
                  (replace t (repo.update n.id (fun nn => nn.setKey km)) m
                    rm.rootId).2 rm.rootId
              else ((replace t (repo.update n.id (fun nn => nn.setKey km)) m
                  rm.rootId).1,
                (replace t (repo.update n.id (fun nn => nn.setKey km)) m
                  rm.rootId).2)).2.removeRec m),
             (((if cm = Color.Black then
                delete_fixup
                  (replace t (repo.update n.id (fun nn => nn.setKey km)) m
                    rm.rootId).1
                  (replace t (repo.update n.id (fun nn => nn.setKey km)) m
                    rm.rootId).2 rm.rootId
              else ((replace t (repo.update n.id (fun nn => nn.setKey km)) m
                  rm.rootId).1,
                (replace t (repo.update n.id (fun nn => nn.setKey km)) m
                  rm.rootId).2)).2.get m).map Node.id)) := by
          rw [delete, hfind]
          try dsimp only
          rw [hone]
          try dsimp only
          rw [hrc]
          try dsimp only
          rw [hminv2]
          try dsimp only
          rw [hmrec]
          try dsimp only [BT.record, Option.getD]
          rw [hrmchild]
        rw [hdel]
        have hbk : bt4.keys = (plug (ctxm ++ (⟨.Right, n.id, km, C,
            BT.nd ll lid lk lc lr⟩ :: ctx)) rm).keys := by
          rw [BT.keys, BT.keys, hopt3]
        have hbi : bt4.ids = (plug (ctxm ++ (⟨.Right, n.id, km, C,
            BT.nd ll lid lk lc lr⟩ :: ctx)) rm).ids :=
          BT.ids_eq_of_inorder_eq hopt3
        obtain ⟨hkS, hkM⟩ := delete_final_middle _ _ v (by rw [← hKdec]; exact hsorted)
        refine ⟨bt4, ?_, ?_, ?_, ?_, ?_, ?_, ?_⟩
        · rw [hopt1]
        · rw [hopt1, htr1]
        · refine reps_frame bt4 _ _ none ?_ hopt2
          intro j hj
          have hj2 : j ∈ ((ctxLeftOrder ctx).map Prod.fst ++
              (BT.nd ll lid lk lc lr).ids ++ [n.id]) ++
              (rm.ids ++ (ctxRightOrder ctxm).map Prod.fst ++
              (ctxRightOrder ctx).map Prod.fst) := by
            rw [← hIdec2, ← hbi]
            exact hj
          exact Repo.get_removeRec_ne _ m j (fun hh => hwnot (hh ▸ hj2))
        · rw [hbk, hKdec2]
          exact hkS
        · rw [hbk, hKdec2, hKdec]
          exact hkM
        · rw [hbi, hIdec2]
          exact hnd2
        · intro i hi
          rw [hbi, hIdec2] at hi
          rw [hIdec]
          exact hsub2 i hi

theorem specKeys_append (ops : List Op) (op : Op) :
    specKeys (ops ++ [op]) = specStep (specKeys ops) op := by
  rw [specKeys, specKeys, List.foldl_append]
  rfl

theorem insert_sorted_middle (l1 l2 : List (Nat × Int)) (w : Nat) (v : Int)
    (hs : ((l1 ++ l2).map Prod.snd).Pairwise (· ≤ ·))
    (h1 : ∀ p ∈ l1, p.2 ≤ v) (h2 : ∀ p ∈ l2, v < p.2) :
    ((l1 ++ (w, v) :: l2).map Prod.snd).Pairwise (· ≤ ·) := by
  rw [List.map_append] at hs ⊢
  rw [List.pairwise_append] at hs
  obtain ⟨hp1, hp2, hcross⟩ := hs
  rw [List.pairwise_append]
  refine ⟨hp1, ?_, ?_⟩
  · rw [show ((w, v) :: l2).map Prod.snd = v :: l2.map Prod.snd from rfl]
    rw [List.pairwise_cons]
    refine ⟨?_, ?_⟩
    · intro b hb
      obtain ⟨p, hp, hpb⟩ := List.mem_map.1 hb
      rw [← hpb]
      exact le_of_lt (h2 p hp)
    · exact hp2
  · intro a ha b hb
    rw [show ((w, v) :: l2).map Prod.snd = v :: l2.map Prod.snd from rfl] at hb
    obtain ⟨p, hp, hpa⟩ := List.mem_map.1 ha
    rcases List.mem_cons.1 hb with hb1 | hb2
    · rw [← hpa, hb1]
      exact h1 p hp
    · exact hcross a ha b hb2

theorem insert_pairs_middle (l1 l2 : List (Nat × Int)) (w : Nat) (v : Int)
    (hs : (l1 ++ l2).Pairwise (fun p q => p.2 = q.2 → p.1 < q.1))
    (h1 : ∀ p ∈ l1, p.2 ≤ v) (h2 : ∀ p ∈ l2, v < p.2)
    (hw : ∀ p ∈ l1 ++ l2, p.1 < w) :
    (l1 ++ (w, v) :: l2).Pairwise (fun p q => p.2 = q.2 → p.1 < q.1) := by
  rw [List.pairwise_append] at hs ⊢
  obtain ⟨hp1, hp2, hcross⟩ := hs
  refine ⟨hp1, ?_, ?_⟩
  · rw [List.pairwise_cons]
    refine ⟨?_, hp2⟩
    intro q hq heq
    exact absurd heq (ne_of_lt (h2 q hq))
  · intro p hp q hq
    rcases List.mem_cons.1 hq with hq1 | hq2
    · intro _
      rw [hq1]
      exact hw p (List.mem_append.2 (Or.inl hp))
    · exact hcross p hp q hq2

/-- The master invariant: after any run from the empty tree the store
represents a binary tree with distinct bounded identifiers whose inorder key
sequence is sorted and carries exactly the reference multiset of live keys. -/
theorem runOps_invariant (ops : List Op) :
    ∃ bt : BT, (runOps ops).tree.root = bt.rootId ∧
      reps (runOps ops).repo none bt ∧ bt.ids.Nodup ∧
      (∀ i ∈ bt.ids, i ≤ (runOps ops).tree.idCounter) ∧
      bt.keys.Pairwise (· ≤ ·) ∧
      ((bt.keys : List Int) : Multiset Int) = specKeys ops := by
  induction ops using List.reverseRecOn with
  | nil =>
    refine ⟨BT.nil, rfl, trivial, by simp [BT.ids, BT.inorder], ?_, ?_, rfl⟩
    · intro i hi
      simp [BT.ids, BT.inorder] at hi
    · simp [BT.keys, BT.inorder]
  | append_singleton ops op ih =>
    obtain ⟨bt, hroot, hr, hnd, hcnt, hsorted, hmult⟩ := ih
    have hrun : runOps (ops ++ [op]) = opStep (runOps ops) op := by
      show List.foldl opStep initState (ops ++ [op]) = _
      rw [List.foldl_append]
      rfl
    obtain ⟨hSnodup, hSlen, hSbound⟩ := sizeInv_runOps ops
    cases op with
    | ins k =>
      have hfreshL : (runOps ops).tree.idCounter + 1 ∉ (runOps ops).repo.idsList := by
        intro hh
        have := hSbound _ hh
        omega
      have hfresh : (runOps ops).repo.get ((runOps ops).tree.idCounter + 1) = none :=
        Repo.get_none_of_not_mem _ _ hfreshL
      obtain ⟨bt2, l1, l2, hio1, hio2, hb1, hb2, hroot2, hreps2⟩ :=
        insert_abs (runOps ops).tree (runOps ops).repo k bt hroot hr hnd hcnt
          hfresh hsorted
      obtain ⟨-, hcounter, -⟩ := insert_step (runOps ops).tree (runOps ops).repo k hfreshL
      have hids2 : bt2.ids =
          l1.map Prod.fst ++ ((runOps ops).tree.idCounter + 1) :: l2.map Prod.fst := by
        rw [BT.ids, hio2]
        simp
      have hids1 : bt.ids = l1.map Prod.fst ++ l2.map Prod.fst := by
        rw [BT.ids, hio1]
        simp
      have hkeys2 : bt2.keys = l1.map Prod.snd ++ k :: l2.map Prod.snd := by
        rw [BT.keys, hio2]
        simp
      have hkeys1 : bt.keys = l1.map Prod.snd ++ l2.map Prod.snd := by
        rw [BT.keys, hio1]
        simp
      refine ⟨bt2, ?_, ?_, ?_, ?_, ?_, ?_⟩
      · rw [hrun]
        exact hroot2
      · rw [hrun]
        exact hreps2
      · rw [hids2]
        rw [List.nodup_middle, List.nodup_cons]
        refine ⟨?_, by rw [← hids1]; exact hnd⟩
        intro hh
        have h3 : (runOps ops).tree.idCounter + 1 ∈ bt.ids := by
          rw [hids1]
          exact hh
        have := hcnt _ h3
        omega
      · intro i hi
        rw [hrun]
        show i ≤ (insert (runOps ops).tree (runOps ops).repo k).1.idCounter
        rw [hcounter]
        rw [hids2] at hi
        rcases List.mem_append.1 hi with hi1 | hi2
        · have : i ∈ bt.ids := by
            rw [hids1]
            exact List.mem_append.2 (Or.inl hi1)
          have := hcnt _ this
          omega
        · rcases List.mem_cons.1 hi2 with hi3 | hi4
          · omega
          · have : i ∈ bt.ids := by
              rw [hids1]
              exact List.mem_append.2 (Or.inr hi4)
            have := hcnt _ this
            omega
      · rw [BT.keys, hio2]
        exact insert_sorted_middle l1 l2 _ k (by rw [← hio1, ← BT.keys]; exact hsorted)
          hb1 hb2
      · rw [specKeys_append]
        show ((bt2.keys : List Int) : Multiset Int) = k ::ₘ specKeys ops
        rw [← hmult, hkeys2, hkeys1]
        exact Multiset.coe_eq_coe.2 List.perm_middle
    | del k =>
      obtain ⟨bt2, hroot2, hcounter2, hreps2, hsort2, hmult2, hnd2, hsub2⟩ :=
        delete_abs (runOps ops).tree (runOps ops).repo k bt hroot hr hnd hsorted
      refine ⟨bt2, ?_, ?_, hnd2, ?_, hsort2, ?_⟩
      · rw [hrun]
        exact hroot2
      · rw [hrun]
        exact hreps2
      · intro i hi
        rw [hrun]
        show i ≤ (delete (runOps ops).tree (runOps ops).repo k).1.idCounter
        rw [hcounter2]
        exact hcnt i (hsub2 i hi)
      · rw [specKeys_append]
        show ((bt2.keys : List Int) : Multiset Int) = (specKeys ops).erase k
        rw [← hmult]
        exact hmult2

/-- On insert-only runs the inorder pairs additionally carry identifiers
increasing along equal keys. -/
theorem runOps_ins_pairs (ks : List Int) :
    ∃ bt : BT, (runOps (ks.map Op.ins)).tree.root = bt.rootId ∧
      reps (runOps (ks.map Op.ins)).repo none bt ∧ bt.ids.Nodup ∧
      (∀ i ∈ bt.ids, i ≤ (runOps (ks.map Op.ins)).tree.idCounter) ∧
      bt.keys.Pairwise (· ≤ ·) ∧
      bt.inorder.Pairwise (fun p q => p.2 = q.2 → p.1 < q.1) := by
  induction ks using List.reverseRecOn with
  | nil =>
    refine ⟨BT.nil, rfl, trivial, by simp [BT.ids, BT.inorder], ?_, ?_, ?_⟩
    · intro i hi
      simp [BT.ids, BT.inorder] at hi
    · simp [BT.keys, BT.inorder]
    · simp [BT.inorder]
  | append_singleton ks k ih =>
    obtain ⟨bt, hroot, hr, hnd, hcnt, hsorted, hpairs⟩ := ih
    rw [show (ks ++ [k]).map Op.ins = ks.map Op.ins ++ [Op.ins k] from by simp]
    have hrun : runOps (ks.map Op.ins ++ [Op.ins k]) =
        opStep (runOps (ks.map Op.ins)) (Op.ins k) := by
      show List.foldl opStep initState (ks.map Op.ins ++ [Op.ins k]) = _
      rw [List.foldl_append]
      rfl
    obtain ⟨hSnodup, hSlen, hSbound⟩ := sizeInv_runOps (ks.map Op.ins)
    have hfreshL : (runOps (ks.map Op.ins)).tree.idCounter + 1 ∉
        (runOps (ks.map Op.ins)).repo.idsList := by
      intro hh
      have := hSbound _ hh
      omega
    have hfresh : (runOps (ks.map Op.ins)).repo.get
        ((runOps (ks.map Op.ins)).tree.idCounter + 1) = none :=
      Repo.get_none_of_not_mem _ _ hfreshL
    obtain ⟨bt2, l1, l2, hio1, hio2, hb1, hb2, hroot2, hreps2⟩ :=
      insert_abs (runOps (ks.map Op.ins)).tree (runOps (ks.map Op.ins)).repo k bt
        hroot hr hnd hcnt hfresh hsorted
    obtain ⟨-, hcounter, -⟩ := insert_step (runOps (ks.map Op.ins)).tree
      (runOps (ks.map Op.ins)).repo k hfreshL
    have hids2 : bt2.ids = l1.map Prod.fst ++
        ((runOps (ks.map Op.ins)).tree.idCounter + 1) :: l2.map Prod.fst := by
      rw [BT.ids, hio2]
      simp
    have hids1 : bt.ids = l1.map Prod.fst ++ l2.map Prod.fst := by
      rw [BT.ids, hio1]
      simp
    refine ⟨bt2, ?_, ?_, ?_, ?_, ?_, ?_⟩
    · rw [hrun]
      exact hroot2
    · rw [hrun]
      exact hreps2
    · rw [hids2]
      rw [List.nodup_middle, List.nodup_cons]
      refine ⟨?_, by rw [← hids1]; exact hnd⟩
      intro hh
      have h3 : (runOps (ks.map Op.ins)).tree.idCounter + 1 ∈ bt.ids := by
        rw [hids1]
        exact hh
      have := hcnt _ h3
      omega
    · intro i hi
      rw [hrun]
      show i ≤ (insert (runOps (ks.map Op.ins)).tree
        (runOps (ks.map Op.ins)).repo k).1.idCounter
      rw [hcounter]
      rw [hids2] at hi
      rcases List.mem_append.1 hi with hi1 | hi2
      · have h4 : i ∈ bt.ids := by
          rw [hids1]
          exact List.mem_append.2 (Or.inl hi1)
        have := hcnt _ h4
        omega
      · rcases List.mem_cons.1 hi2 with hi3 | hi4
        · omega
        · have h4 : i ∈ bt.ids := by
            rw [hids1]
            exact List.mem_append.2 (Or.inr hi4)
          have := hcnt _ h4
          omega
    · rw [BT.keys, hio2]
      exact insert_sorted_middle l1 l2 _ k (by rw [← hio1, ← BT.keys]; exact hsorted)
        hb1 hb2
    · rw [hio2]
      refine insert_pairs_middle l1 l2 _ k (by rw [← hio1]; exact hpairs) hb1 hb2 ?_
      intro p hp
      have h4 : p.1 ∈ bt.ids := by
        rw [BT.ids, hio1]
        exact List.mem_map.2 ⟨p, hp, rfl⟩
      have := hcnt _ h4
      omega

/-- C1: for every sequence of insert and delete operations applied to an
initially empty tree, a subsequent walk_in_order visits the live nodes in
non-decreasing key order. -/
theorem C1_walk_in_order_sorted (ops : List Op) :
    ((walk_in_order (runOps ops).tree (runOps ops).repo).map Node.key).Pairwise
      (· ≤ ·) := by
  obtain ⟨bt, hroot, hr, hnd, hcnt, hsorted, -⟩ := runOps_invariant ops
  have hsize : bt.size < (runOps ops).repo.size + 1 :=
    Nat.lt_succ_of_le (reps_size_le bt _ none hr hnd)
  have hm := go_walk_map bt (runOps ops).repo none ((runOps ops).repo.size + 1) hr hsize
  have hwk : (walk_in_order (runOps ops).tree (runOps ops).repo).map Node.key =
      bt.keys := by
    rw [walk_in_order, hroot]
    rw [BT.keys, ← hm]
    rw [List.map_map]
    rfl
  rw [hwk]
  exact hsorted

/-- C2: after any operation sequence from the empty tree, find yields a node
with the searched key exactly when the key has a positive count in the
reference multiset of live keys (inserted and not removed by a matching
successful delete). -/
theorem C2_find_iff_live (ops : List Op) (k : Int) :
    (find_node (runOps ops).tree (runOps ops).repo k).map Node.key =
      (if 0 < (specKeys ops).count k then some k else none) := by
  obtain ⟨bt, hroot, hr, hnd, hcnt, hsorted, hmult⟩ := runOps_invariant ops
  have hsize : bt.size < (runOps ops).repo.size + 1 :=
    Nat.lt_succ_of_le (reps_size_le bt _ none hr hnd)
  have hcount : (0 < (specKeys ops).count k) ↔ k ∈ bt.keys := by
    rw [← hmult]
    rw [Multiset.count_pos]
    exact Multiset.mem_coe
  rcases find_node_go_spec bt (runOps ops).repo none k ((runOps ops).repo.size + 1)
      hr hsize hsorted with ⟨hfn, hnot⟩ | ⟨n, hfn, hkey, hmem, -, -⟩
  · rw [find_node, hroot, hfn]
    rw [if_neg (fun hh => hnot (hcount.1 hh))]
    rfl
  · rw [find_node, hroot, hfn]
    rw [if_pos (hcount.2 hmem)]
    rw [show (some n).map Node.key = some n.key from rfl, hkey]

/-- C9 amended: on insert-only runs the in-order walk lists equal keys in
insertion order: among nodes with equal keys the identifiers (assigned in
insertion order) strictly increase along the walk. -/
theorem C9_amended_equal_keys_in_insertion_order (ks : List Int) :
    ((walk_in_order (runOps (ks.map Op.ins)).tree (runOps (ks.map Op.ins)).repo).map
      (fun n => (n.id, n.key))).Pairwise (fun p q => p.2 = q.2 → p.1 < q.1) := by
  obtain ⟨bt, hroot, hr, hnd, hcnt, hsorted, hpairs⟩ := runOps_ins_pairs ks
  have hsize : bt.size < (runOps (ks.map Op.ins)).repo.size + 1 :=
    Nat.lt_succ_of_le (reps_size_le bt _ none hr hnd)
  have hm := go_walk_map bt (runOps (ks.map Op.ins)).repo none
    ((runOps (ks.map Op.ins)).repo.size + 1) hr hsize
  have hwk : (walk_in_order (runOps (ks.map Op.ins)).tree
      (runOps (ks.map Op.ins)).repo).map (fun n => (n.id, n.key)) = bt.inorder := by
    rw [walk_in_order, hroot]
    exact hm
  rw [hwk]
  exact hpairs

end RbTree
